import Mathlib

/-!
# spin2cpp: the assembler emitter (`backends/asm/assemble_ir.c`)

A shallow embedding of the PASM emitter.  The C globals (`fixup_number`,
`pending_fixup`, `inDat`, `inCon`, `didOrg`, `lmmMode`, `didPub`), the output
`flexbuf` and the error log are fields of one explicit state record that every
emitter function takes and returns.  The option globals (`gl_p2`,
`gl_compressed`, `gl_output`) are read-only and live in `Options`.

The second part embeds the numeric part of the type engine
(`frontends/types.c`): the AST is an inductive type, the C functions that
overwrite the node they are given return the new node, and the diagnostics
are threaded through a state record.

The third part embeds the bytecode IR (`backends/nucode/nuir.c`), the
Propeller checksum (`frontends/common.c`), the binary header and the DAT file
writer (`backends/dat/outdat.c`), the type inference loop and the object
offsets (`spinc.c`), and the inline assembly embedder
(`backends/asm/inlineasm.c`).

The fourth part adds the version check (`CheckVersion` of
`frontends/common.c`), the pruning of unused methods and of empty modules
(`doPruneMethods`, `RemoveUnusedMethods` of `spinc.c`, over a heap of modules
and functions given as maps), and the instruction assembler of the DAT
writer (`assembleInstruction` of `backends/dat/outdat.c`), together with the
ghost definitions used to state the section state of the emitter and the
replacement of returns in inline assembly.
-/

namespace Spin2cpp

/-! ## Data model -/

/-- Operand kinds (`enum Operandkind`), the ones the sources mention. -/
inductive Operandkind
  | REG_HW | REG_REG | REG_LOCAL | REG_HUBPTR | REG_COGPTR
  | IMM_INT | IMM_COG_LABEL | IMM_HUB_LABEL | IMM_STRING | IMM_PCRELATIVE
  | LONG_REF | WORD_REF | BYTE_REF | STRING_DEF | IMM_BINARY
  deriving DecidableEq, Repr

/-- Relocation kinds: the two `OutputBlob` knows, and any other value. -/
inductive RelocKind
  | RELOC_KIND_LONG | RELOC_KIND_DEBUG | RELOC_KIND_OTHER (k : Nat)
  deriving DecidableEq, Repr

/-- A `Reloc` record.  For `RELOC_KIND_DEBUG` the C code casts `val` to a
`LineInfo *`; `linedata` is `some s` when that pointer and its `linedata`
field are both non-null. -/
structure Reloc where
  kind : RelocKind
  off : Int
  val : Int
  linedata : Option String := none
  deriving DecidableEq, Repr

/-- An `Operand`.  `name` is a C string ("" also stands for a null pointer).
For `REG_HUBPTR`/`REG_COGPTR` the C code casts `val` to an `Operand *`;
`indirect` is the name of that operand.  For `IMM_BINARY` the C code casts
`name` to the data `Flexbuf` and `val` to the relocation `Flexbuf`; `data`
holds the bytes and `relocs` the `Reloc` array (empty for a null pointer). -/
structure Operand where
  kind : Operandkind
  name : String
  val : Int := 0
  indirect : String := ""
  data : List Nat := []
  relocs : List Reloc := []
  deriving DecidableEq, Repr

/-- Operand effects compared by `doPrintOperand`; the addressing hints are
lumped into `OPEFFECT_HINT`. -/
inductive OperandEffect
  | OPEFFECT_NONE | OPEFFECT_PREINC | OPEFFECT_PREDEC | OPEFFECT_POSTINC | OPEFFECT_POSTDEC
  | OPEFFECT_HINT
  deriving DecidableEq, Repr

/-- Condition predicates (`IRCond`); `COND_OTHER` is any value outside the nine. -/
inductive IRCond
  | COND_TRUE | COND_EQ | COND_NE | COND_LT | COND_GE | COND_GT | COND_LE | COND_C | COND_NC
  | COND_OTHER (k : Nat)
  deriving DecidableEq, Repr

/-- IR opcodes named in the sources; `OPC_GENERIC k` stands for the ISA's
arithmetic, logic and move opcodes that the emitter does not single out. -/
inductive IROpcode
  | OPC_COMMENT | OPC_DUMMY | OPC_REPEAT_END | OPC_CONST
  | OPC_DJNZ | OPC_CALL | OPC_JUMP | OPC_RET | OPC_REPEAT
  | OPC_DEAD | OPC_LITERAL | OPC_LABEL
  | OPC_BYTE | OPC_WORD | OPC_WORD1 | OPC_LONG | OPC_STRING
  | OPC_RESERVE | OPC_RESERVEH | OPC_FCACHE | OPC_LABELED_BLOB
  | OPC_FIT | OPC_ORG | OPC_HUBMODE
  | OPC_MOV | OPC_NOP | OPC_WRLONG
  | OPC_GENERIC (k : Nat)
  deriving DecidableEq, Repr

/-- Operand shapes of an instruction descriptor (`instr->ops`). -/
inductive InstrOps
  | NO_OPERANDS | SRC_OPERAND_ONLY | DST_OPERAND_ONLY | CALL_OPERAND
  | P2_JUMP | P2_DST_CONST_OK | TWO_OPERANDS | JMPRET_OPERANDS | P2_CALLD | P2_LOC
  | OPS_OTHER (k : Nat)
  deriving DecidableEq, Repr

/-- An instruction descriptor: the fields the emitter reads. -/
structure Instruction where
  name : String
  ops : InstrOps
  deriving DecidableEq, Repr

/-- The four bits of `ir->flags` that the emitter tests. -/
structure IRFlags where
  FLAG_WC : Bool := false
  FLAG_WZ : Bool := false
  FLAG_NR : Bool := false
  FLAG_WR : Bool := false
  deriving DecidableEq, Repr

/-- An IR instruction.  `fcache` is the start label of the enclosing cached
block (null outside fcache).  `aux` is, for a jump whose target IR is known,
the `addr` field of that target IR. -/
structure IR where
  opc : IROpcode
  cond : IRCond := IRCond.COND_TRUE
  dst : Option Operand := none
  src : Option Operand := none
  instr : Option Instruction := none
  flags : IRFlags := {}
  srceffect : OperandEffect := OperandEffect.OPEFFECT_NONE
  fcache : Option Operand := none
  aux : Option Int := none
  addr : Int := 0
  deriving DecidableEq, Repr

/-- Output kinds (`gl_output`). -/
inductive OutputKind
  | OUTPUT_ASM | OUTPUT_COGSPIN | OUTPUT_OTHER
  deriving DecidableEq, Repr

/-- The read-only option globals; `P2_HUB_BASE` is a macro defined outside
the emitter and is taken as a parameter. -/
structure Options where
  gl_p2 : Bool := false
  gl_compressed : Bool := false
  gl_output : OutputKind := OutputKind.OUTPUT_ASM
  P2_HUB_BASE : Nat := 1024
  deriving DecidableEq, Repr

/-- A function of a module: the fields `EmitSpinMethods` reads.  `params`
are the parameter names in list order; `rettypeVoid` is
`f->rettype && f->rettype->kind == AST_VOIDTYPE`. -/
structure Function where
  name : String
  is_public : Bool
  params : List String := []
  numresults : Int := 1
  rettypeVoid : Bool := false
  deriving DecidableEq, Repr

/-- A module: the fields `EmitSpinMethods` reads. -/
structure Module where
  varsize : Int
  functions : List Function := []
  deriving DecidableEq, Repr

/-- The emitter state: output buffer, error log and the file-level statics. -/
structure AsmState where
  fb : String := ""
  errors : List String := []
  fixup_number : Int := 0
  pending_fixup : Int := 0
  inDat : Bool := false
  inCon : Bool := false
  didOrg : Bool := false
  lmmMode : Bool := false
  didPub : Bool := false
  deriving DecidableEq, Repr

/-! ## Buffer and formatting primitives -/

/-- Model of `flexbuf_addstr`. -/
def flexbuf_addstr (s : String) (st : AsmState) : AsmState :=
  { st with fb := st.fb ++ s }

/-- Model of `ERROR(NULL, msg)`: the message is logged, emission goes on. -/
def ERROR (msg : String) (st : AsmState) : AsmState :=
  { st with errors := st.errors ++ [msg] }

/-- The value of `(int)(int32_t)v`. -/
def int32 (v : Int) : Int := (v + 2147483648) % 4294967296 - 2147483648

/-- Model of `printf("%d", v)`. -/
def fmtD (v : Int) : String := toString v

/-- Model of `printf("%0<width>x", n)`: lower-case hex, zero padded. -/
def fmtX (width n : Nat) : String :=
  String.mk (List.replicate (width - (Nat.toDigits 16 n).length) '0' ++ Nat.toDigits 16 n)

/-! ## Operand printing -/

/-- Model of `doPrintOperand`.  `reg = none` is the null operand. -/
def doPrintOperand (o : Options) (reg : Option Operand) (useimm : Bool)
    (effect : OperandEffect) (st : AsmState) : AsmState :=
  match reg with
  | none => flexbuf_addstr "???" (ERROR "internal error bad operand" st)
  | some reg =>
    let st :=
      if effect ≠ OperandEffect.OPEFFECT_NONE then
        if o.gl_p2 then
          if reg.kind ≠ Operandkind.REG_HW then ERROR "operand effect on wrong register" st
          else st
        else ERROR "illegal operand effect" st
      else st
    match reg.kind with
    | Operandkind.IMM_INT =>
      if 0 ≤ reg.val ∧ reg.val < 512 then
        let st := flexbuf_addstr "#" st
        if reg.name ≠ "" then flexbuf_addstr reg.name st
        else flexbuf_addstr (fmtD (int32 reg.val)) st
      else if o.gl_p2 then
        let st := flexbuf_addstr "##" st
        if reg.name ≠ "" then flexbuf_addstr reg.name st
        else flexbuf_addstr (fmtD (int32 reg.val)) st
      else
        -- the immediate actually got processed as a register
        flexbuf_addstr reg.name st
    | Operandkind.BYTE_REF | Operandkind.WORD_REF | Operandkind.LONG_REF =>
      ERROR "Internal error: tried to use memory directly" st
    | Operandkind.IMM_HUB_LABEL =>
      let st := if o.gl_p2 ∧ useimm then flexbuf_addstr "#@" st else st
      flexbuf_addstr reg.name st
    | k =>
      let st :=
        if k = Operandkind.IMM_COG_LABEL ∧ useimm then flexbuf_addstr "#" st else st
      let st :=
        if effect = OperandEffect.OPEFFECT_PREINC then flexbuf_addstr "++" st
        else if effect = OperandEffect.OPEFFECT_PREDEC then flexbuf_addstr "--" st
        else st
      let st := flexbuf_addstr reg.name st
      if effect = OperandEffect.OPEFFECT_POSTINC then flexbuf_addstr "++" st
      else if effect = OperandEffect.OPEFFECT_POSTDEC then flexbuf_addstr "--" st
      else st

/-- Model of `PrintOperandSrc`. -/
def PrintOperandSrc (o : Options) (reg : Option Operand) (effect : OperandEffect)
    (st : AsmState) : AsmState :=
  doPrintOperand o reg true effect st

/-- Model of `PrintOperand`. -/
def PrintOperand (o : Options) (reg : Option Operand) (st : AsmState) : AsmState :=
  doPrintOperand o reg false OperandEffect.OPEFFECT_NONE st

/-- Model of `PrintOperandAsValue` (the operand is dereferenced at once, so
it is not optional here). -/
def PrintOperandAsValue (o : Options) (reg : Operand) (st : AsmState) : AsmState :=
  match reg.kind with
  | Operandkind.IMM_INT => flexbuf_addstr (fmtD (int32 reg.val)) st
  | Operandkind.IMM_HUB_LABEL | Operandkind.STRING_DEF =>
    let st :=
      if o.gl_p2 then flexbuf_addstr "@" st
      else if o.gl_output = OutputKind.OUTPUT_COGSPIN then
        -- record fixup info
        let st :=
          if st.fixup_number > 0 then
            flexbuf_addstr ("( (@__fixup_" ++ fmtD st.fixup_number ++ " - 4) << 16) + @") st
          else flexbuf_addstr "@" st
        let st := { st with fixup_number := st.fixup_number + 1 }
        { st with pending_fixup := st.fixup_number }
      else flexbuf_addstr "@@@" st
    flexbuf_addstr reg.name st
  | Operandkind.IMM_COG_LABEL => flexbuf_addstr reg.name st
  | Operandkind.IMM_STRING =>
    flexbuf_addstr "\"" (flexbuf_addstr reg.name (flexbuf_addstr "\"" st))
  | Operandkind.REG_HUBPTR | Operandkind.REG_COGPTR => flexbuf_addstr reg.indirect st
  | _ => PrintOperand o (some reg) st

/-- The text `PrintCond` writes before the tab. -/
def condName : IRCond → String
  | IRCond.COND_TRUE => ""
  | IRCond.COND_EQ => " if_e"
  | IRCond.COND_NE => " if_ne"
  | IRCond.COND_LT => " if_b"
  | IRCond.COND_GE => " if_ae"
  | IRCond.COND_GT => " if_a"
  | IRCond.COND_LE => " if_be"
  | IRCond.COND_C => " if_c"
  | IRCond.COND_NC => " if_nc"
  | IRCond.COND_OTHER _ => " if_??"

/-- Model of `PrintCond`. -/
def PrintCond (cond : IRCond) (st : AsmState) : AsmState :=
  flexbuf_addstr "\t" (flexbuf_addstr (condName cond) st)

/-- Model of `StringFor`; `none` is the error case ("???" plus an `ERROR`). -/
def StringFor : IROpcode → Option String
  | IROpcode.OPC_STRING | IROpcode.OPC_BYTE => some "byte"
  | IROpcode.OPC_LONG => some "long"
  | IROpcode.OPC_WORD => some "word"
  | IROpcode.OPC_WORD1 => some "word 1 |"
  | _ => none

/-! ## Binary blobs (`OutputBlob`) -/

/-- One directive written by `OutputBlob`, kept structured; `BlobLine.text`
gives the characters the C code prints for it. -/
inductive BlobLine
  /-- A relocation long with addend `offset`: `long @@@label`, `+ n` or `- n`. -/
  | reloc (offset : Int)
  /-- A debug entry: the line data after a comment mark, no byte of data. -/
  | debug (linedata : Option String)
  /-- A repeated long, printed with `\tlong\t$%08x[%d]\n` from `lastdata, runlen/4`. -/
  | longRun (lastdata count : Nat)
  /-- A repeated byte, printed with `\tbyte\t$%02x[%d]\n` from `lastdata, runlen`. -/
  | byteRun (lastdata runlen : Nat)
  /-- A `byte` line listing the values. -/
  | bytes (vals : List Nat)
  deriving DecidableEq, Repr

/-- How `OutputBlob` left its loop: the `while` ended, or one of the two
`return`s after an `ERROR`, or the model ran out of fuel. -/
inductive BlobEnd
  | done | noSpace | badKind (kind : Nat) | outOfFuel
  deriving DecidableEq, Repr

def MAX_BYTES_ON_LINE : Int := 16

/-- The loop `while (0 != (len & 3)) flexbuf_addchar(databuf, 0)`; three
rounds always suffice, `padLong 3` is the whole loop. -/
def padLong : Nat → List Nat → List Nat
  | 0, data => data
  | k + 1, data => if data.length % 4 ≠ 0 then padLong k (data ++ [0]) else data

/-- The run scan
`while (data[runlen] == lastdata && addr < len && runlen < bytesPending) runlen++`
with `data` the whole buffer (the C pointer `data` is `base + addr`).  A read
past the end of the buffer is modelled as reading 0; the outcome does not
depend on it because the third test then fails. -/
def scanRun (data : List Nat) (len addr lastdata : Nat) (bytesPending : Int) :
    Nat → Nat → Nat
  | 0, runlen => runlen
  | fuel + 1, runlen =>
    if data.getD (addr + runlen) 0 = lastdata ∧ addr < len ∧ (runlen : Int) < bytesPending then
      scanRun data len addr lastdata bytesPending fuel (runlen + 1)
    else runlen

/-- The data part of one round of the main loop (from the comment "look for
runs of data" to the end of the loop body): the directive written and the new
value of `addr`. -/
def blobChunk (data : List Nat) (len addr : Nat) (bytesPending : Int) : BlobLine × Nat :=
  let lastdata := data.getD addr 0
  let runlen :=
    if bytesPending > MAX_BYTES_ON_LINE then
      scanRun data len addr lastdata bytesPending (bytesPending.toNat + 1) 0
    else 0
  if bytesPending > MAX_BYTES_ON_LINE ∧ runlen > 4 then
    if runlen % 4 = 0 then (BlobLine.longRun lastdata (runlen / 4), addr + runlen)
    else (BlobLine.byteRun lastdata runlen, addr + runlen)
  else
    let bytesPending := if bytesPending > MAX_BYTES_ON_LINE then MAX_BYTES_ON_LINE else bytesPending
    -- one value is always printed, then one more while bytesPending > 0
    let n := 1 + (bytesPending - 1).toNat
    (BlobLine.bytes ((List.range n).map (fun i => data.getD (addr + i) 0)), addr + n)

/-- The main loop `while (addr < len)` of `OutputBlob`.  `relocs` is the rest
of the relocation array (`nextreloc`, with `relocs` entries left).  The jump
`goto again` after a debug entry is a fresh round: `addr` is unchanged, so the
loop test still holds and `bytesPending` is again `len - addr`. -/
def OutputBlobLoop (data : List Nat) (len : Nat) :
    Nat → Nat → List Reloc → List BlobLine × BlobEnd
  | 0, _, _ => ([], BlobEnd.outOfFuel)
  | fuel + 1, addr, relocs =>
    if ¬ addr < len then ([], BlobEnd.done)
    else
      let bytesPending : Int := (len : Int) - addr
      match relocs with
      | [] =>
        let c := blobChunk data len addr bytesPending
        let r := OutputBlobLoop data len fuel c.2 []
        (c.1 :: r.1, r.2)
      | nextreloc :: rest =>
        let bytesToReloc : Int := nextreloc.off - addr
        if bytesToReloc = 0 then
          if nextreloc.kind = RelocKind.RELOC_KIND_LONG then
            if bytesPending < 4 then ([], BlobEnd.noSpace)
            else
              let r := OutputBlobLoop data len fuel (addr + 4) rest
              (BlobLine.reloc nextreloc.val :: r.1, r.2)
          else if nextreloc.kind = RelocKind.RELOC_KIND_DEBUG then
            let r := OutputBlobLoop data len fuel addr rest
            (BlobLine.debug nextreloc.linedata :: r.1, r.2)
          else
            match nextreloc.kind with
            | RelocKind.RELOC_KIND_OTHER k => ([], BlobEnd.badKind k)
            | _ => ([], BlobEnd.badKind 0)
        else
          let bytesPending := if bytesPending > bytesToReloc then bytesToReloc else bytesPending
          let c := blobChunk data len addr bytesPending
          let r := OutputBlobLoop data len fuel c.2 (nextreloc :: rest)
          (c.1 :: r.1, r.2)

/-- The directives `OutputBlob` writes for the data `data` with relocation
array `relocs`, after the alignment line and the label: the data is padded to
a multiple of four, then the main loop runs.  Every round of the loop either
raises `addr` or drops a relocation, so `len + relocs + 1` rounds are enough. -/
def OutputBlobLines (data : List Nat) (relocs : List Reloc) : List BlobLine × BlobEnd :=
  let data := padLong 3 data
  OutputBlobLoop data data.length (data.length + relocs.length + 1) 0 relocs

/-- The list `$xx, $xx, ...` of a `byte` line. -/
def byteList : List Nat → String
  | [] => ""
  | [v] => "$" ++ fmtX 2 v
  | v :: vs => "$" ++ fmtX 2 v ++ ", " ++ byteList vs

/-- The characters printed for one directive; `label` is `label->name`. -/
def BlobLine.text (label : String) : BlobLine → String
  | BlobLine.reloc offset =>
    "\tlong\t" ++
      (if offset = 0 then "@@@" ++ label ++ "\n"
       else if offset > 0 then "@@@" ++ label ++ " + " ++ fmtD (int32 offset) ++ "\n"
       else "@@@" ++ label ++ " - " ++ fmtD (int32 (-offset)) ++ "\n")
  | BlobLine.debug (some linedata) => "\x27-\x27 " ++ linedata
  | BlobLine.debug none => ""
  | BlobLine.longRun lastdata count => "\tlong\t$" ++ fmtX 8 lastdata ++ "[" ++ fmtD count ++ "]\n"
  | BlobLine.byteRun lastdata runlen => "\tbyte\t$" ++ fmtX 2 lastdata ++ "[" ++ fmtD runlen ++ "]\n"
  | BlobLine.bytes vals => "\tbyte\t" ++ byteList vals ++ "\n"

/-- The text of a list of directives. -/
def blobText (label : String) : List BlobLine → String
  | [] => ""
  | l :: ls => l.text label ++ blobText label ls

/-- Model of `OutputBlob`.  The result is `none` where the C code would
dereference a null operand.  The padding of the data buffer is done in place
in C (the operand keeps the padded data); the model pads a copy.  The C code
hands `label->name` to `flexbuf_printf` as the format string: the model
writes the name as it is, which is what the C code does for a name without a
percent sign. -/
def OutputBlob (o : Options) (label op : Option Operand) (st : AsmState) : Option AsmState :=
  match op with
  | none => none
  | some op =>
    if op.kind ≠ Operandkind.IMM_BINARY then some (ERROR "Internal: bad binary blob" st)
    else
      let st := if o.gl_p2 then flexbuf_addstr "\talignl\n" st else flexbuf_addstr "\tlong\n" st
      match label with
      | none => none
      | some label =>
        let st := flexbuf_addstr "\n" (flexbuf_addstr label.name st)
        let r := OutputBlobLines op.data op.relocs
        let st := flexbuf_addstr (blobText label.name r.1) st
        match r.2 with
        | BlobEnd.noSpace => some (ERROR "internal error: not enough space for reloc" st)
        | BlobEnd.badKind k =>
          some (ERROR ("internal error: bad reloc kind " ++ fmtD k) st)
        | _ => some st

/-! ## The Spin wrapper (`EmitSpinMethods`) -/

/-- Lines written before the `__objmem` declaration. -/
def spinVarHead : String :=
  String.join [
    "VAR\n",
    "  long __mbox[__MBOX_SIZE]   \x27 mailbox for communicating with remote COG\n"]

/-- From the `__stack` declaration to the `__fixup_addresses` call in `__coginit`. -/
def spinVarTail : String :=
  String.join [
    "  long __stack[__STACK_SIZE] \x27 stack for new COG\n",
    "  byte __cognum              \x27 1 + the ID of the running COG (0 if nothing running)\n\n",
    "\x27\x27 Code to start the object running in its own COG\n",
    "\x27\x27 This must always be called before any other methods\n",
    "PUB __coginit(id)\n",
    "  if (__cognum == 0) \x27 if the cog isn\x27t running yet\n",
    "    __fixup_addresses\n",
    "    longfill(@__mbox, 0, __MBOX_SIZE)\n"]

/-- From `__mbox[2]` in `__coginit` to the end of `__fixup_addresses`. -/
def spinCogTail : String :=
  String.join [
    "    __mbox[2] := @__objmem\n",
    "    __mbox[3] := @__stack\n",
    "    if (id < 0)\n",
    "      id := cognew(@entry, @__mbox)\n",
    "    else\n",
    "      coginit(id, @entry, @__mbox) \x27 actually start the cog\n",
    "    __cognum := id + 1\n",
    "  return id\n\n",
    "PUB __cognew\n",
    "  return __coginit(-1)\n\n",
    "\x27\x27 Code to stop the remote COG\n",
    "PUB __cogstop\n",
    "  if __cognum\n",
    "    __lock  \x27 wait until everyone else is finished\n",
    "    cogstop(__cognum~ - 1)\n",
    "    __mbox[0] := 0\n",
    "    __cognum := 0\n\n",
    "\x27\x27 Code to lock access to the PASM COG\n",
    "\x27\x27 The idea here is that (in theory) multiple Spin bytecode threads might\n",
    "\x27\x27 want access to the PASM COG, so this lock mackes sure they don\x27t step on each other.\n",
    "\x27\x27 This method also makes sure the remote COG is idle and ready to receive commands.\n",
    "PRI __lock\n",
    "  repeat\n",
    "    repeat until __mbox[0] == 0   \x27 wait until no other Spin code is using remote\n",
    "    __mbox[0] := __cognum         \x27 try to claim it\n",
    "  until __mbox[0] == __cognum     \x27 make sure we really did get it\n\n",
    "  repeat until __mbox[1] == 0     \x27 now wait for the COG itself to be idle\n\n",
    "\x27\x27 Code to release access to the PASM COG\n",
    "PRI __unlock\n",
    "  __mbox[0] := 0\n\n",
    "\x27\x27 Check to see if the PASM COG is busy (still working on something)\n",
    "PUB __busy\n",
    "  return __mbox[1] <> 0\n\n",
    "\x27\x27 Code to send a message to the remote COG asking it to perform a method\n",
    "\x27\x27 func is the PASM entrypoint of the method to perform\n",
    "\x27\x27 if getresult is nonzero then we wait for the remote COG to answer us with a result\n",
    "\x27\x27 if getresult is 0 then we continue without waiting (the remote COG runs in parallel\n",
    "\x27\x27 We must always call __lock before this, and set up the parameters starting in __mbox[2]\n",
    "PRI __invoke(func, getresult) : r\n",
    "  __mbox[1] := func - @entry     \x27 set the function to perform (NB: this is a HUB address)\n",
    "  if getresult                   \x27 if we should wait for an answer\n",
    "    repeat until __mbox[1] == 0  \x27 wait for remote COG to be idle\n",
    "    r := __mbox[2]               \x27 pick up remote COG result\n",
    "  __unlock                       \x27 release to other COGs\n",
    "  return r\n\n",
    "\x27\x27 Code to convert Spin relative addresses to absolute addresses\n",
    "\x27\x27 The PASM code contains some absolute pointers internally; but the\n",
    "\x27\x27 regular Spin compiler cannot emit these (bstc and fastspin can, with the\n",
    "\x27\x27 @@@ operator, but we don\x27t want to rely on having those compilers).\n",
    "\x27\x27 So the compiler inserts a chain of fixups, with each entry having the Spin\n",
    "\x27\x27 relative address in the low word, and a pointer to the next fixup in the high word.\n",
    "\x27\x27 This code follows that chain and adjusts the relative addresses to absolute ones.\n",
    "PRI __fixup_addresses | ptr, nextptr, temp\n",
    "  ptr := __fixup_ptr[0]\n",
    "  repeat while (ptr)      \x27 the fixup chain is terminated with a 0 pointer\n",
    "    ptr := @@ptr          \x27 point to next fixup\n",
    "    temp := long[ptr]     \x27 get the data\n",
    "    nextptr := temp >> 16 \x27 high 16 bits contains link to next fixup\n",
    "    temp := temp & $ffff  \x27 low 16 bits contains real pointer\n",
    "    long[ptr] := @@temp   \x27 replace fixup data with real pointer\n",
    "    ptr := nextptr\n",
    "  __fixup_ptr[0] := 0 \x27 mark fixups as done\n\n"]

/-- The banner before the stub functions. -/
def spinStubHead : String :=
  String.join [
    "\x27--------------------------------------------------\n",
    "\x27 Stub functions to perform remote calls to the COG\n",
    "\x27--------------------------------------------------\n\n"]

/-- The banner after the stub functions. -/
def spinStubTail : String :=
  String.join [
    "\x27--------------------------------------------------\n",
    "\x27 The converted object (Spin translated to PASM)\n",
    "\x27 This is the code that will run in the remote COG\n",
    "\x27--------------------------------------------------\n\n"]

/-- The value of the `int varlen` after rounding up to a long boundary
(`(varlen + 3) & ~3`, the sum wrapped to 32 bits) and forcing it to at
least 1. -/
def spinVarlen (varsize : Int) : Int :=
  let varlen := varsize
  let varlen := int32 (varlen + 3) - int32 (varlen + 3) % 4
  if varlen < 1 then 1 else varlen

/-- The parameter list `a, b, c` of a stub. -/
def stubParams : List String → String
  | [] => ""
  | [a] => a
  | a :: as => a ++ ", " ++ stubParams as

/-- The loop `for (i = lo; i < numresults; i++)` printing `, r<i>`; `n` rounds. -/
def stubResultNames (lo : Int) : Nat → String
  | 0 => ""
  | n + 1 => ", r" ++ fmtD lo ++ stubResultNames (lo + 1) n

/-- The loop storing the parameters into the mailbox from slot `paramnum` on. -/
def stubStoreParams (paramnum : Int) : List String → String
  | [] => ""
  | a :: as => "  __mbox[" ++ fmtD paramnum ++ "] := " ++ a ++ "\n" ++ stubStoreParams (paramnum + 1) as

/-- The loop `for (i = lo; i < numresults; i++)` fetching the results; `n` rounds. -/
def stubFetchResults (lo : Int) : Nat → String
  | 0 => ""
  | n + 1 => "  r" ++ fmtD lo ++ " := __mbox[" ++ fmtD (2 + lo) ++ "]\n" ++ stubFetchResults (lo + 1) n

/-- The stub written for one public function. -/
def stubText (f : Function) : String :=
  "PUB " ++ f.name ++
  (if f.params ≠ [] then "(" ++ stubParams f.params ++ ")" else "") ++
  (if f.numresults > 1 then " : r0" ++ stubResultNames 1 (f.numresults - 1).toNat else "") ++
  "\n" ++
  "  __lock\n" ++
  stubStoreParams 2 f.params ++
  (let synchronous : Int := if f.rettypeVoid then 0 else 1
   if f.numresults < 2 then
     "  return __invoke(@pasm_" ++ f.name ++ ", " ++ fmtD synchronous ++ ")\n\n"
   else
     "  __mbox[1] := @pasm_" ++ f.name ++ " - @entry\n" ++
     "  repeat until __mbox[1] == 0\n" ++
     stubFetchResults 0 f.numresults.toNat ++
     "  __unlock\n\n")

/-- The loop over `P->functions`. -/
def stubsText : List Function → String
  | [] => ""
  | f :: fs => (if f.is_public then stubText f else "") ++ stubsText fs

/-- Model of `EmitSpinMethods`; `P = none` is the null module. -/
def EmitSpinMethods (o : Options) (P : Option Module) (st : AsmState) : AsmState :=
  match P with
  | none => st
  | some P =>
    if o.gl_output = OutputKind.OUTPUT_COGSPIN then
      let varlen := spinVarlen P.varsize
      let st := flexbuf_addstr spinVarHead st
      let st := flexbuf_addstr
        ("  long __objmem[" ++ fmtD (Int.tdiv varlen 4) ++ "]          \x27 space for hub data in COG code\n") st
      let st := flexbuf_addstr spinVarTail st
      let st :=
        if o.gl_p2 then flexbuf_addstr "    __mbox[1] := @entry\n" st
        else flexbuf_addstr "    __mbox[1] := @pasm__init - @entry\n" st
      let st := flexbuf_addstr spinCogTail st
      let st := flexbuf_addstr spinStubHead st
      let st := flexbuf_addstr (stubsText P.functions) st
      flexbuf_addstr spinStubTail st
    else
      flexbuf_addstr "  coginit(0, @entry, 0)\n" (flexbuf_addstr "PUB main\n" st)

/-! ## `DoAssembleIR` and `IRAssemble` -/

def MAX_REL_JUMP_OFFSET : Int := 100

/-- How a block of `DoAssembleIR` ends: with `return`, or by falling through
to the code after it. -/
inductive Flow
  | returned (st : AsmState)
  | falls (st : AsmState)
  deriving DecidableEq, Repr

/-- The block `if (!inDat) { ... }` of `DoAssembleIR`: the lazy switch to the
DAT section. -/
def enterDat (o : Options) (P : Option Module) (st : AsmState) : AsmState :=
  if ¬ st.inDat then
    let st :=
      if ¬ st.didPub ∧ P.isSome then { EmitSpinMethods o P st with didPub := true } else st
    let st := flexbuf_addstr "DAT\n" st
    let st := { st with inCon := false, inDat := true }
    if ¬ st.didOrg then { flexbuf_addstr "\torg\t0\n" st with didOrg := true } else st
  else st

/-- The tail of the OPC_JUMP case, reached when no relative form was
written: `rdlong pc,pc` and the destination as a long. -/
def lmmLongJump (o : Options) (dst : Operand) (st : AsmState) : AsmState :=
  let st := flexbuf_addstr "rdlong\tpc,pc\n" st
  let st := flexbuf_addstr "\tlong\t" st
  let st := PrintOperandAsValue o dst st
  flexbuf_addstr "\n" st

/-- The block `if (gl_compressed) { ... } else if (!gl_p2) { ... }` of
`DoAssembleIR`: compressed placeholders and the LMM forms of CALL, DJNZ, JUMP
and RET.  `IsHubDest` is defined outside the emitter and is a parameter.
The result is `none` where the C code would dereference a null operand. -/
def lmmBranch (o : Options) (IsHubDest : Option Operand → Bool) (ir : IR) (st : AsmState) :
    Option Flow :=
  if o.gl_compressed then
    match ir.opc with
    | IROpcode.OPC_DJNZ | IROpcode.OPC_CALL | IROpcode.OPC_JUMP | IROpcode.OPC_RET =>
      some (Flow.returned (flexbuf_addstr "\tlong\t$FFFF\n" st))
    | _ => some (Flow.falls st)
  else if ¬ o.gl_p2 then
    -- handle jumps in LMM mode
    match ir.opc with
    | IROpcode.OPC_CALL =>
      if IsHubDest ir.dst then
        let st :=
          if ¬ st.lmmMode then
            -- call of hub function from COG
            let st := flexbuf_addstr "mov\tpc, $+2\n" (PrintCond ir.cond st)
            flexbuf_addstr "call\t#LMM_CALL_FROM_COG\n" (PrintCond ir.cond st)
          else
            flexbuf_addstr "jmp\t#LMM_CALL\n" (PrintCond ir.cond st)
        let st := flexbuf_addstr "\tlong\t" st
        match ir.dst with
        | none => none
        | some dst =>
          let st :=
            if dst.kind ≠ Operandkind.IMM_HUB_LABEL then
              ERROR "internal error: non-hub label in LMM jump" st
            else st
          let st := PrintOperandAsValue o dst st
          some (Flow.returned (flexbuf_addstr "\n" st))
      else some (Flow.falls st)
    | IROpcode.OPC_DJNZ =>
      if ir.fcache.isSome then
        let st := flexbuf_addstr "djnz\t" (PrintCond ir.cond st)
        let st := PrintOperand o ir.dst st
        let st := flexbuf_addstr ", #LMM_FCACHE_START + (" st
        let st := PrintOperand o ir.src st
        let st := flexbuf_addstr " - " st
        let st := PrintOperand o ir.fcache st
        some (Flow.returned (flexbuf_addstr ")\n" st))
      else if IsHubDest ir.src then
        let st := flexbuf_addstr "djnz\t" (PrintCond ir.cond st)
        let st := PrintOperand o ir.dst st
        let st := flexbuf_addstr ", #LMM_JUMP\n" st
        let st := flexbuf_addstr "\tlong\t" st
        match ir.src with
        | none => none
        | some src =>
          let st :=
            if src.kind ≠ Operandkind.IMM_HUB_LABEL then
              ERROR "internal error: non-hub label in LMM jump" st
            else st
          let st := PrintOperandAsValue o src st
          some (Flow.returned (flexbuf_addstr "\n" st))
      else some (Flow.falls st)
    | IROpcode.OPC_JUMP =>
      if ir.fcache.isSome then
        let st := flexbuf_addstr "jmp\t#LMM_FCACHE_START + (" (PrintCond ir.cond st)
        let st := PrintOperand o ir.dst st
        let st := flexbuf_addstr " - " st
        let st := PrintOperand o ir.fcache st
        some (Flow.returned (flexbuf_addstr ")\n" st))
      else if IsHubDest ir.dst then
        let st :=
          if ¬ st.lmmMode then ERROR "jump from COG to LMM not supported yet" st else st
        match ir.dst with
        | none => none
        | some dst =>
          let st :=
            if dst.kind ≠ Operandkind.IMM_HUB_LABEL then
              ERROR "internal error: non-hub label in LMM jump" st
            else st
          let st := PrintCond ir.cond st
          -- if we know the destination we may be able to optimize the branch
          match ir.aux with
          | some destaddr =>
            let offset : Int := int32 (destaddr - ir.addr)
            if offset > 0 ∧ offset < MAX_REL_JUMP_OFFSET then
              let st := flexbuf_addstr "add\tpc, #4*(" st
              let st := PrintOperand o ir.dst st
              some (Flow.returned (flexbuf_addstr " - ($+1))\n" st))
            else if offset < 0 ∧ offset > -MAX_REL_JUMP_OFFSET then
              let st := flexbuf_addstr "sub\tpc, #4*(($+1) - " st
              let st := PrintOperand o ir.dst st
              some (Flow.returned (flexbuf_addstr ")\n" st))
            else some (Flow.returned (lmmLongJump o dst st))
          | none => some (Flow.returned (lmmLongJump o dst st))
      else some (Flow.falls st)
    | IROpcode.OPC_RET =>
      if ir.fcache.isSome then
        some (Flow.returned (ERROR "return from fcached code not supported" st))
      else if st.lmmMode then
        some (Flow.returned (flexbuf_addstr "jmp\t#LMM_RET\n" (PrintCond ir.cond st)))
      else some (Flow.falls st)
    | _ => some (Flow.falls st)
  else some (Flow.falls st)

/-- The flag modifiers written by the `if (ccset)` block, given the current
buffer state. -/
def printFlags (o : Options) (f : IRFlags) (st : AsmState) : AsmState :=
  let ccset := f.FLAG_WC || f.FLAG_WZ || f.FLAG_NR || f.FLAG_WR
  if ccset then
    let sepstring := " "
    let (st, sepstring) :=
      if o.gl_p2 ∧ f.FLAG_WC ∧ f.FLAG_WZ then
        (flexbuf_addstr (sepstring ++ "wcz") st, ",")
      else
        let (st, sepstring) :=
          if f.FLAG_WC then (flexbuf_addstr (sepstring ++ "wc") st, ",") else (st, sepstring)
        if f.FLAG_WZ then (flexbuf_addstr (sepstring ++ "wz") st, ",") else (st, sepstring)
    if f.FLAG_NR then flexbuf_addstr (sepstring ++ "nr") st
    else if f.FLAG_WR then flexbuf_addstr (sepstring ++ "wr") st
    else st
  else st

/-- The block `if (ir->instr) { ... return; }` of `DoAssembleIR`. -/
def printInstr (o : Options) (ir : IR) (instr : Instruction) (st : AsmState) : AsmState :=
  let st := PrintCond ir.cond st
  let st := flexbuf_addstr instr.name st
  let st :=
    match instr.ops with
    | InstrOps.NO_OPERANDS => st
    | InstrOps.SRC_OPERAND_ONLY | InstrOps.DST_OPERAND_ONLY | InstrOps.CALL_OPERAND
    | InstrOps.P2_JUMP | InstrOps.P2_DST_CONST_OK =>
      PrintOperandSrc o ir.dst OperandEffect.OPEFFECT_NONE (flexbuf_addstr "\t" st)
    | _ =>
      let st := flexbuf_addstr "\t" st
      let st := if ir.opc = IROpcode.OPC_REPEAT then flexbuf_addstr "@" st else st
      let st := PrintOperand o ir.dst st
      let st := flexbuf_addstr ", " st
      PrintOperandSrc o ir.src ir.srceffect st
  let st := printFlags o ir.flags st
  flexbuf_addstr "\n" st

/-- The copy loop of the OPC_COMMENT case: the characters up to the first
newline. -/
def commentLine (str : String) : String :=
  String.mk (str.toList.takeWhile (fun c => c ≠ '\n'))

/-- The final `switch (ir->opc)` of `DoAssembleIR`, for an IR without an
instruction descriptor.  The result is `none` where the C code would
dereference a null operand. -/
def pseudoOp (o : Options) (ir : IR) (st : AsmState) : Option AsmState :=
  match ir.opc with
  | IROpcode.OPC_DEAD =>
    -- no code necessary, internal opcode
    ir.dst.map (fun dst =>
      flexbuf_addstr "\n" (flexbuf_addstr dst.name (flexbuf_addstr "\t.dead\t" st)))
  | IROpcode.OPC_LITERAL => some (PrintOperand o ir.dst st)
  | IROpcode.OPC_LABEL =>
    ir.dst.map (fun dst => flexbuf_addstr "\n" (flexbuf_addstr dst.name st))
  | IROpcode.OPC_RET => some (flexbuf_addstr "ret\n" (flexbuf_addstr "\t" st))
  | IROpcode.OPC_BYTE | IROpcode.OPC_WORD | IROpcode.OPC_WORD1 | IROpcode.OPC_LONG
  | IROpcode.OPC_STRING =>
    match ir.dst with
    | none => none
    | some dst =>
      let st := flexbuf_addstr "\t" st
      let st := flexbuf_addstr ((StringFor ir.opc).getD "???") st
      let st := flexbuf_addstr "\t" st
      let st := PrintOperandAsValue o dst st
      let st :=
        match ir.src with
        | some src =>
          -- repeat count
          flexbuf_addstr "]" (PrintOperandAsValue o src (flexbuf_addstr "[" st))
        | none => st
      some (flexbuf_addstr "\n" st)
  | IROpcode.OPC_RESERVE =>
    ir.dst.map (fun dst =>
      flexbuf_addstr "\n" (PrintOperandAsValue o dst (flexbuf_addstr "\tres\t" st)))
  | IROpcode.OPC_RESERVEH =>
    ir.dst.map (fun dst =>
      flexbuf_addstr "]\n" (PrintOperandAsValue o dst (flexbuf_addstr "\tlong\t0[" st)))
  | IROpcode.OPC_FCACHE =>
    let st := flexbuf_addstr "\tcall\t#LMM_FCACHE_LOAD\n" st
    let st := flexbuf_addstr "\tlong\t(" st
    match ir.dst, ir.src with
    | some dst, some src =>
      let st := PrintOperandAsValue o dst st
      let st := flexbuf_addstr "-" st
      let st := PrintOperandAsValue o src st
      some (flexbuf_addstr ")\n" st)
    | _, _ => none
  | IROpcode.OPC_LABELED_BLOB =>
    -- output a binary blob: dst has a label, data is in src
    OutputBlob o ir.dst ir.src st
  | IROpcode.OPC_FIT => some (flexbuf_addstr "\tfit\t496\n" st)
  | IROpcode.OPC_ORG =>
    ir.dst.map (fun dst =>
      flexbuf_addstr "\n" (PrintOperandAsValue o dst (flexbuf_addstr "\torg\t" st)))
  | IROpcode.OPC_HUBMODE =>
    let st :=
      if o.gl_p2 then
        flexbuf_addstr ("\torgh\t$" ++ String.mk (Nat.toDigits 16 o.P2_HUB_BASE) ++ "\n") st
      else if o.gl_compressed then flexbuf_addstr "\torgh\n" st
      else st
    some { st with lmmMode := true }
  | _ => some (ERROR "Internal error: unable to process IR\n" st)

/-- Model of `DoAssembleIR`.  The result is `none` where the C code would
dereference a null operand. -/
def DoAssembleIR (o : Options) (IsHubDest : Option Operand → Bool) (ir : IR)
    (P : Option Module) (st : AsmState) : Option AsmState :=
  if ir.opc = IROpcode.OPC_COMMENT then
    match ir.dst with
    | none => none
    | some dst =>
      if dst.kind ≠ Operandkind.IMM_STRING then some (ERROR "COMMENT is not a string" st)
      else
        let st := flexbuf_addstr "\x27 " st
        let st := flexbuf_addstr (commentLine dst.name) st
        some (flexbuf_addstr "\n" st)
  else if ir.opc = IROpcode.OPC_DUMMY then some st
  else if ir.opc = IROpcode.OPC_REPEAT_END then
    -- not an actual instruction, just a marker
    some st
  else if ir.opc = IROpcode.OPC_CONST then
    -- handle const declaration
    let st :=
      if ¬ st.inCon then { flexbuf_addstr "CON\n" st with inCon := true, inDat := false }
      else st
    let st := flexbuf_addstr "\t" st
    let st := PrintOperand o ir.dst st
    let st := flexbuf_addstr " = " st
    match ir.src with
    | none => none
    | some src => some (flexbuf_addstr "\n" (PrintOperandAsValue o src st))
  else
    let st := enterDat o P st
    match lmmBranch o IsHubDest ir st with
    | none => none
    | some (Flow.returned st) => some st
    | some (Flow.falls st) =>
      match ir.instr with
      | some instr => some (printInstr o ir instr st)
      | none => pseudoOp o ir st

/-- The loop `for (ir = list->head; ir; ir = ir->next)` of `IRAssemble`. -/
def IRAssembleLoop (o : Options) (IsHubDest : Option Operand → Bool) (P : Option Module) :
    List IR → AsmState → Option AsmState
  | [], st => some st
  | ir :: rest, st =>
    match DoAssembleIR o IsHubDest ir P st with
    | none => none
    | some st =>
      let st :=
        if o.gl_output = OutputKind.OUTPUT_COGSPIN then
          if st.pending_fixup ≠ 0 then
            { flexbuf_addstr ("__fixup_" ++ fmtD st.pending_fixup ++ "\n") st with
              pending_fixup := 0 }
          else st
        else st
      IRAssembleLoop o IsHubDest P rest st

/-- Model of `IRAssemble`.  `g` holds the statics as the call finds them:
`fixup_number` and `pending_fixup` are not reset, the section flags are; the
buffer is fresh.  The result is the final state, whose `fb` is the returned
text. -/
def IRAssemble (o : Options) (IsHubDest : Option Operand → Bool) (list : List IR)
    (P : Option Module) (g : AsmState) : Option AsmState :=
  let st : AsmState :=
    { g with fb := "", inDat := false, inCon := false, didOrg := false, didPub := false,
             lmmMode := false }
  let st :=
    if o.gl_p2 ∧ o.gl_output ≠ OutputKind.OUTPUT_COGSPIN then
      -- we do not want PUB declaration in P2 code
      { st with didPub := true }
    else st
  match IRAssembleLoop o IsHubDest P list st with
  | none => none
  | some st =>
    if o.gl_output = OutputKind.OUTPUT_COGSPIN then
      let st := flexbuf_addstr "__fixup_ptr\n\tlong\t" st
      if st.fixup_number > 0 then
        some (flexbuf_addstr ("@__fixup_" ++ fmtD st.fixup_number ++ " - 4\n") st)
      else some (flexbuf_addstr "0\n" st)
    else some st

/-! ## Texts used to state the properties -/

/-- The text `PrintCond` appends. -/
def condText (cond : IRCond) : String := condName cond ++ "\t"

/-- The text `doPrintOperand` appends to the buffer. -/
def operandText (o : Options) (reg : Option Operand) (useimm : Bool)
    (effect : OperandEffect) : String :=
  (doPrintOperand o reg useimm effect {}).fb

/-- The text `PrintOperandAsValue` appends when `fixup_number` is `n`. -/
def valueText (o : Options) (n : Int) (reg : Operand) : String :=
  (PrintOperandAsValue o reg { fixup_number := n }).fb

/-- The text of the flag modifiers (`printFlags`). -/
def flagsText (o : Options) (f : IRFlags) : String := (printFlags o f {}).fb

/-- The relative forward jump `add pc, #4*(<dst> - ($+1))`. -/
def relAddText (o : Options) (ir : IR) : String :=
  condText ir.cond ++ "add\tpc, #4*(" ++
    operandText o ir.dst false OperandEffect.OPEFFECT_NONE ++ " - ($+1))\n"

/-- The relative backward jump `sub pc, #4*(($+1) - <dst>)`. -/
def relSubText (o : Options) (ir : IR) : String :=
  condText ir.cond ++ "sub\tpc, #4*(($+1) - " ++
    operandText o ir.dst false OperandEffect.OPEFFECT_NONE ++ ")\n"

/-- The dispatcher form `rdlong pc,pc` followed by `long <dst>`, with
`fixup_number = n`. -/
def longJumpText (o : Options) (n : Int) (ir : IR) (dst : Operand) : String :=
  condText ir.cond ++ "rdlong\tpc,pc\n" ++ "\tlong\t" ++ valueText o n dst ++ "\n"

/-- The jump of a cached block, `jmp #LMM_FCACHE_START + (<dst> - <fcache>)`. -/
def fcacheJumpText (o : Options) (ir : IR) : String :=
  condText ir.cond ++ "jmp\t#LMM_FCACHE_START + (" ++
    operandText o ir.dst false OperandEffect.OPEFFECT_NONE ++ " - " ++
    operandText o ir.fcache false OperandEffect.OPEFFECT_NONE ++ ")\n"

/-- The `ret` line of an OPC_RET outside LMM mode: printed from the
descriptor when there is one (predicate, name, flag modifiers), else by the
final switch. -/
def retText (o : Options) (ir : IR) : String :=
  match ir.instr with
  | some _ => condText ir.cond ++ "ret" ++ flagsText o ir.flags ++ "\n"
  | none => "\t" ++ "ret\n"

/-- The name-or-value part of an immediate. -/
def immBody (reg : Operand) : String :=
  if reg.name ≠ "" then reg.name else fmtD (int32 reg.val)

/-- Bytes denoted by a directive: 4 for a relocation long, none for a debug
entry, 4 per long of a repeated long, the count of a repeated byte, the
number of values of a `byte` line. -/
def BlobLine.size : BlobLine → Nat
  | BlobLine.reloc _ => 4
  | BlobLine.debug _ => 0
  | BlobLine.longRun _ count => 4 * count
  | BlobLine.byteRun _ runlen => runlen
  | BlobLine.bytes vals => vals.length

/-- Total bytes denoted by a list of directives. -/
def blobSize : List BlobLine → Nat
  | [] => 0
  | l :: ls => l.size + blobSize ls

/-- The bytes an assembler lays down for a data directive: a repeated long
is `count` little-endian longs, a repeated byte `runlen` bytes, a `byte` line
its values; relocation longs and debug entries are skipped here. -/
def BlobLine.decode : BlobLine → List Nat
  | BlobLine.reloc _ => []
  | BlobLine.debug _ => []
  | BlobLine.longRun v count =>
    (List.replicate count [v % 256, v / 256 % 256, v / 65536 % 256, v / 16777216 % 256]).flatten
  | BlobLine.byteRun v runlen => List.replicate runlen v
  | BlobLine.bytes vals => vals

/-- The relocation array of a well-formed blob of `len` bytes: every entry is
an absolute long or a debug entry; offsets are sorted; an absolute long is
long-aligned, lies inside the data, and the entries after it start at or
after its end. -/
def RelocsOK (len : Nat) : List Reloc → Prop
  | [] => True
  | r :: rs =>
    (r.kind = RelocKind.RELOC_KIND_LONG ∨ r.kind = RelocKind.RELOC_KIND_DEBUG) ∧
    0 ≤ r.off ∧ r.off ≤ len ∧
    (r.kind = RelocKind.RELOC_KIND_LONG → r.off % 4 = 0 ∧ r.off + 4 ≤ len) ∧
    (∀ r' ∈ rs, r.off ≤ r'.off ∧ (r.kind = RelocKind.RELOC_KIND_LONG → r.off + 4 ≤ r'.off)) ∧
    RelocsOK len rs

/-- What every directive of a blob satisfies: a repeated directive covers
more than 4 bytes (a repeated long a multiple of 4, a repeated byte not), a
`byte` line lists at least 1 and at most 16 values. -/
def BlobLine.shapeOK : BlobLine → Prop
  | BlobLine.reloc _ => True
  | BlobLine.debug _ => True
  | BlobLine.longRun _ count => 4 < 4 * count
  | BlobLine.byteRun _ runlen => 4 < runlen ∧ runlen % 4 ≠ 0
  | BlobLine.bytes vals => 1 ≤ vals.length ∧ vals.length ≤ 16

/-! ## Concrete inputs used by the examples -/

/-- A stand-in for the external `IsHubDest` in the concrete examples: true
on hub labels and hub pointers. -/
def exIsHubDest : Option Operand → Bool
  | some op => op.kind = Operandkind.IMM_HUB_LABEL || op.kind = Operandkind.REG_HUBPTR
  | none => false

/-- A state in the DAT section with LMM mode on (after an OPC_HUBMODE). -/
def exLmmState : AsmState := { inDat := true, didOrg := true, lmmMode := true }

/-- A state in the DAT section with LMM mode off. -/
def exCogState : AsmState := { inDat := true, didOrg := true }

/-- A hub label. -/
def exHubLabel : Operand := { kind := Operandkind.IMM_HUB_LABEL, name := "L__0007" }

/-- A jump inside a cached block: the target is a label of the block, the
`fcache` pointer is the start label of the block. -/
def exFcacheJump : IR :=
  { opc := IROpcode.OPC_JUMP,
    dst := some { kind := Operandkind.IMM_COG_LABEL, name := "L__0002" },
    instr := some { name := "jmp", ops := InstrOps.SRC_OPERAND_ONLY },
    fcache := some { kind := Operandkind.IMM_HUB_LABEL, name := "L__0001" } }

/-- A call of a hub function under the predicate `if_e`. -/
def exHubCall : IR :=
  { opc := IROpcode.OPC_CALL, cond := IRCond.COND_EQ, dst := some exHubLabel,
    instr := some { name := "call", ops := InstrOps.CALL_OPERAND } }

/-- A jump to a hub label 5 instructions ahead. -/
def exHubJump : IR :=
  { opc := IROpcode.OPC_JUMP, dst := some exHubLabel,
    instr := some { name := "jmp", ops := InstrOps.SRC_OPERAND_ONLY },
    aux := some 25, addr := 20 }

/-- A return with its descriptor. -/
def exRet : IR :=
  { opc := IROpcode.OPC_RET, instr := some { name := "ret", ops := InstrOps.NO_OPERANDS } }

/-- The immediate -1, without a name. -/
def exNegImm : Operand := { kind := Operandkind.IMM_INT, name := "", val := -1 }

/-- The immediate $1F0. -/
def exSmallImm : Operand := { kind := Operandkind.IMM_INT, name := "", val := 496 }

/-! ## Blob properties: auxiliary definitions and concrete blobs -/

/-- The value of `bytesPending` when a round of the main loop reaches its
data part: the bytes left, cut at the next relocation. -/
def pendingBytes (len addr : Nat) : List Reloc → Int
  | [] => (len : Int) - addr
  | r :: _ => if (len : Int) - addr > r.off - addr then r.off - addr else (len : Int) - addr

/-- The repeated directive for a run of `runlen` bytes `lastdata`. -/
def runLine (lastdata runlen : Nat) : BlobLine :=
  if runlen % 4 = 0 then BlobLine.longRun lastdata (runlen / 4)
  else BlobLine.byteRun lastdata runlen

/-- The bytes all directives of a list denote, in order. -/
def blobDecode : List BlobLine → List Nat
  | [] => []
  | l :: ls => l.decode ++ blobDecode ls

/-- The blob of the relocation scenario: 12 bytes, one absolute long at
offset 4 with addend 8. -/
def exBlobData : List Nat := [1, 2, 3, 4, 0, 0, 0, 0, 9, 10, 11, 12]

/-- The relocation array of the scenario. -/
def exBlobRelocs : List Reloc := [{ kind := RelocKind.RELOC_KIND_LONG, off := 4, val := 8 }]

/-- Twenty bytes of value 1: a run that is a multiple of 4 long. -/
def exRunData : List Nat := List.replicate 20 1

/-- Three distinct bytes followed by a run of seventeen bytes of value 9. -/
def exMidRunData : List Nat := [1, 2, 3] ++ List.replicate 17 9

/-! ## Degraded (COGSPIN) output: concrete inputs -/

/-- The options of the degraded output mode on the older ISA. -/
def exCogspin : Options := { gl_output := OutputKind.OUTPUT_COGSPIN }

/-- The pseudo-instruction `CompileInlineAsm` builds for a cached block:
`src` is the start label and `dst` the end label, both hub labels. -/
def exFcacheLoad : IR :=
  { opc := IROpcode.OPC_FCACHE,
    dst := some { kind := Operandkind.IMM_HUB_LABEL, name := "L__0002" },
    src := some { kind := Operandkind.IMM_HUB_LABEL, name := "L__0001" } }

/-- A labeled blob with one absolute-long relocation. -/
def exLabeledBlob : IR :=
  { opc := IROpcode.OPC_LABELED_BLOB,
    dst := some { kind := Operandkind.IMM_HUB_LABEL, name := "blob" },
    src := some { kind := Operandkind.IMM_BINARY, name := "", data := exBlobData,
                  relocs := exBlobRelocs } }

/-- A long holding the address of a hub label. -/
def exHubLong : IR := { opc := IROpcode.OPC_LONG, dst := some exHubLabel }

/-- Whether the characters `pat` occur in `text` as a contiguous piece. -/
def occurs (pat : List Char) : List Char → Bool
  | [] => pat.isPrefixOf []
  | c :: cs => pat.isPrefixOf (c :: cs) || occurs pat cs

/-- Whether `pat` occurs in `text`. -/
def occursIn (pat text : String) : Bool := occurs pat.data text.data

/-! ## Repeated assembly, predicates and flag modifiers: auxiliary definitions -/

/-- Two successive calls of `IRAssemble` with the same arguments: the second
call finds the statics as the first one left them.  The result is the pair of
texts returned. -/
def IRAssembleTwice (o : Options) (IsHubDest : Option Operand → Bool) (list : List IR)
    (P : Option Module) (g : AsmState) : Option (String × String) :=
  match IRAssemble o IsHubDest list P g with
  | none => none
  | some s1 => (IRAssemble o IsHubDest list P s1).map (fun s2 => (s1.fb, s2.fb))

/-- The nine predicates of `IRCond`. -/
def ninePredicates : List IRCond :=
  [IRCond.COND_TRUE, IRCond.COND_EQ, IRCond.COND_NE, IRCond.COND_LT, IRCond.COND_GE,
   IRCond.COND_GT, IRCond.COND_LE, IRCond.COND_C, IRCond.COND_NC]

/-- The flag modifiers in the order they are written: `wcz` for WC and WZ
together on the newer ISA, otherwise `wc` then `wz`; then `nr`, or else `wr`. -/
def flagNames (o : Options) (f : IRFlags) : List String :=
  (if o.gl_p2 ∧ f.FLAG_WC ∧ f.FLAG_WZ then ["wcz"]
   else (if f.FLAG_WC then ["wc"] else []) ++ (if f.FLAG_WZ then ["wz"] else [])) ++
  (if f.FLAG_NR then ["nr"] else if f.FLAG_WR then ["wr"] else [])

/-- A list of modifiers as text: one space before the first, a comma before
each later one, nothing for the empty list. -/
def joinModifiers : List String → String
  | [] => ""
  | m :: ms => " " ++ m ++ String.join (ms.map (fun x => "," ++ x))

/-- The text of the operands that the descriptor block writes between the
instruction name and the flag modifiers. -/
def instrOperandsText (o : Options) (ir : IR) (instr : Instruction) : String :=
  match instr.ops with
  | InstrOps.NO_OPERANDS => ""
  | InstrOps.SRC_OPERAND_ONLY | InstrOps.DST_OPERAND_ONLY | InstrOps.CALL_OPERAND
  | InstrOps.P2_JUMP | InstrOps.P2_DST_CONST_OK =>
    "\t" ++ operandText o ir.dst true OperandEffect.OPEFFECT_NONE
  | _ =>
    "\t" ++ (if ir.opc = IROpcode.OPC_REPEAT then "@" else "") ++
      operandText o ir.dst false OperandEffect.OPEFFECT_NONE ++ ", " ++
      operandText o ir.src true ir.srceffect

/-- A hub jump 5 instructions ahead that carries the WC flag. -/
def exHubJumpWc : IR := { exHubJump with flags := { FLAG_WC := true } }

/-- The instruction `mov x, #1 wz`. -/
def exMovWz : IR :=
  { opc := IROpcode.OPC_MOV,
    dst := some { kind := Operandkind.REG_LOCAL, name := "x" },
    src := some { kind := Operandkind.IMM_INT, name := "", val := 1 },
    instr := some { name := "mov", ops := InstrOps.TWO_OPERANDS },
    flags := { FLAG_WZ := true } }

/-! ## The type engine (`frontends/types.c`): data model

The AST node of the C code is a record `kind, d, left, right`, where `d` is a
union holding an integer, an operator token or a string.  Types are AST nodes
too; the model keeps them apart in `Ty`.  The constructors of `ast.c` and the
type predicates of `expr.c` are not under `src/`; they are modelled by what
`types.c` relies on. -/

/-- Operator tokens: the character operators `+ - * / & | ^ < >` and the
`K_` tokens that `types.c` names; `K_OTHER` is any other token. -/
inductive Op
  | plus | minus | times | divide | bitand | bitor | bitxor | lt | gt
  | K_MODULUS | K_UNS_MOD | K_UNS_DIV | K_POWER | K_SHL | K_SHR | K_SAR
  | K_ZEROEXTEND | K_SIGNEXTEND
  | K_EQ | K_NE | K_LE | K_GE | K_LTU | K_GTU | K_LEU | K_GEU
  | K_NEGATE | K_ABS | K_SQRT
  | K_OTHER (k : Nat)
  deriving DecidableEq, Repr

/-- AST node kinds that `types.c` builds or tests; `AST_OTHER` is any other. -/
inductive ASTKind
  | AST_INTEGER | AST_FLOAT | AST_IDENTIFIER | AST_OPERATOR | AST_EXPRLIST | AST_FUNCCALL
  | AST_OTHER (k : Nat)
  deriving DecidableEq, Repr

/-- The union `d` of an AST node. -/
inductive ASTData
  | none
  | ival (v : Int)
  | op (o : Op)
  | str (s : String)
  deriving DecidableEq, Repr

/-- An AST pointer: null, or a node. -/
inductive AST
  | null
  | node (kind : ASTKind) (d : ASTData) (left right : AST)
  deriving DecidableEq, Repr

/-- The `left` field (null for the null pointer). -/
def AST.left : AST → AST
  | AST.null => AST.null
  | AST.node _ _ l _ => l

/-- The `right` field (null for the null pointer). -/
def AST.right : AST → AST
  | AST.null => AST.null
  | AST.node _ _ _ r => r

/-- The assignment `ast->left = x`. -/
def AST.setLeft (ast x : AST) : AST :=
  match ast with
  | AST.null => AST.null
  | AST.node k d _ r => AST.node k d x r

/-- The assignment `ast->right = x`. -/
def AST.setRight (ast x : AST) : AST :=
  match ast with
  | AST.null => AST.null
  | AST.node k d l _ => AST.node k d l x

/-- The assignment `ast->d.ival = op`. -/
def AST.setOp (ast : AST) (o : Op) : AST :=
  match ast with
  | AST.null => AST.null
  | AST.node k _ l r => AST.node k (ASTData.op o) l r

/-- The assignment `ast->kind = k`. -/
def AST.setKind (ast : AST) (k : ASTKind) : AST :=
  match ast with
  | AST.null => AST.null
  | AST.node _ d l r => AST.node k d l r

/-- Model of `AstInteger`. -/
def AstInteger (v : Int) : AST := AST.node ASTKind.AST_INTEGER (ASTData.ival v) AST.null AST.null

/-- Model of `AstFloat`; the payload is the bit pattern of the float. -/
def AstFloat (bits : Int) : AST := AST.node ASTKind.AST_FLOAT (ASTData.ival bits) AST.null AST.null

/-- Model of `AstIdentifier`. -/
def AstIdentifier (name : String) : AST :=
  AST.node ASTKind.AST_IDENTIFIER (ASTData.str name) AST.null AST.null

/-- Model of `AstOperator`. -/
def AstOperator (o : Op) (left right : AST) : AST :=
  AST.node ASTKind.AST_OPERATOR (ASTData.op o) left right

/-- Model of `NewAST`. -/
def NewAST (kind : ASTKind) (left right : AST) : AST := AST.node kind ASTData.none left right

/-- Model of `AddToList`: `newelem` goes to the end of the `right` chain. -/
def AddToList : AST → AST → AST
  | AST.null, newelem => newelem
  | AST.node k d l r, newelem => AST.node k d l (AddToList r newelem)

/-- Modelled from the spec: the type lattice of the type engine - signed and
unsigned integers and floats with their width in bytes, the generic width-4
sentinel, void, pointers, functions, const and volatile modifiers.  The type
predicates below (`expr.c`, not under `src/`) read a type through its
modifiers. -/
inductive Ty
  | AST_INTTYPE (size : Int)
  | AST_UNSIGNEDTYPE (size : Int)
  | AST_FLOATTYPE (size : Int)
  | AST_GENERICTYPE
  | AST_VOIDTYPE
  | AST_PTRTYPE (left : Ty)
  | AST_FUNCTYPE
  | AST_MODIFIER_CONST (left : Ty)
  | AST_MODIFIER_VOLATILE (left : Ty)
  | AST_OTHERTYPE (k : Nat)
  deriving DecidableEq, Repr

def LONG_SIZE : Int := 4
def LONG64_SIZE : Int := 8

def ast_type_long : Ty := Ty.AST_INTTYPE 4
def ast_type_unsigned_long : Ty := Ty.AST_UNSIGNEDTYPE 4
def ast_type_long64 : Ty := Ty.AST_INTTYPE 8
def ast_type_unsigned_long64 : Ty := Ty.AST_UNSIGNEDTYPE 8
def ast_type_float : Ty := Ty.AST_FLOATTYPE 4
def ast_type_float64 : Ty := Ty.AST_FLOATTYPE 8

/-- Modelled from the spec: `RemoveTypeModifiers`, the type under its const
and volatile modifiers. -/
def RemoveTypeModifiers : Ty → Ty
  | Ty.AST_MODIFIER_CONST t => RemoveTypeModifiers t
  | Ty.AST_MODIFIER_VOLATILE t => RemoveTypeModifiers t
  | t => t

/-- Modelled from the spec: `TypeSize`, the width in bytes; an untyped
(null) expression, the generic type and pointers are 4 bytes wide. -/
def TypeSize (typ : Option Ty) : Int :=
  match typ.map RemoveTypeModifiers with
  | some (Ty.AST_INTTYPE n) => n
  | some (Ty.AST_UNSIGNEDTYPE n) => n
  | some (Ty.AST_FLOATTYPE n) => n
  | _ => 4

/-- Modelled from the spec: `IsUnsignedType`. -/
def IsUnsignedType (typ : Option Ty) : Bool :=
  match typ.map RemoveTypeModifiers with
  | some (Ty.AST_UNSIGNEDTYPE _) => true
  | _ => false

/-- Modelled from the spec: `IsIntType`, a signed or unsigned integer type. -/
def IsIntType (typ : Option Ty) : Bool :=
  match typ.map RemoveTypeModifiers with
  | some (Ty.AST_INTTYPE _) => true
  | some (Ty.AST_UNSIGNEDTYPE _) => true
  | _ => false

/-- Modelled from the spec: `IsGenericType`. -/
def IsGenericType (typ : Option Ty) : Bool :=
  match typ.map RemoveTypeModifiers with
  | some Ty.AST_GENERICTYPE => true
  | _ => false

/-- Modelled from the spec: `IsIntOrGenericType`; an untyped expression
counts as an integer. -/
def IsIntOrGenericType (typ : Option Ty) : Bool :=
  typ = none || IsIntType typ || IsGenericType typ

/-- Modelled from the spec: `IsFloatType`. -/
def IsFloatType (typ : Option Ty) : Bool :=
  match typ.map RemoveTypeModifiers with
  | some (Ty.AST_FLOATTYPE _) => true
  | _ => false

/-- Modelled from the spec: `IsFloat64Type`, a float 8 bytes wide. -/
def IsFloat64Type (typ : Option Ty) : Bool := IsFloatType typ && TypeSize typ = 8

/-- Modelled from the spec: `IsInt64Type`, an integer 8 bytes wide. -/
def IsInt64Type (typ : Option Ty) : Bool := IsIntType typ && TypeSize typ = 8

/-- Modelled from the spec: `IsPointerType`. -/
def IsPointerType (typ : Option Ty) : Bool :=
  match typ.map RemoveTypeModifiers with
  | some (Ty.AST_PTRTYPE _) => true
  | _ => false

/-- Modelled from the spec: `IsFunctionType`. -/
def IsFunctionType (typ : Option Ty) : Bool :=
  match typ.map RemoveTypeModifiers with
  | some Ty.AST_FUNCTYPE => true
  | _ => false

/-- The `left` field of a type node: the base of a pointer, the type under a
modifier; nothing that is a type otherwise. -/
def Ty.left : Ty → Option Ty
  | Ty.AST_PTRTYPE t => some t
  | Ty.AST_MODIFIER_CONST t => some t
  | Ty.AST_MODIFIER_VOLATILE t => some t
  | _ => none

/-- The diagnostics of the type engine: `ERROR` and `WARNING` messages. -/
structure TState where
  errors : List String := []
  warnings : List String := []
  deriving DecidableEq, Repr

/-- Model of `ERROR(ast, msg)` in the type engine. -/
def TState.error (s : TState) (msg : String) : TState := { s with errors := s.errors ++ [msg] }

/-- Model of `WARNING(ast, msg)`. -/
def TState.warning (s : TState) (msg : String) : TState :=
  { s with warnings := s.warnings ++ [msg] }

/-- What `types.c` takes from the rest of the compiler: the option
`gl_fixedreal`, the constant `G_FIXPOINT`, whether the current function is in
a C dialect (`curfunc && IsCLang(curfunc->language)`), the constant evaluator
(`IsConstExpr`, `EvalConstExpr`, `FoldIfConst`), `ExprType`,
`CompatibleTypes`, the test `typ == ast_type_string`, and the two C
conversions between `int` and `float` bit patterns. -/
structure TypeEnv where
  gl_fixedreal : Bool
  G_FIXPOINT : Int
  inCLang : Bool
  IsConstExpr : AST → Bool
  EvalConstExpr : AST → Int
  FoldIfConst : AST → AST
  ExprType : AST → Option Ty
  CompatibleTypes : Option Ty → Option Ty → Bool
  isStringType : Ty → Bool
  intToFloat : Bool → Int → Int
  floatToInt : Int → Int

/-- The helper handles of `types.c` (file-level `AST *` variables); `AST.null`
is the null pointer, their initial value. -/
structure Globals where
  basic_get_float : AST := AST.null
  basic_get_string : AST := AST.null
  basic_get_integer : AST := AST.null
  basic_read_line : AST := AST.null
  basic_print_float : AST := AST.null
  basic_print_string : AST := AST.null
  basic_print_integer : AST := AST.null
  basic_print_unsigned : AST := AST.null
  basic_print_longinteger : AST := AST.null
  basic_print_longunsigned : AST := AST.null
  basic_print_char : AST := AST.null
  basic_print_nl : AST := AST.null
  basic_put : AST := AST.null
  basic_lock_io : AST := AST.null
  basic_unlock_io : AST := AST.null
  float_add : AST := AST.null
  float_sub : AST := AST.null
  float_mul : AST := AST.null
  float_div : AST := AST.null
  float_cmp : AST := AST.null
  float_fromuns : AST := AST.null
  float_fromint : AST := AST.null
  float_toint : AST := AST.null
  float_todouble : AST := AST.null
  float_abs : AST := AST.null
  float_sqrt : AST := AST.null
  float_neg : AST := AST.null
  float_pow_n : AST := AST.null
  float_powf : AST := AST.null
  double_add : AST := AST.null
  double_sub : AST := AST.null
  double_mul : AST := AST.null
  double_div : AST := AST.null
  double_cmp : AST := AST.null
  double_fromuns : AST := AST.null
  double_fromint : AST := AST.null
  double_toint : AST := AST.null
  double_abs : AST := AST.null
  double_sqrt : AST := AST.null
  double_neg : AST := AST.null
  double_powf : AST := AST.null
  int64_add : AST := AST.null
  int64_sub : AST := AST.null
  int64_muls : AST := AST.null
  int64_mulu : AST := AST.null
  int64_divs : AST := AST.null
  int64_divu : AST := AST.null
  int64_mods : AST := AST.null
  int64_modu : AST := AST.null
  int64_neg : AST := AST.null
  int64_cmpu : AST := AST.null
  int64_cmps : AST := AST.null
  int64_shl : AST := AST.null
  int64_shr : AST := AST.null
  int64_sar : AST := AST.null
  int64_and : AST := AST.null
  int64_or : AST := AST.null
  int64_xor : AST := AST.null
  int64_signx : AST := AST.null
  int64_zerox : AST := AST.null
  struct_copy : AST := AST.null
  string_cmp : AST := AST.null
  string_concat : AST := AST.null
  gc_alloc_managed : AST := AST.null
  gc_free : AST := AST.null
  funcptr_cmp : AST := AST.null
  deriving DecidableEq, Repr

/-- Model of `getBasicPrimitive`. -/
def getBasicPrimitive (name : String) : AST := AstIdentifier name

/-- Model of `InitGlobalFuncs`: the assignments in source order. -/
def InitGlobalFuncs (gl_fixedreal : Bool) (g : Globals) : Globals :=
  if g.basic_print_integer = AST.null then
    let g := { g with
      basic_print_float := getBasicPrimitive "_basic_print_float",
      float_pow_n := getBasicPrimitive "_float_pow_n",
      float_powf := getBasicPrimitive "__builtin_powf",
      basic_get_float := getBasicPrimitive "_basic_get_float" }
    let g :=
      if gl_fixedreal then
        { g with
          float_mul := getBasicPrimitive "_fixed_mul",
          float_div := getBasicPrimitive "_fixed_div" }
      else
        { g with
          float_cmp := getBasicPrimitive "_float_cmp",
          float_add := getBasicPrimitive "_float_add",
          float_sub := getBasicPrimitive "_float_sub",
          float_mul := getBasicPrimitive "_float_mul",
          float_div := getBasicPrimitive "_float_div",
          float_fromuns := getBasicPrimitive "_float_fromuns",
          float_fromint := getBasicPrimitive "_float_fromint",
          float_toint := getBasicPrimitive "_float_trunc",
          float_todouble := getBasicPrimitive "_double_fromfloat",
          float_abs := getBasicPrimitive "_float_abs",
          float_sqrt := getBasicPrimitive "_float_sqrt",
          float_neg := getBasicPrimitive "_float_negate" }
    { g with
      int64_add := getBasicPrimitive "_int64_add",
      int64_sub := getBasicPrimitive "_int64_sub",
      int64_muls := getBasicPrimitive "_int64_muls",
      int64_mulu := getBasicPrimitive "_int64_mulu",
      int64_divs := getBasicPrimitive "_int64_divs",
      int64_divu := getBasicPrimitive "_int64_divu",
      int64_mods := getBasicPrimitive "_int64_mods",
      int64_modu := getBasicPrimitive "_int64_modu",
      int64_neg := getBasicPrimitive "_int64_neg",
      int64_cmps := getBasicPrimitive "_int64_cmps",
      int64_cmpu := getBasicPrimitive "_int64_cmpu",
      int64_shl := getBasicPrimitive "_int64_shl",
      int64_shr := getBasicPrimitive "_int64_shr",
      int64_sar := getBasicPrimitive "_int64_sar",
      int64_and := getBasicPrimitive "_int64_and",
      int64_or := getBasicPrimitive "_int64_or",
      int64_xor := getBasicPrimitive "_int64_xor",
      int64_signx := getBasicPrimitive "_int64_signx",
      int64_zerox := getBasicPrimitive "_int64_zerox",
      double_add := getBasicPrimitive "_double_add",
      double_sub := getBasicPrimitive "_double_sub",
      double_mul := getBasicPrimitive "_double_mul",
      double_div := getBasicPrimitive "_double_div",
      double_neg := getBasicPrimitive "_double_neg",
      double_sqrt := getBasicPrimitive "_double_sqrt",
      double_powf := getBasicPrimitive "_double_pow",
      double_cmp := getBasicPrimitive "_double_cmp",
      basic_get_integer := getBasicPrimitive "_basic_get_integer",
      basic_get_string := getBasicPrimitive "_basic_get_string",
      basic_read_line := getBasicPrimitive "_basic_read_line",
      basic_print_integer := getBasicPrimitive "_basic_print_integer",
      basic_print_unsigned := getBasicPrimitive "_basic_print_unsigned",
      basic_print_longinteger := getBasicPrimitive "_basic_print_longinteger",
      basic_print_longunsigned := getBasicPrimitive "_basic_print_longunsigned",
      basic_print_string := getBasicPrimitive "_basic_print_string",
      basic_print_char := getBasicPrimitive "_basic_print_char",
      basic_print_nl := getBasicPrimitive "_basic_print_nl",
      basic_put := getBasicPrimitive "_basic_put",
      basic_lock_io := getBasicPrimitive "__lockio",
      basic_unlock_io := getBasicPrimitive "__unlockio",
      struct_copy := getBasicPrimitive "bytemove",
      string_cmp := getBasicPrimitive "_string_cmp",
      string_concat := getBasicPrimitive "_string_concat",
      gc_alloc_managed := getBasicPrimitive "_gc_alloc_managed",
      gc_free := getBasicPrimitive "_gc_free",
      funcptr_cmp := getBasicPrimitive "_funcptr_cmp" }
  else g

/-! ## The type engine: coercion helpers -/

/-- Model of `VerifyIntegerType`: the verdict and the diagnostics. -/
def VerifyIntegerType (typ : Option Ty) (opname : String) (s : TState) : Bool × TState :=
  if typ = none then (true, s)
  else if IsIntType typ then (true, s)
  -- for now, accept generic types too as if they were integer
  else if IsGenericType typ then (true, s)
  else (false, s.error ("Expected integer type for parameter of " ++ opname))

/-- Model of `MakeOperatorCall`: a call of `func` with the non-null ones of
`left`, `right`, `extraArg` as parameters; a null `func` is an error and
gives the integer 0. -/
def MakeOperatorCall (func left right extraArg : AST) (s : TState) : AST × TState :=
  if func = AST.null then (AstInteger 0, s.error "Internal error, NULL parameter")
  else
    let params := AST.null
    let params :=
      if left ≠ AST.null then AddToList params (NewAST ASTKind.AST_EXPRLIST left AST.null)
      else params
    let params :=
      if right ≠ AST.null then AddToList params (NewAST ASTKind.AST_EXPRLIST right AST.null)
      else params
    let params :=
      if extraArg ≠ AST.null then AddToList params (NewAST ASTKind.AST_EXPRLIST extraArg AST.null)
      else params
    (NewAST ASTKind.AST_FUNCCALL func params, s)

/-- Model of `dopromote`: a promotion when the size of the original type is
known. -/
def dopromote (g : Globals) (expr : AST) (srcbytes destbytes : Int) (operatr : Op)
    (s : TState) : AST × TState :=
  let shiftbits := srcbytes * 8
  if shiftbits = 32 ∧ destbytes < 8 then (expr, s) -- nothing to do
  else
    let promote := AstOperator operatr expr (AstInteger shiftbits)
    if destbytes = 8 then
      -- "promote" holds a 4 byte value, convert it to an 8 byte value
      let convfunc := if operatr = Op.K_ZEROEXTEND then g.int64_zerox else g.int64_signx
      MakeOperatorCall convfunc promote AST.null AST.null s
    else (promote, s)

/-- Model of `forcepromote`: promotion of a small integer to 32 bits. -/
def forcepromote (g : Globals) (type : Option Ty) (expr : AST) (s : TState) : AST × TState :=
  if type = none then (expr, s)
  else
    let s :=
      if ¬ IsIntType type ∧ ¬ IsGenericType type then s.error "internal error in forcepromote"
      else s
    let tsize := TypeSize type
    let op := if IsUnsignedType type then Op.K_ZEROEXTEND else Op.K_SIGNEXTEND
    if tsize < LONG_SIZE then dopromote g expr tsize LONG_SIZE op s
    else (expr, s)

/-- Model of `forcepromote64`: promotion of a small integer to 64 bits. -/
def forcepromote64 (g : Globals) (type : Option Ty) (expr : AST) (s : TState) : AST × TState :=
  if type = none then (expr, s)
  else
    let s :=
      if ¬ IsIntType type ∧ ¬ IsGenericType type then s.error "internal error in forcepromote"
      else s
    let tsize := TypeSize type
    let op := if IsUnsignedType type then Op.K_ZEROEXTEND else Op.K_SIGNEXTEND
    if tsize < LONG64_SIZE then dopromote g expr tsize LONG64_SIZE op s
    else (expr, s)

/-- Model of `MatchIntegerTypes`: the node with its operands promoted, the
final type, the diagnostics. -/
def MatchIntegerTypes (g : Globals) (ast : AST) (lefttype righttype : Option Ty)
    (force : Bool) (s : TState) : AST × Option Ty × TState :=
  let lsize := TypeSize lefttype
  let rsize := TypeSize righttype
  let rettype := lefttype
  let leftunsigned := IsUnsignedType lefttype
  let rightunsigned := IsUnsignedType righttype
  let force := force || decide (lsize ≠ rsize)
  let wide := decide (lsize > LONG_SIZE ∨ rsize > LONG_SIZE)
  let finalsize := if wide then LONG64_SIZE else LONG_SIZE
  let ulong_type := if wide then ast_type_unsigned_long64 else ast_type_unsigned_long
  let long_type := if wide then ast_type_long64 else ast_type_long
  let (ast, lefttype, rettype, s) :=
    if lsize < finalsize ∧ force then
      if leftunsigned then
        let r := dopromote g ast.left lsize finalsize Op.K_ZEROEXTEND s
        (ast.setLeft r.1, some ulong_type, righttype, r.2)
      else
        let r := dopromote g ast.left lsize finalsize Op.K_SIGNEXTEND s
        (ast.setLeft r.1, some long_type, righttype, r.2)
    else (ast, lefttype, rettype, s)
  let (ast, rettype, s) :=
    if rsize < finalsize ∧ force then
      if rightunsigned then
        let r := dopromote g ast.right rsize finalsize Op.K_ZEROEXTEND s
        (ast.setRight r.1, lefttype, r.2)
      else
        let r := dopromote g ast.right rsize finalsize Op.K_SIGNEXTEND s
        (ast.setRight r.1, lefttype, r.2)
    else (ast, rettype, s)
  if leftunsigned ∨ rightunsigned then (ast, rettype, s)
  else (ast, some long_type, s)

/-- Model of `domakedouble`. -/
def domakedouble (e : TypeEnv) (g : Globals) (typ : Option Ty) (ast : AST) (s : TState) :
    AST × TState :=
  if ast = AST.null then (ast, s)
  else if IsGenericType typ then (ast, s)
  else if e.gl_fixedreal then
    (e.FoldIfConst (AstOperator Op.K_SHL ast (AstInteger e.G_FIXPOINT)), s)
  else if ¬ IsIntOrGenericType typ then (ast, s.error "Unable to cast this type to float")
  else
    let r := forcepromote g typ ast s
    if IsUnsignedType typ then MakeOperatorCall g.double_fromuns r.1 AST.null AST.null r.2
    else MakeOperatorCall g.double_fromint r.1 AST.null AST.null r.2

/-- Model of `domakefloat`. -/
def domakefloat (e : TypeEnv) (g : Globals) (typ : Option Ty) (ast : AST) (s : TState) :
    AST × TState :=
  if ast = AST.null then (ast, s)
  else if IsGenericType typ then (ast, s)
  else if e.gl_fixedreal then
    (e.FoldIfConst (AstOperator Op.K_SHL ast (AstInteger e.G_FIXPOINT)), s)
  else if ¬ IsIntOrGenericType typ then (ast, s.error "Unable to cast this type to float")
  else
    let r := forcepromote g typ ast s
    if e.IsConstExpr r.1 then
      -- FIXME: assumes 32 bit floats only
      let x := e.EvalConstExpr r.1
      (AstFloat (e.intToFloat (IsUnsignedType typ) x), r.2)
    else if IsUnsignedType typ then MakeOperatorCall g.float_fromuns r.1 AST.null AST.null r.2
    else MakeOperatorCall g.float_fromint r.1 AST.null AST.null r.2

/-- Model of `dofloatToInt`. -/
def dofloatToInt (e : TypeEnv) (g : Globals) (ast : AST) (typ : Option Ty) (s : TState) :
    AST × TState :=
  if e.gl_fixedreal then (AstOperator Op.K_SAR ast (AstInteger e.G_FIXPOINT), s)
  else if IsFloat64Type typ then MakeOperatorCall g.double_toint ast AST.null AST.null s
  else if e.IsConstExpr ast then (AstInteger (e.floatToInt (e.EvalConstExpr ast)), s)
  else MakeOperatorCall g.float_toint ast AST.null AST.null s

/-- Model of `dofloatToDouble`. -/
def dofloatToDouble (e : TypeEnv) (g : Globals) (ast : AST) (typ : Option Ty) (s : TState) :
    AST × TState :=
  if e.gl_fixedreal then (AstOperator Op.K_SAR ast (AstInteger e.G_FIXPOINT), s)
  else if IsFloat64Type typ then (ast, s)
  else MakeOperatorCall g.float_todouble ast AST.null AST.null s

/-- Model of `MakeBothIntegers`: the verdict, the node with float operands
converted, the diagnostics.  The second check is skipped when the first
fails (`&&`). -/
def MakeBothIntegers (e : TypeEnv) (g : Globals) (ast : AST) (ltyp rtyp : Option Ty)
    (opname : String) (s : TState) : Bool × AST × TState :=
  let (ast, ltyp, s) :=
    if IsFloatType ltyp then
      let r := dofloatToInt e g ast.left ltyp s
      (ast.setLeft r.1, some ast_type_long, r.2)
    else (ast, ltyp, s)
  let (ast, rtyp, s) :=
    if IsFloatType rtyp then
      let r := dofloatToInt e g ast.right rtyp s
      (ast.setRight r.1, some ast_type_long, r.2)
    else (ast, rtyp, s)
  let v1 := VerifyIntegerType ltyp opname s
  if v1.1 then
    let v2 := VerifyIntegerType rtyp opname v1.2
    (v2.1, ast, v2.2)
  else (false, ast, v1.2)

/-! ## The type engine: `HandleTwoNumerics` and `CompileComparison` -/

/-- The local variables of `HandleTwoNumerics`. -/
structure HTN where
  ast : AST
  lefttype : Option Ty
  righttype : Option Ty
  isfloat : Bool := false
  isfloat64 : Bool := false
  isalreadyfixed : Bool := false
  scale : AST := AST.null
  s : TState
  deriving DecidableEq, Repr

def DEFAULT_FLOAT_TYPE : Ty := ast_type_float

/-- The block `if (op == K_MODULUS) { ... }` of `HandleTwoNumerics`: the MOD
operator converts float operands to integer. -/
def htnModulus (e : TypeEnv) (g : Globals) (op : Op) (v : HTN) : HTN :=
  if op = Op.K_MODULUS then
    let v :=
      if IsFloatType v.lefttype then
        let r := dofloatToInt e g v.ast.left v.lefttype v.s
        { v with ast := v.ast.setLeft r.1, lefttype := some ast_type_long, s := r.2 }
      else v
    if IsFloatType v.righttype then
      let r := dofloatToInt e g v.ast.right v.righttype v.s
      { v with ast := v.ast.setRight r.1, righttype := some ast_type_long, s := r.2 }
    else v
  else v

/-- The block `if (IsFloatType(lefttype)) { ... } else if
(IsFloatType(righttype)) { ... } else { ... }` of `HandleTwoNumerics`. -/
def htnConvert (e : TypeEnv) (g : Globals) (op : Op) (v : HTN) : HTN :=
  if IsFloatType v.lefttype then
    let v := { v with isfloat := true, isfloat64 := IsFloat64Type v.lefttype }
    if ¬ IsFloatType v.righttype then
      if e.gl_fixedreal ∧ (op = Op.times ∨ op = Op.divide) then
        -- no need for fixed point mul, just do regular mul
        let v := { v with isalreadyfixed := true }
        -- fixed / int requires no scale
        let v := if op = Op.divide then { v with scale := AstInteger 0 } else v
        { v with righttype := some DEFAULT_FLOAT_TYPE }
      else
        let r :=
          if v.isfloat64 then domakedouble e g v.righttype v.ast.right v.s
          else domakefloat e g v.righttype v.ast.right v.s
        let ast := v.ast.setRight r.1
        { v with ast := ast, righttype := e.ExprType ast.right, s := r.2 }
    else if v.isfloat64 then
      -- promote left to float64
      let r := dofloatToDouble e g v.ast.left v.lefttype v.s
      { v with ast := v.ast.setLeft r.1, lefttype := some ast_type_float64, isfloat64 := true,
               s := r.2 }
    else v
  else if IsFloatType v.righttype then
    let v := { v with isfloat := true }
    if e.gl_fixedreal ∧ (op = Op.times ∨ op = Op.divide) then
      -- no need for fixed point mul, regular mul works
      let v := { v with isalreadyfixed := true }
      -- int / fixed requires additional scaling
      let v := if op = Op.divide then { v with scale := AstInteger (2 * e.G_FIXPOINT) } else v
      { v with lefttype := some DEFAULT_FLOAT_TYPE }
    else
      let v :=
        if IsFloat64Type v.righttype then
          let r := domakedouble e g v.lefttype v.ast.left v.s
          { v with isfloat64 := true, ast := v.ast.setLeft r.1, s := r.2 }
        else
          let r := domakefloat e g v.lefttype v.ast.left v.s
          { v with ast := v.ast.setLeft r.1, s := r.2 }
      { v with lefttype := e.ExprType v.ast.left }
  else
    -- for exponentiation both sides need to be floats
    if op = Op.K_POWER then
      let rl := domakefloat e g v.lefttype v.ast.left v.s
      let ast := v.ast.setLeft rl.1
      let rr := domakefloat e g v.righttype ast.right rl.2
      let ast := ast.setRight rr.1
      { v with isfloat := true, ast := ast, lefttype := e.ExprType ast.left,
               righttype := e.ExprType ast.right, s := rr.2 }
    -- in C we need to promote both sides to long
    else if e.inCLang then
      let v :=
        if v.lefttype ≠ none then
          let leftsize := TypeSize v.lefttype
          if leftsize < 4 then
            let operatr := if IsUnsignedType v.lefttype then Op.K_ZEROEXTEND else Op.K_SIGNEXTEND
            let r := dopromote g v.ast.left leftsize LONG_SIZE operatr v.s
            { v with ast := v.ast.setLeft r.1, lefttype := some ast_type_long, s := r.2 }
          else v
        else v
      if v.righttype ≠ none then
        let rightsize := TypeSize v.righttype
        if rightsize < 4 then
          let operatr := if IsUnsignedType v.righttype then Op.K_ZEROEXTEND else Op.K_SIGNEXTEND
          let r := dopromote g v.ast.right rightsize LONG_SIZE operatr v.s
          { v with ast := v.ast.setRight r.1, righttype := some ast_type_long, s := r.2 }
        else v
      else v
    else v

/-- The block `if (isfloat) { switch (op) ... return ast_type_float; }` of
`HandleTwoNumerics`. -/
def htnFloatOp (e : TypeEnv) (g : Globals) (op : Op) (v : HTN) : AST × Option Ty × TState :=
  let r : AST × TState :=
    match op with
    | Op.plus =>
      if ¬ e.gl_fixedreal then
        MakeOperatorCall (if v.isfloat64 then g.double_add else g.float_add)
          v.ast.left v.ast.right AST.null v.s
      else (v.ast, v.s)
    | Op.minus =>
      if ¬ e.gl_fixedreal then
        MakeOperatorCall (if v.isfloat64 then g.double_sub else g.float_sub)
          v.ast.left v.ast.right AST.null v.s
      else (v.ast, v.s)
    | Op.times =>
      if ¬ v.isalreadyfixed then
        MakeOperatorCall (if v.isfloat64 then g.double_mul else g.float_mul)
          v.ast.left v.ast.right AST.null v.s
      else (v.ast, v.s)
    | Op.divide =>
      let scale :=
        if e.gl_fixedreal then
          if ¬ v.isalreadyfixed then AstInteger e.G_FIXPOINT else v.scale
        else v.scale
      MakeOperatorCall (if v.isfloat64 then g.double_div else g.float_div)
        v.ast.left v.ast.right scale v.s
    | Op.K_POWER =>
      MakeOperatorCall (if v.isfloat64 then g.double_powf else g.float_powf)
        v.ast.left v.ast.right AST.null v.s
    | _ => (v.ast, v.s.error "internal error unhandled operator")
  (r.1, some ast_type_float, r.2)

/-- The helper of the `switch (op)` for 64 bit integers; null for an
operator the switch does not list. -/
def int64Helper (g : Globals) : Op → AST
  | Op.plus => g.int64_add
  | Op.minus => g.int64_sub
  | Op.times => g.int64_muls
  | Op.divide => g.int64_divs
  | Op.K_UNS_DIV => g.int64_divu
  | Op.K_MODULUS => g.int64_mods
  | Op.K_UNS_MOD => g.int64_modu
  | Op.bitand => g.int64_and
  | Op.bitor => g.int64_or
  | Op.bitxor => g.int64_xor
  | Op.K_SAR => g.int64_sar
  | Op.K_SHR => g.int64_shr
  | Op.K_SHL => g.int64_shl
  | _ => AST.null

/-- Whether the `switch (op)` for 64 bit integers has a case for `op`. -/
def int64Listed : Op → Bool
  | Op.plus | Op.minus | Op.times | Op.divide | Op.K_UNS_DIV | Op.K_MODULUS | Op.K_UNS_MOD
  | Op.bitand | Op.bitor | Op.bitxor | Op.K_SAR | Op.K_SHR | Op.K_SHL => true
  | _ => false

/-- The integer part of `HandleTwoNumerics`, from the call of
`MakeBothIntegers` to the end. -/
def htnIntOp (e : TypeEnv) (g : Globals) (op : Op) (v : HTN) : AST × Option Ty × TState :=
  let b := MakeBothIntegers e g v.ast v.lefttype v.righttype "operator" v.s
  if ¬ b.1 then (b.2.1, none, b.2.2)
  else
    let m := MatchIntegerTypes g b.2.1 v.lefttype v.righttype false b.2.2
    let ast := m.1
    let lefttype := m.2.1
    let s := m.2.2
    let (ast, op) :=
      if IsUnsignedType lefttype then
        if op = Op.K_MODULUS then (ast.setOp Op.K_UNS_MOD, Op.K_UNS_MOD)
        else if op = Op.divide then (ast.setOp Op.K_UNS_DIV, Op.K_UNS_DIV)
        else (ast, op)
      else (ast, op)
    if IsInt64Type lefttype then
      if int64Listed op then
        let r := MakeOperatorCall (int64Helper g op) ast.left ast.right AST.null s
        (r.1, lefttype, r.2)
      else
        (ast, lefttype,
          s.error "Compiler is incomplete: unable to handle this 64 bit expression")
    else (ast, lefttype, s)

/-- Model of `HandleTwoNumerics`: the rewritten node (the C code overwrites
`*ast`), the type returned, the diagnostics.  The test
`lefttype == righttype` compares pointers in C; the model compares the types. -/
def HandleTwoNumerics (e : TypeEnv) (g : Globals) (op : Op) (ast : AST)
    (lefttype righttype : Option Ty) (s : TState) : AST × Option Ty × TState :=
  let v : HTN := { ast := ast, lefttype := lefttype, righttype := righttype, s := s }
  let v := htnModulus e g op v
  let v := htnConvert e g op v
  if v.lefttype = v.righttype ∧ e.IsConstExpr v.ast then
    let newast := e.FoldIfConst v.ast
    let ast := if IsFloatType v.lefttype then newast.setKind ASTKind.AST_FLOAT else newast
    (ast, v.lefttype, v.s)
  else if v.isfloat then htnFloatOp e g op v
  else htnIntOp e g op v

/-- Model of `IsUnsignedConst`. -/
def IsUnsignedConst (e : TypeEnv) (ast : AST) : Bool :=
  if ¬ e.IsConstExpr ast then false
  else if e.EvalConstExpr ast < 0 then false
  else true

/-- The part of `IsBasicString` after the null test: the string type itself,
or a const or volatile modifier over a type that passes. -/
def isBasicStringTy (e : TypeEnv) : Ty → Bool
  | Ty.AST_MODIFIER_CONST l => e.isStringType (Ty.AST_MODIFIER_CONST l) || isBasicStringTy e l
  | Ty.AST_MODIFIER_VOLATILE l =>
    e.isStringType (Ty.AST_MODIFIER_VOLATILE l) || isBasicStringTy e l
  | t => e.isStringType t

/-- Model of `IsBasicString`. -/
def IsBasicString (e : TypeEnv) : Option Ty → Bool
  | none => false
  | some t => isBasicStringTy e t

/-- Model of `UnorderedResult`: a result for unordered comparisons. -/
def UnorderedResult : Op → Int
  | Op.gt => -1
  | Op.K_GE => -1
  | _ => 1

/-- The unsigned variant that `CompileComparison` stores for an operator
(`switch (op)` in the mixed-sign part); the operator itself when the switch
has no case for it. -/
def unsignedCompare : Op → Op
  | Op.lt => Op.K_LTU
  | Op.gt => Op.K_GTU
  | Op.K_LE => Op.K_LEU
  | Op.K_GE => Op.K_GEU
  | o => o

/-- The last part of `CompileComparison` ("handle unsigned/signed
comparisons here"). -/
def compareSigns (e : TypeEnv) (g : Globals) (op : Op) (ast : AST)
    (lefttype righttype : Option Ty) (isint64 leftUnsigned rightUnsigned : Bool) (s : TState) :
    AST × TState :=
  if isint64 then
    let r :=
      if leftUnsigned ∨ rightUnsigned then
        MakeOperatorCall g.int64_cmpu ast.left ast.right AST.null s
      else MakeOperatorCall g.int64_cmps ast.left ast.right AST.null s
    ((ast.setLeft r.1).setRight (AstInteger 0), r.2)
  else if leftUnsigned ∨ rightUnsigned then
    if (leftUnsigned ∧ (rightUnsigned ∨ IsUnsignedConst e ast.right)) ∨
       (rightUnsigned ∧ IsUnsignedConst e ast.left) then
      match op with
      | Op.lt => (ast.setOp Op.K_LTU, s)
      | Op.gt => (ast.setOp Op.K_GTU, s)
      | Op.K_LE => (ast.setOp Op.K_LEU, s)
      | Op.K_GE => (ast.setOp Op.K_GEU, s)
      | _ => (ast, s)
    else
      -- cannot do unsigned comparison
      -- signed comparison will work if the sizes are < 32 bits
      let lsize := TypeSize lefttype
      let rsize := TypeSize righttype
      if lsize = 4 ∧ rsize = 4 ∧ op ≠ Op.K_EQ ∧ op ≠ Op.K_NE then
        (ast, s.warning "signed/unsigned comparison may not work properly")
      else (ast, s)
  else (ast, s)

/-- Model of `CompileComparison`: the rewritten node and the diagnostics. -/
def CompileComparison (e : TypeEnv) (g : Globals) (op : Op) (ast : AST)
    (lefttype righttype : Option Ty) (s : TState) : AST × TState :=
  let (ast, isfloat, s) :=
    if IsFloatType lefttype then
      if ¬ IsFloatType righttype then
        let r := domakefloat e g righttype ast.right s
        (ast.setRight r.1, true, r.2)
      else (ast, true, s)
    else if IsFloatType righttype then
      let r := domakefloat e g lefttype ast.left s
      (ast.setLeft r.1, true, r.2)
    else (ast, false, s)
  if isfloat then
    if e.gl_fixedreal then (ast, s) -- we're good
    else
      let r := MakeOperatorCall g.float_cmp ast.left ast.right (AstInteger (UnorderedResult op)) s
      ((ast.setLeft r.1).setRight (AstInteger 0), r.2)
  -- allow for string comparison
  else if IsBasicString e lefttype ∨ IsBasicString e righttype then
    if ¬ e.CompatibleTypes lefttype righttype then (ast, s.error "illegal comparison with string")
    else
      let r := MakeOperatorCall g.string_cmp ast.left ast.right AST.null s
      ((ast.setLeft r.1).setRight (AstInteger 0), r.2)
  else if IsPointerType lefttype ∨ IsPointerType righttype then
    if IsFunctionType (lefttype.bind Ty.left) ∨ IsFunctionType (righttype.bind Ty.left) then
      let r := MakeOperatorCall g.funcptr_cmp ast.left ast.right AST.null s
      ((ast.setLeft r.1).setRight (AstInteger 0), r.2)
    else compareSigns e g op ast lefttype righttype false false false s
  else
    let b := MakeBothIntegers e g ast lefttype righttype "comparison" s
    if ¬ b.1 then (b.2.1, b.2.2)
    else
      let ast := b.2.1
      let s := b.2.2
      -- need to widen the types
      let isint64 := IsInt64Type lefttype || IsInt64Type righttype
      let rl :=
        if isint64 then forcepromote64 g lefttype ast.left s
        else forcepromote g lefttype ast.left s
      let ast := ast.setLeft rl.1
      let rr :=
        if isint64 then forcepromote64 g righttype ast.right rl.2
        else forcepromote g righttype ast.right rl.2
      let ast := ast.setRight rr.1
      compareSigns e g op ast lefttype righttype isint64 (IsUnsignedType lefttype)
        (IsUnsignedType righttype) rr.2

/-! ## The type engine: definitions used to state the properties -/

/-- The signed (`u = false`) or unsigned integer type of width `n`. -/
def intTy (n : Int) (u : Bool) : Ty := if u then Ty.AST_UNSIGNEDTYPE n else Ty.AST_INTTYPE n

/-- The integer widths of the type lattice. -/
def intWidths : List Int := [1, 2, 4, 8]

/-- The extension operator for an operand of type `t`: zero-extension for an
unsigned type, sign-extension otherwise. -/
def extendOp (t : Option Ty) : Op :=
  if IsUnsignedType t then Op.K_ZEROEXTEND else Op.K_SIGNEXTEND

/-- The operand `x` of type `t` under its extension operator, from the width
of `t` in bits. -/
def extended (t : Option Ty) (x : AST) : AST :=
  AstOperator (extendOp t) x (AstInteger (TypeSize t * 8))

/-- A call of `func` with the given one argument. -/
def call1 (func a : AST) : AST :=
  NewAST ASTKind.AST_FUNCCALL func (NewAST ASTKind.AST_EXPRLIST a AST.null)

/-- A call of `func` with the given two arguments. -/
def call2 (func a b : AST) : AST :=
  NewAST ASTKind.AST_FUNCCALL func
    (NewAST ASTKind.AST_EXPRLIST a (NewAST ASTKind.AST_EXPRLIST b AST.null))

/-- A call of `func` with the given three arguments. -/
def call3 (func a b c : AST) : AST :=
  NewAST ASTKind.AST_FUNCCALL func
    (NewAST ASTKind.AST_EXPRLIST a
      (NewAST ASTKind.AST_EXPRLIST b (NewAST ASTKind.AST_EXPRLIST c AST.null)))

/-- The operand `x` of type `t` widened to `final` bytes: the extension
operator, and for 8 bytes the helper `int64_zerox` or `int64_signx` around it. -/
def widened (g : Globals) (t : Option Ty) (final : Int) (x : AST) : AST :=
  if final = 8 then
    call1 (if IsUnsignedType t then g.int64_zerox else g.int64_signx) (extended t x)
  else extended t x

/-- The common width max(l, r, 4). -/
def commonWidth (l r : Int) : Int := max l (max r 4)

/-- The type of an operand after the C-dialect promotion of
`HandleTwoNumerics`: in a C function a type narrower than 4 bytes becomes the
signed long. -/
def cType (e : TypeEnv) (t : Option Ty) : Option Ty :=
  if e.inCLang ∧ t ≠ none ∧ TypeSize t < 4 then some ast_type_long else t

/-- The operand after the C-dialect promotion of `HandleTwoNumerics`. -/
def cExpr (e : TypeEnv) (t : Option Ty) (x : AST) : AST :=
  if e.inCLang ∧ t ≠ none ∧ TypeSize t < 4 then extended t x else x

/-- Whether `MatchIntegerTypes` (force = 0) widens the operand of width `n`
when the other operand has width `m`. -/
def widens (n m : Int) : Bool := decide (n ≠ m ∧ n < commonWidth n m)

/-- The operand of type `t` (width `n`) as `MatchIntegerTypes` with
force = 0 leaves it when the other operand has width `m`. -/
def matched (g : Globals) (t : Option Ty) (n m : Int) (x : AST) : AST :=
  if widens n m then widened g t (commonWidth n m) x else x

/-- Whether the type `MatchIntegerTypes` (force = 0) returns is unsigned, for
operand widths `nl`, `nr` and signedness `ul`, `ur`: the signedness of the
right operand when only the left operand is widened, of the left operand
otherwise. -/
def matchUnsigned (nl : Int) (ul : Bool) (nr : Int) (ur : Bool) : Bool :=
  if widens nl nr ∧ ¬ widens nr nl then ur else ul

/-- The type `MatchIntegerTypes` (force = 0) returns for integer operand
types of widths `nl`, `nr` and signedness `ul`, `ur`. -/
def matchedType (nl : Int) (ul : Bool) (nr : Int) (ur : Bool) : Ty :=
  if ul ∨ ur then
    if widens nl nr ∨ widens nr nl then intTy (commonWidth nl nr) (matchUnsigned nl ul nr ur)
    else intTy nl ul
  else intTy (if nl > 4 ∨ nr > 4 then 8 else 4) false

/-- The unsigned variant of division and modulus; other operators are kept. -/
def unsignedVariant : Op → Op
  | Op.divide => Op.K_UNS_DIV
  | Op.K_MODULUS => Op.K_UNS_MOD
  | o => o

/-- The int64 runtime helper that the specification names for each operator
(`int64_add` for `+`, `int64_sub` for `-`, `int64_muls` for `*`, `int64_divs`
and `int64_divu` for `/`, `int64_mods` and `int64_modu` for `%`, `int64_and`,
`int64_or`, `int64_xor`, `int64_shl`, `int64_shr`, `int64_sar`), as the
identifier of the runtime library; the empty string for any other
operator. -/
def int64Name : Op → String
  | Op.plus => "_int64_add"
  | Op.minus => "_int64_sub"
  | Op.times => "_int64_muls"
  | Op.divide => "_int64_divs"
  | Op.K_UNS_DIV => "_int64_divu"
  | Op.K_MODULUS => "_int64_mods"
  | Op.K_UNS_MOD => "_int64_modu"
  | Op.bitand => "_int64_and"
  | Op.bitor => "_int64_or"
  | Op.bitxor => "_int64_xor"
  | Op.K_SHL => "_int64_shl"
  | Op.K_SHR => "_int64_shr"
  | Op.K_SAR => "_int64_sar"
  | _ => ""

/-- The binary operators `+ - * / % & | ^ << >>` as `HandleTwoNumerics`
receives them (`>>` is K_SAR or K_SHR). -/
def binaryOps : List Op :=
  [Op.plus, Op.minus, Op.times, Op.divide, Op.K_MODULUS, Op.bitand, Op.bitor, Op.bitxor,
   Op.K_SHL, Op.K_SHR, Op.K_SAR]

/-- The comparison operators `<`, `<=`, `>`, `>=`, `==`, `<>`. -/
def compareOps : List Op := [Op.lt, Op.K_LE, Op.gt, Op.K_GE, Op.K_EQ, Op.K_NE]

/-- Number of function-call nodes in a tree. -/
def callCount : AST → Nat
  | AST.null => 0
  | AST.node k _ l r => (if k = ASTKind.AST_FUNCCALL then 1 else 0) + callCount l + callCount r

/-- The operand of type `t` as `forcepromote` leaves it. -/
def promoted (t : Option Ty) (x : AST) : AST :=
  if t ≠ none ∧ TypeSize t < 4 then extended t x else x

/-! ## The type engine: concrete inputs -/

/-- A small stand-in for `IsConstExpr` in the concrete examples: integer and
float literals, and operators over constants. -/
def exIsConst : AST → Bool
  | AST.null => false
  | AST.node ASTKind.AST_INTEGER _ _ _ => true
  | AST.node ASTKind.AST_FLOAT _ _ _ => true
  | AST.node ASTKind.AST_OPERATOR _ l AST.null => exIsConst l
  | AST.node ASTKind.AST_OPERATOR _ l r => exIsConst l && exIsConst r
  | _ => false

/-- A small stand-in for `EvalConstExpr` in the concrete examples: the value
of a literal, and of an extension operator the value of its operand. -/
def exEval : AST → Int
  | AST.node ASTKind.AST_INTEGER (ASTData.ival v) _ _ => v
  | AST.node ASTKind.AST_OPERATOR _ l _ => exEval l
  | _ => 0

/-- A small stand-in for `ExprType` in the concrete examples. -/
def exExprType : AST → Option Ty
  | AST.node ASTKind.AST_INTEGER _ _ _ => some ast_type_long
  | AST.node ASTKind.AST_FLOAT _ _ _ => some ast_type_float
  | _ => none

/-- The environment of the concrete examples: floating point (not fixed
point) mode, a Spin or BASIC function. -/
def exTypeEnv : TypeEnv :=
  { gl_fixedreal := false, G_FIXPOINT := 16, inCLang := false,
    IsConstExpr := exIsConst, EvalConstExpr := exEval, FoldIfConst := fun a => a,
    ExprType := exExprType, CompatibleTypes := fun a b => decide (a = b),
    isStringType := fun _ => false, intToFloat := fun _ x => x, floatToInt := fun x => x }

/-- The helper handles after `InitGlobalFuncs` on fresh statics, floating
point mode. -/
def exGlobals : Globals := InitGlobalFuncs false {}

/-- The variable `a`. -/
def exVarA : AST := AstIdentifier "a"

/-- The variable `b`. -/
def exVarB : AST := AstIdentifier "b"

/-- The width of an integer operand type after the C-dialect promotion. -/
def cWidth (e : TypeEnv) (n : Int) : Int := if e.inCLang ∧ n < 4 then 4 else n

/-- The signedness of an integer operand type after the C-dialect promotion. -/
def cUnsigned (e : TypeEnv) (n : Int) (u : Bool) : Bool :=
  if e.inCLang ∧ n < 4 then false else u

/-- The operand `x` of type `t` widened to 8 bytes when `t` is narrower. -/
def wide64 (g : Globals) (t : Option Ty) (x : AST) : AST :=
  if TypeSize t < 8 then widened g t 8 x else x

/-! ## A call of a COG routine from LMM code: concrete input -/

/-- A COG label. -/
def exCogLabel : Operand := { kind := Operandkind.IMM_COG_LABEL, name := "_foo" }

/-- The instruction `call #_foo` to a COG label, carrying the predicate
`if_e`. -/
def exCogCall : IR :=
  { opc := IROpcode.OPC_CALL, cond := IRCond.COND_EQ, dst := some exCogLabel,
    instr := some { name := "call", ops := InstrOps.CALL_OPERAND } }

/-! ## The bytecode IR (`backends/nucode/nuir.c`)

The opcode enumeration `NuIrOpcode` is generated by a macro of `nuir.h`,
which is not under `src/`; opcodes are numbers here and the values the
source names are the fields of `NuEnum`.  The usage table is a list of
`NU_OP_DUMMY` entries; an instruction list is the list of its nodes from
head to tail. -/

/-- The values of the opcode enumeration that `nuir.c` names. -/
structure NuEnum where
  NU_OP_ILLEGAL : Nat
  NU_OP_PUSHI8 : Nat
  NU_OP_PUSHI16 : Nat
  NU_OP_PUSHI32 : Nat
  NU_OP_PUSHA : Nat
  NU_OP_LABEL : Nat
  NU_OP_DUMMY : Nat
  deriving DecidableEq, Repr

/-- An entry of `opusage`. -/
structure NuOpUsage where
  used : Int
  ircode : Int
  bytecode : Int
  deriving DecidableEq, Repr

/-- A `NuIr` node: the fields `nuir.c` writes (`label` is a pointer, modelled
by a number). -/
structure NuIr where
  op : Nat
  val : Int := 0
  label : Option Nat := none
  deriving DecidableEq, Repr

/-- Model of `usage_sortfunc`: sort with larger `used` coming first.  The
difference is an `int`. -/
def usage_sortfunc (A B : NuOpUsage) : Int := int32 (B.used - A.used)

/-- Model of `NuIrInit`: the table `opusage` after the loop. -/
def NuIrInit (E : NuEnum) : List NuOpUsage :=
  (List.range E.NU_OP_DUMMY).map
    (fun (i : Nat) => { used := 0, ircode := (i : Int), bytecode := -1 })

/-- The statement `opusage[op].used++`. -/
def bumpUsage : List NuOpUsage → Nat → List NuOpUsage
  | [], _ => []
  | u :: us, 0 => { u with used := int32 (u.used + 1) } :: us
  | u :: us, n + 1 => u :: bumpUsage us n

/-- Model of `NuEmitOp`: the new node goes to the tail of the list, and the
use count of its opcode is incremented.  The node returned is the last one of
the list. -/
def NuEmitOp (E : NuEnum) (irl : List NuIr) (op : Nat) (opusage : List NuOpUsage) :
    List NuIr × List NuOpUsage :=
  let r : NuIr := { op := op }
  let irl := irl ++ [r]
  if op < E.NU_OP_DUMMY then (irl, bumpUsage opusage op) else (irl, opusage)

/-- An assignment through the pointer `r` that `NuEmitOp` returned: the last
node of the list is updated. -/
def updateLast (f : NuIr → NuIr) : List NuIr → List NuIr
  | [] => []
  | [r] => [f r]
  | x :: y :: rest => x :: updateLast f (y :: rest)

/-- Model of `NuEmitConst`. -/
def NuEmitConst (E : NuEnum) (irl : List NuIr) (val : Int) (opusage : List NuOpUsage) :
    List NuIr × List NuOpUsage :=
  let r :=
    if val ≥ -128 ∧ val ≤ 127 then NuEmitOp E irl E.NU_OP_PUSHI8 opusage
    else if val ≥ -32768 ∧ val ≤ 32767 then NuEmitOp E irl E.NU_OP_PUSHI16 opusage
    else NuEmitOp E irl E.NU_OP_PUSHI32 opusage
  (updateLast (fun r => { r with val := val }) r.1, r.2)

/-- Model of `NuEmitAddress`. -/
def NuEmitAddress (E : NuEnum) (irl : List NuIr) (label : Nat) (opusage : List NuOpUsage) :
    List NuIr × List NuOpUsage :=
  let r := NuEmitOp E irl E.NU_OP_PUSHA opusage
  (updateLast (fun r => { r with label := some label }) r.1, r.2)

/-- Model of `NuEmitLabel`. -/
def NuEmitLabel (E : NuEnum) (irl : List NuIr) (label : Nat) (opusage : List NuOpUsage) :
    List NuIr × List NuOpUsage :=
  let r := NuEmitOp E irl E.NU_OP_LABEL opusage
  (updateLast (fun r => { r with label := some label }) r.1, r.2)

/-- A sequence of `NuEmitOp` calls, one per opcode of `ops`, in order. -/
def NuEmitOps (E : NuEnum) : List Nat → List NuIr × List NuOpUsage → List NuIr × List NuOpUsage
  | [], s => s
  | op :: ops, s => NuEmitOps E ops (NuEmitOp E s.1 op s.2)

/-- Modelled from the spec: the C library `qsort` on `opusage` with
`usage_sortfunc`, as an insertion sort that puts `A` before `B` when the
comparison function returns a value that is not positive. -/
def qsortUsage (opusage : List NuOpUsage) : List NuOpUsage :=
  List.insertionSort (fun A B => usage_sortfunc A B ≤ 0) opusage

/-- Model of `NuAssignOpcodes`: the sorted table (the two `printf` lines,
which name the first and the last entry, are not modelled). -/
def NuAssignOpcodes (opusage : List NuOpUsage) : List NuOpUsage := qsortUsage opusage

/-- An enumeration for the concrete examples. -/
def exNuEnum : NuEnum :=
  { NU_OP_ILLEGAL := 0, NU_OP_PUSHI8 := 1, NU_OP_PUSHI16 := 2, NU_OP_PUSHI32 := 3,
    NU_OP_PUSHA := 4, NU_OP_LABEL := 5, NU_OP_DUMMY := 6 }

/-- The usage table in which entry `i` is opcode `i` with use count `c i`
and no bytecode assigned. -/
def usageTable (n : Nat) (c : Nat → Int) : List NuOpUsage :=
  (List.range n).map (fun (i : Nat) => { used := c i, ircode := (i : Int), bytecode := -1 })

/-! ## The Propeller checksum (`frontends/common.c`) and the binary header
(`backends/dat/outdat.c`)

A file is the list of its bytes; `fputc` at the end of the file appends a
byte.  `uint32_t` arithmetic is taken modulo 2^32. -/

/-- Model of `putbyte`. -/
def putbyte (f : List Nat) (x : Nat) : List Nat := f ++ [x &&& 0xff]

/-- Model of `putword`. -/
def putword (f : List Nat) (x : Nat) : List Nat :=
  putbyte (putbyte f (x &&& 0xff)) ((x >>> 8) &&& 0xff)

/-- Model of `putlong`. -/
def putlong (f : List Nat) (x : Nat) : List Nat :=
  putbyte (putbyte (putbyte (putbyte f (x &&& 0xff)) ((x >>> 8) &&& 0xff))
    ((x >>> 16) &&& 0xff)) ((x >>> 24) &&& 0xff)

/-- Model of `OutputSpinHeader`.  `clk` is what `GetClkFreq` finds for the
module: the clock frequency and mode, or nothing. -/
def OutputSpinHeader (f : List Nat) (clk : Option (Nat × Nat)) : List Nat :=
  let (clkfreq, clkmodeval) :=
    match clk with
    | some v => v
    | none => (80000000, 0x6f) -- use defaults
  let f := putlong f clkfreq
  let f := putbyte f clkmodeval
  let f := putbyte f 0 -- checksum
  let f := putword f 0x0010 -- PBASE
  let f := putword f 0x7fe8 -- VBASE
  let f := putword f 0x7ff0 -- DBASE
  let f := putword f 0x0018 -- PCURR
  let f := putword f 0x7ff8 -- DCURR
  let f := putword f 0x0008 -- object length?
  let f := putbyte f 0x02
  let f := putbyte f 0x00
  let f := putword f 0x0008
  let f := putword f 0x0000 -- initial stack: 0 == first run of program
  -- simple spin program
  let f := putbyte f 0x3f
  let f := putbyte f 0x89
  let f := putbyte f 0xc7
  let f := putbyte f 0x10
  let f := putbyte f 0xa4
  let f := putbyte f 0x6
  let f := putbyte f 0x2c
  putbyte f 0x32

/-- A write of one byte at offset `off` (`fseek` then `fputc`): inside the
file the byte is replaced, at or past the end the file is extended, the gap
reading as zero. -/
def writeAt (f : List Nat) (off : Nat) (b : Nat) : List Nat :=
  if off < f.length then f.set off b
  else f ++ List.replicate (off - f.length) 0 ++ [b]

/-- The number of bytes `DoPropellerChecksum` appends to reach a multiple of
4: `((len + 3) & ~3) - len` in `uint32_t`. -/
def padBytes (gl_p2 : Bool) (len : Nat) : Nat :=
  if gl_p2 then 0
  else ((((len + 3) % 4294967296) &&& 0xfffffffc) + 4294967296 - len) % 4294967296

/-- The sum of the bytes read by the `fgetc` loop, in an `unsigned char`. -/
def byteSum (f : List Nat) : Nat := (f.map (fun c => c % 256)).sum % 256

/-- The warning of the length check, when the image with the reserved space
does not fit. -/
def sizeWarning (len reserveSize maxlen : Nat) : List String :=
  if (len + reserveSize) % 4294967296 > maxlen then
    if reserveSize ≠ 0 then
      ["final output size of " ++ fmtD (int32 len) ++ " bytes + " ++ fmtD (int32 reserveSize) ++
        " reserved bytes exceeds maximum of " ++ fmtD (int32 maxlen) ++ " by " ++
        fmtD (int32 ((len + reserveSize + 4294967296 - maxlen) % 4294967296 : Nat)) ++ " bytes"]
    else
      ["final output size of " ++ fmtD (int32 len) ++ " bytes exceeds maximum of " ++
        fmtD (int32 maxlen) ++ " by " ++
        fmtD (int32 ((len + 4294967296 - maxlen) % 4294967296 : Nat)) ++ " bytes"]
  else []

/-- Model of `DoPropellerChecksum` on an open file: the new contents of the
file and the warnings.  `stack` and `free` are the values of the constants
`_STACK` and `_FREE` of the top-level module when it defines them;
`eepromSize` is a `size_t` taken to fit in 32 bits.  The calls of `fseek`,
`fgetc` and `fputc` are taken to succeed. -/
def DoPropellerChecksum (gl_p2 : Bool) (file : List Nat) (eepromSize : Nat)
    (stack free : Option Int) : List Nat × List String :=
  let len := file.length % 4294967296
  -- pad file to multiple of 4, if necessary
  let padbytes := padBytes gl_p2 len
  let file := file ++ List.replicate padbytes 0
  let len := (len + padbytes) % 4294967296
  -- check for special symbols
  let reserveSize : Nat := 0
  let reserveSize : Nat :=
    match stack with
    | some v => (((reserveSize : Int) + 4 * v) % 4294967296).toNat
    | none => reserveSize
  let reserveSize : Nat :=
    match free with
    | some v => (((reserveSize : Int) + 4 * v) % 4294967296).toNat
    | none => reserveSize
  -- do sanity check on length
  let maxlen :=
    if eepromSize ≠ 0 then eepromSize % 4294967296
    else if gl_p2 then 512 * 1024
    else 32768
  let warnings := sizeWarning len reserveSize maxlen
  -- if P2, no checksum needed
  if gl_p2 then (file, warnings)
  else
    let checksum := byteSum file
    let checksum := (0x14 + 256 - checksum) % 256
    let file := writeAt file 5 checksum
    if eepromSize ≠ 0 ∧ eepromSize ≥ (len + 8) % 4294967296 then
      let file := file ++ [0xff, 0xff, 0xf9, 0xff, 0xff, 0xff, 0xf9, 0xff]
      let len := (len + 8) % 4294967296
      (file ++ List.replicate (eepromSize - len) 0, warnings)
    else (file, warnings)

/-- An image for the concrete examples: the header of `OutputSpinHeader`
with the default clock settings, followed by three bytes of data. -/
def exImage : List Nat := OutputSpinHeader [] none ++ [0x12, 0x34, 0x56]

/-! ## Narrowing conversions (`frontends/types.c`) -/

/-- Model of `donarrow`: a narrowing operation from `A` bytes to `B` bytes
("works by going A -> 32 bits -> B").  The masking code of the C function
is inside `#if 0`; the live branch is `narrow = promote`.  The result is
`none` where the C code would read the kind of a null expression. -/
def donarrow (g : Globals) (expr : AST) (A B : Int) (isSigned : Bool) (s : TState) :
    Option (AST × TState) :=
  let narrowed : Option (Option (AST × Int)) :=
    if A = 8 ∧ B ≤ 4 then
      -- have to narrow
      match expr with
      | AST.null => none
      | AST.node k _ l _ => if k ≠ ASTKind.AST_EXPRLIST then some none else some (some (l, 4))
    else some (some (expr, A))
  match narrowed with
  | none => none
  | some none => some (expr, s)
  | some (some (expr, A)) =>
    let shiftbits := (A - B) * 8
    if shiftbits = 0 then some (expr, s) -- nothing to do
    else
      let promote :=
        dopromote g expr A LONG_SIZE (if isSigned then Op.K_ZEROEXTEND else Op.K_SIGNEXTEND) s
      let narrow := promote
      some narrow

/-- The last block of `CoerceAssignTypes`, for an integer or generic
destination and source: widening through `dopromote`, narrowing from 8 bytes
through `donarrow`.  `astptr` is the expression `*astptr` when the pointer is
not null; the result is the new `*astptr`. -/
def coerceIntegers (g : Globals) (desttype srctype : Option Ty) (astptr : Option AST)
    (s : TState) : Option (Option AST × TState) :=
  if IsIntType desttype ∨ IsGenericType desttype then
    if IsIntType srctype ∨ IsGenericType srctype then
      let lsize := TypeSize desttype
      let rsize := TypeSize srctype
      if lsize > rsize then
        match astptr with
        | some expr =>
          let r :=
            if IsUnsignedType srctype then dopromote g expr rsize lsize Op.K_ZEROEXTEND s
            else dopromote g expr rsize lsize Op.K_SIGNEXTEND s
          some (some r.1, r.2)
        | none => some (none, s.warning "Unable to widen function result")
      else if rsize = 8 ∧ lsize < rsize then
        -- narrowing cast
        match astptr with
        | some expr =>
          (donarrow g expr rsize lsize (IsUnsignedType srctype) s).map
            (fun r => (some r.1, r.2))
        | none => some (none, s.error "Unable to narrow parameter")
      else some (astptr, s)
    else some (astptr, s)
  else some (astptr, s)

/-- The low and high halves of a 64-bit value `x`, as an expression list. -/
def exPair : AST :=
  NewAST ASTKind.AST_EXPRLIST (AstIdentifier "x_lo")
    (NewAST ASTKind.AST_EXPRLIST (AstIdentifier "x_hi") AST.null)

/-! ## The type inference loop of `FixupCode` (`spinc.c`) -/

def MAX_TYPE_PASSES : Nat := 4

/-- What `FixupCode` calls, over a compilation state `σ` and modules `M`:
the language of a module and the passes, none of which is under `src/`
except `AssignObjectOffsets`. -/
structure FixupEnv (σ : Type) (M : Type) where
  isSpin : M → Bool
  isBasic : M → Bool
  SpinTransform : M → σ → σ
  BasicTransform : M → σ → σ
  ProcessFuncs : M → σ → σ
  InferTypes : M → σ → Int × σ
  PerformCSE : M → σ → σ
  RemoveUnusedMethods : Bool → σ → σ
  AssignObjectOffsets : M → σ → σ

/-- One round of the loop body: `changes = 0; for (Q = allparse; Q; Q =
Q->next) changes += InferTypes(Q);`. -/
def inferPass {σ M : Type} (e : FixupEnv σ M) : List M → Int × σ → Int × σ
  | [], r => r
  | Q :: rest, (changes, s) =>
    let r := e.InferTypes Q s
    inferPass e rest (int32 (changes + r.1), r.2)

/-- The loop `do { ... } while (changes != 0 && tries++ < MAX_TYPE_PASSES)`.
The first argument is `MAX_TYPE_PASSES - tries` at the start of the round;
the result is the number of rounds run and the state after the last one. -/
def inferTypesLoop {σ : Type} (pass : σ → Int × σ) : Nat → σ → Nat × σ
  | 0, s =>
    -- `tries` has reached MAX_TYPE_PASSES: after this round the test fails
    (1, (pass s).2)
  | k + 1, s =>
    let r := pass s
    if r.1 ≠ 0 then
      let q := inferTypesLoop pass k r.2
      (q.1 + 1, q.2)
    else (1, r.2)

/-- Model of `FixupCode` on the module list `mods` (`allparse` with the
global module appended): the number of `InferTypes` rounds and the final
state. -/
def FixupCode {σ M : Type} (e : FixupEnv σ M) (mods : List M) (P : M) (isBinary : Bool)
    (s : σ) : Nat × σ :=
  let s := mods.foldl
    (fun s Q =>
      let s :=
        if e.isSpin Q then e.SpinTransform Q s
        else if e.isBasic Q then e.BasicTransform Q s
        else s
      e.ProcessFuncs Q s) s
  let r := inferTypesLoop (fun s => inferPass e mods (0, s)) MAX_TYPE_PASSES s
  let s := mods.foldl (fun s Q => e.PerformCSE Q s) r.2
  let s := e.RemoveUnusedMethods isBinary s
  (r.1, e.AssignObjectOffsets P s)

/-- An environment for the concrete examples: the state counts the calls of
`InferTypes`, which reports one change as long as fewer than `n` calls were
made; the other passes do nothing. -/
def exFixupEnv (n : Nat) : FixupEnv Nat Unit :=
  { isSpin := fun _ => true, isBasic := fun _ => false,
    SpinTransform := fun _ s => s, BasicTransform := fun _ s => s,
    ProcessFuncs := fun _ s => s,
    InferTypes := fun _ s => (if s < n then 1 else 0, s + 1),
    PerformCSE := fun _ s => s, RemoveUnusedMethods := fun _ s => s,
    AssignObjectOffsets := fun _ s => s }

/-! ## Object offsets (`spinc.c`) and the DAT file (`backends/dat/outdat.c`)

Modules live in a table and a `Module *` is an index into it; `current` is
the global module pointer. -/

/-- The declaration under an `AST_OBJECT` node (`ast->left`). -/
inductive ObjDecl
  | AST_IDENTIFIER (name : String)
  | AST_ARRAYDECL (name : String) (count : Int)
  | AST_OBJDECL (name : String)
  | AST_OTHER
  deriving DecidableEq, Repr

/-- A node of the list `P->objblock`: an `AST_OBJECT`, or a node of another
kind. -/
inductive ObjBlockItem
  | AST_OBJECT (obj : ObjDecl)
  | notObject
  deriving DecidableEq, Repr

/-- An object symbol of a module: its name, the module it stands for
(`GetObjectPtr`) and its offset. -/
structure ObjSymbol where
  name : String
  module : Nat
  offset : Int := 0
  deriving DecidableEq, Repr

/-- A module: the fields `AssignObjectOffsets` uses. -/
structure ObjModule where
  varsize : Int
  objblock : List ObjBlockItem := []
  objsyms : List ObjSymbol := []
  deriving DecidableEq, Repr

/-- The globals `AssignObjectOffsets` and `OutputDatFile` touch. -/
structure ObjState where
  modules : List ObjModule
  current : Option Nat := none
  errors : List String := []
  deriving DecidableEq, Repr

/-- Model of `FindSymbol(&P->objsyms, name)`: the index of the symbol. -/
def findObjSym (syms : List ObjSymbol) (name : String) : Option Nat :=
  let i := syms.findIdx (fun sy => sy.name = name)
  if i < syms.length then some i else none

/-- The assignment `sym->offset = offset` for symbol `i` of module `P`. -/
def setSymOffset (mods : List ObjModule) (P i : Nat) (offset : Int) : List ObjModule :=
  mods.modify (fun m => { m with objsyms := m.objsyms.modify (fun sy => { sy with offset := offset }) i }) P

/-- The loop over `P->objblock` of `AssignObjectOffsets`, with the recursive
call as a parameter.  `sym` and `count` are the locals, which keep their
value from one round to the next.  The result is the state and, unless the
function has returned from inside the loop, the final `offset`; `none` is a
dangling pointer or an exhausted recursion. -/
def objBlockLoop (recur : Nat → ObjState → Option ObjState) (P : Nat) :
    List ObjBlockItem → Option Nat → Int → Int → ObjState → Option (ObjState × Option Int)
  | [], _, offset, _, st => some (st, some offset)
  | ObjBlockItem.notObject :: _, _, _, _, st =>
    some ({ st with errors := st.errors ++ ["Internal error: expected an OBJECT"] }, none)
  | ObjBlockItem.AST_OBJECT obj :: rest, sym, offset, count, st =>
    match st.modules[P]? with
    | none => none
    | some Pm =>
      let (sym, count) :=
        match obj with
        | ObjDecl.AST_IDENTIFIER name => (findObjSym Pm.objsyms name, 1)
        | ObjDecl.AST_ARRAYDECL name n => (findObjSym Pm.objsyms name, n)
        | ObjDecl.AST_OBJDECL name => (findObjSym Pm.objsyms name, 0)
        | ObjDecl.AST_OTHER => (sym, count)
      match sym with
      | none =>
        some ({ st with errors := st.errors ++ ["Internal error, cannot find object symbol"] },
          none)
      | some i =>
        match Pm.objsyms[i]? with
        | none => none
        | some sy =>
          let Q := sy.module
          match recur Q st with
          | none => none
          | some st =>
            let st := { st with modules := setSymOffset st.modules P i offset }
            match st.modules[Q]? with
            | none => none
            | some Qm =>
              objBlockLoop recur P rest (some i) (offset + count * Qm.varsize) count st

/-- Model of `AssignObjectOffsets`; the first argument bounds the depth of
the recursion. -/
def AssignObjectOffsets : Nat → Nat → ObjState → Option ObjState
  | 0, _, _ => none
  | fuel + 1, P, st =>
    match st.modules[P]? with
    | none => none
    | some Pm =>
      let save := st.current
      let st := { st with current := some P }
      let offset := Pm.varsize
      match objBlockLoop (AssignObjectOffsets fuel) P Pm.objblock none offset 0 st with
      | none => none
      | some (st, none) => some st -- `return` inside the loop
      | some (st, some offset) =>
        -- offset = (offset+3) & ~3
        let offset := (offset + 3) - (offset + 3) % 4
        let st :=
          { st with modules := st.modules.modify (fun m => { m with varsize := offset }) P }
        some { st with current := save }

/-- Model of `OutputDatFile`: the bytes written to the file and the state.
`fopenOk` is whether `fopen` succeeds - when it fails the process exits
(`none`); `clk` is what `GetClkFreq` finds; `PrintDataBlock` is the data
block printer, which has no assignment to `current`. -/
def OutputDatFile (fopenOk : Bool) (P : Nat) (prefixBin : Bool) (clk : Option (Nat × Nat))
    (PrintDataBlock : List Nat → List Nat) (st : ObjState) : Option (List Nat × ObjState) :=
  let save := st.current
  let st := { st with current := some P }
  if ¬ fopenOk then none
  else
    let fb : List Nat := []
    let fb := if prefixBin then OutputSpinHeader fb clk else fb
    let fb := PrintDataBlock fb
    some (fb, { st with current := save })

/-- A module whose object block holds a node that is not an `AST_OBJECT`. -/
def exBadModule : ObjModule := { varsize := 8, objblock := [ObjBlockItem.notObject] }

/-- A module that declares the object `o`, for which it has no symbol. -/
def exNoSymModule : ObjModule :=
  { varsize := 8, objblock := [ObjBlockItem.AST_OBJECT (ObjDecl.AST_IDENTIFIER "o")] }

/-- A module with two sub-objects `a` (module 1) and `b[3]` (module 2). -/
def exTopModule : ObjModule :=
  { varsize := 5,
    objblock := [ObjBlockItem.AST_OBJECT (ObjDecl.AST_IDENTIFIER "a"),
                 ObjBlockItem.AST_OBJECT (ObjDecl.AST_ARRAYDECL "b" 3)],
    objsyms := [{ name := "a", module := 1 }, { name := "b", module := 2 }] }

/-! ## Inline assembly (`backends/asm/inlineasm.c`)

The IR list is the list of its nodes from head to tail; a pointer to a node
is an index.  The parser, the symbol table, the label counter and the list
primitives (`NewIR`, `AppendIR`, `InsertAfterIR`, `EmitLabel`, `EmitOp1`,
`ReplaceOpcode`) are not under `src/`: the inline block is taken after
parsing, the symbol table and the label names are parameters, and the list
primitives are the list operations their names say.  The flag bits
`FLAG_KEEP_INSTR` and `FLAG_LABEL_NOJUMP` are not among the bits `IRFlags`
holds; setting them is not modelled. -/

/-- A data item of an `AST_LONGLIST`: a list node that is not an
`AST_EXPRLIST`, or an item with its value when it is a constant. -/
inductive LongItem
  | notExprList
  | item (val : Option Int)
  deriving DecidableEq, Repr

/-- A line of an inline assembly block as the second loop of
`CompileInlineAsm` sees it, comment wrappers removed.  For an instruction,
`compiled` is what `CompileInlineInstr_only` returns: nothing (NULL), or the
IR and the IR it has put in `ir->next`. -/
inductive AsmItem
  | AST_LINEBREAK
  | AST_COMMENT
  | AST_INSTRHOLDER (compiled : Option (IR × Option IR))
  | AST_IDENTIFIER (name : String)
  | AST_LONGLIST (items : List LongItem)
  | AST_WORDLIST
  | AST_OTHER
  deriving DecidableEq, Repr

/-- What `inlineasm.c` takes from the rest of the compiler, over a symbol
table `τ`: the options, the names `NewTempLabelName` gives for the values of
its counter, the local symbol table (`FindSymbol` gives whether the symbol
is a `SYM_LOCALLABEL` and its `val`), the descriptor `ReplaceOpcode` finds
for `OPC_JUMP`, and `InstrModifies`. -/
structure InlineEnv (τ : Type) where
  gl_p2 : Bool
  gl_fcache_size : Int
  labelName : Nat → String
  AddSymbol : τ → String → Operand → τ
  FindSymbol : τ → String → Option (Bool × Option Operand)
  setSymVal : τ → String → Operand → τ
  jumpInstr : Option Instruction
  InstrModifies : IR → Option Operand → Bool

/-- The state `CompileInlineAsm` works on: the IR list, the local symbols of
`curfunc`, the label counter and the diagnostics. -/
structure InlineState (τ : Type) where
  irl : List IR
  localsyms : τ
  nextlabel : Nat := 0
  errors : List String := []
  warnings : List String := []

/-- Modelled from the spec: `IsDummy`, the tag of an instruction that a pass
has logically removed. -/
def IsDummy (ir : IR) : Bool := ir.opc = IROpcode.OPC_DUMMY

/-- Model of `NewImmediate`. -/
def NewImmediate (val : Int) : Operand := { kind := Operandkind.IMM_INT, name := "", val := val }

/-- Model of `NewPcRelative`. -/
def NewPcRelative (val : Int) : Operand :=
  { kind := Operandkind.IMM_PCRELATIVE, name := "", val := val }

/-- Model of `GetLabelOperand`: a label with a new temporary name, a COG
label inside fcache or in a function that is not placed in hub memory.
`placeHub` is `curfunc && curfunc->code_placement == CODE_PLACE_HUB`. -/
def GetLabelOperand {τ : Type} (e : InlineEnv τ) (placeHub inFcache : Bool)
    (st : InlineState τ) : Operand × InlineState τ :=
  let name := e.labelName st.nextlabel
  let st := { st with nextlabel := st.nextlabel + 1 }
  if inFcache then ({ kind := Operandkind.IMM_COG_LABEL, name := name }, st)
  else if placeHub then ({ kind := Operandkind.IMM_HUB_LABEL, name := name }, st)
  else ({ kind := Operandkind.IMM_COG_LABEL, name := name }, st)

/-- Model of `NewHubLabel`. -/
def NewHubLabel {τ : Type} (e : InlineEnv τ) (st : InlineState τ) : Operand × InlineState τ :=
  ({ kind := Operandkind.IMM_HUB_LABEL, name := e.labelName st.nextlabel },
    { st with nextlabel := st.nextlabel + 1 })

/-- The text of `printf("%lu", (unsigned long)v)`. -/
def fmtLu (v : Int) : String := toString (v % 18446744073709551616)

/-- The scan `for (jir = firstir; jir; jir = jir->next)` of `FixupHereLabel`
with the insertion `InsertAfterIR(irl, jir->prev, labelir)`: the list with
`labelir` put before the first node whose `addr` is `addr`, and the index of
that node; nothing when no node has that address. -/
def insertLabelAt (labelir : IR) (addr : Int) : List IR → Option (List IR × Nat)
  | [] => none
  | jir :: rest =>
    if jir.addr = addr then some (labelir :: jir :: rest, 0)
    else (insertLabelAt labelir addr rest).map (fun r => (jir :: r.1, r.2 + 1))

/-- What `FixupHereLabel` leaves: the IR list, split at `firstir` (`pre` are
the nodes before it, `blk` the nodes from it on), the operand returned, the
state, and the index in the old `blk` of the node the label was put before. -/
structure HereFix (τ : Type) where
  pre : List IR
  blk : List IR
  op : Operand
  st : InlineState τ
  pos : Option Nat

/-- Model of `FixupHereLabel`.  `pre ++ blk` is the IR list, `blk` starting
at `firstir`. -/
def FixupHereLabel {τ : Type} (e : InlineEnv τ) (placeHub : Bool) (pre blk : List IR)
    (addr : Int) (dst : Operand) (st : InlineState τ) : HereFix τ :=
  let addr := int32 (addr + dst.val)
  if addr < 0 then
    { pre := pre, blk := blk, op := NewImmediate 0, pos := none,
      st := { st with errors := st.errors ++
        ["pc relative address $ - " ++ fmtLu (-dst.val) ++
          " in inline assembly is out of range"] } }
  else
    let r := GetLabelOperand e placeHub false st
    let labelir : IR := { opc := IROpcode.OPC_LABEL, dst := some r.1 }
    match insertLabelAt labelir addr blk with
    | some (_, 0) =>
      -- the label goes before `firstir`
      { pre := pre ++ [labelir], blk := blk, op := r.1, st := r.2, pos := some 0 }
    | some (blk', j + 1) => { pre := pre, blk := blk', op := r.1, st := r.2, pos := some (j + 1) }
    | none =>
      let msg :=
        if dst.val < 0 then
          "pc relative address $ - " ++ fmtLu (-dst.val) ++ " in inline assembly is out of range"
        else
          "pc relative address $ + " ++ fmtLu dst.val ++ " in inline assembly is out of range"
      { pre := pre, blk := blk, op := NewImmediate 0, pos := none,
        st := { st with errors := st.errors ++ [msg] } }

/-- The index of the node `ir` after a label was put before node `pos` (a
label put before `firstir` leaves the list from `firstir` on as it was). -/
def shiftIndex (pos : Option Nat) (i : Nat) : Nat :=
  match pos with
  | some (j + 1) => if j + 1 ≤ i then i + 1 else i
  | _ => i

/-- Whether an operand pointer is non-null and of kind `IMM_PCRELATIVE`. -/
def isPcRel (op : Option Operand) : Bool :=
  match op with
  | some o => o.kind = Operandkind.IMM_PCRELATIVE
  | none => false

/-- The position of the loop "now fixup any relative addresses": the IR
list split at `firstir`, the index `i` in `blk` of the node `ir`, that node
as it stands, and the state. -/
structure FixCursor (τ : Type) where
  pre : List IR
  blk : List IR
  i : Nat
  ir : IR
  st : InlineState τ

/-- The statement `if (ir->dst && ir->dst->kind == IMM_PCRELATIVE) ir->dst =
FixupHereLabel(irl, firstir, ir->addr, ir->dst);` (inside `!IsDummy(ir)`). -/
def fixupDst {τ : Type} (e : InlineEnv τ) (placeHub : Bool) (c : FixCursor τ) : FixCursor τ :=
  match c.ir.dst with
  | some dst =>
    if ¬ IsDummy c.ir ∧ dst.kind = Operandkind.IMM_PCRELATIVE then
      let r := FixupHereLabel e placeHub c.pre c.blk c.ir.addr dst c.st
      let i := shiftIndex r.pos c.i
      let ir := { c.ir with dst := some r.op }
      { pre := r.pre, blk := r.blk.set i ir, i := i, ir := ir, st := r.st }
    else c
  | none => c

/-- The statement `if (ir->src && ir->src->kind == IMM_PCRELATIVE) ir->src =
FixupHereLabel(irl, firstir, ir->addr, ir->src);` (inside `!IsDummy(ir)`). -/
def fixupSrc {τ : Type} (e : InlineEnv τ) (placeHub : Bool) (c : FixCursor τ) : FixCursor τ :=
  match c.ir.src with
  | some src =>
    if ¬ IsDummy c.ir ∧ src.kind = Operandkind.IMM_PCRELATIVE then
      let r := FixupHereLabel e placeHub c.pre c.blk c.ir.addr src c.st
      let i := shiftIndex r.pos c.i
      let ir := { c.ir with src := some r.op }
      { pre := r.pre, blk := r.blk.set i ir, i := i, ir := ir, st := r.st }
    else c
  | none => c

/-- The loop "now fixup any relative addresses" of `CompileInlineAsm`, at
node `i` of the list from `firstir`; `fcache` is `fcache->src` when the
block is cached.  The first argument bounds the number of rounds. -/
def fixupLoop {τ : Type} (e : InlineEnv τ) (placeHub : Bool) (fcache : Option (Option Operand)) :
    Nat → List IR → List IR → Nat → InlineState τ → Option (List IR × List IR × InlineState τ)
  | 0, _, _, _, _ => none
  | fuel + 1, pre, blk, i, st =>
    match blk[i]? with
    | none => some (pre, blk, st)
    | some ir =>
      let c := fixupSrc e placeHub
        (fixupDst e placeHub { pre := pre, blk := blk, i := i, ir := ir, st := st })
      let blk :=
        match fcache with
        | some f => c.blk.set c.i { c.ir with fcache := f }
        | none => c.blk
      fixupLoop e placeHub fcache fuel c.pre blk (c.i + 1) c.st

/-- The locals of `CompileInlineAsm` during the second loop.  `first` is the
index of `firstir` in the IR list; `endlabel` is the label node made for the
end of the block, not yet in the list; `relpc` is an `unsigned`. -/
structure InlineLocals (τ : Type) where
  st : InlineState τ
  relpc : Nat := 0
  first : Option Nat := none
  endlabel : Option IR := none
  ptraSaved : Bool := false

/-- Model of `IsPtra`. -/
def IsPtra (reg : Option Operand) : Bool :=
  match reg with
  | some r => r.kind = Operandkind.REG_HW && r.name = "ptra"
  | none => false

/-- Model of `AppendIR`. -/
def AppendIR {τ : Type} (st : InlineState τ) (ir : IR) : InlineState τ :=
  { st with irl := st.irl ++ [ir] }

/-- Model of `ReplaceOpcode(ir, OPC_JUMP)` followed by `ir->dst = enddst`. -/
def retToJump {τ : Type} (e : InlineEnv τ) (ir : IR) (enddst : Operand) : IR :=
  { ir with opc := IROpcode.OPC_JUMP, instr := e.jumpInstr, dst := some enddst }

/-- The inner loop of the `AST_LONGLIST` case: one `OPC_LONG` per item. -/
def emitLongs {τ : Type} : List LongItem → InlineState τ → InlineState τ
  | [], st => st
  | LongItem.notExprList :: _, st =>
    { st with errors := st.errors ++ ["Expected list of items"] }
  | LongItem.item v :: rest, st =>
    let (val, st) :=
      match v with
      | none => ((0 : Int), { st with errors := st.errors ++ ["data item is not constant"] })
      | some x => (x, st)
    let op : Operand := { kind := Operandkind.IMM_INT, name := "", val := val }
    emitLongs rest (AppendIR st { opc := IROpcode.OPC_LONG, dst := some op })

/-- The `AST_INSTRHOLDER` case of the second loop, for the IR `ir` and the
extra IR `extrair` that `CompileInlineInstr_only` returned. -/
def emitInstr {τ : Type} (e : InlineEnv τ) (enddst : Operand) (ir : IR) (extrair : Option IR)
    (v : InlineLocals τ) : InlineLocals τ :=
  let ir := { ir with addr := v.relpc }
  let first := match v.first with
    | none => some v.st.irl.length
    | some f => some f
  let relpc := (v.relpc + 1) % 4294967296
  let ptraSaved :=
    if (ir.opc = IROpcode.OPC_MOV ∨ ir.opc = IROpcode.OPC_WRLONG) ∧ IsPtra ir.src then true
    else v.ptraSaved
  let warnings :=
    if ¬ ptraSaved ∧ IsPtra ir.dst ∧ e.InstrModifies ir ir.dst then
      v.st.warnings ++ ["Inline assembly modifies ptra"]
    else v.st.warnings
  let (ir, endlabel) :=
    if ir.opc = IROpcode.OPC_RET then
      (retToJump e ir enddst,
        match v.endlabel with
        | none => some { opc := IROpcode.OPC_LABEL, dst := some enddst }
        | some l => some l)
    else (ir, v.endlabel)
  let st := AppendIR { v.st with warnings := warnings } ir
  match extrair with
  | none => { st := st, relpc := relpc, first := first, endlabel := endlabel,
              ptraSaved := ptraSaved }
  | some x =>
    let (x, endlabel) :=
      if x.opc = IROpcode.OPC_RET then
        (retToJump e x enddst,
          match endlabel with
          | none => some { opc := IROpcode.OPC_LABEL, dst := some enddst }
          | some l => some l)
      else (x, endlabel)
    { st := AppendIR st x, relpc := relpc, first := first, endlabel := endlabel,
      ptraSaved := ptraSaved }

/-- The second loop of `CompileInlineAsm` ("now go back and emit code"); a
`break` ends it. -/
def emitItems {τ : Type} (e : InlineEnv τ) (placeHub isInFcache : Bool) (enddst : Operand) :
    List AsmItem → InlineLocals τ → InlineLocals τ
  | [], v => v
  | AsmItem.AST_LINEBREAK :: rest, v => emitItems e placeHub isInFcache enddst rest v
  | AsmItem.AST_COMMENT :: rest, v => emitItems e placeHub isInFcache enddst rest v
  | AsmItem.AST_INSTRHOLDER none :: _, v => v
  | AsmItem.AST_INSTRHOLDER (some (ir, extrair)) :: rest, v =>
    emitItems e placeHub isInFcache enddst rest (emitInstr e enddst ir extrair v)
  | AsmItem.AST_IDENTIFIER name :: rest, v =>
    match e.FindSymbol v.st.localsyms name with
    | some (true, val) =>
      let (op, st) :=
        match val with
        | some op => (op, v.st)
        | none =>
          let r := GetLabelOperand e placeHub isInFcache v.st
          (r.1, { r.2 with localsyms := e.setSymVal r.2.localsyms name r.1 })
      let ir : IR := { opc := IROpcode.OPC_LABEL, dst := some op, addr := v.relpc }
      let first := match v.first with
        | none => some st.irl.length
        | some f => some f
      emitItems e placeHub isInFcache enddst rest { v with st := AppendIR st ir, first := first }
    | _ =>
      { v with st := { v.st with errors := v.st.errors ++
          [name ++ " is not a label or is multiply defined"] } }
  | AsmItem.AST_LONGLIST items :: rest, v =>
    emitItems e placeHub isInFcache enddst rest { v with st := emitLongs items v.st }
  | AsmItem.AST_WORDLIST :: _, v =>
    { v with st := { v.st with errors := v.st.errors ++
        ["declaring variables inside inline assembly is not supported; " ++
         "use local variables instead"] } }
  | AsmItem.AST_OTHER :: _, v =>
    { v with st := { v.st with errors := v.st.errors ++
        ["inline assembly of this item not supported yet"] } }

/-- The first loop of `CompileInlineAsm` ("first run through and define all
the labels"). -/
def defineLabels {τ : Type} (e : InlineEnv τ) (placeHub isInFcache : Bool) :
    List AsmItem → InlineState τ → InlineState τ
  | [], st => st
  | AsmItem.AST_IDENTIFIER name :: rest, st =>
    let r := GetLabelOperand e placeHub isInFcache st
    defineLabels e placeHub isInFcache rest
      { r.2 with localsyms := e.AddSymbol r.2.localsyms name r.1 }
  | _ :: rest, st => defineLabels e placeHub isInFcache rest st

/-- The parts of the IR list that `CompileInlineAsm` leaves: the nodes
before `firstir`, the nodes from `firstir` on, and the state (whose `irl` is
not yet updated).  `curfunc` is the placement of the current function
(`some true` for hub memory) or null; `isConst` and `wantFcache` are the
bits `INLINE_ASM_FLAG_CONST` and `INLINE_ASM_FLAG_FCACHE` of `asmFlags`.  The
result is `none` only when the bound on the rounds of the last loop is
used up. -/
def compileInlineParts {τ : Type} (e : InlineEnv τ) (curfunc : Option Bool)
    (items : List AsmItem) (wantFcache : Bool) (st : InlineState τ) :
    Option (List IR × List IR × InlineState τ) :=
  match curfunc with
  | none =>
    some (st.irl, [],
      { st with errors := st.errors ++ ["Internal error, no context for inline assembly"] })
  | some placeHub =>
    -- never generate fcache stuff!
    let wantFcache := if ¬ placeHub then false else wantFcache
    let r := NewHubLabel e st
    let enddst := r.1
    let st := r.2
    let useFcache := wantFcache && decide (e.gl_fcache_size > 0)
    let st :=
      if wantFcache ∧ e.gl_fcache_size ≤ 0 then
        { st with warnings := st.warnings ++ ["FCACHE is disabled, asm will be in HUB"] }
      else st
    let r := if useFcache then NewHubLabel e st else (enddst, st)
    let startdst := r.1
    let st := r.2
    let isInFcache := useFcache
    let fcache : Option IR :=
      if useFcache then
        some { opc := IROpcode.OPC_FCACHE, src := some startdst, dst := some enddst }
      else none
    let startlabel : IR := { opc := IROpcode.OPC_LABEL, dst := some startdst }
    let endlabel : Option IR :=
      if useFcache then some { opc := IROpcode.OPC_LABEL, dst := some enddst } else none
    let org0 : IR := { opc := IROpcode.OPC_ORG, dst := some (NewImmediate 0) }
    let orgh : IR := { opc := IROpcode.OPC_HUBMODE }
    -- first run through and define all the labels
    let st := defineLabels e placeHub isInFcache items st
    -- now go back and emit code
    let st :=
      match fcache with
      | some f =>
        let st := AppendIR (AppendIR st f) startlabel
        if e.gl_p2 then AppendIR st org0 else st
      | none => st
    let v := emitItems e placeHub isInFcache enddst items { st := st, endlabel := endlabel }
    let st := v.st
    let st :=
      match v.endlabel with
      | some l =>
        let st :=
          if v.relpc > (e.gl_fcache_size % 4294967296).toNat then
            { st with errors := st.errors ++ ["Inline assembly too large to fit in fcache"] }
          else st
        let st := AppendIR st l
        if fcache.isSome ∧ e.gl_p2 then AppendIR st orgh else st
      | none => st
    -- now fixup any relative addresses
    match v.first with
    | none => some (st.irl, [], st)
    | some first =>
      fixupLoop e placeHub (fcache.map (fun f => f.src)) (3 * (st.irl.length - first) + 1)
        (st.irl.take first) (st.irl.drop first) 0 st

/-- Model of `CompileInlineAsm`: the state after the call, with the IR list
put together again. -/
def CompileInlineAsm {τ : Type} (e : InlineEnv τ) (curfunc : Option Bool)
    (items : List AsmItem) (wantFcache : Bool) (st : InlineState τ) :
    Option (InlineState τ) :=
  (compileInlineParts e curfunc items wantFcache st).map
    (fun r => { r.2.2 with irl := r.1 ++ r.2.1 })

/-! ## Inline assembly: concrete inputs -/

/-- A symbol table for the concrete examples: an association list. -/
def exInlineEnv (fcacheSize : Int) : InlineEnv (List (String × Operand)) :=
  { gl_p2 := false, gl_fcache_size := fcacheSize,
    labelName := fun n => "LR__" ++ toString n,
    AddSymbol := fun t name op => t ++ [(name, op)],
    FindSymbol := fun t name => (t.lookup name).map (fun op => (true, some op)),
    setSymVal := fun t _ _ => t,
    jumpInstr := some { name := "jmp", ops := InstrOps.SRC_OPERAND_ONLY },
    InstrModifies := fun _ _ => false }

/-- The register `r0`. -/
def exR0 : Operand := { kind := Operandkind.REG_LOCAL, name := "r0" }

/-- The instruction `mov r0, #$+2` as compiled. -/
def exMovHere : IR :=
  { opc := IROpcode.OPC_MOV, dst := some exR0, src := some (NewPcRelative 2),
    instr := some { name := "mov", ops := InstrOps.TWO_OPERANDS } }

/-- The instruction `jmp r0` as compiled. -/
def exJmpR0 : IR :=
  { opc := IROpcode.OPC_JUMP, dst := some exR0,
    instr := some { name := "jmp", ops := InstrOps.SRC_OPERAND_ONLY } }

/-- The instruction `nop` as compiled. -/
def exNop : IR :=
  { opc := IROpcode.OPC_NOP, instr := some { name := "nop", ops := InstrOps.NO_OPERANDS } }

/-- The instruction `ret` as compiled. -/
def exRetInstr : IR :=
  { opc := IROpcode.OPC_RET, instr := some { name := "ret", ops := InstrOps.NO_OPERANDS } }

/-- The block `mov r0, #$+2` / `jmp r0`. -/
def exHereBlock : List AsmItem :=
  [AsmItem.AST_INSTRHOLDER (some (exMovHere, none)),
   AsmItem.AST_INSTRHOLDER (some (exJmpR0, none))]

/-- The block `mov r0, #$+2` / `jmp r0` / `nop`. -/
def exHereBlock3 : List AsmItem :=
  exHereBlock ++ [AsmItem.AST_INSTRHOLDER (some (exNop, none))]

/-- The block `nop` / `ret`. -/
def exRetBlock : List AsmItem :=
  [AsmItem.AST_INSTRHOLDER (some (exNop, none)),
   AsmItem.AST_INSTRHOLDER (some (exRetInstr, none))]

/-- An empty IR list and symbol table. -/
def exInlineState : InlineState (List (String × Operand)) := { irl := [], localsyms := [] }

/-- Whether a node needs no fixup: a dummy, or neither `dst` nor `src` is a
`PcRelative` operand. -/
def fixedIR (ir : IR) : Prop :=
  IsDummy ir = true ∨ (isPcRel ir.dst = false ∧ isPcRel ir.src = false)

/-- The number of operands of a node that the fixup loop has to replace. -/
def pcOps (ir : IR) : Nat :=
  if IsDummy ir then 0
  else (if isPcRel ir.dst then 1 else 0) + (if isPcRel ir.src then 1 else 0)

/-- The number of operands of a list of nodes that the fixup loop has to
replace. -/
def pcCount (l : List IR) : Nat := (l.map pcOps).sum

/-- The block `nop` / `nop`. -/
def exNopBlock : List AsmItem :=
  [AsmItem.AST_INSTRHOLDER (some (exNop, none)), AsmItem.AST_INSTRHOLDER (some (exNop, none))]

/-! ## Comparisons on an unordered float result -/

/-- The truth value of `a op b` for the six comparison operators as signed
integer comparisons; nothing for any other operator. -/
def evalCompare : Op → Int → Int → Option Bool
  | Op.lt, a, b => some (decide (a < b))
  | Op.K_LE, a, b => some (decide (a ≤ b))
  | Op.gt, a, b => some (decide (a > b))
  | Op.K_GE, a, b => some (decide (a ≥ b))
  | Op.K_EQ, a, b => some (decide (a = b))
  | Op.K_NE, a, b => some (decide (a ≠ b))
  | _, _, _ => none

/-- The six comparison operators. -/
def comparisonOps : List Op := [Op.lt, Op.K_LE, Op.gt, Op.K_GE, Op.K_EQ, Op.K_NE]

/-! ## The version check (`CheckVersion` in `frontends/common.c`)

A C string is the list of its characters before the terminating NUL.  The
macros `VERSION_MAJOR`, `VERSION_MINOR`, `VERSION_REV` and `VERSIONSTR` are
defined outside `common.c` and are parameters.  `exit(1)` after the message
is the result `Except.error` with the message. -/

/-- The version macros. -/
structure VersionInfo where
  VERSION_MAJOR : Int
  VERSION_MINOR : Int
  VERSION_REV : Int
  VERSIONSTR : String

/-- Model of `isdigit` in the C locale. -/
def isdigit (c : Char) : Bool := decide (48 ≤ c.toNat) && decide (c.toNat ≤ 57)

/-- The loop `while (isdigit(*str))` that replaces `v` by ten times `v` plus
the digit and steps to the next character: the value of `v` (an `int`) and
the rest of the string. -/
def scanDigits : List Char → Int → Int × List Char
  | [], v => (v, [])
  | c :: rest, v =>
    if isdigit c then scanDigits rest (int32 (10 * v + ((c.toNat : Int) - 48)))
    else (v, c :: rest)

/-- The block `if (*str == DOT)` that steps over the dot and runs the digit
loop for a component that starts at 0: its value and the rest of the
string. -/
def scanComponent (str : List Char) : Int × List Char :=
  match str with
  | '.' :: rest => scanDigits rest 0
  | _ => (0, str)

/-- Model of `CheckVersion`: `Except.ok` when the function returns,
`Except.error` with the text written to `stderr` when it calls `exit(1)`. -/
def CheckVersion (V : VersionInfo) (str : String) : Except String Unit :=
  let (majorVersion, str) := scanDigits str.data 0
  let (minorVersion, str) := scanComponent str
  let (revVersion, _) := scanComponent str
  if majorVersion < V.VERSION_MAJOR then Except.ok () -- everything OK
  else if majorVersion = V.VERSION_MAJOR ∧ minorVersion < V.VERSION_MINOR then
    Except.ok () -- everything OK
  else if majorVersion = V.VERSION_MAJOR ∧ minorVersion = V.VERSION_MINOR ∧
      revVersion ≤ V.VERSION_REV then Except.ok ()
  else
    Except.error ("ERROR: required version " ++ fmtD majorVersion ++ "." ++ fmtD minorVersion ++
      "." ++ fmtD revVersion ++ " but current version is " ++ V.VERSIONSTR ++ "\n")

/-- The number a list of decimal digits denotes (0 for the empty list). -/
def decimal (ds : List Char) : Int :=
  ds.foldl (fun v c => 10 * v + ((c.toNat : Int) - 48)) 0

/-- The triple of the version macros, in lexicographic order. -/
def currentVersion (V : VersionInfo) : Lex (Int × Lex (Int × Int)) :=
  toLex (V.VERSION_MAJOR, toLex (V.VERSION_MINOR, V.VERSION_REV))

/-- The triple of a required version, in lexicographic order. -/
def requiredVersion (major minor rev : Int) : Lex (Int × Lex (Int × Int)) :=
  toLex (major, toLex (minor, rev))

/-- A version for the concrete examples: 4.1.9. -/
def exVersion : VersionInfo :=
  { VERSION_MAJOR := 4, VERSION_MINOR := 1, VERSION_REV := 9, VERSIONSTR := "4.1.9" }

/-! ## The emitter: definitions used to state the section and mode properties -/

/-- The statics as the loop of `IRAssemble` finds them at its first round:
the section flags and the LMM flag cleared, the buffer fresh, `didPub` set at
once on the newer ISA outside the COGSPIN output. -/
def IRAssembleInit (o : Options) (g : AsmState) : AsmState :=
  let st : AsmState :=
    { g with fb := "", inDat := false, inCon := false, didOrg := false, didPub := false,
             lmmMode := false }
  if o.gl_p2 ∧ o.gl_output ≠ OutputKind.OUTPUT_COGSPIN then { st with didPub := true } else st

/-- The state `b` is the state `a` after some text was appended: the section
flags, the LMM flag and `didPub` are the same. -/
def Keeps (a b : AsmState) : Prop :=
  (∃ t, b.fb = a.fb ++ t) ∧ b.inDat = a.inDat ∧ b.inCon = a.inCon ∧ b.didOrg = a.didOrg ∧
    b.lmmMode = a.lmmMode ∧ b.didPub = a.didPub

/-- The two section headers of the emitter. -/
inductive SectionHeader
  | CON | DAT
  deriving DecidableEq, Repr

/-- The opcodes for which `DoAssembleIR` returns before it looks at the
section: comments, dummies and the end marker of a repeat. -/
def noSection (opc : IROpcode) : Bool :=
  opc = IROpcode.OPC_COMMENT || opc = IROpcode.OPC_DUMMY || opc = IROpcode.OPC_REPEAT_END

/-- The section header that `DoAssembleIR` writes for `ir` in state `st`:
`CON` in the OPC_CONST case when `inCon` is clear, `DAT` in the block
`if (!inDat)` that all the other opcodes with a section reach. -/
def headerWritten (ir : IR) (st : AsmState) : Option SectionHeader :=
  if noSection ir.opc then none
  else if ir.opc = IROpcode.OPC_CONST then
    if st.inCon then none else some SectionHeader.CON
  else if st.inDat then none else some SectionHeader.DAT

/-- The text of the header that `DoAssembleIR` writes for `ir` in state
`st`, with what the block `if (!inDat)` writes around `DAT`: the Spin
methods before it, the automatic `org 0` after it. -/
def headerText (o : Options) (P : Option Module) (ir : IR) (st : AsmState) : String :=
  match headerWritten ir st with
  | none => ""
  | some SectionHeader.CON => "CON\n"
  | some SectionHeader.DAT =>
    (if ¬ st.didPub ∧ P.isSome then (EmitSpinMethods o P { st with fb := "" }).fb else "") ++
      "DAT\n" ++ (if st.didOrg then "" else "\torg\t0\n")

/-- The section headers written while the loop of `IRAssemble` runs over a
list from state `st`, in order of writing. -/
def headersWritten (o : Options) (IsHubDest : Option Operand → Bool) (P : Option Module) :
    List IR → AsmState → List SectionHeader
  | [], _ => []
  | ir :: rest, st =>
    (headerWritten ir st).toList ++
      match IRAssembleLoop o IsHubDest P [ir] st with
      | some st' => headersWritten o IsHubDest P rest st'
      | none => []

/-- An OPC_HUBMODE as `NewIR` makes it, and a `ret` without descriptor. -/
def exHubmode : IR := { opc := IROpcode.OPC_HUBMODE }

/-- A constant declaration `x = 1`. -/
def exConst : IR :=
  { opc := IROpcode.OPC_CONST, dst := some { kind := Operandkind.IMM_COG_LABEL, name := "x" },
    src := some { kind := Operandkind.IMM_INT, name := "", val := 1 } }

/-- The older ISA with compressed code. -/
def exCompressed : Options := { gl_compressed := true }

/-- Whether an instruction switches LMM mode on: an OPC_HUBMODE that reaches
the final switch, having no descriptor. -/
def setsLmm (ir : IR) : Bool := decide (ir.opc = IROpcode.OPC_HUBMODE) && ir.instr.isNone

/-- The section flags agree with the headers written so far: the flag that
is set is the one of the most recent header, the two flags are not both set,
and `didOrg` is set exactly when a `DAT` header was written. -/
def SectionInv (st : AsmState) (hs : List SectionHeader) : Prop :=
  hs.getLast? = (if st.inCon then some SectionHeader.CON
    else if st.inDat then some SectionHeader.DAT else none) ∧
  ¬ (st.inCon = true ∧ st.inDat = true) ∧
  (st.didOrg = true ↔ SectionHeader.DAT ∈ hs)

/-! ## Unused methods (`spinc.c`)

The modules and the functions are linked lists in memory.  A pointer to a
module or to a function is a number, and each field the code reads or writes
is a map from pointers to values; `none` is the null pointer.  `MarkUsed` is
defined outside `spinc.c`: it is a parameter that gives the new call counts
for the old ones and the function it is called with. -/

/-- The fields of the modules and of the functions that `RemoveUnusedMethods`
and the functions it calls read or write.  `datblock`, `conblock`,
`varblock` and `annotations` say whether the pointer is non-null; `isBasic`
is `language == LANG_BASIC`. -/
structure Program where
  allparse : Option Nat
  mnext : Nat → Option Nat
  functions : Nat → Option Nat
  datblock : Nat → Bool
  conblock : Nat → Bool
  varblock : Nat → Bool
  isBasic : Nat → Bool
  fnext : Nat → Option Nat
  fname : Nat → String
  callSites : Nat → Int
  is_public : Nat → Bool
  annotations : Nat → Bool

/-- The nodes a loop `for (p = head; p; p = p->next)` visits when its body
leaves the `next` fields alone; `none` when the bound on the number of rounds
is used up. -/
def chain (next : Nat → Option Nat) : Nat → Option Nat → Option (List Nat)
  | _, none => some []
  | 0, some _ => none
  | fuel + 1, some p => (chain next fuel (next p)).map (fun l => p :: l)

/-- The cell `oldptr` of `doPruneMethods` points to: `P->functions`, or the
`next` field of a function. -/
inductive FuncSlot
  | functions
  | next (pf : Nat)
  deriving DecidableEq, Repr

/-- The loop of `doPruneMethods`, on the value `head` of `P->functions` and
the `next` fields of the functions.  The first argument bounds the number of
rounds. -/
def pruneLoop (callSites : Nat → Int) :
    Nat → Option Nat → (Nat → Option Nat) → FuncSlot → Option (Option Nat × (Nat → Option Nat))
  | 0, _, _, _ => none
  | fuel + 1, head, fnext, oldptr =>
    let pf :=
      match oldptr with
      | FuncSlot.functions => head
      | FuncSlot.next q => fnext q
    match pf with
    | none => some (head, fnext)
    | some pf =>
      if callSites pf = 0 then
        -- remove this function
        match oldptr with
        | FuncSlot.functions => pruneLoop callSites fuel (fnext pf) fnext oldptr
        | FuncSlot.next q =>
          pruneLoop callSites fuel head (Function.update fnext q (fnext pf)) oldptr
      else pruneLoop callSites fuel head fnext (FuncSlot.next pf)

/-- Model of `doPruneMethods`; `none` when the bound is used up. -/
def doPruneMethods (fuel : Nat) (S : Program) (P : Nat) : Option Program :=
  (pruneLoop S.callSites fuel (S.functions P) S.fnext FuncSlot.functions).map
    (fun r => { S with functions := Function.update S.functions P r.1, fnext := r.2 })

/-- Model of `GetMainFunction`; the outer `none` when the bound is used up. -/
def GetMainFunction (fuel : Nat) (S : Program) (P : Nat) : Option (Option Nat) :=
  if S.isBasic P then
    -- look for function named "program"
    (chain S.fnext fuel (S.functions P)).map (fun fs =>
      match fs.find? (fun f => S.fname f = "program") with
      | some f => some f
      | none => S.functions P)
  else some (S.functions P)

/-- Whether the last loop of `RemoveUnusedMethods` takes a module for empty:
no functions, no DAT block, no CON block and no VAR block. -/
def isEmptyModule (S : Program) (P : Nat) : Bool :=
  (S.functions P).isNone && !S.datblock P && !S.conblock P && !S.varblock P

/-- The last loop of `RemoveUnusedMethods` ("finally remove modules that have
no defined functions and no constant definitions or dat sections").  The
first argument bounds the number of rounds. -/
def removeEmptyLoop : Nat → Program → Option Nat → Option Nat → Option Program
  | 0, _, _, _ => none
  | _ + 1, S, _, none => some S
  | fuel + 1, S, LastP, some P =>
    let S :=
      if isEmptyModule S P then
        match LastP with
        | some L => { S with mnext := Function.update S.mnext L (S.mnext P) }
        | none => { S with allparse := S.mnext P }
      else S
    removeEmptyLoop fuel S (some P) (S.mnext P)

/-- The loops over the functions of a module: the functions of the modules
of `ms`, module by module. -/
def functionsOf (fuel : Nat) (S : Program) : List Nat → Option (List Nat)
  | [] => some []
  | P :: ms =>
    match chain S.fnext fuel (S.functions P), functionsOf fuel S ms with
    | some fs, some rest => some (fs ++ rest)
    | _, _ => none

/-- The body of the loop "mark stuff called via public functions". -/
def markPublic (MarkUsed : (Nat → Int) → Option Nat → (Nat → Int)) (S : Program)
    (callSites : Nat → Int) (pf : Nat) : Nat → Int :=
  if callSites pf = 0 then
    if S.is_public pf then MarkUsed callSites (some pf)
    else if S.annotations pf then MarkUsed callSites (some pf)
    else callSites
  else callSites

/-- The calls `doPruneMethods(P)` for the modules of a list. -/
def pruneAll (fuel : Nat) : List Nat → Program → Option Program
  | [], S => some S
  | P :: ms, S =>
    match doPruneMethods fuel S P with
    | some S => pruneAll fuel ms S
    | none => none

/-- Model of `RemoveUnusedMethods`.  The loops that leave the lists they
walk alone run over the nodes `chain` gives.  The result is `none` when the
bound on the rounds of a loop is used up, or `allparse` is null and is
dereferenced. -/
def RemoveUnusedMethods (MarkUsed : (Nat → Int) → Option Nat → (Nat → Int)) (fuel : Nat)
    (isBinary : Bool) (S : Program) : Option Program :=
  match chain S.mnext fuel S.allparse with
  | none => none
  | some ms =>
    match functionsOf fuel S ms with
    | none => none
    | some fs =>
      -- mark everything unused
      let S := { S with callSites := fun f => if f ∈ fs then 0 else S.callSites f }
      let S? : Option Program :=
        if isBinary then
          match S.allparse with
          | none => none
          | some P =>
            (GetMainFunction fuel S P).map
              (fun m => { S with callSites := MarkUsed S.callSites m })
        else some S
      match S? with
      | none => none
      | some S =>
        -- mark stuff called via public functions
        let S := { S with callSites := fs.foldl (markPublic MarkUsed S) S.callSites }
        -- now remove the ones that are never called
        match pruneAll fuel ms S with
        | none => none
        | some S => removeEmptyLoop fuel S none S.allparse

/-- The nodes of the list that starts at `head`, in order. -/
def IsChain (next : Nat → Option Nat) : Option Nat → List Nat → Prop
  | h, [] => h = none
  | h, p :: ps => h = some p ∧ IsChain next (next p) ps

/-- Three functions 10, 11, 12 of module 0; the second one is never called. -/
def exPruneProgram : Program :=
  { allparse := some 0, mnext := fun _ => none,
    functions := fun m => if m = 0 then some 10 else none,
    datblock := fun _ => false, conblock := fun _ => false, varblock := fun _ => false,
    isBasic := fun _ => false,
    fnext := fun f => if f = 10 then some 11 else if f = 11 then some 12 else none,
    fname := fun _ => "", callSites := fun f => if f = 11 then 0 else 1,
    is_public := fun _ => false, annotations := fun _ => false }

/-- Three modules 0, 1, 2 in this order: module 0 has a DAT block, modules 1
and 2 have nothing. -/
def exEmptyModules : Program :=
  { allparse := some 0,
    mnext := fun m => if m = 0 then some 1 else if m = 1 then some 2 else none,
    functions := fun _ => none,
    datblock := fun m => decide (m = 0), conblock := fun _ => false, varblock := fun _ => false,
    isBasic := fun _ => false, fnext := fun _ => none, fname := fun _ => "",
    callSites := fun _ => 0, is_public := fun _ => false, annotations := fun _ => false }

/-- A `MarkUsed` for the concrete examples: the function gets one more call
site. -/
def exMarkUsed (callSites : Nat → Int) (f : Option Nat) : Nat → Int :=
  match f with
  | some f => Function.update callSites f (callSites f + 1)
  | none => callSites

/-- The cell that holds the pointer to the rest of the module list: the
variable `allparse`, or the `next` field of a module. -/
inductive ModSlot
  | allparse
  | next (L : Nat)
  deriving DecidableEq, Repr

/-- The value of a cell of the module list. -/
def ModSlot.read (S : Program) : ModSlot → Option Nat
  | ModSlot.allparse => S.allparse
  | ModSlot.next L => S.mnext L

/-- The modules of a list that the last loop of `RemoveUnusedMethods` leaves
in the list: a module is taken out when it is empty and the module before it
was not taken out (`prevOut` says whether it was). -/
def keptModules (empty : Nat → Bool) : Bool → List Nat → List Nat
  | _, [] => []
  | prevOut, m :: ms =>
    if empty m && !prevOut then keptModules empty true ms
    else m :: keptModules empty false ms

/-! ## The DAT instruction assembler (`assembleInstruction` in `backends/dat/outdat.c`)

The instruction node is taken after parsing: the descriptor it points to and
the list of the nodes chained through `right`.  `EvalPasmExpr` and the symbol
table are outside `outdat.c`: an operand comes with the value `EvalPasmExpr`
gives for it.  The macro `IMMEDIATE_INSTR` is defined outside `outdat.c` and
is a parameter. -/

/-- The fields of an instruction descriptor that `assembleInstruction`
reads. -/
structure DatInstruction where
  name : String
  binary : Nat
  ops : InstrOps
  opc : IROpcode
  deriving DecidableEq, Repr

/-- An `InstrModifier`. -/
structure InstrModifier where
  name : String
  modifier : Nat
  deriving DecidableEq, Repr

/-- An operand expression: whether the node is an `AST_IDENTIFIER`, the
value `EvalPasmExpr` gives for it, and for an identifier `x` the value
`EvalPasmExpr` gives for the identifier `x_ret`. -/
structure DatOperand where
  isIdentifier : Bool := false
  value : Int := 0
  retValue : Int := 0
  deriving DecidableEq, Repr

/-- A node of the list after the instruction node: an operand, a modifier,
or a node of any other kind. -/
inductive InstrItem
  | AST_EXPRLIST (operand : DatOperand)
  | AST_INSTRMODIFIER (mod : InstrModifier)
  | AST_OTHER (kind : Int)
  deriving DecidableEq, Repr

/-- The state of the DAT output: the bytes handed to the output function
`outc` so far, the static `datacount`, and the error log. -/
structure DatState where
  out : List Nat := []
  datacount : Nat := 0
  errors : List String := []
  deriving DecidableEq, Repr

/-- Model of `ERROR` for the DAT output. -/
def DatState.error (st : DatState) (msg : String) : DatState :=
  { st with errors := st.errors ++ [msg] }

/-- Model of `outputByte`. -/
def outputByte (st : DatState) (c : Nat) : DatState :=
  { st with out := st.out ++ [c], datacount := st.datacount + 1 }

/-- The value of a C expression converted to `uint32_t`. -/
def toU32 (v : Int) : Nat := (v % 4294967296).toNat

/-- Model of `isImmediate`. -/
def isImmediate (im : InstrModifier) : Bool := im.name.data.head? = some '#'

/-- Model of `ImmMask`: the mask, and the state with the error it may
report. -/
def ImmMask (IMMEDIATE_INSTR : Nat) (instr : DatInstruction) (numoperands : Nat)
    (st : DatState) : Nat × DatState :=
  let mask := IMMEDIATE_INSTR % 4294967296
  match instr.ops with
  | InstrOps.SRC_OPERAND_ONLY | InstrOps.CALL_OPERAND => (mask, st)
  | InstrOps.TWO_OPERANDS | InstrOps.JMPRET_OPERANDS =>
    if numoperands < 2 then (0, st.error ("bad immediate operand to " ++ instr.name))
    else (mask, st)
  | _ => (0, st.error ("immediate not supported for " ++ instr.name ++ " instruction"))

/-- The macro `MAX_OPERANDS` of `outdat.c`. -/
def MAX_OPERANDS : Nat := 2

/-- The loop "check for modifiers and operands" of `assembleInstruction`:
the state, and the word and the operands when the loop runs to its end
(nothing when the function returns from inside it). -/
def scanParts (IMMEDIATE_INSTR : Nat) (instr : DatInstruction) :
    List InstrItem → Nat → List DatOperand → DatState →
      DatState × Option (Nat × List DatOperand)
  | [], val, operand, st => (st, some (val, operand))
  | InstrItem.AST_EXPRLIST op :: rest, val, operand, st =>
    if operand.length ≥ MAX_OPERANDS then
      (st.error "Too many operands to instruction", none)
    else scanParts IMMEDIATE_INSTR instr rest val (operand ++ [op]) st
  | InstrItem.AST_INSTRMODIFIER mod :: rest, val, operand, st =>
    let (mask, st) :=
      if isImmediate mod then
        -- sanity check that the immediate is on the correct operand
        ImmMask IMMEDIATE_INSTR instr operand.length st
      else (mod.modifier % 4294967296, st)
    let val := if mask &&& 0x80000000 ≠ 0 then val &&& mask else val ||| mask
    scanParts IMMEDIATE_INSTR instr rest val operand st
  | InstrItem.AST_OTHER kind :: _, _, _, st =>
    (st.error ("Internal error: expected instruction modifier found " ++ toString kind), none)

/-- The number of operands an instruction class takes (`expectops`). -/
def expectops (ops : InstrOps) : Nat :=
  match ops with
  | InstrOps.NO_OPERANDS => 0
  | InstrOps.TWO_OPERANDS | InstrOps.JMPRET_OPERANDS => 2
  | _ => 1

/-- The switch "parse operands and put them in place": the state, and `src`
and `dst` (nothing when the function returns from inside the switch). -/
def placeOperands (instr : DatInstruction) (operand : List DatOperand) (st : DatState) :
    DatState × Option (Nat × Nat) :=
  let op0 := operand.getD 0 {}
  let op1 := operand.getD 1 {}
  match instr.ops with
  | InstrOps.NO_OPERANDS => (st, some (0, 0))
  | InstrOps.TWO_OPERANDS | InstrOps.JMPRET_OPERANDS =>
    (st, some (toU32 op1.value, toU32 op0.value))
  | InstrOps.SRC_OPERAND_ONLY => (st, some (toU32 op0.value, 0))
  | InstrOps.DST_OPERAND_ONLY => (st, some (0, toU32 op0.value))
  | InstrOps.CALL_OPERAND =>
    if ¬ op0.isIdentifier then (st.error "call operand must be an identifier", none)
    else (st, some (toU32 op0.value, toU32 op0.retValue))
  | _ => (st.error ("Unsupported instruction \x60" ++ instr.name ++ "\x27"), none)

/-- The loop `while ((datacount % 4) != 0) outputByte(f, 0)`; the first
argument bounds the number of rounds. -/
def alignLong : Nat → DatState → DatState
  | 0, st => st
  | fuel + 1, st => if st.datacount % 4 ≠ 0 then alignLong fuel (outputByte st 0) else st

/-- The loop that writes the four bytes of the word, low byte first. -/
def outputLong (st : DatState) (val : Nat) : DatState :=
  let st := outputByte st (val &&& 0xff)
  let val := val >>> 8
  let st := outputByte st (val &&& 0xff)
  let val := val >>> 8
  let st := outputByte st (val &&& 0xff)
  let val := val >>> 8
  outputByte st (val &&& 0xff)

/-- Model of `assembleInstruction`. -/
def assembleInstruction (IMMEDIATE_INSTR : Nat) (instr : DatInstruction)
    (parts : List InstrItem) (st : DatState) : DatState :=
  let val := instr.binary % 4294967296
  let val :=
    if instr.opc ≠ IROpcode.OPC_NOP then
      -- for anything except NOP set the condition to "always"
      val ||| (0xf <<< 18)
    else val
  -- check for modifiers and operands
  match scanParts IMMEDIATE_INSTR instr parts val [] st with
  | (st, none) => st
  | (st, some (val, operand)) =>
    -- parse operands and put them in place
    if expectops instr.ops ≠ operand.length then
      st.error ("Expected " ++ toString (expectops instr.ops) ++ " operands for " ++
        instr.name ++ ", found " ++ toString operand.length)
    else
      match placeOperands instr operand st with
      | (st, none) => st
      | (st, some (src, dst)) =>
        if src > 511 then st.error ("Source operand too big for " ++ instr.name)
        else if dst > 511 then st.error ("Destination operand too big for " ++ instr.name)
        else
          let val := (val ||| (dst <<< 9) ||| src) % 4294967296
          -- output the instruction; make sure it is aligned
          outputLong (alignLong 4 st) val

/-- The word `assembleInstruction` starts from: the `binary` of the
descriptor, with the condition bits 18 to 21 set for every opcode but NOP. -/
def condWord (instr : DatInstruction) : Nat :=
  if instr.opc ≠ IROpcode.OPC_NOP then instr.binary % 4294967296 ||| (0xf <<< 18)
  else instr.binary % 4294967296

/-- The operands of an instruction line, in order. -/
def exprOperands : List InstrItem → List DatOperand
  | [] => []
  | InstrItem.AST_EXPRLIST op :: rest => op :: exprOperands rest
  | _ :: rest => exprOperands rest

/-- Whether a line holds operands and modifiers only. -/
def plainItems : List InstrItem → Bool
  | [] => true
  | InstrItem.AST_OTHER _ :: _ => false
  | _ :: rest => plainItems rest

/-- The number of zero bytes that bring `datacount` to a multiple of 4. -/
def padCount (datacount : Nat) : Nat := (4 - datacount % 4) % 4

/-- The instruction classes the switch of `assembleInstruction` has a case
for. -/
def datClasses : List InstrOps :=
  [InstrOps.NO_OPERANDS, InstrOps.TWO_OPERANDS, InstrOps.JMPRET_OPERANDS,
   InstrOps.SRC_OPERAND_ONLY, InstrOps.DST_OPERAND_ONLY, InstrOps.CALL_OPERAND]

/-- The four bytes of a 32-bit word, low byte first. -/
def littleEndian (w : Nat) : List Nat :=
  [w % 256, w / 256 % 256, w / 65536 % 256, w / 16777216 % 256]

/-- The instruction `mov` of the older ISA, and the modifiers `#` and `wz`,
with `IMMEDIATE_INSTR` = bit 22. -/
def exMovInstr : DatInstruction :=
  { name := "mov", binary := 0xa0800000, ops := InstrOps.TWO_OPERANDS, opc := IROpcode.OPC_MOV }

/-- The modifier `#` of the older ISA, with the bit `IMMEDIATE_INSTR`. -/
def exImmediate : InstrModifier := { name := "#", modifier := 0x00400000 }

/-- The modifier `wz`. -/
def exWz : InstrModifier := { name := "wz", modifier := 0x02000000 }

/-- The line `mov 5, #3 wz`. -/
def exMovParts : List InstrItem :=
  [InstrItem.AST_EXPRLIST { value := 5 }, InstrItem.AST_EXPRLIST { value := 3 },
   InstrItem.AST_INSTRMODIFIER exImmediate, InstrItem.AST_INSTRMODIFIER exWz]

/-- An instruction of a class of the newer ISA, with one operand. -/
def exP2Jump : DatInstruction :=
  { name := "jmp", binary := 0x0d800000, ops := InstrOps.P2_JUMP, opc := IROpcode.OPC_JUMP }

/-- The instruction `call` of the older ISA. -/
def exCallInstr : DatInstruction :=
  { name := "call", binary := 0x5cc00000, ops := InstrOps.CALL_OPERAND, opc := IROpcode.OPC_CALL }

/-! ### The instruction word as the claim describes it

The following definitions are not translated from `outdat.c`: they say, in
the words of the claim, which word a line stands for.  They are compared
with `assembleInstruction` in `assemble_word`. -/

/-- Whether the immediate marker `#` is accepted after `seen` operands: on an
instruction with a source operand only or a call, and on an instruction with
two operands once both are there. -/
def immediateAccepted (ops : InstrOps) (seen : Nat) : Bool :=
  ops = InstrOps.SRC_OPERAND_ONLY || ops = InstrOps.CALL_OPERAND ||
    ((ops = InstrOps.TWO_OPERANDS || ops = InstrOps.JMPRET_OPERANDS) && decide (2 ≤ seen))

/-- The error reported for an immediate marker that is not accepted. -/
def immediateMessage (instr : DatInstruction) : String :=
  if instr.ops = InstrOps.TWO_OPERANDS ∨ instr.ops = InstrOps.JMPRET_OPERANDS then
    "bad immediate operand to " ++ instr.name
  else "immediate not supported for " ++ instr.name ++ " instruction"

/-- The 32-bit mask of a modifier that follows `seen` operands: the bit
`IMMEDIATE_INSTR` for an accepted `#`, nothing for a `#` that is not
accepted, the mask of the modifier otherwise. -/
def modifierMask (IMMEDIATE_INSTR : Nat) (ops : InstrOps) (seen : Nat) (mod : InstrModifier) :
    Nat :=
  if mod.name.data.head? = some '#' then
    (if immediateAccepted ops seen then IMMEDIATE_INSTR % 4294967296 else 0)
  else mod.modifier % 4294967296

/-- A modifier applied to a word: a mask with bit 31 set is and-ed to the
word, any other mask is or-ed. -/
def applyModifier (val mask : Nat) : Nat :=
  if mask / 2147483648 % 2 = 1 then val &&& mask else val ||| mask

/-- The word with the modifiers of the line applied in order; `seen` counts
the operands before the modifier. -/
def modifiedWord (IMMEDIATE_INSTR : Nat) (ops : InstrOps) : List InstrItem → Nat → Nat → Nat
  | [], _, val => val
  | InstrItem.AST_EXPRLIST _ :: rest, seen, val =>
    modifiedWord IMMEDIATE_INSTR ops rest (seen + 1) val
  | InstrItem.AST_INSTRMODIFIER mod :: rest, seen, val =>
    modifiedWord IMMEDIATE_INSTR ops rest seen
      (applyModifier val (modifierMask IMMEDIATE_INSTR ops seen mod))
  | InstrItem.AST_OTHER _ :: rest, seen, val => modifiedWord IMMEDIATE_INSTR ops rest seen val

/-- The errors of the immediate markers of the line, in order. -/
def immediateErrors (instr : DatInstruction) : List InstrItem → Nat → List String
  | [], _ => []
  | InstrItem.AST_EXPRLIST _ :: rest, seen => immediateErrors instr rest (seen + 1)
  | InstrItem.AST_INSTRMODIFIER mod :: rest, seen =>
    (if mod.name.data.head? = some '#' ∧ immediateAccepted instr.ops seen = false then
      [immediateMessage instr] else []) ++ immediateErrors instr rest seen
  | InstrItem.AST_OTHER _ :: rest, seen => immediateErrors instr rest seen

/-- The fields `(src, dst)` of a line whose operand count is the one of its
class: an instruction with two operands has the destination first and the
source second; one with a single operand has it as source or as destination
and 0 in the other field; a call on the identifier `x` has the value of `x`
as source and the value of `x_ret` as destination; an instruction without
operands has 0 in both.  The values are taken as `uint32_t`. -/
def operandFields : InstrOps → List DatOperand → Option (Nat × Nat)
  | InstrOps.NO_OPERANDS, [] => some (0, 0)
  | InstrOps.TWO_OPERANDS, [d, s] => some (toU32 s.value, toU32 d.value)
  | InstrOps.JMPRET_OPERANDS, [d, s] => some (toU32 s.value, toU32 d.value)
  | InstrOps.SRC_OPERAND_ONLY, [s] => some (toU32 s.value, 0)
  | InstrOps.DST_OPERAND_ONLY, [d] => some (0, toU32 d.value)
  | InstrOps.CALL_OPERAND, [x] =>
    if x.isIdentifier then some (toU32 x.value, toU32 x.retValue) else none
  | _, _ => none

/-! ## Inline assembly: definitions used to state the return property -/

/-- What `CompileInlineAsm` has set up when it comes to its second loop: the
locals (with the state in which `fcache`, `startlabel` and `org0` are
appended for a cached block), the node `fcache`, the operand `enddst` and
`isInFcache`. -/
structure BlockStart (τ : Type) where
  v : InlineLocals τ
  fcache : Option IR
  enddst : Operand
  isInFcache : Bool

/-- The part of `CompileInlineAsm` before the loop "now go back and emit
code". -/
def inlineStart {τ : Type} (e : InlineEnv τ) (placeHub : Bool)
    (items : List AsmItem) (wantFcache : Bool) (st : InlineState τ) : BlockStart τ :=
  -- never generate fcache stuff!
  let wantFcache := if ¬ placeHub then false else wantFcache
  let r := NewHubLabel e st
  let enddst := r.1
  let st := r.2
  let useFcache := wantFcache && decide (e.gl_fcache_size > 0)
  let st :=
    if wantFcache ∧ e.gl_fcache_size ≤ 0 then
      { st with warnings := st.warnings ++ ["FCACHE is disabled, asm will be in HUB"] }
    else st
  let r := if useFcache then NewHubLabel e st else (enddst, st)
  let startdst := r.1
  let st := r.2
  let isInFcache := useFcache
  let fcache : Option IR :=
    if useFcache then
      some { opc := IROpcode.OPC_FCACHE, src := some startdst, dst := some enddst }
    else none
  let startlabel : IR := { opc := IROpcode.OPC_LABEL, dst := some startdst }
  let endlabel : Option IR :=
    if useFcache then some { opc := IROpcode.OPC_LABEL, dst := some enddst } else none
  let org0 : IR := { opc := IROpcode.OPC_ORG, dst := some (NewImmediate 0) }
  -- first run through and define all the labels
  let st := defineLabels e placeHub isInFcache items st
  -- now go back and emit code
  let st :=
    match fcache with
    | some f =>
      let st := AppendIR (AppendIR st f) startlabel
      if e.gl_p2 then AppendIR st org0 else st
    | none => st
  { v := { st := st, endlabel := endlabel }, fcache := fcache, enddst := enddst,
    isInFcache := isInFcache }

/-- What `CompileInlineAsm` has built when it comes to the loop "now fixup
any relative addresses": the locals after the second loop, and the state
with the end label (and for a cached block on the newer ISA the `orgh`)
appended. -/
def inlineBeforeFixup {τ : Type} (e : InlineEnv τ) (placeHub : Bool)
    (items : List AsmItem) (wantFcache : Bool) (st : InlineState τ) :
    InlineLocals τ × InlineState τ :=
  let s := inlineStart e placeHub items wantFcache st
  let orgh : IR := { opc := IROpcode.OPC_HUBMODE }
  let v := emitItems e placeHub s.isInFcache s.enddst items s.v
  let st := v.st
  let st :=
    match v.endlabel with
    | some l =>
      let st :=
        if v.relpc > (e.gl_fcache_size % 4294967296).toNat then
          { st with errors := st.errors ++ ["Inline assembly too large to fit in fcache"] }
        else st
      let st := AppendIR st l
      if s.fcache.isSome ∧ e.gl_p2 then AppendIR st orgh else st
    | none => st
  (v, st)

/-- The node `y` is the node `x` as the fixup loop may leave it: the loop
writes `fcache`, and `dst` and `src` when they hold a `PcRelative`
operand. -/
def SameNode (x y : IR) : Prop :=
  y.opc = x.opc ∧ y.cond = x.cond ∧ y.instr = x.instr ∧ y.flags = x.flags ∧
    y.srceffect = x.srceffect ∧ y.aux = x.aux ∧ y.addr = x.addr ∧
    (isPcRel x.dst = false → y.dst = x.dst) ∧ (isPcRel x.src = false → y.src = x.src)

/-- The list `b` is the list `a` as the fixup loop may leave it: the nodes of
`a` in their order, each one as `SameNode` says, with OPC_LABEL nodes put in
between. -/
inductive Relabelled : List IR → List IR → Prop
  | nil : Relabelled [] []
  | node {x y : IR} {a b : List IR} : SameNode x y → Relabelled a b → Relabelled (x :: a) (y :: b)
  | label {l : IR} {a b : List IR} :
    l.opc = IROpcode.OPC_LABEL → Relabelled a b → Relabelled a (l :: b)

/-- The node the second loop of `CompileInlineAsm` appends for an IR that
`CompileInlineInstr_only` made: an OPC_RET becomes the jump to `enddst`. -/
def jumpForRet {τ : Type} (e : InlineEnv τ) (enddst : Operand) (x : IR) : IR :=
  if x.opc = IROpcode.OPC_RET then retToJump e x enddst else x

/-- The `AST_INSTRHOLDER` cases that the second loop of `CompileInlineAsm`
comes to before it ends: for each one the IR and the extra IR that
`CompileInlineInstr_only` returned, and the locals at that point.  It follows
the recursion of `emitItems`. -/
def emittedInstrs {τ : Type} (e : InlineEnv τ) (placeHub isInFcache : Bool) (enddst : Operand) :
    List AsmItem → InlineLocals τ → List (IR × Option IR × InlineLocals τ)
  | [], _ => []
  | AsmItem.AST_LINEBREAK :: rest, v => emittedInstrs e placeHub isInFcache enddst rest v
  | AsmItem.AST_COMMENT :: rest, v => emittedInstrs e placeHub isInFcache enddst rest v
  | AsmItem.AST_INSTRHOLDER none :: _, _ => []
  | AsmItem.AST_INSTRHOLDER (some (ir, extrair)) :: rest, v =>
    (ir, extrair, v) ::
      emittedInstrs e placeHub isInFcache enddst rest (emitInstr e enddst ir extrair v)
  | AsmItem.AST_IDENTIFIER name :: rest, v =>
    match e.FindSymbol v.st.localsyms name with
    | some (true, _) =>
      emittedInstrs e placeHub isInFcache enddst rest
        (emitItems e placeHub isInFcache enddst [AsmItem.AST_IDENTIFIER name] v)
    | _ => []
  | AsmItem.AST_LONGLIST items :: rest, v =>
    emittedInstrs e placeHub isInFcache enddst rest { v with st := emitLongs items v.st }
  | AsmItem.AST_WORDLIST :: _, _ => []
  | AsmItem.AST_OTHER :: _, _ => []

/-- Whether `CompileInlineInstr_only` returned an OPC_RET: the instruction is
a `ret`, or the extra IR is the return made for predicate 0. -/
def isRetCall {τ : Type} (c : IR × Option IR × InlineLocals τ) : Bool :=
  decide (c.1.opc = IROpcode.OPC_RET) ||
    match c.2.1 with
    | some x => decide (x.opc = IROpcode.OPC_RET)
    | none => false

/-- The nodes of one `AST_INSTRHOLDER` case as `CompileInlineInstr_only`
returned them, the first with its `addr`. -/
def rawNodes {τ : Type} (c : IR × Option IR × InlineLocals τ) : List IR :=
  { c.1 with addr := c.2.2.relpc } :: c.2.1.toList

/-- How a node `x` that `CompileInlineInstr_only` returned stands in the IR
list as the node `y` after `CompileInlineAsm`: an OPC_RET is an OPC_JUMP to
`enddst`, with the descriptor `ReplaceOpcode` gave it; any other node is as
`SameNode` says. -/
def RetReplaced {τ : Type} (e : InlineEnv τ) (enddst : Operand) (x y : IR) : Prop :=
  if x.opc = IROpcode.OPC_RET then
    y.opc = IROpcode.OPC_JUMP ∧ y.dst = some enddst ∧ y.instr = e.jumpInstr ∧ y.cond = x.cond ∧
      y.addr = x.addr
  else SameNode x y

/-- The state of the fixup loop over the nodes `M0` from `firstir` and the
nodes `T` appended after the block, `base` being the list before `firstir`:
`pre` has gained labels only, the list from `firstir` is `M0` relabelled
followed by the nodes of `T`, and the first node and the nodes of `T` have
address 0. -/
def FixupInv (base M0 T pre blk : List IR) : Prop :=
  ∃ P M T', pre = base ++ P ∧ blk = M ++ T' ∧ Relabelled M0 (P ++ M) ∧
    (∃ h, M.head? = some h ∧ h.addr = 0) ∧ (∀ z ∈ T', z.addr = 0) ∧
    List.Forall₂ SameNode T T'

/-- What the second loop needs of its locals, `base` being the length of the
IR list before the block: `relpc` is 0 until `firstir` is set, and `firstir`
is a node of the block with address 0. -/
def FirstInv {τ : Type} (base : Nat) (v : InlineLocals τ) : Prop :=
  base ≤ v.st.irl.length ∧ (v.first = none → v.relpc = 0) ∧
    ∀ f, v.first = some f → base ≤ f ∧ ∃ x, v.st.irl[f]? = some x ∧ x.addr = 0

/-- The block `ret` / `nop` / `ret`. -/
def exTwoRets : List AsmItem :=
  [AsmItem.AST_INSTRHOLDER (some (exRetInstr, none)),
   AsmItem.AST_INSTRHOLDER (some (exNop, none)),
   AsmItem.AST_INSTRHOLDER (some (exRetInstr, none))]

/-- The block `nop` with predicate 0 on the newer ISA: the IR and the
OPC_RET that `CompileInlineInstr_only` chains to it. -/
def exRetPredicate : List AsmItem :=
  [AsmItem.AST_INSTRHOLDER (some (exNop, some { opc := IROpcode.OPC_RET }))]

/-- The emitter state without its error log: the text, the fixup statics
and the section flags. -/
def AsmState.text (s : AsmState) : AsmState := { s with errors := [] }

/-- A `Flow` without the error log of its state. -/
def Flow.text : Flow → Flow
  | Flow.returned s => Flow.returned s.text
  | Flow.falls s => Flow.falls s.text

/-- A COMMENT whose operand is not a string: `DoAssembleIR` reports
`COMMENT is not a string` for it and writes nothing. -/
def exBadComment : IR :=
  { opc := IROpcode.OPC_COMMENT,
    dst := some { kind := Operandkind.IMM_INT, name := "", val := 0 } }

/-! ## Inline assembly: definitions used to state the fixup of `$+k` operands

These definitions are not translated from `inlineasm.c`: they say, in the
words of the claim, what the list after `CompileInlineAsm` is, given the
list `B0` from `firstir` before the loop "now fixup any relative
addresses". -/

/-- The block `mov r0, #$+2` / `mov r0, #$+1` / `nop` / `mov r0, #$-3` /
`mov r0, #$-9`: two operands for the `nop` at address 2, one for the first
node, one out of range. -/
def exHereTwice : List AsmItem :=
  [AsmItem.AST_INSTRHOLDER (some (exMovHere, none)),
   AsmItem.AST_INSTRHOLDER (some ({ exMovHere with src := some (NewPcRelative 1) }, none)),
   AsmItem.AST_INSTRHOLDER (some (exNop, none)),
   AsmItem.AST_INSTRHOLDER (some ({ exMovHere with src := some (NewPcRelative (-3)) }, none)),
   AsmItem.AST_INSTRHOLDER (some ({ exMovHere with src := some (NewPcRelative (-9)) }, none))]

theorem doPrintOperand_fb (o : Options) (reg : Option Operand) (useimm : Bool)
    (effect : OperandEffect) (st : AsmState) :
    (doPrintOperand o reg useimm effect st).fb = st.fb ++ operandText o reg useimm effect := by
  unfold operandText doPrintOperand
  rcases reg with _ | reg
  · simp [flexbuf_addstr, ERROR]
  · rcases hk : reg.kind <;> rcases effect <;> rcases hp : o.gl_p2 <;> rcases useimm <;>
      simp [flexbuf_addstr, ERROR, hk, hp, String.append_assoc, -String.reduceAppend] <;>
      (repeat' split) <;> simp [String.append_assoc]

theorem doPrintOperand_statics (o : Options) (reg : Option Operand) (useimm : Bool)
    (effect : OperandEffect) (st : AsmState) :
    (doPrintOperand o reg useimm effect st).fixup_number = st.fixup_number ∧
    (doPrintOperand o reg useimm effect st).pending_fixup = st.pending_fixup ∧
    (doPrintOperand o reg useimm effect st).lmmMode = st.lmmMode ∧
    (doPrintOperand o reg useimm effect st).inDat = st.inDat ∧
    (doPrintOperand o reg useimm effect st).inCon = st.inCon ∧
    (doPrintOperand o reg useimm effect st).didOrg = st.didOrg ∧
    (doPrintOperand o reg useimm effect st).didPub = st.didPub := by
  unfold doPrintOperand
  rcases reg with _ | reg
  · simp [flexbuf_addstr, ERROR]
  · rcases hk : reg.kind <;> rcases effect <;> rcases hp : o.gl_p2 <;> rcases useimm <;>
      simp [flexbuf_addstr, ERROR, hk, hp] <;>
      (repeat' split) <;> simp

theorem doPrintOperand_errors_none (o : Options) (reg : Operand) (useimm : Bool) (st : AsmState)
    (hk : reg.kind ≠ Operandkind.BYTE_REF ∧ reg.kind ≠ Operandkind.WORD_REF ∧
      reg.kind ≠ Operandkind.LONG_REF) :
    (doPrintOperand o (some reg) useimm OperandEffect.OPEFFECT_NONE st).errors = st.errors := by
  unfold doPrintOperand
  rcases hk' : reg.kind <;> rcases hp : o.gl_p2 <;> rcases useimm <;>
    simp_all [flexbuf_addstr, ERROR] <;> (repeat' split) <;> simp

theorem PrintOperandAsValue_fb (o : Options) (reg : Operand) (st : AsmState) :
    (PrintOperandAsValue o reg st).fb = st.fb ++ valueText o st.fixup_number reg := by
  unfold valueText PrintOperandAsValue
  rcases hk : reg.kind <;>
    simp [flexbuf_addstr, hk, PrintOperand, doPrintOperand_fb, String.append_assoc,
      -String.reduceAppend] <;>
    (repeat' split) <;> simp [String.append_assoc, -String.reduceAppend]

theorem PrintCond_fb (c : IRCond) (st : AsmState) :
    (PrintCond c st).fb = st.fb ++ condText c := by
  simp [PrintCond, flexbuf_addstr, condText, String.append_assoc]


/-! ### Strings that differ at their first character -/

theorem append_ne_of_head (p a b : String) (ca cb : Char)
    (ha : a.data.head? = some ca) (hb : b.data.head? = some cb) (hne : ca ≠ cb) :
    p ++ a ≠ p ++ b := by
  intro h
  have h1 : (p ++ a).data = (p ++ b).data := by rw [h]
  rw [String.data_append, String.data_append] at h1
  have h2 := List.append_cancel_left h1
  rw [h2, hb] at ha
  exact hne (Option.some.inj ha).symm

theorem head_append_lit (c : Char) (l : List Char) (s : String) :
    (String.mk (c :: l) ++ s).data.head? = some c := by
  rw [String.data_append]
  rfl

/-! ### Section switch -/

theorem EmitSpinMethods_statics (o : Options) (P : Option Module) (st : AsmState) :
    (EmitSpinMethods o P st).errors = st.errors ∧
    (EmitSpinMethods o P st).fixup_number = st.fixup_number ∧
    (EmitSpinMethods o P st).pending_fixup = st.pending_fixup ∧
    (EmitSpinMethods o P st).lmmMode = st.lmmMode ∧
    (EmitSpinMethods o P st).inDat = st.inDat ∧
    (EmitSpinMethods o P st).inCon = st.inCon ∧
    (EmitSpinMethods o P st).didOrg = st.didOrg := by
  unfold EmitSpinMethods
  cases P with
  | none => simp
  | some P =>
    by_cases h : o.gl_output = OutputKind.OUTPUT_COGSPIN <;> by_cases h2 : o.gl_p2 <;>
      simp [h, h2, flexbuf_addstr]

theorem enterDat_statics (o : Options) (P : Option Module) (st : AsmState) :
    (enterDat o P st).errors = st.errors ∧
    (enterDat o P st).fixup_number = st.fixup_number ∧
    (enterDat o P st).pending_fixup = st.pending_fixup ∧
    (enterDat o P st).lmmMode = st.lmmMode ∧
    (enterDat o P st).inDat = true := by
  have h := EmitSpinMethods_statics o P st
  unfold enterDat
  by_cases h1 : st.inDat = true <;> by_cases h2 : st.didPub = true <;>
    by_cases h3 : st.didOrg = true <;> cases P <;> simp [h1, h2, h3, flexbuf_addstr, h]

theorem enterDat_of_inDat (o : Options) (P : Option Module) (st : AsmState)
    (h : st.inDat = true) : enterDat o P st = st := by
  simp [enterDat, h]



/-! ### OPC_JUMP to a hub destination -/

theorem PrintCond_statics (c : IRCond) (st : AsmState) :
    (PrintCond c st).fixup_number = st.fixup_number ∧ (PrintCond c st).errors = st.errors :=
  ⟨rfl, rfl⟩

theorem PrintOperandAsValue_hub_errors (o : Options) (reg : Operand) (st : AsmState)
    (hk : reg.kind = Operandkind.IMM_HUB_LABEL) :
    (PrintOperandAsValue o reg st).errors = st.errors := by
  unfold PrintOperandAsValue
  simp only [hk, flexbuf_addstr]
  (repeat' split) <;> rfl

/-- The state in which the OPC_JUMP case starts printing: the two checks may
have logged errors, the buffer and the fixup counter are untouched. -/
theorem jump_checks (b1 b2 : Prop) [Decidable b1] [Decidable b2] (m1 m2 : String)
    (s0 : AsmState) :
    ∃ s1, (if b2 then ERROR m2 (if b1 then ERROR m1 s0 else s0)
            else (if b1 then ERROR m1 s0 else s0)) = s1 ∧
      s1.fb = s0.fb ∧ s1.fixup_number = s0.fixup_number ∧ (¬ b1 → ¬ b2 → s1.errors = s0.errors) := by
  refine ⟨_, rfl, ?_, ?_, ?_⟩
  · split <;> split <;> simp [ERROR]
  · split <;> split <;> simp [ERROR]
  · intro h1 h2; rw [if_neg h2, if_neg h1]

/-- The text of an OPC_JUMP to a hub destination outside fcache on the older
ISA; no error is logged when LMM mode is on and the destination is a hub
label. -/
theorem jump_hub_text (o : Options) (IsHubDest : Option Operand → Bool) (ir : IR) (dst : Operand)
    (P : Option Module) (st : AsmState)
    (hp2 : o.gl_p2 = false) (hc : o.gl_compressed = false)
    (hopc : ir.opc = IROpcode.OPC_JUMP) (hf : ir.fcache = none)
    (hdst : ir.dst = some dst) (hhub : IsHubDest ir.dst = true) :
    ∃ st', DoAssembleIR o IsHubDest ir P st = some st' ∧
      st'.fb = (enterDat o P st).fb ++
        (match ir.aux with
         | some a =>
           if 0 < int32 (a - ir.addr) ∧ int32 (a - ir.addr) < 100 then relAddText o ir
           else if int32 (a - ir.addr) < 0 ∧ -100 < int32 (a - ir.addr) then relSubText o ir
           else longJumpText o st.fixup_number ir dst
         | none => longJumpText o st.fixup_number ir dst) ∧
      (st.lmmMode = true → dst.kind = Operandkind.IMM_HUB_LABEL → st'.errors = st.errors) := by
  obtain ⟨he, hfx, -, hl, -⟩ := enterDat_statics o P st
  simp only [DoAssembleIR, hopc]
  simp only [reduceCtorEq, if_false]
  simp only [lmmBranch, hc, hp2, hopc, hf, hhub]
  generalize enterDat o P st = s0 at he hfx hl ⊢
  rw [← hfx, ← he, ← hl]
  simp only [hdst, Bool.false_eq_true, if_false, not_false_eq_true, if_true, Option.isSome_none]
  obtain ⟨s1, hs1, h1fb, h1fx, h1e⟩ := jump_checks (¬ s0.lmmMode = true)
    (dst.kind ≠ Operandkind.IMM_HUB_LABEL) "jump from COG to LMM not supported yet"
    "internal error: non-hub label in LMM jump" s0
  rw [hs1, ← h1fb, ← h1fx]
  have hpo : dst.kind = Operandkind.IMM_HUB_LABEL →
      ∀ s, (PrintOperand o (some dst) s).errors = s.errors := fun hk s =>
    doPrintOperand_errors_none o dst false s (by rw [hk]; decide)
  have herr : ∀ X : AsmState, X.errors = s1.errors →
      s0.lmmMode = true → dst.kind = Operandkind.IMM_HUB_LABEL → X.errors = s0.errors :=
    fun X hX h1 h2 => hX.trans (h1e (not_not_intro h1) (not_not_intro h2))
  clear hs1 h1fb h1fx hfx he hl h1e
  rcases ir.aux with _ | a
  · refine ⟨_, rfl, ?_, fun h1 h2 => herr _ ?_ h1 h2⟩
    · simp only [lmmLongJump, longJumpText, PrintOperandAsValue_fb, PrintCond_fb, flexbuf_addstr,
        String.append_assoc, (PrintCond_statics _ _).1]
    · simp only [lmmLongJump, flexbuf_addstr, PrintOperandAsValue_hub_errors _ _ _ h2]
      rfl
  · simp only [MAX_REL_JUMP_OFFSET, gt_iff_lt]
    by_cases h1 : 0 < int32 (a - ir.addr) ∧ int32 (a - ir.addr) < 100
    · rw [if_pos h1, if_pos h1]
      refine ⟨_, rfl, ?_, fun h1 h2 => herr _ ?_ h1 h2⟩
      · simp only [relAddText, PrintOperand, doPrintOperand_fb, PrintCond_fb, flexbuf_addstr,
          String.append_assoc, hdst]
      · simp only [flexbuf_addstr, hpo h2]
        rfl
    · rw [if_neg h1, if_neg h1]
      by_cases h2 : int32 (a - ir.addr) < 0 ∧ -100 < int32 (a - ir.addr)
      · rw [if_pos h2, if_pos h2]
        refine ⟨_, rfl, ?_, fun h1 h2 => herr _ ?_ h1 h2⟩
        · simp only [relSubText, PrintOperand, doPrintOperand_fb, PrintCond_fb, flexbuf_addstr,
            String.append_assoc, hdst]
        · simp only [flexbuf_addstr, hpo h2]
          rfl
      · rw [if_neg h2, if_neg h2]
        refine ⟨_, rfl, ?_, fun h1 h2 => herr _ ?_ h1 h2⟩
        · simp only [lmmLongJump, longJumpText, PrintOperandAsValue_fb, PrintCond_fb,
            flexbuf_addstr, String.append_assoc, (PrintCond_statics _ _).1]
        · simp only [lmmLongJump, flexbuf_addstr, PrintOperandAsValue_hub_errors _ _ _ h2]
          rfl

/-- C4 (amended): an OPC_JUMP to a hub destination outside fcache on the
older ISA, not compressed, with d = aux.addr - ir.addr as the `int offset` of
the code holds it (the difference wrapped to 32 bits, which is the difference
itself whenever that fits an `int`), is written as
`add pc, #4*(<dst> - ($+1))` exactly when the target is known and 0 < d < 100,
as `sub pc, #4*(($+1) - <dst>)` exactly when the target is known and
-100 < d < 0, and as `rdlong pc,pc` followed by `long <dst>` exactly in the
remaining cases (d = 0, |d| >= 100, or no known target). -/
theorem jump_relative_iff (o : Options) (IsHubDest : Option Operand → Bool) (ir : IR)
    (dst : Operand) (P : Option Module) (st : AsmState)
    (hp2 : o.gl_p2 = false) (hc : o.gl_compressed = false)
    (hopc : ir.opc = IROpcode.OPC_JUMP) (hf : ir.fcache = none)
    (hdst : ir.dst = some dst) (hhub : IsHubDest ir.dst = true) :
    ∃ st', DoAssembleIR o IsHubDest ir P st = some st' ∧
      (st'.fb = (enterDat o P st).fb ++ relAddText o ir ↔
        ∃ a, ir.aux = some a ∧ 0 < int32 (a - ir.addr) ∧ int32 (a - ir.addr) < 100) ∧
      (st'.fb = (enterDat o P st).fb ++ relSubText o ir ↔
        ∃ a, ir.aux = some a ∧ -100 < int32 (a - ir.addr) ∧ int32 (a - ir.addr) < 0) ∧
      (st'.fb = (enterDat o P st).fb ++ longJumpText o st.fixup_number ir dst ↔
        (ir.aux = none ∨
          ∃ a, ir.aux = some a ∧
            (int32 (a - ir.addr) = 0 ∨ 100 ≤ int32 (a - ir.addr) ∨
              int32 (a - ir.addr) ≤ -100))) ∧
      (∀ a, -2147483648 ≤ a - ir.addr → a - ir.addr < 2147483648 →
        int32 (a - ir.addr) = a - ir.addr) := by
  obtain ⟨st', hD, hfb, -⟩ := jump_hub_text o IsHubDest ir dst P st hp2 hc hopc hf hdst hhub
  have hAS : ∀ p : String, p ++ relAddText o ir ≠ p ++ relSubText o ir := by
    intro p
    simp only [relAddText, relSubText, String.append_assoc]
    rw [← String.append_assoc p, ← String.append_assoc p]
    exact append_ne_of_head _ _ _ 'a' 's' (head_append_lit _ _ _) (head_append_lit _ _ _)
      (by decide)
  have hAL : ∀ p : String, p ++ relAddText o ir ≠ p ++ longJumpText o st.fixup_number ir dst := by
    intro p
    simp only [relAddText, longJumpText, String.append_assoc]
    rw [← String.append_assoc p, ← String.append_assoc p]
    exact append_ne_of_head _ _ _ 'a' 'r' (head_append_lit _ _ _) (head_append_lit _ _ _)
      (by decide)
  have hSL : ∀ p : String, p ++ relSubText o ir ≠ p ++ longJumpText o st.fixup_number ir dst := by
    intro p
    simp only [relSubText, longJumpText, String.append_assoc]
    rw [← String.append_assoc p, ← String.append_assoc p]
    exact append_ne_of_head _ _ _ 's' 'r' (head_append_lit _ _ _) (head_append_lit _ _ _)
      (by decide)
  refine ⟨st', hD, ?_⟩
  suffices key : _ ∧ _ ∧ _ from
    ⟨key.1, key.2.1, key.2.2, fun a ha hb => (by unfold int32; omega)⟩
  rw [hfb]
  rcases ir.aux with _ | a
  · simp only [false_and, exists_false, iff_false, true_or, iff_true, reduceCtorEq]
    exact ⟨fun h => hAL _ h.symm, fun h => hSL _ h.symm, trivial⟩
  · simp only [Option.some.injEq, exists_eq_left', reduceCtorEq, false_or]
    by_cases h1 : 0 < int32 (a - ir.addr) ∧ int32 (a - ir.addr) < 100
    · rw [if_pos h1]
      refine ⟨⟨fun _ => h1, fun _ => rfl⟩, ⟨fun h => absurd h (hAS _), fun h => ?_⟩,
        ⟨fun h => absurd h (hAL _), fun h => ?_⟩⟩ <;> omega
    · rw [if_neg h1]
      by_cases h2 : int32 (a - ir.addr) < 0 ∧ -100 < int32 (a - ir.addr)
      · rw [if_pos h2]
        refine ⟨⟨fun h => absurd h.symm (hAS _), fun h => absurd h h1⟩,
          ⟨fun _ => ⟨h2.2, h2.1⟩, fun _ => rfl⟩, ⟨fun h => absurd h (hSL _), fun h => ?_⟩⟩
        omega
      · rw [if_neg h2]
        refine ⟨⟨fun h => absurd h.symm (hAL _), fun h => absurd h h1⟩,
          ⟨fun h => absurd h.symm (hSL _), fun h => absurd ⟨h.2, h.1⟩ h2⟩, ⟨fun _ => ?_, fun _ => rfl⟩⟩
        omega


/-- C4 as stated fails: with compressed code on, a hub jump on the older
ISA outside fcache whose known target is 5 instructions ahead is written as
the placeholder `long $FFFF`, which is none of the three forms. -/
theorem jump_compressed_placeholder :
    (DoAssembleIR { gl_compressed := true } exIsHubDest exHubJump none exLmmState).map
        (fun s => s.fb) = some "\tlong\t$FFFF\n" ∧
      exHubJump.fcache = none ∧ exHubJump.aux = some (exHubJump.addr + 5) ∧
      "\tlong\t$FFFF\n" ≠ relAddText { gl_compressed := true } exHubJump ∧
      "\tlong\t$FFFF\n" ≠ relSubText { gl_compressed := true } exHubJump ∧
      "\tlong\t$FFFF\n" ≠ longJumpText { gl_compressed := true } 0 exHubJump exHubLabel := by
  decide

/-- Witness of C4 (amended): a hub jump 5 instructions ahead. -/
theorem jump_relative_iff_witness :
    ∃ st', DoAssembleIR {} exIsHubDest exHubJump none exLmmState = some st' ∧
      (st'.fb = (enterDat {} none exLmmState).fb ++ relAddText {} exHubJump ↔
        ∃ a, exHubJump.aux = some a ∧ 0 < int32 (a - exHubJump.addr) ∧
          int32 (a - exHubJump.addr) < 100) ∧
      (st'.fb = (enterDat {} none exLmmState).fb ++ relSubText {} exHubJump ↔
        ∃ a, exHubJump.aux = some a ∧ -100 < int32 (a - exHubJump.addr) ∧
          int32 (a - exHubJump.addr) < 0) ∧
      (st'.fb = (enterDat {} none exLmmState).fb ++
          longJumpText {} exLmmState.fixup_number exHubJump exHubLabel ↔
        (exHubJump.aux = none ∨
          ∃ a, exHubJump.aux = some a ∧
            (int32 (a - exHubJump.addr) = 0 ∨ 100 ≤ int32 (a - exHubJump.addr) ∨
              int32 (a - exHubJump.addr) ≤ -100))) ∧
      (∀ a, -2147483648 ≤ a - exHubJump.addr → a - exHubJump.addr < 2147483648 →
        int32 (a - exHubJump.addr) = a - exHubJump.addr) :=
  jump_relative_iff {} exIsHubDest exHubJump exHubLabel none exLmmState rfl rfl rfl rfl rfl
    (by decide)

/-- The offset is an `int`: a jump at address 2147483647 whose target has
address -2147483646 has the offset 3 and is written in the `add pc` form. -/
theorem jump_offset_wraps :
    (DoAssembleIR {} exIsHubDest
        { exHubJump with addr := 2147483647, aux := some (-2147483646) } none exLmmState).map
      (fun s => s.fb) = some "\tadd\tpc, #4*(L__0007 - ($+1))\n" ∧
    int32 (-2147483646 - 2147483647) = 3 := by
  decide

/-- C1 as stated fails: a jump inside a cached block, assembled on the older
ISA with LMM mode on, is written as a direct `jmp` into the cache window,
which is none of the three LMM forms. -/
theorem lmm_jump_fcache_direct :
    (DoAssembleIR {} exIsHubDest exFcacheJump none exLmmState).map (fun s => s.fb) =
        some "\tjmp\t#LMM_FCACHE_START + (L__0002 - L__0001)\n" ∧
      exLmmState.lmmMode = true ∧
      "\tjmp\t#LMM_FCACHE_START + (L__0002 - L__0001)\n" ≠ relAddText {} exFcacheJump ∧
      "\tjmp\t#LMM_FCACHE_START + (L__0002 - L__0001)\n" ≠ relSubText {} exFcacheJump ∧
      "\tjmp\t#LMM_FCACHE_START + (L__0002 - L__0001)\n" ≠
        longJumpText {} 0 exFcacheJump { kind := Operandkind.IMM_COG_LABEL, name := "L__0002" } := by
  decide

/-- C1 (amended): on the older ISA (not compressed) with LMM mode on, an
OPC_JUMP outside fcache whose destination is a hub destination is never
written as a direct `jmp`: its text is the relative form
`add pc, #4*(<dst> - ($+1))` or `sub pc, #4*(($+1) - <dst>)`, or the
dispatcher form `rdlong pc,pc` followed by `long <dst>`; for a hub label no
error is logged. -/
theorem lmm_jump_forms (o : Options) (IsHubDest : Option Operand → Bool) (ir : IR)
    (dst : Operand) (P : Option Module) (st : AsmState)
    (hp2 : o.gl_p2 = false) (hc : o.gl_compressed = false)
    (hopc : ir.opc = IROpcode.OPC_JUMP) (hlmm : st.lmmMode = true)
    (hf : ir.fcache = none) (hdst : ir.dst = some dst) (hhub : IsHubDest ir.dst = true) :
    ∃ st', DoAssembleIR o IsHubDest ir P st = some st' ∧
      (st'.fb = (enterDat o P st).fb ++ relAddText o ir ∨
       st'.fb = (enterDat o P st).fb ++ relSubText o ir ∨
       st'.fb = (enterDat o P st).fb ++ longJumpText o st.fixup_number ir dst) ∧
      (dst.kind = Operandkind.IMM_HUB_LABEL → st'.errors = st.errors) := by
  obtain ⟨st', hD, hfb, he⟩ := jump_hub_text o IsHubDest ir dst P st hp2 hc hopc hf hdst hhub
  refine ⟨st', hD, ?_, he hlmm⟩
  rw [hfb]
  rcases ir.aux with _ | a
  · exact Or.inr (Or.inr rfl)
  · dsimp only
    by_cases h1 : 0 < int32 (a - ir.addr) ∧ int32 (a - ir.addr) < 100
    · rw [if_pos h1]; exact Or.inl rfl
    · rw [if_neg h1]
      by_cases h2 : int32 (a - ir.addr) < 0 ∧ -100 < int32 (a - ir.addr)
      · rw [if_pos h2]; exact Or.inr (Or.inl rfl)
      · rw [if_neg h2]; exact Or.inr (Or.inr rfl)

/-- Witness of C1 (amended): a hub jump 5 instructions ahead in LMM mode. -/
theorem lmm_jump_forms_witness :
    exLmmState.lmmMode = true ∧ exHubJump.fcache = none ∧
    ∃ st', DoAssembleIR {} exIsHubDest exHubJump none exLmmState = some st' ∧
      (st'.fb = (enterDat {} none exLmmState).fb ++ relAddText {} exHubJump ∨
       st'.fb = (enterDat {} none exLmmState).fb ++ relSubText {} exHubJump ∨
       st'.fb = (enterDat {} none exLmmState).fb ++
          longJumpText {} exLmmState.fixup_number exHubJump exHubLabel) ∧
      (exHubLabel.kind = Operandkind.IMM_HUB_LABEL → st'.errors = exLmmState.errors) :=
  ⟨rfl, rfl,
    lmm_jump_forms {} exIsHubDest exHubJump exHubLabel none exLmmState rfl rfl rfl rfl rfl rfl
      (by decide)⟩

/-- C2: on the older ISA (not compressed), an OPC_CALL whose destination is
a hub label is written, with LMM mode off, as the three lines `mov pc, $+2`,
`call #LMM_CALL_FROM_COG`, `long <dst>`, and with LMM mode on as the two lines
`jmp #LMM_CALL`, `long <dst>`; the mov, call and jmp lines start with the
predicate text, `<dst>` is the text of `PrintOperandAsValue`, and no error is
logged.  The lines follow the section switch, which writes nothing when the
DAT section is already open. -/
theorem call_hub_label (o : Options) (IsHubDest : Option Operand → Bool) (ir : IR)
    (dst : Operand) (P : Option Module) (st : AsmState)
    (hp2 : o.gl_p2 = false) (hc : o.gl_compressed = false)
    (hopc : ir.opc = IROpcode.OPC_CALL) (hdst : ir.dst = some dst)
    (hkind : dst.kind = Operandkind.IMM_HUB_LABEL) (hhub : IsHubDest ir.dst = true) :
    ∃ st', DoAssembleIR o IsHubDest ir P st = some st' ∧
      st'.errors = st.errors ∧
      (st.inDat = true → (enterDat o P st).fb = st.fb) ∧
      st'.fb = (enterDat o P st).fb ++
        (if st.lmmMode = true then
          condText ir.cond ++ "jmp\t#LMM_CALL\n" ++
            "\tlong\t" ++ valueText o st.fixup_number dst ++ "\n"
         else
          condText ir.cond ++ "mov\tpc, $+2\n" ++
            condText ir.cond ++ "call\t#LMM_CALL_FROM_COG\n" ++
            "\tlong\t" ++ valueText o st.fixup_number dst ++ "\n") := by
  obtain ⟨he, hfx, -, hl, -⟩ := enterDat_statics o P st
  have hin : st.inDat = true → (enterDat o P st).fb = st.fb := fun h => by
    rw [enterDat_of_inDat o P st h]
  simp only [DoAssembleIR, hopc]
  simp only [reduceCtorEq, if_false]
  simp only [lmmBranch, hc, hp2, hopc, hhub]
  generalize enterDat o P st = s0 at he hfx hl hin ⊢
  rw [← hfx, ← he, ← hl]
  simp only [hdst, hkind, Bool.false_eq_true, if_false, not_false_eq_true, if_true, ne_eq,
    not_true_eq_false]
  refine ⟨_, rfl, ?_, hin, ?_⟩
  · simp only [flexbuf_addstr, PrintOperandAsValue_hub_errors _ _ _ hkind]
    split <;> rfl
  · by_cases hl' : s0.lmmMode = true <;>
      simp [hl', PrintOperandAsValue_fb, PrintCond_fb, flexbuf_addstr, String.append_assoc,
        (PrintCond_statics _ _).1, -String.reduceAppend]

/-- Witness of C2: a call of a hub function under `if_e`, from COG code. -/
theorem call_hub_label_witness :
    ∃ st', DoAssembleIR {} exIsHubDest exHubCall none exCogState = some st' ∧
      st'.errors = exCogState.errors ∧
      (exCogState.inDat = true → (enterDat {} none exCogState).fb = exCogState.fb) ∧
      st'.fb = (enterDat {} none exCogState).fb ++
        (if exCogState.lmmMode = true then
          condText exHubCall.cond ++ "jmp\t#LMM_CALL\n" ++
            "\tlong\t" ++ valueText {} exCogState.fixup_number exHubLabel ++ "\n"
         else
          condText exHubCall.cond ++ "mov\tpc, $+2\n" ++
            condText exHubCall.cond ++ "call\t#LMM_CALL_FROM_COG\n" ++
            "\tlong\t" ++ valueText {} exCogState.fixup_number exHubLabel ++ "\n") :=
  call_hub_label {} exIsHubDest exHubCall exHubLabel none exCogState rfl rfl rfl rfl rfl
    (by decide)

/-- The two texts of a hub call in the concrete example, evaluated. -/
theorem call_hub_label_example :
    (DoAssembleIR {} exIsHubDest exHubCall none exCogState).map (fun s => s.fb) =
      some " if_e\tmov\tpc, $+2\n if_e\tcall\t#LMM_CALL_FROM_COG\n\tlong\t@@@L__0007\n" ∧
    (DoAssembleIR {} exIsHubDest exHubCall none exLmmState).map (fun s => s.fb) =
      some " if_e\tjmp\t#LMM_CALL\n\tlong\t@@@L__0007\n" := by
  decide


/-! ### OPC_RET -/

theorem append_left_ne (p x y : String) (h : x ≠ y) : p ++ x ≠ p ++ y := by
  intro h'
  have h1 : (p ++ x).data = (p ++ y).data := by rw [h']
  rw [String.data_append, String.data_append] at h1
  exact h (String.ext (List.append_cancel_left h1))

theorem printFlags_fb (o : Options) (f : IRFlags) (st : AsmState) :
    (printFlags o f st).fb = st.fb ++ flagsText o f ∧ (printFlags o f st).errors = st.errors := by
  unfold flagsText printFlags
  rcases f with ⟨wc, wz, nr, wr⟩
  rcases o.gl_p2 <;> rcases wc <;> rcases wz <;> rcases nr <;> rcases wr <;>
    simp [flexbuf_addstr, String.append_assoc]

/-- The line printed from the descriptor of a `ret`. -/
theorem printInstr_ret (o : Options) (ir : IR) (ins : Instruction) (st : AsmState)
    (hn : ins.name = "ret") (hops : ins.ops = InstrOps.NO_OPERANDS) :
    (printInstr o ir ins st).fb = st.fb ++ (condText ir.cond ++ "ret" ++ flagsText o ir.flags ++ "\n") ∧
    (printInstr o ir ins st).errors = st.errors := by
  unfold printInstr
  simp only [hn, hops, flexbuf_addstr, (printFlags_fb _ _ _).1, (printFlags_fb _ _ _).2,
    PrintCond_fb, String.append_assoc, (PrintCond_statics _ _).2, and_self]

/-- The `ret` line differs from the `jmp #LMM_RET` line. -/
theorem retText_ne_lmm (o : Options) (ir : IR) (p : String) :
    p ++ retText o ir ≠ p ++ (condText ir.cond ++ "jmp\t#LMM_RET\n") := by
  unfold retText
  rcases ir.instr with _ | ins
  · dsimp only
    apply append_left_ne
    rcases ir.cond <;> simp only [condText, condName] <;> decide
  · dsimp only
    simp only [String.append_assoc]
    rw [← String.append_assoc p, ← String.append_assoc p]
    exact append_ne_of_head _ _ _ 'r' 'j' (head_append_lit _ _ _) rfl (by decide)

/-- C3: on the older ISA (not compressed), an OPC_RET without an fcache
back-pointer is written as `jmp #LMM_RET` under its predicate if and only if
LMM mode is on, and otherwise as `ret`; an OPC_RET inside an fcache block
logs an error and writes nothing.  The descriptor of an OPC_RET, when the IR
has one, is taken to be the `ret` instruction. -/
theorem ret_forms (o : Options) (IsHubDest : Option Operand → Bool) (ir : IR)
    (P : Option Module) (st : AsmState)
    (hp2 : o.gl_p2 = false) (hc : o.gl_compressed = false)
    (hopc : ir.opc = IROpcode.OPC_RET)
    (hins : ∀ ins, ir.instr = some ins → ins.name = "ret" ∧ ins.ops = InstrOps.NO_OPERANDS) :
    ∃ st', DoAssembleIR o IsHubDest ir P st = some st' ∧
      (ir.fcache = none →
        st'.errors = st.errors ∧
        (st.lmmMode = true → st'.fb = (enterDat o P st).fb ++ (condText ir.cond ++ "jmp\t#LMM_RET\n")) ∧
        (st.lmmMode = false → st'.fb = (enterDat o P st).fb ++ retText o ir) ∧
        (st'.fb = (enterDat o P st).fb ++ (condText ir.cond ++ "jmp\t#LMM_RET\n") ↔
          st.lmmMode = true)) ∧
      (ir.fcache ≠ none →
        st'.fb = (enterDat o P st).fb ∧
        st'.errors = st.errors ++ ["return from fcached code not supported"]) := by
  obtain ⟨he, -, -, hl, -⟩ := enterDat_statics o P st
  simp only [DoAssembleIR, hopc]
  simp only [reduceCtorEq, if_false]
  simp only [lmmBranch, hc, hp2, hopc]
  generalize enterDat o P st = s0 at he hl ⊢
  rw [← he, ← hl]
  simp only [Bool.false_eq_true, if_false, not_false_eq_true, if_true]
  rcases hfc : ir.fcache with _ | fc
  · simp only [Option.isSome_none, Bool.false_eq_true, if_false, ne_eq, not_true_eq_false,
      false_implies, and_true, true_implies]
    by_cases hl' : s0.lmmMode = true
    · simp only [hl', if_true]
      refine ⟨_, rfl, rfl, fun _ => ?_, fun h => absurd h (by simp), ?_⟩
      · simp only [flexbuf_addstr, PrintCond_fb, String.append_assoc]
      · simp only [flexbuf_addstr, PrintCond_fb, iff_true, String.append_assoc]
    · simp only [hl', if_false]
      have hlf : s0.lmmMode = false := by simpa using hl'
      rcases hi : ir.instr with _ | ins
      · have hrt : retText o ir = "\t" ++ "ret\n" := by simp only [retText, hi]
        simp only [pseudoOp, hopc]
        refine ⟨_, rfl, rfl, fun h => absurd h (by simp [hlf]), fun _ => ?_, ?_⟩
        · simp only [flexbuf_addstr, hrt, String.append_assoc]
        · simp only [flexbuf_addstr, String.append_assoc, hlf, Bool.false_eq_true, iff_false]
          rw [← hrt]
          exact retText_ne_lmm o ir _
      · obtain ⟨hn, hops⟩ := hins ins hi
        have hrt : retText o ir = condText ir.cond ++ "ret" ++ flagsText o ir.flags ++ "\n" := by
          simp only [retText, hi]
        refine ⟨_, rfl, (printInstr_ret o ir ins s0 hn hops).2,
          fun h => absurd h (by simp [hlf]), fun _ => ?_, ?_⟩
        · rw [(printInstr_ret o ir ins s0 hn hops).1, hrt]
        · rw [(printInstr_ret o ir ins s0 hn hops).1, ← hrt]
          simp only [hlf, Bool.false_eq_true, iff_false]
          exact retText_ne_lmm o ir _
  · simp only [Option.isSome_some, if_true, reduceCtorEq, false_implies, ne_eq, not_false_eq_true,
      true_implies, true_and]
    exact ⟨_, rfl, rfl, rfl⟩

/-- Witness of C3: a `ret` with its descriptor, outside LMM mode. -/
theorem ret_forms_witness :
    ∃ st', DoAssembleIR {} exIsHubDest exRet none exCogState = some st' ∧
      (exRet.fcache = none →
        st'.errors = exCogState.errors ∧
        (exCogState.lmmMode = true →
          st'.fb = (enterDat {} none exCogState).fb ++ (condText exRet.cond ++ "jmp\t#LMM_RET\n")) ∧
        (exCogState.lmmMode = false →
          st'.fb = (enterDat {} none exCogState).fb ++ retText {} exRet) ∧
        (st'.fb = (enterDat {} none exCogState).fb ++ (condText exRet.cond ++ "jmp\t#LMM_RET\n") ↔
          exCogState.lmmMode = true)) ∧
      (exRet.fcache ≠ none →
        st'.fb = (enterDat {} none exCogState).fb ∧
        st'.errors = exCogState.errors ++ ["return from fcached code not supported"]) :=
  ret_forms {} exIsHubDest exRet none exCogState rfl rfl rfl
    (by intro ins h; cases h; exact ⟨rfl, rfl⟩)

/-- The texts of a return in the concrete example, evaluated. -/
theorem ret_forms_example :
    (DoAssembleIR {} exIsHubDest exRet none exCogState).map (fun s => s.fb) = some "\tret\n" ∧
    (DoAssembleIR {} exIsHubDest exRet none exLmmState).map (fun s => s.fb) =
      some "\tjmp\t#LMM_RET\n" := by
  decide

/-! ### Immediates -/

/-- C5 as stated fails: the immediate -1 is below 512, yet on the newer ISA
it is written with `##`, and on the older ISA as the bare name of its pool
entry. -/
theorem imm_negative_not_small :
    exNegImm.val < 512 ∧
    operandText { gl_p2 := true } (some exNegImm) true OperandEffect.OPEFFECT_NONE = "##-1" ∧
    "##-1" ≠ "#" ++ immBody exNegImm ∧
    operandText { gl_p2 := false } (some { exNegImm with name := "imm_4294967295_" }) true
      OperandEffect.OPEFFECT_NONE = "imm_4294967295_" := by
  decide

theorem int32_of_range (v : Int) (h : -2147483648 ≤ v ∧ v < 2147483648) : int32 v = v := by
  unfold int32
  omega

/-- C5 (amended): for an ImmInt operand, `doPrintOperand` writes `#` followed
by the constant's name or else the value exactly when 0 <= value < 512, on
both ISAs; for every other value (negative, or 512 and above) it writes `##`
followed by the name or else the value on the newer ISA, and on the older ISA
the name of the operand's pool entry with no `#`.  The value is printed as a
32-bit integer, which is the value itself when it fits. -/
theorem imm_int_text (o : Options) (reg : Operand) (useimm : Bool) (effect : OperandEffect)
    (st : AsmState) (hk : reg.kind = Operandkind.IMM_INT) :
    (0 ≤ reg.val ∧ reg.val < 512 →
      (doPrintOperand o (some reg) useimm effect st).fb = st.fb ++ ("#" ++ immBody reg) ∧
      int32 reg.val = reg.val) ∧
    (¬ (0 ≤ reg.val ∧ reg.val < 512) → o.gl_p2 = true →
      (doPrintOperand o (some reg) useimm effect st).fb = st.fb ++ ("##" ++ immBody reg)) ∧
    (¬ (0 ≤ reg.val ∧ reg.val < 512) → o.gl_p2 = false →
      (doPrintOperand o (some reg) useimm effect st).fb = st.fb ++ reg.name) ∧
    (-2147483648 ≤ reg.val ∧ reg.val < 2147483648 → int32 reg.val = reg.val) := by
  refine ⟨fun h => ⟨?_, int32_of_range _ (by omega)⟩, fun h hp => ?_, fun h hp => ?_,
    int32_of_range _⟩
  · rw [doPrintOperand_fb]
    simp only [operandText, doPrintOperand, hk, h, and_self, if_true, immBody]
    (repeat' split) <;> simp [flexbuf_addstr, ERROR]
  · rw [doPrintOperand_fb]
    simp only [operandText, doPrintOperand, hk, h, if_false, hp, if_true, immBody]
    (repeat' split) <;> simp [flexbuf_addstr, ERROR]
  · rw [doPrintOperand_fb]
    simp only [operandText, doPrintOperand, hk, h, if_false, hp, Bool.false_eq_true]
    (repeat' split) <;> simp [flexbuf_addstr, ERROR]

/-- Witness of C5 (amended): the constant $1F0 is written `#496`. -/
theorem imm_int_text_witness :
    (0 ≤ exSmallImm.val ∧ exSmallImm.val < 512 →
      (doPrintOperand {} (some exSmallImm) true OperandEffect.OPEFFECT_NONE {}).fb =
        ({} : AsmState).fb ++ ("#" ++ immBody exSmallImm) ∧
      int32 exSmallImm.val = exSmallImm.val) ∧
    (¬ (0 ≤ exSmallImm.val ∧ exSmallImm.val < 512) → ({} : Options).gl_p2 = true →
      (doPrintOperand {} (some exSmallImm) true OperandEffect.OPEFFECT_NONE {}).fb =
        ({} : AsmState).fb ++ ("##" ++ immBody exSmallImm)) ∧
    (¬ (0 ≤ exSmallImm.val ∧ exSmallImm.val < 512) → ({} : Options).gl_p2 = false →
      (doPrintOperand {} (some exSmallImm) true OperandEffect.OPEFFECT_NONE {}).fb =
        ({} : AsmState).fb ++ exSmallImm.name) ∧
    (-2147483648 ≤ exSmallImm.val ∧ exSmallImm.val < 2147483648 →
      int32 exSmallImm.val = exSmallImm.val) :=
  imm_int_text {} exSmallImm true OperandEffect.OPEFFECT_NONE {} rfl

/-- The scenario of the constants $1F0 and $8000, evaluated on both ISAs. -/
theorem imm_int_text_example :
    operandText { gl_p2 := false } (some exSmallImm) true OperandEffect.OPEFFECT_NONE = "#496" ∧
    operandText { gl_p2 := true } (some exSmallImm) true OperandEffect.OPEFFECT_NONE = "#496" ∧
    operandText { gl_p2 := true } (some { exSmallImm with val := 32768 }) true
      OperandEffect.OPEFFECT_NONE = "##32768" ∧
    operandText { gl_p2 := false } (some { exSmallImm with val := 32768, name := "imm_32768_" })
      true OperandEffect.OPEFFECT_NONE = "imm_32768_" := by
  decide


/-! ### Binary blobs -/

theorem padLong_length (data : List Nat) :
    (padLong 3 data).length = (data.length + 3) / 4 * 4 := by
  simp only [padLong]
  split
  · split
    · split
      · simp only [List.length_append, List.length_singleton] at *; omega
      · simp only [List.length_append, List.length_singleton] at *; omega
    · simp only [List.length_append, List.length_singleton] at *; omega
  · omega

/-- The run scan never runs past `bytesPending`, and only grows `runlen`. -/
theorem scanRun_bounds (data : List Nat) (len addr lastdata : Nat) (bytesPending : Int)
    (fuel runlen : Nat) :
    runlen ≤ scanRun data len addr lastdata bytesPending fuel runlen ∧
    ((scanRun data len addr lastdata bytesPending fuel runlen : Nat) : Int) ≤
      max (runlen : Int) bytesPending := by
  induction fuel generalizing runlen with
  | zero => simp [scanRun]
  | succ k ih =>
    unfold scanRun
    split
    · rename_i h
      obtain ⟨h1, h2⟩ := ih (runlen + 1)
      refine ⟨by omega, ?_⟩
      have := h.2.2
      rw [max_def] at h2 ⊢
      split at h2 <;> split <;> push_cast at * <;> omega
    · simp

/-- One data round: `addr` advances, stays within the data, the directive
denotes exactly the bytes stepped over and has a legal shape. -/
theorem blobChunk_spec (data : List Nat) (len addr : Nat) (bytesPending : Int)
    (ha : addr < len) (hb : bytesPending ≤ (len : Int) - addr) :
    addr < (blobChunk data len addr bytesPending).2 ∧
    (blobChunk data len addr bytesPending).2 ≤ len ∧
    (blobChunk data len addr bytesPending).1.size + addr =
      (blobChunk data len addr bytesPending).2 ∧
    (blobChunk data len addr bytesPending).1.shapeOK := by
  unfold blobChunk
  simp only [MAX_BYTES_ON_LINE]
  by_cases h16 : bytesPending > 16
  · simp only [h16, if_true, true_and]
    obtain ⟨-, h2⟩ := scanRun_bounds data len addr (data.getD addr 0) bytesPending
      (bytesPending.toNat + 1) 0
    generalize scanRun data len addr (data.getD addr 0) bytesPending (bytesPending.toNat + 1) 0 = r
      at h2 ⊢
    have hr : (r : Int) ≤ bytesPending := by
      rw [max_def] at h2; split at h2 <;> omega
    by_cases h4 : r > 4
    · simp only [h4, if_true]
      by_cases hm : r % 4 = 0
      · simp only [hm, if_true, BlobLine.size, BlobLine.shapeOK]
        refine ⟨by omega, by omega, by omega, by omega⟩
      · simp only [hm, if_false, BlobLine.size, BlobLine.shapeOK]
        refine ⟨by omega, by omega, by omega, by omega, hm⟩
    · simp only [h4, if_false, BlobLine.size, BlobLine.shapeOK, List.length_map, List.length_range]
      refine ⟨by omega, by omega, by omega, by omega, by omega⟩
  · simp only [h16, if_false, false_and, BlobLine.size, BlobLine.shapeOK, List.length_map,
      List.length_range]
    refine ⟨by omega, by omega, by omega, by omega, by omega⟩

/-- The relocation kinds and alignment that the loop relies on. -/
theorem RelocsOK_tail {len : Nat} {r : Reloc} {rs : List Reloc} (h : RelocsOK len (r :: rs)) :
    RelocsOK len rs := h.2.2.2.2.2

/-- The main loop on a well-formed relocation array: it ends normally and
the directives denote exactly the bytes from `addr` to `len`; every directive
has a legal shape. -/
theorem OutputBlobLoop_spec (data : List Nat) (len : Nat) (hlen : len % 4 = 0)
    (fuel addr : Nat) (relocs : List Reloc)
    (hfuel : len - addr + relocs.length < fuel) (ha : addr ≤ len)
    (hok : RelocsOK len relocs) :
    (OutputBlobLoop data len fuel addr relocs).2 = BlobEnd.done ∧
    blobSize (OutputBlobLoop data len fuel addr relocs).1 + addr = len ∧
    ∀ l ∈ (OutputBlobLoop data len fuel addr relocs).1, l.shapeOK := by
  induction fuel generalizing addr relocs with
  | zero => omega
  | succ k ih =>
    unfold OutputBlobLoop
    by_cases hlt : addr < len
    · simp only [hlt, not_true_eq_false, if_false]
      rcases relocs with _ | ⟨r, rs⟩
      · obtain ⟨c1, c2, c3, c4⟩ := blobChunk_spec data len addr ((len : Int) - addr) hlt le_rfl
        obtain ⟨i1, i2, i3⟩ := ih (blobChunk data len addr ((len : Int) - addr)).2 []
          (by simp only [List.length_nil] at *; omega) c2 trivial
        refine ⟨i1, ?_, ?_⟩
        · simp only [blobSize]; omega
        · intro l hl
          rcases List.mem_cons.mp hl with h | h
          · rw [h]; exact c4
          · exact i3 l h
      · dsimp only
        by_cases h0 : r.off - (addr : Int) = 0
        · simp only [h0, if_true]
          obtain ⟨hkind, -, -, hlong, -, htl⟩ := hok
          by_cases hL : r.kind = RelocKind.RELOC_KIND_LONG
          · simp only [hL, if_true]
            obtain ⟨hal, -⟩ := hlong hL
            have h4 : ¬ ((len : Int) - addr < 4) := by omega
            simp only [h4, if_false]
            obtain ⟨i1, i2, i3⟩ := ih (addr + 4) rs
              (by simp only [List.length_cons] at *; omega) (by omega) htl
            refine ⟨i1, ?_, ?_⟩
            · simp only [blobSize, BlobLine.size]; omega
            · intro l hl
              rcases List.mem_cons.mp hl with h | h
              · rw [h]; trivial
              · exact i3 l h
          · have hD : r.kind = RelocKind.RELOC_KIND_DEBUG := by
              rcases hkind with h | h
              · exact absurd h hL
              · exact h
            simp only [hD, reduceCtorEq, if_false, if_true]
            obtain ⟨i1, i2, i3⟩ := ih addr rs
              (by simp only [List.length_cons] at *; omega) ha htl
            refine ⟨i1, ?_, ?_⟩
            · simp only [blobSize, BlobLine.size]; omega
            · intro l hl
              rcases List.mem_cons.mp hl with h | h
              · rw [h]; trivial
              · exact i3 l h
        · simp only [h0, if_false]
          have hb : (if (len : Int) - addr > r.off - addr then r.off - addr else (len : Int) - addr) ≤
              (len : Int) - addr := by
            split <;> omega
          obtain ⟨c1, c2, c3, c4⟩ := blobChunk_spec data len addr _ hlt hb
          obtain ⟨i1, i2, i3⟩ := ih (blobChunk data len addr
            (if (len : Int) - addr > r.off - addr then r.off - addr else (len : Int) - addr)).2
            (r :: rs) (by simp only [List.length_cons] at *; omega) c2 hok
          refine ⟨i1, ?_, ?_⟩
          · simp only [blobSize]; omega
          · intro l hl
            rcases List.mem_cons.mp hl with h | h
            · rw [h]; exact c4
            · exact i3 l h
    · simp only [hlt, not_false_eq_true, if_true, blobSize, List.not_mem_nil, false_implies,
        implies_true, and_true, true_and]
      omega


/-- The directive of a data round always has a legal shape. -/
theorem blobChunk_shape (data : List Nat) (len addr : Nat) (bytesPending : Int) :
    (blobChunk data len addr bytesPending).1.shapeOK := by
  unfold blobChunk
  simp only [MAX_BYTES_ON_LINE]
  by_cases h16 : bytesPending > 16
  · simp only [h16, if_true, true_and]
    generalize scanRun data len addr (data.getD addr 0) bytesPending (bytesPending.toNat + 1) 0 = r
    by_cases h4 : r > 4
    · simp only [h4, if_true]
      by_cases hm : r % 4 = 0
      · simp only [hm, if_true, BlobLine.shapeOK]; omega
      · simp only [hm, if_false, BlobLine.shapeOK]; exact ⟨h4, hm⟩
    · simp only [h4, if_false, BlobLine.shapeOK, List.length_map, List.length_range]
      omega
  · simp only [h16, if_false, false_and, BlobLine.shapeOK, List.length_map, List.length_range]
    omega

/-- Every directive the main loop writes has a legal shape, whatever the
relocation array. -/
theorem OutputBlobLoop_shape (data : List Nat) (len fuel addr : Nat) (relocs : List Reloc) :
    ∀ l ∈ (OutputBlobLoop data len fuel addr relocs).1, l.shapeOK := by
  induction fuel generalizing addr relocs with
  | zero => intro l hl; simp [OutputBlobLoop] at hl
  | succ k ih =>
    intro l hl
    unfold OutputBlobLoop at hl
    split at hl
    · simp at hl
    · rcases relocs with _ | ⟨r, rs⟩
      · rcases List.mem_cons.mp hl with h | h
        · rw [h]; exact blobChunk_shape _ _ _ _
        · exact ih _ _ l h
      · dsimp only at hl
        split at hl
        · split at hl
          · split at hl
            · simp at hl
            · rcases List.mem_cons.mp hl with h | h
              · rw [h]; trivial
              · exact ih _ _ l h
          · split at hl
            · rcases List.mem_cons.mp hl with h | h
              · rw [h]; trivial
              · exact ih _ _ l h
            · split at hl <;> simp at hl
        · rcases List.mem_cons.mp hl with h | h
          · rw [h]; exact blobChunk_shape _ _ _ _
          · exact ih _ _ l h

theorem RelocsOK_mono {len len' : Nat} (h : len ≤ len') :
    ∀ relocs : List Reloc, RelocsOK len relocs → RelocsOK len' relocs
  | [], _ => trivial
  | r :: rs, hok => by
    obtain ⟨h1, h2, h3, h4, h5, h6⟩ := hok
    refine ⟨h1, h2, by omega, fun hk => ?_, h5, RelocsOK_mono h rs h6⟩
    obtain ⟨a, b⟩ := h4 hk
    exact ⟨a, by omega⟩

/-- `OutputBlobLines` on a well-formed blob: normal end, size, shapes. -/
theorem OutputBlobLines_spec (data : List Nat) (relocs : List Reloc)
    (hok : RelocsOK data.length relocs) :
    (OutputBlobLines data relocs).2 = BlobEnd.done ∧
    blobSize (OutputBlobLines data relocs).1 = (data.length + 3) / 4 * 4 ∧
    ∀ l ∈ (OutputBlobLines data relocs).1, l.shapeOK := by
  have hlen := padLong_length data
  have hok' : RelocsOK (padLong 3 data).length relocs :=
    RelocsOK_mono (by omega) relocs hok
  obtain ⟨h1, h2, h3⟩ := OutputBlobLoop_spec (padLong 3 data) (padLong 3 data).length (by omega)
    ((padLong 3 data).length + relocs.length + 1) 0 relocs (by omega) (Nat.zero_le _) hok'
  simp only [OutputBlobLines]
  exact ⟨h1, by omega, h3⟩

/-- C6: for a blob whose relocations are sorted by offset, long-aligned,
non-overlapping and inside the data, `OutputBlob` ends its loop normally and
the directives it writes denote exactly ceil(len/4)*4 bytes (4 per relocation
long, n per `byte` line of n values, the run length per repeated directive),
a multiple of 4; a debug entry denotes no byte. -/
theorem blob_size (data : List Nat) (relocs : List Reloc)
    (hok : RelocsOK data.length relocs) :
    (OutputBlobLines data relocs).2 = BlobEnd.done ∧
    blobSize (OutputBlobLines data relocs).1 = (data.length + 3) / 4 * 4 ∧
    blobSize (OutputBlobLines data relocs).1 % 4 = 0 ∧
    ∀ s, (BlobLine.debug s).size = 0 := by
  obtain ⟨h1, h2, -⟩ := OutputBlobLines_spec data relocs hok
  exact ⟨h1, h2, by omega, fun _ => rfl⟩

theorem exBlob_ok : RelocsOK exBlobData.length exBlobRelocs := by
  simp [RelocsOK, exBlobData, exBlobRelocs]

/-- Witness of C6: the blob of the relocation scenario. -/
theorem blob_size_witness :
    (OutputBlobLines exBlobData exBlobRelocs).2 = BlobEnd.done ∧
    blobSize (OutputBlobLines exBlobData exBlobRelocs).1 = (exBlobData.length + 3) / 4 * 4 ∧
    blobSize (OutputBlobLines exBlobData exBlobRelocs).1 % 4 = 0 ∧
    ∀ s, (BlobLine.debug s).size = 0 :=
  blob_size exBlobData exBlobRelocs exBlob_ok

/-- The relocation scenario, evaluated: text of the blob `blob`. -/
theorem blob_scenario_example :
    (OutputBlob {} (some { kind := Operandkind.IMM_HUB_LABEL, name := "blob" })
        (some { kind := Operandkind.IMM_BINARY, name := "", data := exBlobData,
                relocs := exBlobRelocs }) {}).map (fun s => s.fb) =
      some "\tlong\nblob\n\tbyte\t$01, $02, $03, $04\n\tlong\t@@@blob + 8\n\tbyte\t$09, $0a, $0b, $0c\n" := by
  decide

/-- C7 fails on the code: twenty bytes of value 1 are written as the single
directive `long $00000001[5]`, which an assembler lays down as five
little-endian longs 01 00 00 00, not as the twenty input bytes. -/
theorem blob_long_run_value :
    OutputBlobLines exRunData [] = ([BlobLine.longRun 1 5], BlobEnd.done) ∧
    blobText "blob" (OutputBlobLines exRunData []).1 = "\tlong\t$00000001[5]\n" ∧
    blobDecode (OutputBlobLines exRunData []).1 =
      [1, 0, 0, 0, 1, 0, 0, 0, 1, 0, 0, 0, 1, 0, 0, 0, 1, 0, 0, 0] ∧
    blobDecode (OutputBlobLines exRunData []).1 ≠ exRunData := by
  decide

/-- C8 as stated fails: a run of seventeen bytes of value 9 that starts
three bytes into the data is not written as a repeated directive; it is split
over two `byte` lines, because a round only looks for a run at its own first
byte. -/
theorem blob_mid_run_not_compressed :
    OutputBlobLines exMidRunData [] =
      ([BlobLine.bytes [1, 2, 3, 9, 9, 9, 9, 9, 9, 9, 9, 9, 9, 9, 9, 9],
        BlobLine.bytes [9, 9, 9, 9]], BlobEnd.done) ∧
    blobText "blob" (OutputBlobLines exMidRunData []).1 =
      "\tbyte\t$01, $02, $03, $09, $09, $09, $09, $09, $09, $09, $09, $09, $09, $09, $09, $09\n" ++
      "\tbyte\t$09, $09, $09, $09\n" := by
  decide

/-- The run scan stops at the end of the run or at `bytesPending`, and every
byte it passed equals `lastdata`. -/
theorem scanRun_spec (data : List Nat) (len addr lastdata : Nat) (bytesPending : Int)
    (ha : addr < len) (fuel runlen : Nat)
    (hr : (runlen : Int) ≤ bytesPending) (hfuel : bytesPending < (runlen : Int) + fuel) :
    (∀ i, runlen ≤ i → i < scanRun data len addr lastdata bytesPending fuel runlen →
      data.getD (addr + i) 0 = lastdata) ∧
    (((scanRun data len addr lastdata bytesPending fuel runlen : Nat) : Int) = bytesPending ∨
      data.getD (addr + scanRun data len addr lastdata bytesPending fuel runlen) 0 ≠ lastdata) := by
  induction fuel generalizing runlen with
  | zero => omega
  | succ k ih =>
    unfold scanRun
    split
    · rename_i h
      obtain ⟨h1, h2⟩ := ih (runlen + 1) (by have := h.2.2; push_cast; omega)
        (by push_cast at *; omega)
      refine ⟨fun i hi1 hi2 => ?_, h2⟩
      rcases Nat.eq_or_lt_of_le hi1 with he | hl
      · rw [← he]; exact h.1
      · exact h1 i hl hi2
    · rename_i h
      refine ⟨fun i hi1 hi2 => by omega, ?_⟩
      by_cases hd : data.getD (addr + runlen) 0 = lastdata
      · left
        have : ¬ ((runlen : Int) < bytesPending) := fun hlt => h ⟨hd, ha, hlt⟩
        omega
      · exact Or.inr hd

/-- C8 (amended): every directive `OutputBlob` writes for a blob
is a relocation long, a debug entry, a repeated directive covering more than
4 bytes (`long $v[n/4]` for n a multiple of 4, `byte $v[n]` otherwise) or a
`byte` line of at least 1 and at most 16 values; and whenever a round of the
loop has more than 16 bytes pending before the next relocation and the five
bytes at the current position are identical, the round writes the run that
starts there, as far as the pending bytes reach, as one repeated directive. -/
theorem blob_runs (data : List Nat) (relocs : List Reloc)
    (buf : List Nat) (len addr fuel : Nat) (rest : List Reloc)
    (ha : addr < len) (h16 : 16 < pendingBytes len addr rest)
    (hrun : ∀ i, i < 5 → buf.getD (addr + i) 0 = buf.getD addr 0) :
    (∀ l ∈ (OutputBlobLines data relocs).1, l.shapeOK) ∧
    ∃ n, 4 < n ∧
      (OutputBlobLoop buf len (fuel + 1) addr rest).1 =
        runLine (buf.getD addr 0) n :: (OutputBlobLoop buf len fuel (addr + n) rest).1 ∧
      (∀ i, i < n → buf.getD (addr + i) 0 = buf.getD addr 0) ∧
      ((n : Int) = pendingBytes len addr rest ∨ buf.getD (addr + n) 0 ≠ buf.getD addr 0) := by
  refine ⟨OutputBlobLoop_shape _ _ _ _ _, ?_⟩
  have hc : ∀ bp : Int, 16 < bp → ∃ n, 4 < n ∧
      blobChunk buf len addr bp = (runLine (buf.getD addr 0) n, addr + n) ∧
      (∀ i, i < n → buf.getD (addr + i) 0 = buf.getD addr 0) ∧
      ((n : Int) = bp ∨ buf.getD (addr + n) 0 ≠ buf.getD addr 0) := by
    intro bp hbp
    obtain ⟨s1, s2⟩ := scanRun_spec buf len addr (buf.getD addr 0) bp ha (bp.toNat + 1) 0
      (by push_cast; omega) (by push_cast; omega)
    have hbig : 4 < scanRun buf len addr (buf.getD addr 0) bp (bp.toNat + 1) 0 := by
      by_contra hcon
      rcases s2 with h | h
      · omega
      · exact h (hrun _ (by omega))
    refine ⟨_, hbig, ?_, fun i hi => s1 i (Nat.zero_le _) hi, s2⟩
    unfold blobChunk runLine
    simp only [MAX_BYTES_ON_LINE, gt_iff_lt, hbp, if_true, hbig, and_self]
    split <;> rfl
  rcases rest with _ | ⟨r, rs⟩
  · obtain ⟨n, h1, h2, h3, h4⟩ := hc _ h16
    simp only [pendingBytes] at h2
    refine ⟨n, h1, ?_, h3, h4⟩
    simp only [OutputBlobLoop, ha, not_true_eq_false, if_false, h2]
  · have h0 : ¬ (r.off - (addr : Int) = 0) := by
      intro h
      simp only [pendingBytes, h] at h16
      split at h16 <;> omega
    obtain ⟨n, h1, h2, h3, h4⟩ := hc _ h16
    simp only [pendingBytes] at h2
    refine ⟨n, h1, ?_, h3, h4⟩
    simp only [OutputBlobLoop, ha, not_true_eq_false, if_false, h0, h2]

/-- Witness of C8 (amended): the blob of the relocation scenario, and a
round at the start of twenty bytes of value 1. -/
theorem blob_runs_witness :
    (∀ l ∈ (OutputBlobLines exBlobData exBlobRelocs).1, l.shapeOK) ∧
    ∃ n, 4 < n ∧
      (OutputBlobLoop exRunData 20 (21 + 1) 0 []).1 =
        runLine (exRunData.getD 0 0) n :: (OutputBlobLoop exRunData 20 21 (0 + n) []).1 ∧
      (∀ i, i < n → exRunData.getD (0 + i) 0 = exRunData.getD 0 0) ∧
      ((n : Int) = pendingBytes 20 0 [] ∨ exRunData.getD (0 + n) 0 ≠ exRunData.getD 0 0) :=
  blob_runs exBlobData exBlobRelocs exRunData 20 0 21 [] (by decide) (by decide)
    (by decide)


/-! ### Degraded (COGSPIN) output -/

/-- The fixup chain for single values, evaluated: two longs holding hub
addresses give two records, each followed by its marker, the second linking
to the first, and `__fixup_ptr` pointing at the last. -/
theorem fixup_chain_example :
    (IRAssemble exCogspin exIsHubDest [exHubLong, exHubLong] none {}).map (fun s => s.fb) =
      some ("DAT\n\torg\t0\n" ++
        "\tlong\t@L__0007\n__fixup_1\n" ++
        "\tlong\t( (@__fixup_1 - 4) << 16) + @L__0007\n__fixup_2\n" ++
        "__fixup_ptr\n\tlong\t@__fixup_2 - 4\n") := by
  decide

/-- C9 fails on the code: the OPC_FCACHE pseudo-instruction prints two hub
label values in one `DoAssembleIR` call, so two fixup records are numbered
but only the marker of the second is planted; the second record links to
`__fixup_1`, which is defined nowhere in the text. -/
theorem fixup_marker_missing :
    (IRAssemble exCogspin exIsHubDest [exFcacheLoad] none {}).map (fun s => s.fb) =
      some ("DAT\n\torg\t0\n" ++
        "\tcall\t#LMM_FCACHE_LOAD\n" ++
        "\tlong\t(@L__0002-( (@__fixup_1 - 4) << 16) + @L__0001)\n" ++
        "__fixup_2\n" ++
        "__fixup_ptr\n\tlong\t@__fixup_2 - 4\n") ∧
    (IRAssemble exCogspin exIsHubDest [exFcacheLoad] none {}).map
      (fun s => (occursIn "@__fixup_1 " s.fb, occursIn "\n__fixup_1\n" s.fb, s.fixup_number)) =
      some (true, false, 2) := by
  decide

/-- C10 fails on the code: in COGSPIN mode a labeled blob with an
absolute-long relocation is written with the `@@@` operator. -/
theorem cogspin_blob_absolute :
    (IRAssemble exCogspin exIsHubDest [exLabeledBlob] none {}).map (fun s => s.fb) =
      some ("DAT\n\torg\t0\n" ++
        "\tlong\nblob\n" ++
        "\tbyte\t$01, $02, $03, $04\n" ++
        "\tlong\t@@@blob + 8\n" ++
        "\tbyte\t$09, $0a, $0b, $0c\n" ++
        "__fixup_ptr\n\tlong\t0\n") ∧
    (IRAssemble exCogspin exIsHubDest [exLabeledBlob] none {}).map
      (fun s => occursIn "@@@" s.fb) = some true ∧
    (IRAssemble exCogspin exIsHubDest [exHubLong] none {}).map
      (fun s => occursIn "@@@" s.fb) = some false := by
  decide

/-! ### Repeated assembly -/

/-- Counterexample to C11: in COGSPIN mode on the older ISA two successive
calls of `IRAssemble` on the same one-instruction list return different
texts, because `fixup_number` is not among the statics that `IRAssemble`
resets; the second text numbers its record 2 and links it to `__fixup_1`,
which the second text does not define. -/
theorem assemble_twice_differs :
    IRAssembleTwice exCogspin exIsHubDest [exHubLong] none {} =
      some ("DAT\n\torg\t0\n" ++ "\tlong\t@L__0007\n__fixup_1\n" ++
              "__fixup_ptr\n\tlong\t@__fixup_1 - 4\n",
            "DAT\n\torg\t0\n" ++ "\tlong\t( (@__fixup_1 - 4) << 16) + @L__0007\n__fixup_2\n" ++
              "__fixup_ptr\n\tlong\t@__fixup_2 - 4\n") ∧
    (IRAssembleTwice exCogspin exIsHubDest [exHubLong] none {}).map
      (fun p => decide (p.1 = p.2)) = some false := by
  decide

/-- In the plain assembler mode the same two calls agree. -/
theorem assemble_twice_asm_example :
    (IRAssembleTwice {} exIsHubDest [exHubLong] none {}).map (fun p => decide (p.1 = p.2)) =
      some true := by
  decide

/-- The text and statics `IRAssemble` returns depend on the statics it finds
only through `fixup_number`, `pending_fixup` and the error log: the section
flags and the buffer are reset at entry. -/
theorem IRAssemble_statics (o : Options) (IsHubDest : Option Operand → Bool) (list : List IR)
    (P : Option Module) (g1 g2 : AsmState) (hf : g1.fixup_number = g2.fixup_number)
    (hp : g1.pending_fixup = g2.pending_fixup) (he : g1.errors = g2.errors) :
    IRAssemble o IsHubDest list P g1 = IRAssemble o IsHubDest list P g2 := by
  rcases g1 with ⟨fb1, e1, f1, p1, a1, b1, c1, d1, x1⟩
  rcases g2 with ⟨fb2, e2, f2, p2, a2, b2, c2, d2, x2⟩
  simp only at hf hp he
  subst hf hp he
  rfl

/-! #### The error log does not reach the text -/

theorem text_eq_iff (a b : AsmState) :
    a.text = b.text ↔ b = { a with errors := b.errors } := by
  rcases a with ⟨fb, ea, fx, pf, d, c, og, lm, dp⟩
  rcases b with ⟨fb', eb, fx', pf', d', c', og', lm', dp'⟩
  simp only [AsmState.text, AsmState.mk.injEq, true_and, and_true]
  constructor
  · rintro ⟨rfl, rfl, rfl, rfl, rfl, rfl, rfl, rfl⟩
    exact ⟨rfl, rfl, rfl, rfl, rfl, rfl, rfl, rfl⟩
  · rintro ⟨rfl, rfl, rfl, rfl, rfl, rfl, rfl, rfl⟩
    exact ⟨rfl, rfl, rfl, rfl, rfl, rfl, rfl, rfl⟩

theorem text_ext {a b : AsmState} (h1 : a.fb = b.fb) (h2 : a.fixup_number = b.fixup_number)
    (h3 : a.pending_fixup = b.pending_fixup) (h4 : a.inDat = b.inDat) (h5 : a.inCon = b.inCon)
    (h6 : a.didOrg = b.didOrg) (h7 : a.lmmMode = b.lmmMode) (h8 : a.didPub = b.didPub) :
    a.text = b.text := by
  rcases a with ⟨fb, ea, fx, pf, d, c, og, lm, dp⟩
  rcases b with ⟨fb', eb, fx', pf', d', c', og', lm', dp'⟩
  simp only at h1 h2 h3 h4 h5 h6 h7 h8
  subst h1 h2 h3 h4 h5 h6 h7 h8
  rfl

theorem text_fields {a b : AsmState} (h : a.text = b.text) :
    a.fb = b.fb ∧ a.fixup_number = b.fixup_number ∧ a.pending_fixup = b.pending_fixup ∧
    a.inDat = b.inDat ∧ a.inCon = b.inCon ∧ a.didOrg = b.didOrg ∧ a.lmmMode = b.lmmMode ∧
    a.didPub = b.didPub := by
  rw [text_eq_iff] at h
  rw [h]
  exact ⟨rfl, rfl, rfl, rfl, rfl, rfl, rfl, rfl⟩

theorem addstr_text (s : String) {a b : AsmState} (h : a.text = b.text) :
    (flexbuf_addstr s a).text = (flexbuf_addstr s b).text := by
  rw [text_eq_iff] at h
  rw [h]
  rfl

theorem ERROR_text (m : String) {a b : AsmState} (h : a.text = b.text) :
    (ERROR m a).text = (ERROR m b).text := by
  rw [text_eq_iff] at h
  rw [h]
  rfl

theorem doPrintOperand_text (o : Options) (reg : Option Operand) (useimm : Bool)
    (effect : OperandEffect) {a b : AsmState} (h : a.text = b.text) :
    (doPrintOperand o reg useimm effect a).text = (doPrintOperand o reg useimm effect b).text := by
  obtain ⟨h1, h2, h3, h4, h5, h6, h7, h8⟩ := text_fields h
  obtain ⟨a1, a2, a3, a4, a5, a6, a7⟩ := doPrintOperand_statics o reg useimm effect a
  obtain ⟨b1, b2, b3, b4, b5, b6, b7⟩ := doPrintOperand_statics o reg useimm effect b
  apply text_ext
  · rw [doPrintOperand_fb, doPrintOperand_fb, h1]
  · rw [a1, b1, h2]
  · rw [a2, b2, h3]
  · rw [a4, b4, h4]
  · rw [a5, b5, h5]
  · rw [a6, b6, h6]
  · rw [a3, b3, h7]
  · rw [a7, b7, h8]

theorem PrintOperand_text (o : Options) (reg : Option Operand) {a b : AsmState}
    (h : a.text = b.text) : (PrintOperand o reg a).text = (PrintOperand o reg b).text :=
  doPrintOperand_text _ _ _ _ h

theorem PrintOperandSrc_text (o : Options) (reg : Option Operand) (ef : OperandEffect)
    {a b : AsmState} (h : a.text = b.text) :
    (PrintOperandSrc o reg ef a).text = (PrintOperandSrc o reg ef b).text :=
  doPrintOperand_text _ _ _ _ h

theorem PrintOperandAsValue_text (o : Options) (reg : Operand) {a b : AsmState}
    (h : a.text = b.text) :
    (PrintOperandAsValue o reg a).text = (PrintOperandAsValue o reg b).text := by
  have hp := PrintOperand_text o (some reg) h
  rw [text_eq_iff] at h
  rw [h] at hp ⊢
  generalize b.errors = e at hp ⊢
  unfold PrintOperandAsValue
  rcases reg.kind <;> dsimp only <;> first
    | exact hp
    | rfl
    | (split_ifs <;> rfl)

theorem PrintCond_text (c : IRCond) {a b : AsmState} (h : a.text = b.text) :
    (PrintCond c a).text = (PrintCond c b).text :=
  addstr_text _ (addstr_text _ h)

theorem printFlags_text (o : Options) (f : IRFlags) {a b : AsmState} (h : a.text = b.text) :
    (printFlags o f a).text = (printFlags o f b).text := by
  rw [text_eq_iff] at h
  rw [h]
  generalize b.errors = e
  rcases f with ⟨wc, wz, nr, wr⟩
  unfold printFlags
  rcases o.gl_p2 <;> rcases wc <;> rcases wz <;> rcases nr <;> rcases wr <;> rfl

theorem printInstr_text (o : Options) (ir : IR) (instr : Instruction) {a b : AsmState}
    (h : a.text = b.text) : (printInstr o ir instr a).text = (printInstr o ir instr b).text := by
  unfold printInstr
  apply addstr_text
  apply printFlags_text
  have h0 := addstr_text instr.name (PrintCond_text ir.cond h)
  generalize flexbuf_addstr instr.name (PrintCond ir.cond a) = a0 at h0 ⊢
  generalize flexbuf_addstr instr.name (PrintCond ir.cond b) = b0 at h0 ⊢
  have h1 : (PrintOperandSrc o ir.dst OperandEffect.OPEFFECT_NONE (flexbuf_addstr "\t" a0)).text =
      (PrintOperandSrc o ir.dst OperandEffect.OPEFFECT_NONE (flexbuf_addstr "\t" b0)).text :=
    PrintOperandSrc_text _ _ _ (addstr_text _ h0)
  have h2 : (PrintOperandSrc o ir.src ir.srceffect (flexbuf_addstr ", " (PrintOperand o ir.dst
      (if ir.opc = IROpcode.OPC_REPEAT then flexbuf_addstr "@" (flexbuf_addstr "\t" a0)
       else flexbuf_addstr "\t" a0)))).text =
      (PrintOperandSrc o ir.src ir.srceffect (flexbuf_addstr ", " (PrintOperand o ir.dst
      (if ir.opc = IROpcode.OPC_REPEAT then flexbuf_addstr "@" (flexbuf_addstr "\t" b0)
       else flexbuf_addstr "\t" b0)))).text := by
    apply PrintOperandSrc_text
    apply addstr_text
    apply PrintOperand_text
    split_ifs
    · exact addstr_text _ (addstr_text _ h0)
    · exact addstr_text _ h0
  rcases instr.ops
  case NO_OPERANDS => exact h0
  all_goals first
    | exact h1
    | exact h2

theorem OutputBlob_text (o : Options) (label op : Option Operand) {a b : AsmState}
    (h : a.text = b.text) :
    (OutputBlob o label op a).map AsmState.text = (OutputBlob o label op b).map AsmState.text := by
  unfold OutputBlob
  rcases op with _ | op
  · rfl
  · dsimp only
    by_cases hk : op.kind ≠ Operandkind.IMM_BINARY
    · rw [if_pos hk, if_pos hk]
      exact congrArg some (ERROR_text _ h)
    · rw [if_neg hk, if_neg hk]
      have h0 : (if o.gl_p2 = true then flexbuf_addstr "\talignl\n" a
          else flexbuf_addstr "\tlong\n" a).text =
          (if o.gl_p2 = true then flexbuf_addstr "\talignl\n" b
          else flexbuf_addstr "\tlong\n" b).text := by
        split_ifs <;> exact addstr_text _ h
      generalize (if o.gl_p2 = true then flexbuf_addstr "\talignl\n" a
          else flexbuf_addstr "\tlong\n" a) = a0 at h0 ⊢
      generalize (if o.gl_p2 = true then flexbuf_addstr "\talignl\n" b
          else flexbuf_addstr "\tlong\n" b) = b0 at h0 ⊢
      rcases label with _ | label
      · rfl
      · dsimp only
        have h1 := addstr_text (blobText label.name (OutputBlobLines op.data op.relocs).1)
          (addstr_text "\n" (addstr_text label.name h0))
        generalize (flexbuf_addstr (blobText label.name (OutputBlobLines op.data op.relocs).1)
          (flexbuf_addstr "\n" (flexbuf_addstr label.name a0))) = a1 at h1 ⊢
        generalize (flexbuf_addstr (blobText label.name (OutputBlobLines op.data op.relocs).1)
          (flexbuf_addstr "\n" (flexbuf_addstr label.name b0))) = b1 at h1 ⊢
        rcases (OutputBlobLines op.data op.relocs).2 <;> dsimp only [Option.map] <;>
          exact congrArg some h1

theorem EmitSpinMethods_text (o : Options) (P : Option Module) {a b : AsmState}
    (h : a.text = b.text) : (EmitSpinMethods o P a).text = (EmitSpinMethods o P b).text := by
  unfold EmitSpinMethods
  rcases P with _ | P
  · exact h
  · dsimp only
    split_ifs
    all_goals repeat apply addstr_text
    all_goals exact h

theorem setDidPub_text (v : Bool) {a b : AsmState} (h : a.text = b.text) :
    ({ a with didPub := v } : AsmState).text = ({ b with didPub := v } : AsmState).text := by
  rw [text_eq_iff] at h
  rw [h]
  rfl

theorem setSection_text (x y : Bool) {a b : AsmState} (h : a.text = b.text) :
    ({ a with inCon := x, inDat := y } : AsmState).text =
      ({ b with inCon := x, inDat := y } : AsmState).text := by
  rw [text_eq_iff] at h
  rw [h]
  rfl

theorem setDidOrg_text (v : Bool) {a b : AsmState} (h : a.text = b.text) :
    ({ a with didOrg := v } : AsmState).text = ({ b with didOrg := v } : AsmState).text := by
  rw [text_eq_iff] at h
  rw [h]
  rfl

theorem setLmmMode_text (v : Bool) {a b : AsmState} (h : a.text = b.text) :
    ({ a with lmmMode := v } : AsmState).text = ({ b with lmmMode := v } : AsmState).text := by
  rw [text_eq_iff] at h
  rw [h]
  rfl

theorem setPending_text (v : Int) {a b : AsmState} (h : a.text = b.text) :
    ({ a with pending_fixup := v } : AsmState).text =
      ({ b with pending_fixup := v } : AsmState).text := by
  rw [text_eq_iff] at h
  rw [h]
  rfl

theorem enterDat_text (o : Options) (P : Option Module) {a b : AsmState}
    (h : a.text = b.text) : (enterDat o P a).text = (enterDat o P b).text := by
  obtain ⟨-, -, -, f4, -, -, -, f8⟩ := text_fields h
  unfold enterDat
  rw [f4, f8]
  by_cases hd : ¬ b.inDat = true
  · rw [if_pos hd, if_pos hd]
    dsimp only
    have h1 : (if ¬ b.didPub = true ∧ P.isSome = true then
          ({ EmitSpinMethods o P a with didPub := true } : AsmState) else a).text =
        (if ¬ b.didPub = true ∧ P.isSome = true then
          ({ EmitSpinMethods o P b with didPub := true } : AsmState) else b).text := by
      split_ifs
      · exact setDidPub_text _ (EmitSpinMethods_text o P h)
      · exact h
    generalize (if ¬ b.didPub = true ∧ P.isSome = true then
          ({ EmitSpinMethods o P a with didPub := true } : AsmState) else a) = a1 at h1 ⊢
    generalize (if ¬ b.didPub = true ∧ P.isSome = true then
          ({ EmitSpinMethods o P b with didPub := true } : AsmState) else b) = b1 at h1 ⊢
    have hc : (flexbuf_addstr "DAT\n" a1).didOrg = (flexbuf_addstr "DAT\n" b1).didOrg :=
      (text_fields (addstr_text "DAT\n" h1)).2.2.2.2.2.1
    have h3 := setSection_text false true (addstr_text "DAT\n" h1)
    generalize ({ flexbuf_addstr "DAT\n" a1 with inCon := false, inDat := true } : AsmState) = a3
      at h3 ⊢
    generalize ({ flexbuf_addstr "DAT\n" b1 with inCon := false, inDat := true } : AsmState) = b3
      at h3 ⊢
    rw [hc]
    split_ifs
    · exact h3
    · exact setDidOrg_text _ (addstr_text _ h3)
  · rw [if_neg hd, if_neg hd]
    exact h

theorem lmmLongJump_text (o : Options) (dst : Operand) {a b : AsmState} (h : a.text = b.text) :
    (lmmLongJump o dst a).text = (lmmLongJump o dst b).text := by
  unfold lmmLongJump
  exact addstr_text _ (PrintOperandAsValue_text _ _ (addstr_text _ (addstr_text _ h)))

theorem returned_text {a b : AsmState} (h : a.text = b.text) :
    (some (Flow.returned a)).map Flow.text = (some (Flow.returned b)).map Flow.text := by
  show some (Flow.returned a.text) = some (Flow.returned b.text)
  rw [h]

theorem falls_text {a b : AsmState} (h : a.text = b.text) :
    (some (Flow.falls a)).map Flow.text = (some (Flow.falls b)).map Flow.text := by
  show some (Flow.falls a.text) = some (Flow.falls b.text)
  rw [h]

theorem some_text {a b : AsmState} (h : a.text = b.text) :
    (some a).map AsmState.text = (some b).map AsmState.text := by
  show some a.text = some b.text
  rw [h]

/-- The LMM switch on two states that differ in the error log only. -/
theorem lmmBranch_text (o : Options) (IsHubDest : Option Operand → Bool) (ir : IR)
    {a b : AsmState} (h : a.text = b.text) :
    (lmmBranch o IsHubDest ir a).map Flow.text = (lmmBranch o IsHubDest ir b).map Flow.text := by
  have hl : a.lmmMode = b.lmmMode := (text_fields h).2.2.2.2.2.2.1
  unfold lmmBranch
  rw [hl]
  repeat' (first | split_ifs | split)
  all_goals try dsimp only
  all_goals try split_ifs
  all_goals first
    | (with_reducible apply falls_text
       exact h)
    | (with_reducible apply returned_text
       repeat' first
         | exact h
         | with_reducible apply addstr_text
         | with_reducible apply ERROR_text
         | with_reducible apply PrintCond_text
         | with_reducible apply PrintOperand_text
         | with_reducible apply PrintOperandAsValue_text
         | with_reducible apply lmmLongJump_text)
    | with_reducible rfl

theorem pseudoOp_text (o : Options) (ir : IR) {a b : AsmState} (h : a.text = b.text) :
    (pseudoOp o ir a).map AsmState.text = (pseudoOp o ir b).map AsmState.text := by
  unfold pseudoOp
  rcases ir.dst with _ | dst <;> rcases ir.src with _ | src <;> split
  all_goals first
    | exact OutputBlob_text o _ _ h
    | (refine congrArg some ?_
       try with_reducible apply setLmmMode_text
       try split_ifs
       all_goals repeat' first
         | exact h
         | with_reducible apply addstr_text
         | with_reducible apply ERROR_text
         | with_reducible apply PrintCond_text
         | with_reducible apply PrintOperand_text
         | with_reducible apply PrintOperandAsValue_text)
    | rfl

/-- `DoAssembleIR` on two states that differ in the error log only. -/
theorem DoAssembleIR_text (o : Options) (IsHubDest : Option Operand → Bool) (ir : IR)
    (P : Option Module) {a b : AsmState} (h : a.text = b.text) :
    (DoAssembleIR o IsHubDest ir P a).map AsmState.text =
      (DoAssembleIR o IsHubDest ir P b).map AsmState.text := by
  unfold DoAssembleIR
  by_cases h1 : ir.opc = IROpcode.OPC_COMMENT
  · rw [if_pos h1, if_pos h1]
    rcases ir.dst with _ | dst
    · rfl
    · dsimp only
      split_ifs
      · exact some_text (ERROR_text _ h)
      · exact some_text (addstr_text _ (addstr_text _ (addstr_text _ h)))
  rw [if_neg h1, if_neg h1]
  by_cases h2 : ir.opc = IROpcode.OPC_DUMMY
  · rw [if_pos h2, if_pos h2]
    exact some_text h
  rw [if_neg h2, if_neg h2]
  by_cases h3 : ir.opc = IROpcode.OPC_REPEAT_END
  · rw [if_pos h3, if_pos h3]
    exact some_text h
  rw [if_neg h3, if_neg h3]
  by_cases h4 : ir.opc = IROpcode.OPC_CONST
  · rw [if_pos h4, if_pos h4]
    have hc : a.inCon = b.inCon := (text_fields h).2.2.2.2.1
    rw [hc]
    have h0 : (if ¬ b.inCon = true then
          ({ flexbuf_addstr "CON\n" a with inCon := true, inDat := false } : AsmState)
        else a).text =
        (if ¬ b.inCon = true then
          ({ flexbuf_addstr "CON\n" b with inCon := true, inDat := false } : AsmState)
        else b).text := by
      split_ifs
      · exact h
      · exact setSection_text _ _ (addstr_text _ h)
    generalize (if ¬ b.inCon = true then
          ({ flexbuf_addstr "CON\n" a with inCon := true, inDat := false } : AsmState)
        else a) = a0 at h0 ⊢
    generalize (if ¬ b.inCon = true then
          ({ flexbuf_addstr "CON\n" b with inCon := true, inDat := false } : AsmState)
        else b) = b0 at h0 ⊢
    rcases ir.src with _ | src
    · rfl
    · exact some_text (addstr_text _ (PrintOperandAsValue_text _ _
        (addstr_text _ (PrintOperand_text _ _ (addstr_text _ h0)))))
  rw [if_neg h4, if_neg h4]
  dsimp only
  have hE := enterDat_text o P h
  generalize enterDat o P a = a0 at hE ⊢
  generalize enterDat o P b = b0 at hE ⊢
  have hB := lmmBranch_text o IsHubDest ir hE
  rcases hA : lmmBranch o IsHubDest ir a0 with _ | fa
  · rcases hB' : lmmBranch o IsHubDest ir b0 with _ | fb
    · rfl
    · rw [hA, hB'] at hB
      cases hB
  · rcases hB' : lmmBranch o IsHubDest ir b0 with _ | fb
    · rw [hA, hB'] at hB
      cases hB
    · rw [hA, hB'] at hB
      have hf : fa.text = fb.text := Option.some.inj hB
      rcases fa with sa | sa <;> rcases fb with sb | sb
      · exact some_text (Flow.returned.inj hf)
      · cases hf
      · cases hf
      · have hs : sa.text = sb.text := Flow.falls.inj hf
        dsimp only
        rcases ir.instr with _ | instr
        · exact pseudoOp_text o ir hs
        · exact some_text (printInstr_text o ir instr hs)

theorem IRAssembleLoop_text (o : Options) (IsHubDest : Option Operand → Bool)
    (P : Option Module) (list : List IR) {a b : AsmState} (h : a.text = b.text) :
    (IRAssembleLoop o IsHubDest P list a).map AsmState.text =
      (IRAssembleLoop o IsHubDest P list b).map AsmState.text := by
  induction list generalizing a b with
  | nil => exact some_text h
  | cons ir rest ih =>
    unfold IRAssembleLoop
    have hD := DoAssembleIR_text o IsHubDest ir P h
    rcases hA : DoAssembleIR o IsHubDest ir P a with _ | a1
    · rcases hB : DoAssembleIR o IsHubDest ir P b with _ | b1
      · rfl
      · rw [hA, hB] at hD
        cases hD
    · rcases hB : DoAssembleIR o IsHubDest ir P b with _ | b1
      · rw [hA, hB] at hD
        cases hD
      · rw [hA, hB] at hD
        have h1 : a1.text = b1.text := Option.some.inj hD
        dsimp only
        apply ih
        rw [(text_fields h1).2.2.1]
        split_ifs
        · exact setPending_text _ (addstr_text _ h1)
        · exact h1
        · exact h1

/-- The text `IRAssemble` returns, and the statics it leaves, depend on the
statics it finds only through `fixup_number` and `pending_fixup`: the error
log does not reach them. -/
theorem IRAssemble_text (o : Options) (IsHubDest : Option Operand → Bool) (list : List IR)
    (P : Option Module) (g1 g2 : AsmState) (hf : g1.fixup_number = g2.fixup_number)
    (hp : g1.pending_fixup = g2.pending_fixup) :
    (IRAssemble o IsHubDest list P g1).map AsmState.text =
      (IRAssemble o IsHubDest list P g2).map AsmState.text := by
  unfold IRAssemble
  dsimp only
  have h0 : (if o.gl_p2 = true ∧ o.gl_output ≠ OutputKind.OUTPUT_COGSPIN then
        ({ ({ g1 with fb := "", inDat := false, inCon := false, didOrg := false, didPub := false,
                      lmmMode := false } : AsmState) with didPub := true } : AsmState)
      else { g1 with fb := "", inDat := false, inCon := false, didOrg := false, didPub := false,
                     lmmMode := false }).text =
      (if o.gl_p2 = true ∧ o.gl_output ≠ OutputKind.OUTPUT_COGSPIN then
        ({ ({ g2 with fb := "", inDat := false, inCon := false, didOrg := false, didPub := false,
                      lmmMode := false } : AsmState) with didPub := true } : AsmState)
      else { g2 with fb := "", inDat := false, inCon := false, didOrg := false, didPub := false,
                     lmmMode := false }).text := by
    split_ifs <;> exact text_ext rfl hf hp rfl rfl rfl rfl rfl
  have hL := IRAssembleLoop_text o IsHubDest P list h0
  generalize IRAssembleLoop o IsHubDest P list _ = ra at hL ⊢
  generalize IRAssembleLoop o IsHubDest P list _ = rb at hL ⊢
  rcases ra with _ | a1 <;> rcases rb with _ | b1
  · rfl
  · cases hL
  · cases hL
  · have h1 : a1.text = b1.text := Option.some.inj hL
    dsimp only
    have h2 := addstr_text "__fixup_ptr\n\tlong\t" h1
    rw [(text_fields h2).2.1]
    have hx : (flexbuf_addstr "__fixup_ptr\n\tlong\t" a1).fixup_number = a1.fixup_number := rfl
    have hy : (flexbuf_addstr "__fixup_ptr\n\tlong\t" b1).fixup_number = b1.fixup_number := rfl
    split_ifs
    · exact some_text (addstr_text _ h2)
    · exact some_text (addstr_text _ h2)
    · exact some_text h1

/-! ### The pending fixup outside the COGSPIN mode -/

theorem PrintOperandAsValue_pending (o : Options) (reg : Operand) (st : AsmState)
    (hm : o.gl_output ≠ OutputKind.OUTPUT_COGSPIN) :
    (PrintOperandAsValue o reg st).pending_fixup = st.pending_fixup := by
  have hp := (doPrintOperand_statics o (some reg) false OperandEffect.OPEFFECT_NONE st).2.1
  unfold PrintOperandAsValue
  rcases reg.kind <;> dsimp only <;> first
    | exact hp
    | rfl
    | (split_ifs <;> rfl)

theorem doPrintOperand_pending (o : Options) (reg : Option Operand) (useimm : Bool)
    (effect : OperandEffect) (st : AsmState) :
    (doPrintOperand o reg useimm effect st).pending_fixup = st.pending_fixup :=
  (doPrintOperand_statics o reg useimm effect st).2.1

theorem printFlags_pending (o : Options) (f : IRFlags) (st : AsmState) :
    (printFlags o f st).pending_fixup = st.pending_fixup := by
  rcases f with ⟨wc, wz, nr, wr⟩
  unfold printFlags
  rcases o.gl_p2 <;> rcases wc <;> rcases wz <;> rcases nr <;> rcases wr <;> rfl

theorem printInstr_pending (o : Options) (ir : IR) (instr : Instruction) (st : AsmState) :
    (printInstr o ir instr st).pending_fixup = st.pending_fixup := by
  unfold printInstr
  rcases instr.ops <;> dsimp only <;>
    simp only [flexbuf_addstr, printFlags_pending, PrintOperandSrc, PrintOperand,
      doPrintOperand_pending, PrintCond] <;>
    split_ifs <;> rfl

theorem OutputBlob_pending (o : Options) (label op : Option Operand) (st st' : AsmState)
    (h : OutputBlob o label op st = some st') : st'.pending_fixup = st.pending_fixup := by
  unfold OutputBlob at h
  rcases op with _ | op
  · cases h
  · dsimp only at h
    split_ifs at h
    · cases h; rfl
    · rcases label with _ | label
      · cases h
      · dsimp only at h
        split at h <;> cases h <;> rfl
    · rcases label with _ | label
      · cases h
      · dsimp only at h
        split at h <;> cases h <;> rfl

theorem enterDat_pending (o : Options) (P : Option Module) (st : AsmState) :
    (enterDat o P st).pending_fixup = st.pending_fixup := (enterDat_statics o P st).2.2.1

theorem lmmLongJump_pending (o : Options) (dst : Operand) (st : AsmState)
    (hm : o.gl_output ≠ OutputKind.OUTPUT_COGSPIN) :
    (lmmLongJump o dst st).pending_fixup = st.pending_fixup := by
  unfold lmmLongJump
  simp only [flexbuf_addstr, PrintOperandAsValue_pending o _ _ hm]

theorem lmmBranch_pending (o : Options) (IsHubDest : Option Operand → Bool) (ir : IR)
    (st : AsmState) (f : Flow) (hm : o.gl_output ≠ OutputKind.OUTPUT_COGSPIN)
    (h : lmmBranch o IsHubDest ir st = some f) :
    ∃ st', (f = Flow.returned st' ∨ f = Flow.falls st') ∧
      st'.pending_fixup = st.pending_fixup := by
  unfold lmmBranch at h
  repeat' (first | split_ifs at h | split at h)
  all_goals try simp only [MAX_REL_JUMP_OFFSET, gt_iff_lt] at h
  all_goals try split_ifs at h
  all_goals first
    | (simp only [Option.some.injEq, reduceCtorEq] at h; done)
    | (simp only [Option.some.injEq] at h
       subst h
       refine ⟨_, Or.inl rfl, ?_⟩
       simp only [flexbuf_addstr, ERROR, PrintCond, PrintOperand, doPrintOperand_pending,
         PrintOperandAsValue_pending o _ _ hm, lmmLongJump_pending o _ _ hm])
    | (simp only [Option.some.injEq] at h
       subst h
       exact ⟨_, Or.inr rfl, rfl⟩)

theorem pseudoOp_pending (o : Options) (ir : IR) (st st' : AsmState)
    (hm : o.gl_output ≠ OutputKind.OUTPUT_COGSPIN) (h : pseudoOp o ir st = some st') :
    st'.pending_fixup = st.pending_fixup := by
  unfold pseudoOp at h
  rcases hd : ir.dst with _ | dst <;> rcases hs : ir.src with _ | src <;>
    rw [hd, hs] at h <;> split at h
  all_goals first
    | exact OutputBlob_pending _ _ _ _ _ h
    | (simp only [Option.map_none', reduceCtorEq] at h; done)
    | (simp only [Option.map_some', Option.some.injEq] at h
       subst h
       try split_ifs
       all_goals simp only [flexbuf_addstr, ERROR, PrintOperand, doPrintOperand_pending,
         PrintOperandAsValue_pending o _ _ hm])

theorem DoAssembleIR_pending (o : Options) (IsHubDest : Option Operand → Bool) (ir : IR)
    (P : Option Module) (st st' : AsmState) (hm : o.gl_output ≠ OutputKind.OUTPUT_COGSPIN)
    (h : DoAssembleIR o IsHubDest ir P st = some st') :
    st'.pending_fixup = st.pending_fixup := by
  unfold DoAssembleIR at h
  by_cases h1 : ir.opc = IROpcode.OPC_COMMENT
  · rw [if_pos h1] at h
    rcases hd : ir.dst with _ | dst
    · rw [hd] at h; cases h
    · rw [hd] at h
      dsimp only at h
      split_ifs at h <;> cases h <;> rfl
  rw [if_neg h1] at h
  by_cases h2 : ir.opc = IROpcode.OPC_DUMMY
  · rw [if_pos h2] at h
    cases h; rfl
  rw [if_neg h2] at h
  by_cases h3 : ir.opc = IROpcode.OPC_REPEAT_END
  · rw [if_pos h3] at h
    cases h; rfl
  rw [if_neg h3] at h
  by_cases h4 : ir.opc = IROpcode.OPC_CONST
  · rw [if_pos h4] at h
    rcases hs : ir.src with _ | src
    · rw [hs] at h; cases h
    · rw [hs] at h
      dsimp only at h
      cases h
      simp only [flexbuf_addstr, PrintOperand, doPrintOperand_pending,
        PrintOperandAsValue_pending o _ _ hm]
      split_ifs <;> rfl
  rw [if_neg h4] at h
  dsimp only at h
  have hE := enterDat_pending o P st
  generalize enterDat o P st = s0 at h hE
  rcases hb : lmmBranch o IsHubDest ir s0 with _ | f
  · rw [hb] at h; cases h
  · rw [hb] at h
    obtain ⟨s1, hf, hk⟩ := lmmBranch_pending o IsHubDest ir s0 f hm hb
    rcases hf with rfl | rfl
    · dsimp only at h
      cases h
      rw [hk, hE]
    · dsimp only at h
      rcases hi : ir.instr with _ | instr
      · rw [hi] at h
        dsimp only at h
        rw [pseudoOp_pending o ir s1 st' hm h, hk, hE]
      · rw [hi] at h
        dsimp only at h
        cases h
        rw [printInstr_pending, hk, hE]

/-- A call of `IRAssemble` that finds no fixup pending leaves none
pending. -/
theorem IRAssemble_pending (o : Options) (IsHubDest : Option Operand → Bool) (list : List IR)
    (P : Option Module) (g s1 : AsmState) (hg : g.pending_fixup = 0)
    (h : IRAssemble o IsHubDest list P g = some s1) : s1.pending_fixup = 0 := by
  have loop : ∀ (l : List IR) (st st' : AsmState), st.pending_fixup = 0 →
      IRAssembleLoop o IsHubDest P l st = some st' → st'.pending_fixup = 0 := by
    intro l
    induction l with
    | nil =>
      intro st st' h0 hl
      simp only [IRAssembleLoop, Option.some.injEq] at hl
      rw [← hl]
      exact h0
    | cons ir rest ih =>
      intro st st' h0 hl
      unfold IRAssembleLoop at hl
      rcases hd : DoAssembleIR o IsHubDest ir P st with _ | s
      · rw [hd] at hl; cases hl
      · rw [hd] at hl
        dsimp only at hl
        refine ih _ st' ?_ hl
        by_cases hm : o.gl_output = OutputKind.OUTPUT_COGSPIN
        · rw [if_pos hm]
          by_cases hp : s.pending_fixup ≠ 0
          · rw [if_pos hp]
          · rw [if_neg hp]
            exact not_not.mp hp
        · rw [if_neg hm, DoAssembleIR_pending o IsHubDest ir P st s hm hd, h0]
  unfold IRAssemble at h
  dsimp only at h
  rcases hl : IRAssembleLoop o IsHubDest P list _ with _ | s
  · rw [hl] at h; cases h
  · rw [hl] at h
    have hs := loop list _ s (by split_ifs <;> exact hg) hl
    dsimp only at h
    split_ifs at h <;> cases h <;> exact hs

/-- C11 (amended): two successive calls of `IRAssemble` with the same list,
module and options return the same text whenever the first call leaves the
fixup counter as it found it, no fixup being pending when it is entered (the
static `pending_fixup` starts at 0 and `IRAssemble_pending` shows that a call
that finds it 0 leaves it 0) or, more generally, the call leaving the pending
fixup as it found it.  The error log plays no part: the first call may
report errors. -/
theorem assemble_twice_same (o : Options) (IsHubDest : Option Operand → Bool) (list : List IR)
    (P : Option Module) (g s1 : AsmState) (h1 : IRAssemble o IsHubDest list P g = some s1)
    (hf : s1.fixup_number = g.fixup_number)
    (hg : g.pending_fixup = 0 ∨ s1.pending_fixup = g.pending_fixup) :
    IRAssembleTwice o IsHubDest list P g = some (s1.fb, s1.fb) := by
  have hp : s1.pending_fixup = g.pending_fixup := by
    rcases hg with hg | hg
    · rw [IRAssemble_pending o IsHubDest list P g s1 hg h1, hg]
    · exact hg
  have ht := IRAssemble_text o IsHubDest list P s1 g hf hp
  unfold IRAssembleTwice
  rw [h1]
  dsimp only
  rw [h1] at ht
  rcases h2 : IRAssemble o IsHubDest list P s1 with _ | s2
  · rw [h2] at ht
    cases ht
  · rw [h2] at ht
    have hs : s2.text = s1.text := Option.some.inj ht
    have hfb : s2.fb = s1.fb := (text_fields hs).1
    simp only [Option.map_some', hfb]

/-- Witness of C11 (amended): a comment whose operand is not a string, so
that the call reports an error, followed by `mov x, #1 wz`, in the plain
assembler mode. -/
theorem assemble_twice_same_witness :
    IRAssembleTwice {} exIsHubDest [exBadComment, exMovWz] none {} =
      some
        (({ fb := "DAT\n\torg\t0\n\tmov\tx, #1 wz\n", errors := ["COMMENT is not a string"],
            inDat := true, didOrg := true } : AsmState).fb,
         ({ fb := "DAT\n\torg\t0\n\tmov\tx, #1 wz\n", errors := ["COMMENT is not a string"],
            inDat := true, didOrg := true } : AsmState).fb) :=
  assemble_twice_same {} exIsHubDest [exBadComment, exMovWz] none {}
    { fb := "DAT\n\torg\t0\n\tmov\tx, #1 wz\n", errors := ["COMMENT is not a string"],
      inDat := true, didOrg := true }
    (by decide) rfl (Or.inl rfl)

/-! ### Predicates -/

/-- C12: `PrintCond` writes nothing but a tab for TRUE and the mnemonics
`if_e`, `if_ne`, `if_b`, `if_ae`, `if_a`, `if_be`, `if_c`, `if_nc` (after a
space) for EQ, NE, LT, GE, GT, LE, C, NC, each followed by one tab; the nine
texts are pairwise different. -/
theorem PrintCond_mnemonics (st : AsmState) :
    (PrintCond IRCond.COND_TRUE st).fb = st.fb ++ "" ++ "\t" ∧
    (PrintCond IRCond.COND_EQ st).fb = st.fb ++ " if_e" ++ "\t" ∧
    (PrintCond IRCond.COND_NE st).fb = st.fb ++ " if_ne" ++ "\t" ∧
    (PrintCond IRCond.COND_LT st).fb = st.fb ++ " if_b" ++ "\t" ∧
    (PrintCond IRCond.COND_GE st).fb = st.fb ++ " if_ae" ++ "\t" ∧
    (PrintCond IRCond.COND_GT st).fb = st.fb ++ " if_a" ++ "\t" ∧
    (PrintCond IRCond.COND_LE st).fb = st.fb ++ " if_be" ++ "\t" ∧
    (PrintCond IRCond.COND_C st).fb = st.fb ++ " if_c" ++ "\t" ∧
    (PrintCond IRCond.COND_NC st).fb = st.fb ++ " if_nc" ++ "\t" ∧
    (ninePredicates.map condText).Nodup ∧
    ninePredicates.Nodup ∧ ninePredicates.length = 9 := by
  refine ⟨rfl, rfl, rfl, rfl, rfl, rfl, rfl, rfl, rfl, by decide, by decide, rfl⟩

/-! ### Flag modifiers -/

/-- The text of `printFlags` is the list of modifiers joined as described. -/
theorem flagsText_eq (o : Options) (f : IRFlags) :
    flagsText o f = joinModifiers (flagNames o f) := by
  rcases f with ⟨wc, wz, nr, wr⟩
  unfold flagsText printFlags flagNames
  rcases o.gl_p2 <;> rcases wc <;> rcases wz <;> rcases nr <;> rcases wr <;>
    simp [flexbuf_addstr, joinModifiers, String.join]

/-- When the LMM switch falls through it leaves the state as it was. -/
theorem lmmBranch_falls (o : Options) (IsHubDest : Option Operand → Bool) (ir : IR)
    (st st' : AsmState) (h : lmmBranch o IsHubDest ir st = some (Flow.falls st')) : st' = st := by
  unfold lmmBranch at h
  repeat' (first | split_ifs at h | split at h)
  all_goals try simp only [MAX_REL_JUMP_OFFSET, gt_iff_lt] at h
  all_goals try split_ifs at h
  all_goals first
    | (simp only [Option.some.injEq, Flow.falls.injEq] at h; exact h.symm)
    | (simp only [Option.some.injEq, reduceCtorEq] at h)

/-- The text of the descriptor block. -/
theorem printInstr_fb (o : Options) (ir : IR) (instr : Instruction) (st : AsmState) :
    (printInstr o ir instr st).fb =
      st.fb ++ (condText ir.cond ++ instr.name ++ instrOperandsText o ir instr ++
        joinModifiers (flagNames o ir.flags) ++ "\n") := by
  rw [← flagsText_eq]
  unfold printInstr instrOperandsText
  rcases instr.ops <;> by_cases hr : ir.opc = IROpcode.OPC_REPEAT <;>
    simp only [flexbuf_addstr, (printFlags_fb _ _ _).1, PrintCond_fb, PrintOperandSrc, PrintOperand,
      doPrintOperand_fb, String.append_assoc, hr, if_true, if_false, String.append_empty,
      String.empty_append]

/-- C13 as stated fails: a hub jump in LMM mode on the older ISA has a
descriptor and the WC flag, yet it is rewritten before the descriptor block
is reached and its text carries no `wc`. -/
theorem lmm_jump_drops_flags :
    exHubJumpWc.instr.isSome = true ∧ flagNames {} exHubJumpWc.flags = ["wc"] ∧
    (DoAssembleIR {} exIsHubDest exHubJumpWc none exLmmState).map (fun s => s.fb) =
      some "\tadd\tpc, #4*(L__0007 - ($+1))\n" ∧
    (DoAssembleIR {} exIsHubDest exHubJumpWc none exLmmState).map
      (fun s => occursIn "wc" s.fb) = some false := by
  decide

/-- C13 (amended): for every instruction that has a descriptor and is printed
from it (not a COMMENT, DUMMY, REPEAT_END or CONST, and not rewritten by the
compressed or LMM switch), `DoAssembleIR` writes predicate, name and operands
and then the flag modifiers: on the newer ISA WC and WZ together give the
single `wcz`, otherwise WC gives `wc` and WZ gives `wz` in that order; then
`nr` if NR is set, else `wr` if WR is set; one space before the first
modifier, a comma before each later one, nothing when no flag is set. -/
theorem flags_after_descriptor (o : Options) (IsHubDest : Option Operand → Bool) (ir : IR)
    (instr : Instruction) (P : Option Module) (st : AsmState)
    (h1 : ir.opc ≠ IROpcode.OPC_COMMENT) (h2 : ir.opc ≠ IROpcode.OPC_DUMMY)
    (h3 : ir.opc ≠ IROpcode.OPC_REPEAT_END) (h4 : ir.opc ≠ IROpcode.OPC_CONST)
    (hi : ir.instr = some instr)
    (hfall : ∃ s, lmmBranch o IsHubDest ir (enterDat o P st) = some (Flow.falls s)) :
    ∃ st', DoAssembleIR o IsHubDest ir P st = some st' ∧
      st'.fb = (enterDat o P st).fb ++
        (condText ir.cond ++ instr.name ++ instrOperandsText o ir instr ++
          joinModifiers (flagNames o ir.flags) ++ "\n") ∧
      flagNames o ir.flags =
        (if o.gl_p2 ∧ ir.flags.FLAG_WC ∧ ir.flags.FLAG_WZ then ["wcz"]
         else (if ir.flags.FLAG_WC then ["wc"] else []) ++
              (if ir.flags.FLAG_WZ then ["wz"] else [])) ++
        (if ir.flags.FLAG_NR then ["nr"] else if ir.flags.FLAG_WR then ["wr"] else []) ∧
      joinModifiers [] = "" ∧
      (∀ a, joinModifiers [a] = " " ++ a) ∧
      (∀ a b, joinModifiers [a, b] = " " ++ a ++ "," ++ b) ∧
      (∀ a b c, joinModifiers [a, b, c] = " " ++ a ++ "," ++ b ++ "," ++ c) := by
  obtain ⟨s, hs⟩ := hfall
  have hs' := lmmBranch_falls _ _ _ _ _ hs
  subst hs'
  refine ⟨printInstr o ir instr (enterDat o P st), ?_, printInstr_fb _ _ _ _, rfl, rfl, ?_, ?_, ?_⟩
  · simp only [DoAssembleIR, h1, h2, h3, h4, if_false, hs, hi]
  · intro a; simp [joinModifiers, String.join]
  · intro a b; simp [joinModifiers, String.join, String.append_assoc]
  · intro a b c; simp [joinModifiers, String.join, String.append_assoc]

/-- Witness of C13 (amended): `mov x, #1 wz` in COG code. -/
theorem flags_after_descriptor_witness :
    ∃ st', DoAssembleIR {} exIsHubDest exMovWz none exCogState = some st' ∧
      st'.fb = (enterDat {} none exCogState).fb ++
        (condText exMovWz.cond ++ "mov" ++
          instrOperandsText {} exMovWz { name := "mov", ops := InstrOps.TWO_OPERANDS } ++
          joinModifiers (flagNames {} exMovWz.flags) ++ "\n") ∧
      flagNames {} exMovWz.flags =
        (if ({} : Options).gl_p2 ∧ exMovWz.flags.FLAG_WC ∧ exMovWz.flags.FLAG_WZ then ["wcz"]
         else (if exMovWz.flags.FLAG_WC then ["wc"] else []) ++
              (if exMovWz.flags.FLAG_WZ then ["wz"] else [])) ++
        (if exMovWz.flags.FLAG_NR then ["nr"]
         else if exMovWz.flags.FLAG_WR then ["wr"] else []) ∧
      joinModifiers [] = "" ∧
      (∀ a, joinModifiers [a] = " " ++ a) ∧
      (∀ a b, joinModifiers [a, b] = " " ++ a ++ "," ++ b) ∧
      (∀ a b c, joinModifiers [a, b, c] = " " ++ a ++ "," ++ b ++ "," ++ c) :=
  flags_after_descriptor {} exIsHubDest exMovWz { name := "mov", ops := InstrOps.TWO_OPERANDS }
    none exCogState (by decide) (by decide) (by decide) (by decide) rfl
    ⟨exCogState, by decide⟩

/-- The flag modifiers of every combination on both ISAs, evaluated on
`mov x, #1`. -/
theorem flags_example :
    (DoAssembleIR {} exIsHubDest exMovWz none exCogState).map (fun s => s.fb) =
      some "\tmov\tx, #1 wz\n" ∧
    flagsText { gl_p2 := true } { FLAG_WC := true, FLAG_WZ := true, FLAG_NR := true } = " wcz,nr" ∧
    flagsText { gl_p2 := false } { FLAG_WC := true, FLAG_WZ := true, FLAG_WR := true } =
      " wc,wz,wr" ∧
    flagsText { gl_p2 := false } { FLAG_NR := true, FLAG_WR := true } = " nr" ∧
    flagsText { gl_p2 := true } {} = "" := by
  decide

/-! ### The type engine: helper lemmas -/

theorem MakeOperatorCall_one (func a : AST) (s : TState) (hf : func ≠ AST.null)
    (ha : a ≠ AST.null) :
    MakeOperatorCall func a AST.null AST.null s = (call1 func a, s) := by
  simp [MakeOperatorCall, hf, ha, call1, AddToList]

theorem MakeOperatorCall_two (func a b : AST) (s : TState) (hf : func ≠ AST.null)
    (ha : a ≠ AST.null) (hb : b ≠ AST.null) :
    MakeOperatorCall func a b AST.null s = (call2 func a b, s) := by
  simp [MakeOperatorCall, hf, ha, hb, call2, AddToList, NewAST]

theorem MakeOperatorCall_three (func a b c : AST) (s : TState) (hf : func ≠ AST.null)
    (ha : a ≠ AST.null) (hb : b ≠ AST.null) (hc : c ≠ AST.null) :
    MakeOperatorCall func a b c s = (call3 func a b c, s) := by
  simp [MakeOperatorCall, hf, ha, hb, hc, call3, AddToList, NewAST]

theorem MatchIntegerTypes_int (g : Globals) (k : ASTKind) (d : ASTData) (l r : AST)
    (nl nr : Int) (ul ur : Bool) (s : TState)
    (hnl : nl ∈ intWidths) (hnr : nr ∈ intWidths)
    (hz : g.int64_zerox ≠ AST.null) (hs : g.int64_signx ≠ AST.null) :
    MatchIntegerTypes g (AST.node k d l r) (some (intTy nl ul)) (some (intTy nr ur)) false s =
      (AST.node k d (matched g (some (intTy nl ul)) nl nr l)
          (matched g (some (intTy nr ur)) nr nl r),
        some (matchedType nl ul nr ur), s) := by
  simp only [intWidths, List.mem_cons, List.mem_singleton, List.not_mem_nil, or_false] at hnl hnr
  rcases hnl with rfl | rfl | rfl | rfl <;> rcases hnr with rfl | rfl | rfl | rfl <;>
    cases ul <;> cases ur <;>
    simp [MatchIntegerTypes, matched, matchedType, matchUnsigned, widens, commonWidth, widened,
      extended, extendOp, intTy, TypeSize, IsUnsignedType, RemoveTypeModifiers, LONG_SIZE,
      LONG64_SIZE, dopromote, MakeOperatorCall, hz, hs, call1, AddToList, AST.setLeft,
      AST.setRight, AST.left, AST.right, AstOperator, AstInteger, NewAST, ast_type_long,
      ast_type_long64, ast_type_unsigned_long, ast_type_unsigned_long64]

theorem intTy_not_float (n : Int) (u : Bool) : IsFloatType (some (intTy n u)) = false := by
  cases u <;> rfl

theorem intTy_isInt (n : Int) (u : Bool) : IsIntType (some (intTy n u)) = true := by
  cases u <;> rfl

theorem intTy_size (n : Int) (u : Bool) : TypeSize (some (intTy n u)) = n := by
  cases u <;> rfl

theorem intTy_unsigned (n : Int) (u : Bool) : IsUnsignedType (some (intTy n u)) = u := by
  cases u <;> rfl

theorem MakeBothIntegers_int (e : TypeEnv) (g : Globals) (ast : AST) (nl nr : Int)
    (ul ur : Bool) (opname : String) (s : TState) :
    MakeBothIntegers e g ast (some (intTy nl ul)) (some (intTy nr ur)) opname s =
      (true, ast, s) := by
  simp [MakeBothIntegers, intTy_not_float, VerifyIntegerType, intTy_isInt]

theorem matchedType_int64 (nl nr : Int) (ul ur : Bool)
    (hnl : nl ∈ intWidths) (hnr : nr ∈ intWidths) :
    IsInt64Type (some (matchedType nl ul nr ur)) = decide (nl = 8 ∨ nr = 8) := by
  simp only [intWidths, List.mem_cons, List.mem_singleton, List.not_mem_nil, or_false] at hnl hnr
  rcases hnl with rfl | rfl | rfl | rfl <;> rcases hnr with rfl | rfl | rfl | rfl <;>
    cases ul <;> cases ur <;> decide

theorem matchedType_unsigned (nl nr : Int) (ul ur : Bool)
    (hnl : nl ∈ intWidths) (hnr : nr ∈ intWidths) :
    IsUnsignedType (some (matchedType nl ul nr ur)) =
      ((ul || ur) && matchUnsigned nl ul nr ur) := by
  simp only [intWidths, List.mem_cons, List.mem_singleton, List.not_mem_nil, or_false] at hnl hnr
  rcases hnl with rfl | rfl | rfl | rfl <;> rcases hnr with rfl | rfl | rfl | rfl <;>
    cases ul <;> cases ur <;> decide

theorem matched_ne_null (g : Globals) (t : Option Ty) (n m : Int) (x : AST)
    (hx : x ≠ AST.null) : matched g t n m x ≠ AST.null := by
  unfold matched widened extended call1 NewAST AstOperator
  split_ifs <;> simp [hx]

/-- The integer part of `HandleTwoNumerics` on integer operand types: the
operands as `MatchIntegerTypes` leaves them, the unsigned variant of division
and modulus when the matched type is unsigned, and at 8 bytes the call of
the helper of the operator. -/
theorem htnIntOp_int (e : TypeEnv) (g : Globals) (op : Op) (l r : AST)
    (nl nr : Int) (ul ur : Bool) (s : TState) (f1 f2 f3 : Bool) (sc : AST)
    (hnl : nl ∈ intWidths) (hnr : nr ∈ intWidths)
    (hl : l ≠ AST.null) (hr : r ≠ AST.null)
    (hz : g.int64_zerox ≠ AST.null) (hs : g.int64_signx ≠ AST.null)
    (hh : ∀ o, int64Listed o = true → int64Helper g o ≠ AST.null)
    (hop : int64Listed op = true) :
    htnIntOp e g op { ast := AstOperator op l r, lefttype := some (intTy nl ul),
                      righttype := some (intTy nr ur), isfloat := f1, isfloat64 := f2,
                      isalreadyfixed := f3, scale := sc, s := s } =
      (if nl = 8 ∨ nr = 8 then
          call2 (int64Helper g
              (if ((ul || ur) && matchUnsigned nl ul nr ur) = true then unsignedVariant op
               else op))
            (matched g (some (intTy nl ul)) nl nr l) (matched g (some (intTy nr ur)) nr nl r)
        else
          AstOperator
            (if ((ul || ur) && matchUnsigned nl ul nr ur) = true then unsignedVariant op else op)
            (matched g (some (intTy nl ul)) nl nr l) (matched g (some (intTy nr ur)) nr nl r),
       some (matchedType nl ul nr ur), s) := by
  have hl' := matched_ne_null g (some (intTy nl ul)) nl nr l hl
  have hr' := matched_ne_null g (some (intTy nr ur)) nr nl r hr
  have hU := matchedType_unsigned nl nr ul ur hnl hnr
  have h64 := matchedType_int64 nl nr ul ur hnl hnr
  simp only [htnIntOp, MakeBothIntegers_int, AstOperator, MatchIntegerTypes_int g _ _ l r nl nr
    ul ur s hnl hnr hz hs, hU, h64]
  have h1 := hh Op.plus rfl
  have h2 := hh Op.minus rfl
  have h3 := hh Op.times rfl
  have h4 := hh Op.divide rfl
  have h5 := hh Op.K_UNS_DIV rfl
  have h6 := hh Op.K_MODULUS rfl
  have h7 := hh Op.K_UNS_MOD rfl
  have h8 := hh Op.bitand rfl
  have h9 := hh Op.bitor rfl
  have h10 := hh Op.bitxor rfl
  have h11 := hh Op.K_SAR rfl
  have h12 := hh Op.K_SHR rfl
  have h13 := hh Op.K_SHL rfl
  simp only [int64Helper] at h1 h2 h3 h4 h5 h6 h7 h8 h9 h10 h11 h12 h13
  by_cases hu : ((ul || ur) && matchUnsigned nl ul nr ur) = true <;>
    by_cases hw : nl = 8 ∨ nr = 8 <;>
    cases op <;> simp [int64Listed] at hop <;>
    simp [hu, hw, unsignedVariant, AST.setOp, int64Listed, int64Helper, AST.left, AST.right,
      MakeOperatorCall, call2, AddToList, NewAST, hl', hr', h1, h2, h3, h4, h5, h6, h7, h8, h9,
      h10, h11, h12, h13]

theorem cType_int (e : TypeEnv) (n : Int) (u : Bool) :
    cType e (some (intTy n u)) = some (intTy (cWidth e n) (cUnsigned e n u)) := by
  unfold cType cWidth cUnsigned
  rw [intTy_size]
  by_cases h : e.inCLang = true ∧ n < 4
  · simp [h, intTy, ast_type_long]
  · have h' : ¬ (e.inCLang = true ∧ some (intTy n u) ≠ none ∧ n < 4) := fun c => h ⟨c.1, c.2.2⟩
    rw [if_neg h', if_neg h, if_neg h]

theorem cWidth_mem (e : TypeEnv) (n : Int) (hn : n ∈ intWidths) : cWidth e n ∈ intWidths := by
  unfold cWidth
  split_ifs
  · decide
  · exact hn

theorem cExpr_ne_null (e : TypeEnv) (t : Option Ty) (x : AST) (hx : x ≠ AST.null) :
    cExpr e t x ≠ AST.null := by
  unfold cExpr extended AstOperator
  split_ifs <;> simp [hx]

/-- On integer operand types `HandleTwoNumerics` is its integer part, run on
the operands after the C-dialect promotion. -/
theorem HandleTwoNumerics_int (e : TypeEnv) (g : Globals) (op : Op) (l r : AST)
    (nl nr : Int) (ul ur : Bool) (s : TState) (hop : op ≠ Op.K_POWER)
    (hnc : e.IsConstExpr (AstOperator op (cExpr e (some (intTy nl ul)) l)
      (cExpr e (some (intTy nr ur)) r)) = false) :
    HandleTwoNumerics e g op (AstOperator op l r) (some (intTy nl ul)) (some (intTy nr ur)) s =
      htnIntOp e g op
        { ast := AstOperator op (cExpr e (some (intTy nl ul)) l) (cExpr e (some (intTy nr ur)) r),
          lefttype := cType e (some (intTy nl ul)), righttype := cType e (some (intTy nr ur)),
          s := s } := by
  have hm : htnModulus e g op
      { ast := AstOperator op l r, lefttype := some (intTy nl ul),
        righttype := some (intTy nr ur), s := s } =
      { ast := AstOperator op l r, lefttype := some (intTy nl ul),
        righttype := some (intTy nr ur), s := s } := by
    simp [htnModulus, intTy_not_float]
  have hc : htnConvert e g op
      { ast := AstOperator op l r, lefttype := some (intTy nl ul),
        righttype := some (intTy nr ur), s := s } =
      { ast := AstOperator op (cExpr e (some (intTy nl ul)) l) (cExpr e (some (intTy nr ur)) r),
        lefttype := cType e (some (intTy nl ul)), righttype := cType e (some (intTy nr ur)),
        s := s } := by
    have e1 : ∀ n : Int, n < 4 → ¬ (n * 8 = 32) := by intro n h; omega
    cases hC : e.inCLang <;> by_cases h1 : nl < 4 <;> by_cases h2 : nr < 4 <;>
      simp [htnConvert, intTy_not_float, hop, hC, h1, h2, cExpr, cType, intTy_size, dopromote,
        LONG_SIZE, e1, extended, extendOp, AstOperator, AST.setLeft, AST.setRight, AST.left,
        AST.right]
  unfold HandleTwoNumerics
  simp only [hm, hc, hnc]
  simp

theorem InitGlobalFuncs_int64 (fr : Bool) (g0 : Globals)
    (hg : g0.basic_print_integer = AST.null) (o : Op) (ho : int64Listed o = true) :
    ∃ name, int64Helper (InitGlobalFuncs fr g0) o = AstIdentifier name := by
  cases o <;> simp [int64Listed] at ho <;>
    cases fr <;> simp [InitGlobalFuncs, hg, int64Helper, getBasicPrimitive, AstIdentifier]

/-- The handle `InitGlobalFuncs` sets for the helper of each operator of the
`switch (op)` for 64 bit integers is the identifier the specification
names. -/
theorem InitGlobalFuncs_int64_name (fr : Bool) (g0 : Globals)
    (hg : g0.basic_print_integer = AST.null) (o : Op) (ho : int64Listed o = true) :
    int64Helper (InitGlobalFuncs fr g0) o = AstIdentifier (int64Name o) := by
  cases o <;> simp [int64Listed] at ho <;>
    cases fr <;>
    simp [InitGlobalFuncs, hg, int64Helper, getBasicPrimitive, AstIdentifier, int64Name]

theorem InitGlobalFuncs_ext (fr : Bool) (g0 : Globals)
    (hg : g0.basic_print_integer = AST.null) :
    (InitGlobalFuncs fr g0).int64_zerox = AstIdentifier "_int64_zerox" ∧
    (InitGlobalFuncs fr g0).int64_signx = AstIdentifier "_int64_signx" := by
  cases fr <;> simp [InitGlobalFuncs, hg, getBasicPrimitive]

theorem callCount_matched4 (g : Globals) (t : Option Ty) (n m : Int) (x : AST)
    (hn : n ≤ 4) (hm : m ≤ 4) : callCount (matched g t n m x) = callCount x := by
  have hw : commonWidth n m ≠ 8 := by
    unfold commonWidth
    omega
  unfold matched widened
  split_ifs <;> simp [extended, AstOperator, AstInteger, callCount]

theorem callCount_cExpr (e : TypeEnv) (t : Option Ty) (x : AST) :
    callCount (cExpr e t x) = callCount x := by
  unfold cExpr
  split_ifs <;> simp [extended, AstOperator, AstInteger, callCount]

theorem matched_wide64 (g : Globals) (n m : Int) (u : Bool) (x : AST)
    (hn : n ∈ intWidths) (hm : m ∈ intWidths) (h : n = 8 ∨ m = 8) :
    matched g (some (intTy n u)) n m x = wide64 g (some (intTy n u)) x := by
  simp only [intWidths, List.mem_cons, List.mem_singleton, List.not_mem_nil, or_false] at hn hm
  unfold matched wide64
  rw [intTy_size]
  rcases hn with rfl | rfl | rfl | rfl <;> rcases hm with rfl | rfl | rfl | rfl <;>
    simp [widens, commonWidth] at h ⊢

/-- C14: for each of the binary operators `+ - * / % & | ^ << >>` over two
integer operands (widths in 1, 2, 4, 8) whose operator node is not a
constant expression, with the helper handles set by `InitGlobalFuncs`:
if an operand type is 8 bytes wide, `HandleTwoNumerics` replaces the node
by one call of the int64 helper of the operator - `_int64_add` for `+`,
`_int64_sub` for `-` and so on as `int64Name` lists them, for `/` and `%`
possibly the unsigned variant `_int64_divu`, `_int64_modu` - on the two
operands widened to 8 bytes, without a diagnostic; if both are at most 4
bytes wide the node stays an operator node and the tree has as many call
nodes as before. -/
theorem int64_helper_calls (e : TypeEnv) (g0 : Globals) (op : Op) (l r : AST)
    (nl nr : Int) (ul ur : Bool) (s : TState)
    (hop : op ∈ binaryOps) (hnl : nl ∈ intWidths) (hnr : nr ∈ intWidths)
    (hl : l ≠ AST.null) (hr : r ≠ AST.null)
    (hg : g0.basic_print_integer = AST.null)
    (hnc : e.IsConstExpr (AstOperator op (cExpr e (some (intTy nl ul)) l)
      (cExpr e (some (intTy nr ur)) r)) = false) :
    (nl = 8 ∨ nr = 8 →
      ∃ name,
        (name = int64Name op ∨ (op = Op.divide ∧ name = "_int64_divu") ∨
          (op = Op.K_MODULUS ∧ name = "_int64_modu")) ∧
        HandleTwoNumerics e (InitGlobalFuncs e.gl_fixedreal g0) op (AstOperator op l r)
            (some (intTy nl ul)) (some (intTy nr ur)) s =
          (call2 (AstIdentifier name)
              (wide64 (InitGlobalFuncs e.gl_fixedreal g0) (cType e (some (intTy nl ul)))
                (cExpr e (some (intTy nl ul)) l))
              (wide64 (InitGlobalFuncs e.gl_fixedreal g0) (cType e (some (intTy nr ur)))
                (cExpr e (some (intTy nr ur)) r)),
            some (matchedType (cWidth e nl) (cUnsigned e nl ul) (cWidth e nr) (cUnsigned e nr ur)),
            s)) ∧
    (nl ≤ 4 ∧ nr ≤ 4 →
      ∃ op' L R,
        HandleTwoNumerics e (InitGlobalFuncs e.gl_fixedreal g0) op (AstOperator op l r)
            (some (intTy nl ul)) (some (intTy nr ur)) s =
          (AstOperator op' L R,
            some (matchedType (cWidth e nl) (cUnsigned e nl ul) (cWidth e nr) (cUnsigned e nr ur)),
            s) ∧
        callCount (AstOperator op' L R) = callCount (AstOperator op l r)) := by
  have hp : op ≠ Op.K_POWER := by
    intro h
    rw [h] at hop
    simp [binaryOps] at hop
  have hlist : int64Listed op = true := by
    simp only [binaryOps, List.mem_cons, List.mem_singleton, List.not_mem_nil, or_false] at hop
    rcases hop with h | h | h | h | h | h | h | h | h | h | h <;> rw [h] <;> rfl
  have hE := InitGlobalFuncs_ext e.gl_fixedreal g0 hg
  have hz : (InitGlobalFuncs e.gl_fixedreal g0).int64_zerox ≠ AST.null := by
    rw [hE.1]; simp [AstIdentifier]
  have hs : (InitGlobalFuncs e.gl_fixedreal g0).int64_signx ≠ AST.null := by
    rw [hE.2]; simp [AstIdentifier]
  have hh : ∀ o, int64Listed o = true →
      int64Helper (InitGlobalFuncs e.gl_fixedreal g0) o ≠ AST.null := by
    intro o ho
    obtain ⟨name, hname⟩ := InitGlobalFuncs_int64 e.gl_fixedreal g0 hg o ho
    rw [hname]; simp [AstIdentifier]
  have hmain := htnIntOp_int e (InitGlobalFuncs e.gl_fixedreal g0) op
    (cExpr e (some (intTy nl ul)) l) (cExpr e (some (intTy nr ur)) r)
    (cWidth e nl) (cWidth e nr) (cUnsigned e nl ul) (cUnsigned e nr ur) s false false false
    AST.null (cWidth_mem e nl hnl) (cWidth_mem e nr hnr) (cExpr_ne_null e _ l hl)
    (cExpr_ne_null e _ r hr) hz hs hh hlist
  rw [HandleTwoNumerics_int e _ op l r nl nr ul ur s hp hnc, cType_int, cType_int, hmain]
  constructor
  · intro h8
    have e1 : ∀ n : Int, n = 8 → cWidth e n = 8 := by
      intro n h; unfold cWidth; rw [if_neg] <;> omega
    have h8' : cWidth e nl = 8 ∨ cWidth e nr = 8 := h8.imp (e1 nl) (e1 nr)
    have hv : int64Listed (unsignedVariant op) = true := by
      cases op <;> simp [int64Listed] at hlist <;> rfl
    have hop' : int64Listed (if ((cUnsigned e nl ul || cUnsigned e nr ur) &&
        matchUnsigned (cWidth e nl) (cUnsigned e nl ul) (cWidth e nr) (cUnsigned e nr ur)) = true
        then unsignedVariant op else op) = true := by
      split_ifs
      · exact hv
      · exact hlist
    have hname := InitGlobalFuncs_int64_name e.gl_fixedreal g0 hg _ hop'
    have hdisj : ∀ c : Bool,
        int64Name (if c = true then unsignedVariant op else op) = int64Name op ∨
          (op = Op.divide ∧
            int64Name (if c = true then unsignedVariant op else op) = "_int64_divu") ∨
          (op = Op.K_MODULUS ∧
            int64Name (if c = true then unsignedVariant op else op) = "_int64_modu") := by
      intro c
      cases c
      · exact Or.inl rfl
      · simp only [binaryOps, List.mem_cons, List.mem_singleton, List.not_mem_nil,
          or_false] at hop
        rcases hop with h | h | h | h | h | h | h | h | h | h | h <;> rw [h] <;>
          simp [unsignedVariant, int64Name]
    refine ⟨_, hdisj ((cUnsigned e nl ul || cUnsigned e nr ur) &&
      matchUnsigned (cWidth e nl) (cUnsigned e nl ul) (cWidth e nr) (cUnsigned e nr ur)), ?_⟩
    rw [if_pos h8', hname,
      matched_wide64 _ _ _ _ _ (cWidth_mem e nl hnl) (cWidth_mem e nr hnr) h8',
      matched_wide64 _ _ _ _ _ (cWidth_mem e nr hnr) (cWidth_mem e nl hnl) h8'.symm]
  · intro h4
    have e1 : ∀ n : Int, n ≤ 4 → cWidth e n ≤ 4 := by
      intro n h; unfold cWidth; split_ifs <;> omega
    have h8' : ¬ (cWidth e nl = 8 ∨ cWidth e nr = 8) := by
      have a := e1 nl h4.1
      have b := e1 nr h4.2
      omega
    rw [if_neg h8']
    refine ⟨_, _, _, rfl, ?_⟩
    simp only [AstOperator, callCount,
      callCount_matched4 _ _ _ _ _ (e1 nl h4.1) (e1 nr h4.2),
      callCount_matched4 _ _ _ _ _ (e1 nr h4.2) (e1 nl h4.1), callCount_cExpr]

/-- Witness of C14: `a + b` with `a` a signed 8-byte and `b` a signed 4-byte
variable. -/
theorem int64_helper_calls_witness :
    (((8 : Int) = 8 ∨ (4 : Int) = 8 →
      ∃ name,
        (name = int64Name Op.plus ∨ (Op.plus = Op.divide ∧ name = "_int64_divu") ∨
          (Op.plus = Op.K_MODULUS ∧ name = "_int64_modu")) ∧
        HandleTwoNumerics exTypeEnv (InitGlobalFuncs exTypeEnv.gl_fixedreal {}) Op.plus
            (AstOperator Op.plus exVarA exVarB) (some (intTy 8 false)) (some (intTy 4 false)) {} =
          (call2 (AstIdentifier name)
              (wide64 (InitGlobalFuncs exTypeEnv.gl_fixedreal {})
                (cType exTypeEnv (some (intTy 8 false))) (cExpr exTypeEnv (some (intTy 8 false)) exVarA))
              (wide64 (InitGlobalFuncs exTypeEnv.gl_fixedreal {})
                (cType exTypeEnv (some (intTy 4 false))) (cExpr exTypeEnv (some (intTy 4 false)) exVarB)),
            some (matchedType (cWidth exTypeEnv 8) (cUnsigned exTypeEnv 8 false)
              (cWidth exTypeEnv 4) (cUnsigned exTypeEnv 4 false)),
            {})) ∧
    ((8 : Int) ≤ 4 ∧ (4 : Int) ≤ 4 →
      ∃ op' L R,
        HandleTwoNumerics exTypeEnv (InitGlobalFuncs exTypeEnv.gl_fixedreal {}) Op.plus
            (AstOperator Op.plus exVarA exVarB) (some (intTy 8 false)) (some (intTy 4 false)) {} =
          (AstOperator op' L R,
            some (matchedType (cWidth exTypeEnv 8) (cUnsigned exTypeEnv 8 false)
              (cWidth exTypeEnv 4) (cUnsigned exTypeEnv 4 false)),
            {}) ∧
        callCount (AstOperator op' L R) = callCount (AstOperator Op.plus exVarA exVarB))) :=
  int64_helper_calls exTypeEnv {} Op.plus exVarA exVarB 8 4 false false {} (by decide)
    (by decide) (by decide) (by decide) (by decide) rfl (by decide)

/-- The 64-bit addition `a + b` evaluated: one call of `_int64_add`, the
4-byte operand sign-extended through `_int64_signx`. -/
theorem int64_add_example :
    HandleTwoNumerics exTypeEnv exGlobals Op.plus (AstOperator Op.plus exVarA exVarB)
        (some ast_type_long64) (some ast_type_long) {} =
      (call2 (AstIdentifier "_int64_add") exVarA
         (call1 (AstIdentifier "_int64_signx")
           (AstOperator Op.K_SIGNEXTEND exVarB (AstInteger 32))),
       some ast_type_long64, {}) := by
  decide

/-- The helper of each operator after `InitGlobalFuncs`. -/
theorem int64_helper_names :
    binaryOps.map (int64Helper exGlobals) =
      ["_int64_add", "_int64_sub", "_int64_muls", "_int64_divs", "_int64_mods", "_int64_and",
       "_int64_or", "_int64_xor", "_int64_shl", "_int64_shr", "_int64_sar"].map AstIdentifier ∧
    int64Helper exGlobals Op.K_UNS_DIV = AstIdentifier "_int64_divu" ∧
    int64Helper exGlobals Op.K_UNS_MOD = AstIdentifier "_int64_modu" := by
  decide

/-- Counterexample to C15: two operands of the same unsigned 2-byte type
are narrower than the common width 4, yet `MatchIntegerTypes` with force = 0
widens neither and returns the 2-byte type. -/
theorem match_equal_narrow_kept :
    MatchIntegerTypes exGlobals (AstOperator Op.plus exVarA exVarB) (some (intTy 2 true))
        (some (intTy 2 true)) false {} =
      (AstOperator Op.plus exVarA exVarB, some (intTy 2 true), {}) ∧
    TypeSize (some (intTy 2 true)) = 2 ∧ commonWidth 2 2 = 4 := by
  decide

theorem commonWidth_comm (n m : Int) : commonWidth n m = commonWidth m n := by
  unfold commonWidth
  omega

/-- C15 (amended): for integer operand types of widths l, r in 1, 2, 4, 8,
`MatchIntegerTypes` with force = 0: when l and r differ, widens each operand
narrower than max(l, r, 4) - by zero-extension for an unsigned type, by
sign-extension for a signed one, through `int64_zerox` / `int64_signx` to 8
bytes - and returns a type of width max(l, r, 4); when l = r it widens
neither operand and returns the left type if a type is unsigned, the signed
type of width max(l, 4) otherwise.  No diagnostic is added. -/
theorem match_integer_widths (g : Globals) (k : ASTKind) (d : ASTData) (l r : AST)
    (nl nr : Int) (ul ur : Bool) (s : TState)
    (hnl : nl ∈ intWidths) (hnr : nr ∈ intWidths)
    (hz : g.int64_zerox ≠ AST.null) (hs : g.int64_signx ≠ AST.null) :
    (nl ≠ nr →
      MatchIntegerTypes g (AST.node k d l r) (some (intTy nl ul)) (some (intTy nr ur)) false s =
        (AST.node k d
            (if nl < commonWidth nl nr then
              widened g (some (intTy nl ul)) (commonWidth nl nr) l else l)
            (if nr < commonWidth nl nr then
              widened g (some (intTy nr ur)) (commonWidth nl nr) r else r),
          some (matchedType nl ul nr ur), s) ∧
      TypeSize (some (matchedType nl ul nr ur)) = commonWidth nl nr) ∧
    (nl = nr →
      MatchIntegerTypes g (AST.node k d l r) (some (intTy nl ul)) (some (intTy nr ur)) false s =
        (AST.node k d l r,
          some (if ul = true ∨ ur = true then intTy nl ul else intTy (max nl 4) false), s)) := by
  rw [MatchIntegerTypes_int g k d l r nl nr ul ur s hnl hnr hz hs]
  simp only [intWidths, List.mem_cons, List.mem_singleton, List.not_mem_nil, or_false] at hnl hnr
  constructor
  · intro hne
    constructor
    · simp only [matched, widens, commonWidth_comm nr nl, hne, Ne.symm hne, ne_eq,
        not_false_eq_true, true_and, decide_eq_true_eq]
    · rcases hnl with rfl | rfl | rfl | rfl <;> rcases hnr with rfl | rfl | rfl | rfl <;>
        cases ul <;> cases ur <;> first | (exact absurd rfl hne) | decide
  · intro he
    subst he
    rcases hnl with rfl | rfl | rfl | rfl <;> cases ul <;> cases ur <;>
      simp [matched, matchedType, widens, intTy]

/-- Witness of C15 (amended): an unsigned 2-byte and a signed 8-byte operand. -/
theorem match_integer_widths_witness :
    ((2 : Int) ≠ 8 →
      MatchIntegerTypes exGlobals (AST.node ASTKind.AST_OPERATOR (ASTData.op Op.plus) exVarA exVarB)
          (some (intTy 2 true)) (some (intTy 8 false)) false {} =
        (AST.node ASTKind.AST_OPERATOR (ASTData.op Op.plus)
            (if 2 < commonWidth 2 8 then
              widened exGlobals (some (intTy 2 true)) (commonWidth 2 8) exVarA else exVarA)
            (if 8 < commonWidth 2 8 then
              widened exGlobals (some (intTy 8 false)) (commonWidth 2 8) exVarB else exVarB),
          some (matchedType 2 true 8 false), {}) ∧
      TypeSize (some (matchedType 2 true 8 false)) = commonWidth 2 8) ∧
    ((2 : Int) = 8 →
      MatchIntegerTypes exGlobals (AST.node ASTKind.AST_OPERATOR (ASTData.op Op.plus) exVarA exVarB)
          (some (intTy 2 true)) (some (intTy 8 false)) false {} =
        (AST.node ASTKind.AST_OPERATOR (ASTData.op Op.plus) exVarA exVarB,
          some (if true = true ∨ false = true then intTy 2 true else intTy (max 2 4) false),
          {})) :=
  match_integer_widths exGlobals ASTKind.AST_OPERATOR (ASTData.op Op.plus) exVarA exVarB 2 8
    true false {} (by decide) (by decide) (by decide) (by decide)

/-- The widening of the witness, evaluated: the unsigned 2-byte operand goes
through `_int64_zerox` over its zero-extension from 16 bits. -/
theorem match_widen_example :
    MatchIntegerTypes exGlobals (AstOperator Op.plus exVarA exVarB)
        (some (intTy 2 true)) (some (intTy 8 false)) false {} =
      (AstOperator Op.plus
          (call1 (AstIdentifier "_int64_zerox")
            (AstOperator Op.K_ZEROEXTEND exVarA (AstInteger 16))) exVarB,
        some (intTy 8 false), {}) := by
  decide

/-- Evaluation for C16: with a signed operand on the left and an unsigned
one on the right, of the same width, `HandleTwoNumerics` keeps the signed
division (`/` at 4 bytes, `_int64_divs` at 8 bytes) and the signed modulus;
with the operands the other way round it takes the unsigned variant. -/
theorem signed_by_unsigned_division :
    HandleTwoNumerics exTypeEnv exGlobals Op.divide (AstOperator Op.divide exVarA exVarB)
        (some ast_type_long) (some ast_type_unsigned_long) {} =
      (AstOperator Op.divide exVarA exVarB, some ast_type_long, {}) ∧
    HandleTwoNumerics exTypeEnv exGlobals Op.K_MODULUS (AstOperator Op.K_MODULUS exVarA exVarB)
        (some ast_type_long) (some ast_type_unsigned_long) {} =
      (AstOperator Op.K_MODULUS exVarA exVarB, some ast_type_long, {}) ∧
    HandleTwoNumerics exTypeEnv exGlobals Op.divide (AstOperator Op.divide exVarA exVarB)
        (some ast_type_long64) (some ast_type_unsigned_long64) {} =
      (call2 (AstIdentifier "_int64_divs") exVarA exVarB, some ast_type_long64, {}) ∧
    HandleTwoNumerics exTypeEnv exGlobals Op.divide (AstOperator Op.divide exVarA exVarB)
        (some ast_type_unsigned_long) (some ast_type_long) {} =
      (AstOperator Op.K_UNS_DIV exVarA exVarB, some ast_type_unsigned_long, {}) ∧
    HandleTwoNumerics exTypeEnv exGlobals Op.divide (AstOperator Op.divide exVarA exVarB)
        (some ast_type_unsigned_long64) (some ast_type_long64) {} =
      (call2 (AstIdentifier "_int64_divu") exVarA exVarB, some ast_type_unsigned_long64, {}) := by
  decide

/-- Division and modulus on integer operands in general: the unsigned
variant is taken exactly when the type returned by `MatchIntegerTypes` is
unsigned, which is the signedness of the left operand unless only the left
operand is widened. -/
theorem division_variant (e : TypeEnv) (g : Globals) (op : Op) (l r : AST)
    (nl nr : Int) (ul ur : Bool) (s : TState)
    (hop : op = Op.divide ∨ op = Op.K_MODULUS)
    (hnl : nl ∈ intWidths) (hnr : nr ∈ intWidths) (hC : e.inCLang = false)
    (hl : l ≠ AST.null) (hr : r ≠ AST.null)
    (hz : g.int64_zerox ≠ AST.null) (hs : g.int64_signx ≠ AST.null)
    (hh : ∀ o, int64Listed o = true → int64Helper g o ≠ AST.null)
    (hnc : e.IsConstExpr (AstOperator op l r) = false) :
    (HandleTwoNumerics e g op (AstOperator op l r) (some (intTy nl ul)) (some (intTy nr ur)) s).1 =
      (if nl = 8 ∨ nr = 8 then
          call2 (int64Helper g
              (if ((ul || ur) && matchUnsigned nl ul nr ur) = true then unsignedVariant op
               else op))
            (matched g (some (intTy nl ul)) nl nr l) (matched g (some (intTy nr ur)) nr nl r)
        else
          AstOperator
            (if ((ul || ur) && matchUnsigned nl ul nr ur) = true then unsignedVariant op else op)
            (matched g (some (intTy nl ul)) nl nr l)
            (matched g (some (intTy nr ur)) nr nl r)) := by
  have hp : op ≠ Op.K_POWER := by
    rcases hop with h | h <;> rw [h] <;> decide
  have hlist : int64Listed op = true := by
    rcases hop with h | h <;> rw [h] <;> rfl
  have c1 : ∀ (t : Option Ty) (x : AST), cExpr e t x = x := by
    intro t x; simp [cExpr, hC]
  have c2 : ∀ t : Option Ty, cType e t = t := by
    intro t; simp [cType, hC]
  have hnc' : e.IsConstExpr (AstOperator op (cExpr e (some (intTy nl ul)) l)
      (cExpr e (some (intTy nr ur)) r)) = false := by
    rw [c1, c1]; exact hnc
  rw [HandleTwoNumerics_int e g op l r nl nr ul ur s hp hnc', c1, c1, c2, c2,
    htnIntOp_int e g op l r nl nr ul ur s false false false AST.null hnl hnr hl hr hz hs hh hlist]

/-- Evaluation for C17: `a + b` with a 4-byte float `a` and an 8-byte float
`b` becomes `_float_add(a, b)`, and with an 8-byte `a` and a 4-byte `b` it
becomes `_double_add(a, b)`: in neither order is the 4-byte operand wrapped
in the widening helper `_double_fromfloat`. -/
theorem float_widths_not_matched :
    exGlobals.float_todouble = AstIdentifier "_double_fromfloat" ∧
    HandleTwoNumerics exTypeEnv exGlobals Op.plus (AstOperator Op.plus exVarA exVarB)
        (some ast_type_float) (some ast_type_float64) {} =
      (call2 (AstIdentifier "_float_add") exVarA exVarB, some ast_type_float, {}) ∧
    HandleTwoNumerics exTypeEnv exGlobals Op.plus (AstOperator Op.plus exVarA exVarB)
        (some ast_type_float64) (some ast_type_float) {} =
      (call2 (AstIdentifier "_double_add") exVarA exVarB, some ast_type_float, {}) ∧
    HandleTwoNumerics exTypeEnv exGlobals Op.divide (AstOperator Op.divide exVarA exVarB)
        (some ast_type_float) (some ast_type_float64) {} =
      (call2 (AstIdentifier "_float_div") exVarA exVarB, some ast_type_float, {}) := by
  decide

/-- Evaluation for C18: after `InitGlobalFuncs` the handles `double_fromint`,
`double_fromuns`, `double_toint` and `double_abs` are still null, and
`a + b` with an 8-byte float `a` and a signed 4-byte integer variable `b`
reports "Internal error, NULL parameter" and puts the integer 0 in the place
of `b`. -/
theorem double_fromint_null :
    exGlobals.double_fromint = AST.null ∧ exGlobals.double_fromuns = AST.null ∧
    exGlobals.double_toint = AST.null ∧ exGlobals.double_abs = AST.null ∧
    HandleTwoNumerics exTypeEnv exGlobals Op.plus (AstOperator Op.plus exVarA exVarB)
        (some ast_type_float64) (some ast_type_long) {} =
      (call2 (AstIdentifier "_double_add") exVarA (AstInteger 0), some ast_type_float,
        { errors := ["Internal error, NULL parameter"] }) ∧
    HandleTwoNumerics exTypeEnv exGlobals Op.times (AstOperator Op.times exVarA exVarB)
        (some ast_type_unsigned_long) (some ast_type_float64) {} =
      (call2 (AstIdentifier "_double_mul") (AstInteger 0) exVarB, some ast_type_float,
        { errors := ["Internal error, NULL parameter"] }) := by
  decide

/-- The handles that `InitGlobalFuncs` leaves null, for every starting value
of the statics on which the initialisation runs: the four handles keep the
value they had. -/
theorem InitGlobalFuncs_keeps (fr : Bool) (g0 : Globals) :
    (InitGlobalFuncs fr g0).double_fromint = g0.double_fromint ∧
    (InitGlobalFuncs fr g0).double_fromuns = g0.double_fromuns ∧
    (InitGlobalFuncs fr g0).double_toint = g0.double_toint ∧
    (InitGlobalFuncs fr g0).double_abs = g0.double_abs := by
  unfold InitGlobalFuncs
  cases fr <;> split_ifs <;> simp

/-- Evaluation for C19: `a < b` with two 8-byte floats becomes
`_float_cmp(a, b, 1) < 0`, not a call of `_double_cmp`; and an integer
operand compared with an 8-byte float is converted by `_float_fromint`. -/
theorem double_compare_uses_float_cmp :
    exGlobals.double_cmp = AstIdentifier "_double_cmp" ∧
    CompileComparison exTypeEnv exGlobals Op.lt (AstOperator Op.lt exVarA exVarB)
        (some ast_type_float64) (some ast_type_float64) {} =
      (AstOperator Op.lt (call3 (AstIdentifier "_float_cmp") exVarA exVarB (AstInteger 1))
        (AstInteger 0), {}) ∧
    CompileComparison exTypeEnv exGlobals Op.K_GE (AstOperator Op.K_GE exVarA exVarB)
        (some ast_type_float64) (some ast_type_long) {} =
      (AstOperator Op.K_GE
        (call3 (AstIdentifier "_float_cmp") exVarA
          (call1 (AstIdentifier "_float_fromint") exVarB) (AstInteger (-1)))
        (AstInteger 0), {}) := by
  decide

/-- Float comparison in general (not fixed point, helper set): whatever the
widths of two float operands, `a op b` becomes `float_cmp(a, b, u) op 0`
with the operator kept. -/
theorem float_compare (e : TypeEnv) (g : Globals) (op : Op) (l r : AST) (nl nr : Int)
    (s : TState) (hf : e.gl_fixedreal = false) (hc : g.float_cmp ≠ AST.null)
    (hl : l ≠ AST.null) (hr : r ≠ AST.null) :
    CompileComparison e g op (AstOperator op l r) (some (Ty.AST_FLOATTYPE nl))
        (some (Ty.AST_FLOATTYPE nr)) s =
      (AstOperator op (call3 g.float_cmp l r (AstInteger (UnorderedResult op))) (AstInteger 0),
        s) := by
  have hi : AstInteger (UnorderedResult op) ≠ AST.null := by simp [AstInteger]
  simp [CompileComparison, IsFloatType, RemoveTypeModifiers, hf, AstOperator, AST.left,
    AST.right, AST.setLeft, AST.setRight, MakeOperatorCall_three _ _ _ _ _ hc hl hr hi]

theorem forcepromote_int (g : Globals) (n : Int) (u : Bool) (x : AST) (s : TState)
    (hn : n ≤ 4) (h0 : 0 < n) :
    forcepromote g (some (intTy n u)) x s = (promoted (some (intTy n u)) x, s) := by
  have e1 : n < 4 → ¬ (n * 8 = 32) := by intro h; omega
  by_cases h : n < 4 <;>
    simp [forcepromote, promoted, intTy_isInt, intTy_size, LONG_SIZE, h, dopromote, e1,
      extended, extendOp]

/-- On integer operand types at most 4 bytes wide `CompileComparison`
promotes both operands to 32 bits and goes to its signed/unsigned part. -/
theorem CompileComparison_int (e : TypeEnv) (g : Globals) (op : Op) (l r : AST)
    (nl nr : Int) (ul ur : Bool) (s : TState)
    (hnl : nl ≤ 4) (hnr : nr ≤ 4) (hl0 : 0 < nl) (hr0 : 0 < nr)
    (hsl : e.isStringType (intTy nl ul) = false) (hsr : e.isStringType (intTy nr ur) = false) :
    CompileComparison e g op (AstOperator op l r) (some (intTy nl ul)) (some (intTy nr ur)) s =
      compareSigns e g op
        (AstOperator op (promoted (some (intTy nl ul)) l) (promoted (some (intTy nr ur)) r))
        (some (intTy nl ul)) (some (intTy nr ur)) false ul ur s := by
  have p1 : IsPointerType (some (intTy nl ul)) = false := by cases ul <;> rfl
  have p2 : IsPointerType (some (intTy nr ur)) = false := by cases ur <;> rfl
  have b1 : IsBasicString e (some (intTy nl ul)) = false := by
    cases ul <;> simpa [IsBasicString, isBasicStringTy, intTy] using hsl
  have b2 : IsBasicString e (some (intTy nr ur)) = false := by
    cases ur <;> simpa [IsBasicString, isBasicStringTy, intTy] using hsr
  have i1 : IsInt64Type (some (intTy nl ul)) = false := by
    simp only [IsInt64Type, intTy_isInt, intTy_size, Bool.true_and, decide_eq_false_iff_not]
    omega
  have i2 : IsInt64Type (some (intTy nr ur)) = false := by
    simp only [IsInt64Type, intTy_isInt, intTy_size, Bool.true_and, decide_eq_false_iff_not]
    omega
  simp [CompileComparison, intTy_not_float, b1, b2, p1, p2, MakeBothIntegers_int, i1, i2,
    forcepromote_int _ _ _ _ _ hnl hl0, forcepromote_int _ _ _ _ _ hnr hr0, intTy_unsigned,
    AstOperator, AST.left, AST.right, AST.setLeft, AST.setRight]

/-- Counterexample to C20: `a < -1` with `a` an unsigned 4-byte variable
and the constant of signed type, and `5 < b` with the constant of unsigned
type and `b` a signed variable, each have a constant side, yet the signed
`<` stays (with the warning); and with 2-byte operands and no constant the
signed comparison stays without any warning. -/
theorem compare_constant_kept_signed :
    CompileComparison exTypeEnv exGlobals Op.lt (AstOperator Op.lt exVarA (AstInteger (-1)))
        (some ast_type_unsigned_long) (some ast_type_long) {} =
      (AstOperator Op.lt exVarA (AstInteger (-1)),
        { warnings := ["signed/unsigned comparison may not work properly"] }) ∧
    CompileComparison exTypeEnv exGlobals Op.lt (AstOperator Op.lt (AstInteger 5) exVarB)
        (some ast_type_unsigned_long) (some ast_type_long) {} =
      (AstOperator Op.lt (AstInteger 5) exVarB,
        { warnings := ["signed/unsigned comparison may not work properly"] }) ∧
    CompileComparison exTypeEnv exGlobals Op.lt (AstOperator Op.lt exVarA exVarB)
        (some (intTy 2 true)) (some (intTy 2 false)) {} =
      (AstOperator Op.lt (AstOperator Op.K_ZEROEXTEND exVarA (AstInteger 16))
        (AstOperator Op.K_SIGNEXTEND exVarB (AstInteger 16)), {}) := by
  decide

/-- C20 (amended): for an integer comparison (`<`, `<=`, `>`, `>=`, `==`,
`<>`) of operand types of widths 1, 2 or 4 of which exactly one is unsigned,
`CompileComparison` promotes both operands to 32 bits; if the operand of
signed type is then a constant of non-negative value (`IsUnsignedConst`) it
replaces `<`, `>`, `<=`, `>=` by `K_LTU`, `K_GTU`, `K_LEU`, `K_GEU` and warns
of nothing; otherwise it leaves the signed comparison in place, and adds the
warning exactly when both types are 4 bytes wide and the operator is not
`==` or `<>`. -/
theorem compare_mixed_sign (e : TypeEnv) (g : Globals) (op : Op) (l r : AST)
    (nl nr : Int) (ul ur : Bool) (s : TState)
    (hop : op ∈ compareOps) (hnl : nl ∈ [1, 2, 4]) (hnr : nr ∈ [1, 2, 4]) (hmix : ul ≠ ur)
    (hsl : e.isStringType (intTy nl ul) = false) (hsr : e.isStringType (intTy nr ur) = false) :
    CompileComparison e g op (AstOperator op l r) (some (intTy nl ul)) (some (intTy nr ur)) s =
      if IsUnsignedConst e
          (if ul = true then promoted (some (intTy nr ur)) r
           else promoted (some (intTy nl ul)) l) = true then
        (AstOperator (unsignedCompare op) (promoted (some (intTy nl ul)) l)
          (promoted (some (intTy nr ur)) r), s)
      else
        (AstOperator op (promoted (some (intTy nl ul)) l) (promoted (some (intTy nr ur)) r),
          if nl = 4 ∧ nr = 4 ∧ op ≠ Op.K_EQ ∧ op ≠ Op.K_NE then
            s.warning "signed/unsigned comparison may not work properly"
          else s) := by
  have hnl' : nl ≤ 4 ∧ 0 < nl := by
    simp only [List.mem_cons, List.mem_singleton, List.not_mem_nil, or_false] at hnl
    omega
  have hnr' : nr ≤ 4 ∧ 0 < nr := by
    simp only [List.mem_cons, List.mem_singleton, List.not_mem_nil, or_false] at hnr
    omega
  rw [CompileComparison_int e g op l r nl nr ul ur s hnl'.1 hnr'.1 hnl'.2 hnr'.2 hsl hsr]
  simp only [compareOps, List.mem_cons, List.mem_singleton, List.not_mem_nil, or_false] at hop
  cases ul <;> cases ur <;> first | (exact absurd rfl hmix) | skip
  · by_cases hc : IsUnsignedConst e (promoted (some (intTy nl false)) l) = true <;>
      rcases hop with rfl | rfl | rfl | rfl | rfl | rfl <;>
      simp [compareSigns, hc, unsignedCompare, AstOperator, AST.setOp, AST.left, AST.right,
        intTy_size] <;>
      split_ifs <;> rfl
  · by_cases hc : IsUnsignedConst e (promoted (some (intTy nr false)) r) = true <;>
      rcases hop with rfl | rfl | rfl | rfl | rfl | rfl <;>
      simp [compareSigns, hc, unsignedCompare, AstOperator, AST.setOp, AST.left, AST.right,
        intTy_size] <;>
      split_ifs <;> rfl

/-- Witness of C20 (amended): `a < 5` with `a` an unsigned 4-byte variable
and the constant of signed type. -/
theorem compare_mixed_sign_witness :
    CompileComparison exTypeEnv exGlobals Op.lt (AstOperator Op.lt exVarA (AstInteger 5))
        (some (intTy 4 true)) (some (intTy 4 false)) {} =
      if IsUnsignedConst exTypeEnv
          (if true = true then promoted (some (intTy 4 false)) (AstInteger 5)
           else promoted (some (intTy 4 true)) exVarA) = true then
        (AstOperator (unsignedCompare Op.lt) (promoted (some (intTy 4 true)) exVarA)
          (promoted (some (intTy 4 false)) (AstInteger 5)), {})
      else
        (AstOperator Op.lt (promoted (some (intTy 4 true)) exVarA)
          (promoted (some (intTy 4 false)) (AstInteger 5)),
          if (4 : Int) = 4 ∧ (4 : Int) = 4 ∧ Op.lt ≠ Op.K_EQ ∧ Op.lt ≠ Op.K_NE then
            TState.warning {} "signed/unsigned comparison may not work properly"
          else {}) :=
  compare_mixed_sign exTypeEnv exGlobals Op.lt exVarA (AstInteger 5) 4 4 true false {}
    (by decide) (by decide) (by decide) (by decide) rfl rfl

/-- The witness evaluated: `a < 5` becomes the unsigned `K_LTU`, without a
warning. -/
theorem compare_unsigned_example :
    CompileComparison exTypeEnv exGlobals Op.lt (AstOperator Op.lt exVarA (AstInteger 5))
        (some ast_type_unsigned_long) (some ast_type_long) {} =
      (AstOperator Op.K_LTU exVarA (AstInteger 5), {}) := by
  decide

/-! ### Calls of COG routines from LMM code -/

theorem printFlags_errors (o : Options) (f : IRFlags) (st : AsmState) :
    (printFlags o f st).errors = st.errors := by
  rcases f with ⟨wc, wz, nr, wr⟩
  unfold printFlags
  rcases o.gl_p2 <;> rcases wc <;> rcases wz <;> rcases nr <;> rcases wr <;>
    simp [flexbuf_addstr]

/-- Counterexample to C28: on the older ISA in LMM mode, `if_e call #_foo`
with `_foo` a COG label is written as the direct call and no error is
reported. -/
theorem lmm_call_cog_direct :
    exIsHubDest exCogCall.dst = false ∧ exLmmState.lmmMode = true ∧
    DoAssembleIR {} exIsHubDest exCogCall none exLmmState =
      some { exLmmState with fb := " if_e\tcall\t#_foo\n" } ∧
    (DoAssembleIR {} exIsHubDest exCogCall none exLmmState).map (fun s => s.errors) =
      some [] := by
  decide

/-- C28 (amended): on the older ISA (not compressed), an OPC_CALL whose
destination is a COG label for which `IsHubDest` is false, and that has a
descriptor with the call operand shape, is written from the descriptor as
the direct call - predicate, name, tab, `#` and the label, flag modifiers -
in LMM mode as well as outside, and no error is reported. -/
theorem call_cog_direct (o : Options) (IsHubDest : Option Operand → Bool) (ir : IR)
    (instr : Instruction) (dst : Operand) (P : Option Module) (st : AsmState)
    (hp : o.gl_p2 = false) (hc : o.gl_compressed = false)
    (hopc : ir.opc = IROpcode.OPC_CALL) (hd : ir.dst = some dst)
    (hk : dst.kind = Operandkind.IMM_COG_LABEL) (hH : IsHubDest ir.dst = false)
    (hi : ir.instr = some instr) (hops : instr.ops = InstrOps.CALL_OPERAND) :
    ∃ st', DoAssembleIR o IsHubDest ir P st = some st' ∧
      st'.fb = (enterDat o P st).fb ++
        (condText ir.cond ++ instr.name ++ "\t#" ++ dst.name ++
          joinModifiers (flagNames o ir.flags) ++ "\n") ∧
      st'.errors = st.errors ∧ st'.lmmMode = st.lmmMode := by
  have hfall : lmmBranch o IsHubDest ir (enterDat o P st) =
      some (Flow.falls (enterDat o P st)) := by
    simp [lmmBranch, hp, hc, hopc, hH]
  refine ⟨printInstr o ir instr (enterDat o P st), ?_, ?_, ?_, ?_⟩
  · simp [DoAssembleIR, hopc, hfall, hi]
  · rw [printInstr_fb]
    have ht : instrOperandsText o ir instr = "\t#" ++ dst.name := by
      simp only [instrOperandsText, hops, operandText, hd, doPrintOperand, hk, flexbuf_addstr]
      simp only [String.empty_append, OperandEffect.noConfusion, reduceCtorEq, and_self,
        if_true, if_false, ne_eq, not_true_eq_false, not_false_eq_true]
      rw [← String.append_assoc]
      rfl
    rw [ht]
    simp only [String.append_assoc]
  · have he := (enterDat_statics o P st).1
    have hk' : dst.kind ≠ Operandkind.BYTE_REF ∧ dst.kind ≠ Operandkind.WORD_REF ∧
        dst.kind ≠ Operandkind.LONG_REF := by rw [hk]; decide
    simp only [printInstr, hops, flexbuf_addstr, printFlags_errors, PrintOperandSrc, hd,
      doPrintOperand_errors_none o dst true _ hk', PrintCond, he]
  · have hl := (enterDat_statics o P st).2.2.2.1
    have hf : ∀ s : AsmState, (printFlags o ir.flags s).lmmMode = s.lmmMode := by
      intro s
      rcases ir.flags with ⟨wc, wz, nr, wr⟩
      unfold printFlags
      rcases o.gl_p2 <;> rcases wc <;> rcases wz <;> rcases nr <;> rcases wr <;>
        simp [flexbuf_addstr]
    simp only [printInstr, hops, flexbuf_addstr, PrintOperandSrc, PrintCond, hf,
      (doPrintOperand_statics o _ true _ _).2.2.1, hl]

/-- Witness of C28 (amended): `if_e call #_foo` in LMM mode. -/
theorem call_cog_direct_witness :
    ∃ st', DoAssembleIR {} exIsHubDest exCogCall none exLmmState = some st' ∧
      st'.fb = (enterDat {} none exLmmState).fb ++
        (condText exCogCall.cond ++ "call" ++ "\t#" ++ exCogLabel.name ++
          joinModifiers (flagNames {} exCogCall.flags) ++ "\n") ∧
      st'.errors = exLmmState.errors ∧ st'.lmmMode = exLmmState.lmmMode :=
  call_cog_direct {} exIsHubDest exCogCall { name := "call", ops := InstrOps.CALL_OPERAND }
    exCogLabel none exLmmState rfl rfl rfl rfl rfl rfl rfl rfl

/-! ### The bytecode IR -/

theorem updateLast_append_one (f : NuIr → NuIr) (l : List NuIr) (r : NuIr) :
    updateLast f (l ++ [r]) = l ++ [f r] := by
  induction l with
  | nil => rfl
  | cons x xs ih =>
    cases xs with
    | nil => rfl
    | cons y ys =>
      have e : (x :: y :: ys) ++ [r] = x :: y :: (ys ++ [r]) := rfl
      have e' : (y :: ys) ++ [r] = y :: (ys ++ [r]) := rfl
      rw [e, updateLast, ← e', ih]
      rfl

/-- C25: `NuEmitConst` appends exactly one instruction, whose value field is
`v` and whose opcode is PUSHI8 if -128 <= v <= 127, PUSHI16 if v is otherwise
within [-32768, 32767], PUSHI32 otherwise; the instructions already in the
list are untouched. -/
theorem NuEmitConst_sized (E : NuEnum) (irl : List NuIr) (v : Int) (opusage : List NuOpUsage) :
    (NuEmitConst E irl v opusage).1 =
      irl ++ [{ op := if -128 ≤ v ∧ v ≤ 127 then E.NU_OP_PUSHI8
                      else if -32768 ≤ v ∧ v ≤ 32767 then E.NU_OP_PUSHI16
                      else E.NU_OP_PUSHI32,
                val := v }] ∧
    (NuEmitConst E irl v opusage).1.length = irl.length + 1 := by
  have h : (NuEmitConst E irl v opusage).1 =
      irl ++ [{ op := if -128 ≤ v ∧ v ≤ 127 then E.NU_OP_PUSHI8
                      else if -32768 ≤ v ∧ v ≤ 32767 then E.NU_OP_PUSHI16
                      else E.NU_OP_PUSHI32,
                val := v }] := by
    unfold NuEmitConst NuEmitOp
    by_cases h1 : -128 ≤ v ∧ v ≤ 127
    · have h1' : v ≥ -128 ∧ v ≤ 127 := h1
      simp only [h1, h1', if_true]
      split_ifs <;> simp only [updateLast_append_one]
    · have h1' : ¬ (v ≥ -128 ∧ v ≤ 127) := h1
      by_cases h2 : -32768 ≤ v ∧ v ≤ 32767
      · have h2' : v ≥ -32768 ∧ v ≤ 32767 := h2
        simp only [h1, h1', h2, h2', if_true, if_false]
        split_ifs <;> simp only [updateLast_append_one]
      · have h2' : ¬ (v ≥ -32768 ∧ v ≤ 32767) := h2
        simp only [h1, h1', h2, h2', if_false]
        split_ifs <;> simp only [updateLast_append_one]
  exact ⟨h, by rw [h]; simp⟩

/-- `NuEmitConst` evaluated at the ends of the three ranges. -/
theorem NuEmitConst_example :
    ([-129, -128, 127, 128, -32769, -32768, 32767, 32768, 2147483647, -2147483648].map
      (fun v => (NuEmitConst exNuEnum [] v (NuIrInit exNuEnum)).1)) =
    [[{ op := 2, val := -129 }], [{ op := 1, val := -128 }], [{ op := 1, val := 127 }],
     [{ op := 2, val := 128 }], [{ op := 3, val := -32769 }], [{ op := 2, val := -32768 }],
     [{ op := 2, val := 32767 }], [{ op := 3, val := 32768 }],
     [{ op := 3, val := 2147483647 }], [{ op := 3, val := -2147483648 }]] := by
  decide

theorem bumpUsage_getElem? (l : List NuOpUsage) (op i : Nat) :
    (bumpUsage l op)[i]? =
      if i = op then l[i]?.map (fun u => { u with used := int32 (u.used + 1) }) else l[i]? := by
  induction l generalizing op i with
  | nil => simp [bumpUsage]
  | cons u us ih =>
    cases op with
    | zero =>
      cases i with
      | zero => simp [bumpUsage]
      | succ i => simp [bumpUsage]
    | succ op =>
      cases i with
      | zero => simp [bumpUsage]
      | succ i => simp [bumpUsage, ih]

theorem usageTable_getElem? (n : Nat) (c : Nat → Int) (i : Nat) :
    (usageTable n c)[i]? =
      if i < n then some { used := c i, ircode := i, bytecode := -1 } else none := by
  unfold usageTable
  by_cases h : i < n
  · simp [h, List.getElem?_range]
  · simp [h, List.getElem?_eq_none]
    omega

theorem usageTable_congr (n : Nat) (c c' : Nat → Int) (h : ∀ i, i < n → c i = c' i) :
    usageTable n c = usageTable n c' := by
  apply List.ext_getElem?
  intro i
  rw [usageTable_getElem?, usageTable_getElem?]
  by_cases hi : i < n
  · simp [hi, h i hi]
  · simp [hi]

theorem bumpUsage_usageTable (n : Nat) (c : Nat → Int) (op : Nat) :
    bumpUsage (usageTable n c) op =
      usageTable n (fun i => if i = op then int32 (c i + 1) else c i) := by
  apply List.ext_getElem?
  intro i
  rw [bumpUsage_getElem?, usageTable_getElem?, usageTable_getElem?]
  by_cases hi : i < n <;> by_cases ho : i = op <;> simp [hi, ho]

/-- After any sequence of `NuEmitOp` calls the list holds one node per call
and the table counts the calls per opcode, as long as the counts stay below
2^31. -/
theorem NuEmitOps_counts (E : NuEnum) (ops : List Nat) (irl : List NuIr) (c : Nat → Int)
    (h0 : ∀ i, 0 ≤ c i) (hb : ∀ i, c i + ops.count i < 2147483648) :
    NuEmitOps E ops (irl, usageTable E.NU_OP_DUMMY c) =
      (irl ++ ops.map (fun op => { op := op }),
        usageTable E.NU_OP_DUMMY (fun i => c i + ops.count i)) := by
  induction ops generalizing irl c with
  | nil => simp [NuEmitOps]
  | cons op ops ih =>
    have key : (NuEmitOp E irl op (usageTable E.NU_OP_DUMMY c)) =
        (irl ++ [{ op := op }],
          usageTable E.NU_OP_DUMMY (fun i => if i = op then c i + 1 else c i)) := by
      unfold NuEmitOp
      by_cases hlt : op < E.NU_OP_DUMMY
      · simp only [hlt, if_true, bumpUsage_usageTable]
        congr 1
        apply usageTable_congr
        intro i _
        by_cases hi : i = op
        · have h1 := h0 i
          have h2 := hb i
          have h3 : 0 < (op :: ops).count i := by
            rw [hi]; simp
          simp only [hi, if_true]
          apply int32_of_range
          rw [hi] at h1 h2
          have h4 : 0 < (op :: ops).count op := by simp
          omega
        · simp [hi]
      · simp only [hlt, if_false]
        congr 1
        apply usageTable_congr
        intro i hi
        have : i ≠ op := by omega
        simp [this]
    simp only [NuEmitOps, key]
    rw [ih]
    · congr 1
      · simp
      · apply usageTable_congr
        intro i _
        by_cases hi : i = op
        · subst hi
          simp [List.count_cons]
          omega
        · have : ¬ (op = i) := fun e => hi e.symm
          simp [hi, List.count_cons, this]
    · intro i
      have := h0 i
      split_ifs <;> omega
    · intro i
      have h2 := hb i
      by_cases hi : i = op
      · subst hi
        simp [List.count_cons] at h2 ⊢
        omega
      · have : ¬ (op = i) := fun e => hi e.symm
        simp [hi, List.count_cons, this] at h2 ⊢
        omega

theorem orderedInsert_agree (r r' : NuOpUsage → NuOpUsage → Prop) [DecidableRel r]
    [DecidableRel r'] (a : NuOpUsage) (l : List NuOpUsage)
    (h : ∀ b ∈ l, (r a b ↔ r' a b)) :
    List.orderedInsert r a l = List.orderedInsert r' a l := by
  induction l with
  | nil => rfl
  | cons b l ih =>
    have hb := h b (List.mem_cons_self _ _)
    have ih' := ih (fun x hx => h x (List.mem_cons_of_mem _ hx))
    by_cases hr : r a b
    · simp [List.orderedInsert, hr, hb.mp hr]
    · have hr' : ¬ r' a b := fun c => hr (hb.mpr c)
      simp [List.orderedInsert, hr, hr', ih']

theorem insertionSort_agree (r r' : NuOpUsage → NuOpUsage → Prop) [DecidableRel r]
    [DecidableRel r'] (l : List NuOpUsage)
    (h : ∀ a ∈ l, ∀ b ∈ l, (r a b ↔ r' a b)) :
    List.insertionSort r l = List.insertionSort r' l := by
  induction l with
  | nil => rfl
  | cons a l ih =>
    have ih' := ih (fun x hx y hy =>
      h x (List.mem_cons_of_mem _ hx) y (List.mem_cons_of_mem _ hy))
    simp only [List.insertionSort]
    rw [ih']
    apply orderedInsert_agree
    intro b hb
    have hb' : b ∈ l := (List.perm_insertionSort r' l).mem_iff.mp hb
    exact h a (List.mem_cons_self _ _) b (List.mem_cons_of_mem _ hb')

/-- On a table whose counts are non-negative `int` values the sort leaves a
permutation ordered by non-increasing use count. -/
theorem qsortUsage_sorted (l : List NuOpUsage)
    (h : ∀ u ∈ l, 0 ≤ u.used ∧ u.used < 2147483648) :
    (qsortUsage l).Perm l ∧ (qsortUsage l).Sorted (fun A B => B.used ≤ A.used) := by
  have hag : qsortUsage l = List.insertionSort (fun A B : NuOpUsage => B.used ≤ A.used) l := by
    unfold qsortUsage
    apply insertionSort_agree
    intro a ha b hb
    have h1 := h a ha
    have h2 := h b hb
    unfold usage_sortfunc
    rw [int32_of_range _ (by omega)]
    constructor <;> intro hh <;> omega
  rw [hag]
  haveI : IsTotal NuOpUsage (fun A B => B.used ≤ A.used) := ⟨fun a b => le_total _ _⟩
  haveI : IsTrans NuOpUsage (fun A B => B.used ≤ A.used) := ⟨fun a b c h1 h2 => le_trans h2 h1⟩
  exact ⟨List.perm_insertionSort _ l, List.sorted_insertionSort _ l⟩

/-- C26: after `NuIrInit` and any sequence of fewer than 2^31 `NuEmitOp`
calls, entry `i` of the usage table is opcode `i` with the number of
instructions emitted with that opcode; `NuAssignOpcodes` leaves a
permutation of that table ordered by non-increasing use count, so its first
entry is a most-used opcode and its last entry a least-used one. -/
theorem usage_histogram (E : NuEnum) (ops : List Nat) (h : ops.length < 2147483648) :
    (NuEmitOps E ops ([], NuIrInit E)).1 = ops.map (fun op => { op := op }) ∧
    (NuEmitOps E ops ([], NuIrInit E)).2 =
      usageTable E.NU_OP_DUMMY (fun i => (ops.count i : Int)) ∧
    (NuAssignOpcodes (NuEmitOps E ops ([], NuIrInit E)).2).Perm
      (NuEmitOps E ops ([], NuIrInit E)).2 ∧
    (NuAssignOpcodes (NuEmitOps E ops ([], NuIrInit E)).2).Sorted
      (fun A B => B.used ≤ A.used) ∧
    (∀ u ∈ (NuEmitOps E ops ([], NuIrInit E)).2,
      (∀ a, (NuAssignOpcodes (NuEmitOps E ops ([], NuIrInit E)).2).head? = some a →
        u.used ≤ a.used) ∧
      (∀ z, (NuAssignOpcodes (NuEmitOps E ops ([], NuIrInit E)).2).getLast? = some z →
        z.used ≤ u.used)) := by
  have hcnt : ∀ i, (ops.count i : Int) < 2147483648 := by
    intro i
    have := List.count_le_length i ops
    omega
  have hinit : NuIrInit E = usageTable E.NU_OP_DUMMY (fun _ => 0) := by
    unfold NuIrInit usageTable
    rfl
  have hrun := NuEmitOps_counts E ops [] (fun _ => 0) (fun _ => le_refl _)
    (fun i => by have := hcnt i; simp only; omega)
  have htab : (NuEmitOps E ops ([], NuIrInit E)).2 =
      usageTable E.NU_OP_DUMMY (fun i => (ops.count i : Int)) := by
    rw [hinit, hrun]
    apply usageTable_congr
    intro i _
    simp
  have hrange : ∀ u ∈ (NuEmitOps E ops ([], NuIrInit E)).2,
      0 ≤ u.used ∧ u.used < 2147483648 := by
    intro u hu
    rw [htab] at hu
    simp only [usageTable, List.mem_map, List.mem_range] at hu
    obtain ⟨i, _, rfl⟩ := hu
    exact ⟨by simp, hcnt i⟩
  have hs := qsortUsage_sorted _ hrange
  refine ⟨?_, htab, hs.1, hs.2, ?_⟩
  · rw [hinit, hrun]; simp
  · intro u hu
    have hu' : u ∈ qsortUsage (NuEmitOps E ops ([], NuIrInit E)).2 := hs.1.mem_iff.mpr hu
    constructor
    · intro a ha
      unfold NuAssignOpcodes at ha
      generalize qsortUsage (NuEmitOps E ops ([], NuIrInit E)).2 = L at ha hu' hs
      cases L with
      | nil => simp at ha
      | cons b L =>
        simp only [List.head?_cons, Option.some.injEq] at ha
        subst ha
        rcases List.mem_cons.mp hu' with rfl | hm
        · exact le_refl _
        · exact List.rel_of_sorted_cons hs.2 u hm
    · intro z hz
      unfold NuAssignOpcodes at hz
      generalize qsortUsage (NuEmitOps E ops ([], NuIrInit E)).2 = L at hz hu' hs
      have hz' : z ∈ L.getLast? := hz
      rcases List.mem_getLast?_eq_getLast hz' with ⟨hne, hzeq⟩
      obtain ⟨L', hL'⟩ : ∃ L', L = L' ++ [z] := by
        refine ⟨L.dropLast, ?_⟩
        rw [hzeq]
        exact (List.dropLast_append_getLast hne).symm
      subst hL'
      rcases List.mem_append.mp hu' with hm | hm
      · have hp := List.pairwise_append.mp hs.2
        exact hp.2.2 u hm z (List.mem_singleton_self z)
      · rw [List.mem_singleton.mp hm]

/-- Witness of C26: the opcodes 1, 3, 1, 5, 1, 3 emitted in that order. -/
theorem usage_histogram_witness :
    (NuEmitOps exNuEnum [1, 3, 1, 5, 1, 3] ([], NuIrInit exNuEnum)).1 =
      [1, 3, 1, 5, 1, 3].map (fun op => { op := op }) ∧
    (NuEmitOps exNuEnum [1, 3, 1, 5, 1, 3] ([], NuIrInit exNuEnum)).2 =
      usageTable exNuEnum.NU_OP_DUMMY (fun i => (([1, 3, 1, 5, 1, 3] : List Nat).count i : Int)) ∧
    (NuAssignOpcodes (NuEmitOps exNuEnum [1, 3, 1, 5, 1, 3] ([], NuIrInit exNuEnum)).2).Perm
      (NuEmitOps exNuEnum [1, 3, 1, 5, 1, 3] ([], NuIrInit exNuEnum)).2 ∧
    (NuAssignOpcodes (NuEmitOps exNuEnum [1, 3, 1, 5, 1, 3] ([], NuIrInit exNuEnum)).2).Sorted
      (fun A B => B.used ≤ A.used) ∧
    (∀ u ∈ (NuEmitOps exNuEnum [1, 3, 1, 5, 1, 3] ([], NuIrInit exNuEnum)).2,
      (∀ a, (NuAssignOpcodes
          (NuEmitOps exNuEnum [1, 3, 1, 5, 1, 3] ([], NuIrInit exNuEnum)).2).head? = some a →
        u.used ≤ a.used) ∧
      (∀ z, (NuAssignOpcodes
          (NuEmitOps exNuEnum [1, 3, 1, 5, 1, 3] ([], NuIrInit exNuEnum)).2).getLast? = some z →
        z.used ≤ u.used)) :=
  usage_histogram exNuEnum [1, 3, 1, 5, 1, 3] (by decide)

/-- The sorted table of the witness, evaluated. -/
theorem usage_histogram_example :
    NuAssignOpcodes (NuEmitOps exNuEnum [1, 3, 1, 5, 1, 3] ([], NuIrInit exNuEnum)).2 =
      [{ used := 3, ircode := 1, bytecode := -1 }, { used := 2, ircode := 3, bytecode := -1 },
       { used := 1, ircode := 5, bytecode := -1 }, { used := 0, ircode := 0, bytecode := -1 },
       { used := 0, ircode := 2, bytecode := -1 }, { used := 0, ircode := 4, bytecode := -1 }] := by
  decide

/-! ### The Propeller checksum -/

/-- The header of `OutputSpinHeader` with the default clock, evaluated: 32
bytes, the checksum placeholder at offset 5 is zero. -/
theorem OutputSpinHeader_example :
    OutputSpinHeader [] none =
      [0x00, 0xb4, 0xc4, 0x04, 0x6f, 0x00, 0x10, 0x00, 0xe8, 0x7f, 0xf0, 0x7f, 0x18, 0x00,
       0xf8, 0x7f, 0x08, 0x00, 0x02, 0x00, 0x08, 0x00, 0x00, 0x00, 0x3f, 0x89, 0xc7, 0x10,
       0xa4, 0x06, 0x2c, 0x32] := by
  decide

theorem and_fffffffc (x : Nat) (h : x < 4294967296) : x &&& 0xfffffffc = x - x % 4 := by
  have hM : (0xfffffffc : Nat) = (2 ^ 30 - 1) <<< 2 := by decide
  have hR : x - x % 4 = (x >>> 2) <<< 2 := by
    rw [Nat.shiftRight_eq_div_pow, Nat.shiftLeft_eq]
    have := Nat.div_add_mod x 4
    norm_num
    omega
  rw [hR, hM]
  apply Nat.eq_of_testBit_eq
  intro i
  rw [Nat.testBit_and, Nat.testBit_shiftLeft, Nat.testBit_shiftLeft, Nat.testBit_two_pow_sub_one,
    Nat.testBit_shiftRight]
  by_cases h2 : i ≥ 2
  · have e : 2 + (i - 2) = i := by omega
    rw [e]
    by_cases h32 : i - 2 < 30
    · simp [h2, h32]
    · have hx : x.testBit i = false := by
        apply Nat.testBit_lt_two_pow
        calc x < 2 ^ 32 := h
          _ ≤ 2 ^ i := Nat.pow_le_pow_right (by norm_num) (by omega)
      simp [hx]
  · simp [h2]

/-- The padding on the older ISA brings the length to the next multiple of 4. -/
theorem padBytes_p1 (len : Nat) (h : len + 3 < 4294967296) :
    padBytes false len = (4 - len % 4) % 4 := by
  unfold padBytes
  simp only [Bool.false_eq_true, if_false]
  rw [Nat.mod_eq_of_lt h, and_fffffffc _ h]
  omega

theorem sum_mod_bytes (l : List Nat) (h : ∀ b ∈ l, b < 256) :
    (l.map (fun c => c % 256)).sum = l.sum := by
  induction l with
  | nil => rfl
  | cons b l ih =>
    have hb := h b (List.mem_cons_self _ _)
    simp only [List.map_cons, List.sum_cons, ih (fun x hx => h x (List.mem_cons_of_mem _ hx)),
      Nat.mod_eq_of_lt hb]

/-- C27: on the older ISA, for an image of at least 6 bytes (and less than
2^32 - 3) whose byte at offset 5 is zero, `DoPropellerChecksum` with
eepromSize = 0 leaves an image whose length is a multiple of 4, that is the
input followed by fewer than 4 zero bytes with only the byte at offset 5
replaced, and whose bytes sum to 0x14 modulo 256. -/
theorem checksum_patched (file : List Nat) (stack free : Option Int)
    (hlen : 6 ≤ file.length) (h32 : file.length + 3 < 4294967296)
    (hb : ∀ b ∈ file, b < 256) (h5 : file[5]? = some 0) :
    (DoPropellerChecksum false file 0 stack free).1.length % 4 = 0 ∧
    (∃ c pad, c < 256 ∧ pad < 4 ∧
      (DoPropellerChecksum false file 0 stack free).1 =
        (file ++ List.replicate pad 0).set 5 c) ∧
    (DoPropellerChecksum false file 0 stack free).1.sum % 256 = 0x14 := by
  have hl : file.length % 4294967296 = file.length := Nat.mod_eq_of_lt (by omega)
  have hpad := padBytes_p1 file.length h32
  have hres : (DoPropellerChecksum false file 0 stack free).1 =
      (file ++ List.replicate ((4 - file.length % 4) % 4) 0).set 5
        ((0x14 + 256 - byteSum (file ++ List.replicate ((4 - file.length % 4) % 4) 0)) % 256) := by
    unfold DoPropellerChecksum
    simp only [hl, hpad, Bool.false_eq_true, if_false, ne_eq, not_true_eq_false, false_and]
    unfold writeAt
    rw [if_pos (by simp; omega)]
  obtain ⟨a, b, hab, ha⟩ : ∃ a b, file = a ++ 0 :: b ∧ a.length = 5 := by
    refine ⟨file.take 5, file.drop 6, ?_, ?_⟩
    · have h5' : 5 < file.length := by omega
      have hg : file[5] = 0 := by
        have := List.getElem?_eq_getElem h5'
        rw [this] at h5
        exact Option.some.inj h5
      conv_lhs => rw [← List.take_append_drop 5 file]
      rw [List.drop_eq_getElem_cons h5', hg]
    · simp; omega
  rw [hres]
  generalize hp : (4 - file.length % 4) % 4 = pad
  have hpadlt : pad < 4 := by omega
  refine ⟨?_, ⟨_, pad, Nat.mod_lt _ (by norm_num), hpadlt, rfl⟩, ?_⟩
  · simp only [List.length_set, List.length_append, List.length_replicate]
    omega
  · have hsum : byteSum (file ++ List.replicate pad 0) = (a.sum + b.sum) % 256 := by
      unfold byteSum
      rw [sum_mod_bytes]
      · rw [hab]; simp
      · intro x hx
        rcases List.mem_append.mp hx with h1 | h1
        · exact hb x h1
        · rw [(List.mem_replicate.mp h1).2]; norm_num
    rw [hsum, hab]
    have hset : (a ++ 0 :: b ++ List.replicate pad 0).set 5
        ((0x14 + 256 - (a.sum + b.sum) % 256) % 256) =
        a ++ ((0x14 + 256 - (a.sum + b.sum) % 256) % 256) :: (b ++ List.replicate pad 0) := by
      rw [List.append_assoc, ← ha]
      simp [List.set_append]
    rw [hset]
    simp only [List.sum_append, List.sum_cons, List.sum_replicate, smul_eq_mul, mul_zero,
      add_zero]
    omega

/-- Witness of C27: the default header followed by three bytes of data. -/
theorem checksum_patched_witness :
    (DoPropellerChecksum false exImage 0 none none).1.length % 4 = 0 ∧
    (∃ c pad, c < 256 ∧ pad < 4 ∧
      (DoPropellerChecksum false exImage 0 none none).1 =
        (exImage ++ List.replicate pad 0).set 5 c) ∧
    (DoPropellerChecksum false exImage 0 none none).1.sum % 256 = 0x14 :=
  checksum_patched exImage none none (by decide) (by decide) (by decide) (by decide)

/-- The witness evaluated: one zero byte of padding, checksum 0x5f. -/
theorem checksum_example :
    DoPropellerChecksum false exImage 0 none none =
      ([0x00, 0xb4, 0xc4, 0x04, 0x6f, 0x5f, 0x10, 0x00, 0xe8, 0x7f, 0xf0, 0x7f, 0x18, 0x00,
        0xf8, 0x7f, 0x08, 0x00, 0x02, 0x00, 0x08, 0x00, 0x00, 0x00, 0x3f, 0x89, 0xc7, 0x10,
        0xa4, 0x06, 0x2c, 0x32, 0x12, 0x34, 0x56, 0x00], []) := by
  decide

/-! ### Narrowing conversions -/

/-- Counterexample to C21: narrowing the 8-byte value `(x_lo, x_hi)` to one
byte gives `x_lo`, the 4-byte operand itself, with no truncation to 8 bits
and no extension operator; and an 8-byte expression that is not an
expression list is returned as it is. -/
theorem narrow_not_masked :
    donarrow exGlobals exPair 8 1 false {} = some (AstIdentifier "x_lo", {}) ∧
    donarrow exGlobals exPair 8 1 true {} = some (AstIdentifier "x_lo", {}) ∧
    donarrow exGlobals exVarA 8 2 false {} = some (exVarA, {}) ∧
    coerceIntegers exGlobals (some (intTy 1 false)) (some (intTy 8 false)) (some exPair) {} =
      some (some (AstIdentifier "x_lo"), {}) := by
  decide

/-- C21 (amended): for a narrowing from 8 bytes to B <= 4 bytes, `donarrow`
returns the `left` operand of the source when the source is an expression
list, and the source itself otherwise; no operator is added and no
diagnostic is reported, whatever B and the signedness. -/
theorem donarrow_low_word (g : Globals) (k : ASTKind) (d : ASTData) (l r : AST) (B : Int)
    (isSigned : Bool) (s : TState) (hB : B ≤ 4) :
    donarrow g (AST.node k d l r) 8 B isSigned s =
      some (if k = ASTKind.AST_EXPRLIST then l else AST.node k d l r, s) := by
  unfold donarrow
  by_cases hk : k = ASTKind.AST_EXPRLIST
  · by_cases h0 : (4 - B) * 8 = 0
    · simp [hB, hk, h0]
    · simp [hB, hk, h0, dopromote, LONG_SIZE]
  · simp [hB, hk]

/-- Witness of C21 (amended): the pair `(x_lo, x_hi)` narrowed to 2 bytes. -/
theorem donarrow_low_word_witness :
    donarrow exGlobals
        (AST.node ASTKind.AST_EXPRLIST ASTData.none (AstIdentifier "x_lo")
          (NewAST ASTKind.AST_EXPRLIST (AstIdentifier "x_hi") AST.null)) 8 2 true {} =
      some (if ASTKind.AST_EXPRLIST = ASTKind.AST_EXPRLIST then AstIdentifier "x_lo"
            else AST.node ASTKind.AST_EXPRLIST ASTData.none (AstIdentifier "x_lo")
              (NewAST ASTKind.AST_EXPRLIST (AstIdentifier "x_hi") AST.null), {}) :=
  donarrow_low_word exGlobals ASTKind.AST_EXPRLIST ASTData.none (AstIdentifier "x_lo")
    (NewAST ASTKind.AST_EXPRLIST (AstIdentifier "x_hi") AST.null) 2 true {} (by decide)

/-! ### The type inference loop -/

/-- Evaluation for C29: when `InferTypes` keeps reporting changes,
`FixupCode` runs the pass over the module list 5 times, one more than
`MAX_TYPE_PASSES`. -/
theorem infer_types_five_rounds :
    MAX_TYPE_PASSES = 4 ∧
    (FixupCode (exFixupEnv 100) [()] () false 0).1 = 5 ∧
    (FixupCode (exFixupEnv 4) [()] () false 0).1 = 5 ∧
    (FixupCode (exFixupEnv 2) [()] () false 0).1 = 3 := by
  decide

/-- The loop runs at least one round and at most one more than the bound it
starts with. -/
theorem inferTypesLoop_bound {σ : Type} (pass : σ → Int × σ) (k : Nat) (s : σ) :
    1 ≤ (inferTypesLoop pass k s).1 ∧ (inferTypesLoop pass k s).1 ≤ k + 1 := by
  induction k generalizing s with
  | zero => simp [inferTypesLoop]
  | succ k ih =>
    by_cases h : (pass s).1 = 0
    · have e : inferTypesLoop pass (k + 1) s = (1, (pass s).2) := by
        simp [inferTypesLoop, h]
      rw [e]
      simp
    · have e : inferTypesLoop pass (k + 1) s =
          ((inferTypesLoop pass k (pass s).2).1 + 1, (inferTypesLoop pass k (pass s).2).2) := by
        simp [inferTypesLoop, h]
      have := ih (pass s).2
      rw [e]
      simp only
      omega

/-- The loop stops after the first round that reports no change. -/
theorem inferTypesLoop_stops {σ : Type} (pass : σ → Int × σ) (k : Nat) (s : σ)
    (h : (pass s).1 = 0) : inferTypesLoop pass k s = (1, (pass s).2) := by
  cases k with
  | zero => rfl
  | succ k => simp [inferTypesLoop, h]

/-! ### The `current` module pointer -/

/-- Evaluation for C30: when the object block of `P` holds a node that is
not an object, or an object without a symbol, `AssignObjectOffsets` reports
the internal error and returns with `current` pointing at `P`, not at the
module it pointed at on entry. -/
theorem current_not_restored :
    AssignObjectOffsets 2 0 { modules := [exBadModule], current := some 7 } =
      some { modules := [exBadModule], current := some 0,
             errors := ["Internal error: expected an OBJECT"] } ∧
    AssignObjectOffsets 2 0 { modules := [exNoSymModule], current := none } =
      some { modules := [exNoSymModule], current := some 0,
             errors := ["Internal error, cannot find object symbol"] } := by
  decide

/-- On the path without an error the pointer is restored: a module with two
sub-objects, evaluated. -/
theorem current_restored_example :
    (AssignObjectOffsets 2 0
        { modules := [exTopModule, { varsize := 6 }, { varsize := 4 }],
          current := some 7 }).map (fun st => (st.current, st.errors, st.modules.map (fun m => m.varsize))) =
      some (some 7, [], [28, 8, 4]) := by
  decide

/-- `OutputDatFile` restores `current` when it returns. -/
theorem OutputDatFile_current (fopenOk : Bool) (P : Nat) (prefixBin : Bool)
    (clk : Option (Nat × Nat)) (PrintDataBlock : List Nat → List Nat) (st : ObjState)
    (r : List Nat × ObjState)
    (h : OutputDatFile fopenOk P prefixBin clk PrintDataBlock st = some r) :
    r.2.current = st.current := by
  unfold OutputDatFile at h
  cases fopenOk
  · simp at h
  · simp at h
    rw [← h]

/-! ### Inline assembly: the fixup of `$+k` operands -/

/-- The scan puts the label before the first node that has the address. -/
theorem insertLabelAt_first (lab : IR) (t : Int) (l1 : List IR) (x : IR) (l2 : List IR)
    (hx : x.addr = t) (h1 : ∀ y ∈ l1, y.addr ≠ t) :
    insertLabelAt lab t (l1 ++ x :: l2) = some (l1 ++ lab :: x :: l2, l1.length) := by
  induction l1 with
  | nil => simp [insertLabelAt, hx]
  | cons y ys ih =>
    have hy : y.addr ≠ t := h1 y (List.mem_cons_self _ _)
    have ih' := ih (fun z hz => h1 z (List.mem_cons_of_mem _ hz))
    simp [insertLabelAt, hy, ih']

theorem insertLabelAt_pcCount (lab : IR) (t : Int) (l l' : List IR) (j : Nat)
    (h : insertLabelAt lab t l = some (l', j)) :
    l'.length = l.length + 1 ∧ pcCount l' = pcCount l + pcOps lab := by
  induction l generalizing l' j with
  | nil => simp [insertLabelAt] at h
  | cons x xs ih =>
    by_cases hx : x.addr = t
    · simp only [insertLabelAt, hx, if_true, Option.some.injEq, Prod.mk.injEq] at h
      obtain ⟨rfl, rfl⟩ := h
      simp [pcCount]
      omega
    · simp only [insertLabelAt, hx, if_false, Option.map_eq_some', Prod.mk.injEq] at h
      obtain ⟨r, hr, rfl, rfl⟩ := h
      have := ih r.1 r.2 hr
      simp only [pcCount, List.map_cons, List.sum_cons, List.length_cons] at this ⊢
      omega

/-- A label put into a list that is split around the node `cur`: either it
goes before `cur`, or into the part after `cur`. -/
theorem insertLabelAt_zipper (lab : IR) (t : Int) (cur : IR) (B : List IR) (A l' : List IR)
    (j : Nat) (h : insertLabelAt lab t (A ++ cur :: B) = some (l', j)) :
    ∃ A' B', l' = A' ++ cur :: B' ∧
      ((j ≤ A.length ∧ A'.length = A.length + 1 ∧ B' = B ∧ ∀ x ∈ A', x ∈ A ∨ x = lab) ∨
       (A.length < j ∧ A' = A ∧ ∃ k, insertLabelAt lab t B = some (B', k))) := by
  induction A generalizing l' j with
  | nil =>
    by_cases hc : cur.addr = t
    · simp only [List.nil_append, insertLabelAt, hc, if_true, Option.some.injEq,
        Prod.mk.injEq] at h
      obtain ⟨rfl, rfl⟩ := h
      exact ⟨[lab], B, rfl, Or.inl ⟨le_refl _, rfl, rfl, by simp⟩⟩
    · simp only [List.nil_append, insertLabelAt, hc, if_false, Option.map_eq_some',
        Prod.mk.injEq] at h
      obtain ⟨r, hr, rfl, rfl⟩ := h
      exact ⟨[], r.1, rfl, Or.inr ⟨by simp, rfl, r.2, hr⟩⟩
  | cons a A ih =>
    by_cases ha : a.addr = t
    · simp only [List.cons_append, insertLabelAt, ha, if_true, Option.some.injEq,
        Prod.mk.injEq] at h
      obtain ⟨rfl, rfl⟩ := h
      refine ⟨lab :: a :: A, B, rfl, Or.inl ⟨Nat.zero_le _, rfl, rfl, ?_⟩⟩
      intro x hx
      rcases List.mem_cons.mp hx with rfl | hx
      · exact Or.inr rfl
      · exact Or.inl hx
    · simp only [List.cons_append, insertLabelAt, ha, if_false, Option.map_eq_some',
        Prod.mk.injEq] at h
      obtain ⟨r, hr, rfl, rfl⟩ := h
      obtain ⟨A', B', hl, hcase⟩ := ih r.1 r.2 hr
      refine ⟨a :: A', B', by rw [hl]; rfl, ?_⟩
      rcases hcase with ⟨h1, h2, h3, h4⟩ | ⟨h1, h2, h3⟩
      · refine Or.inl ⟨by simp; omega, by simp [h2], h3, ?_⟩
        intro x hx
        rcases List.mem_cons.mp hx with rfl | hx
        · exact Or.inl (List.mem_cons_self _ _)
        · rcases h4 x hx with h | h
          · exact Or.inl (List.mem_cons_of_mem _ h)
          · exact Or.inr h
      · exact Or.inr ⟨by simp; omega, by rw [h2], h3⟩

theorem set_zipper (A : List IR) (cur x : IR) (B : List IR) :
    (A ++ cur :: B).set A.length x = A ++ x :: B := by
  induction A with
  | nil => rfl
  | cons a A ih => simp [List.set, ih]

theorem getElem?_zipper (A : List IR) (cur : IR) (B : List IR) :
    (A ++ cur :: B)[A.length]? = some cur := by
  induction A with
  | nil => simp
  | cons a A ih => simpa using ih

theorem GetLabelOperand_kind {τ : Type} (e : InlineEnv τ) (placeHub inFcache : Bool)
    (st : InlineState τ) :
    (GetLabelOperand e placeHub inFcache st).1.kind ≠ Operandkind.IMM_PCRELATIVE ∧
    (GetLabelOperand e placeHub inFcache st).1.name = e.labelName st.nextlabel ∧
    (GetLabelOperand e placeHub inFcache st).2.nextlabel = st.nextlabel + 1 ∧
    (GetLabelOperand e placeHub inFcache st).2.errors = st.errors := by
  unfold GetLabelOperand
  cases inFcache <;> cases placeHub <;> simp

/-- What one call of `FixupHereLabel` does to a list split around the node
`cur`: the node stays, at the index `shiftIndex` gives; the part before it
gains at most the label; the part after it gains at most the label; the
operand returned is not `PcRelative`. -/
theorem FixupHereLabel_zipper {τ : Type} (e : InlineEnv τ) (placeHub : Bool)
    (pre A : List IR) (cur : IR) (B : List IR) (a : Int) (dst : Operand) (st : InlineState τ)
    (hA : ∀ x ∈ A, fixedIR x) :
    ∃ A' B', (FixupHereLabel e placeHub pre (A ++ cur :: B) a dst st).blk = A' ++ cur :: B' ∧
      A'.length = shiftIndex (FixupHereLabel e placeHub pre (A ++ cur :: B) a dst st).pos A.length ∧
      (∀ x ∈ A', fixedIR x) ∧ pcCount B' = pcCount B ∧ B'.length ≤ B.length + 1 ∧
      (FixupHereLabel e placeHub pre (A ++ cur :: B) a dst st).op.kind ≠
        Operandkind.IMM_PCRELATIVE := by
  have hlabfixed : ∀ op : Operand, op.kind ≠ Operandkind.IMM_PCRELATIVE →
      fixedIR { opc := IROpcode.OPC_LABEL, dst := some op } := by
    intro op hop
    right
    simp [isPcRel, hop]
  have hk := (GetLabelOperand_kind e placeHub false st).1
  have hlabpc0 : ∀ op : Operand, op.kind ≠ Operandkind.IMM_PCRELATIVE →
      pcOps { opc := IROpcode.OPC_LABEL, dst := some op } = 0 := by
    intro op hop
    unfold pcOps
    simp [isPcRel, hop, IsDummy]
  unfold FixupHereLabel
  by_cases hneg : int32 (a + dst.val) < 0
  · simp only [hneg, if_true]
    exact ⟨A, B, rfl, rfl, hA, rfl, Nat.le_succ _, by simp [NewImmediate]⟩
  · simp only [hneg, if_false]
    rcases hins : insertLabelAt
        { opc := IROpcode.OPC_LABEL, dst := some (GetLabelOperand e placeHub false st).1 }
        (int32 (a + dst.val)) (A ++ cur :: B) with _ | ⟨l', j⟩
    · simp only
      exact ⟨A, B, rfl, rfl, hA, rfl, Nat.le_succ _, by simp [NewImmediate]⟩
    · cases j with
      | zero =>
        simp only
        exact ⟨A, B, rfl, rfl, hA, rfl, Nat.le_succ _, hk⟩
      | succ j =>
        simp only
        obtain ⟨A', B', hl, hcase⟩ := insertLabelAt_zipper _ _ cur B A l' (j + 1) hins
        refine ⟨A', B', hl, ?_, ?_, ?_, ?_, hk⟩
        · rcases hcase with ⟨h1, h2, _, _⟩ | ⟨h1, h2, _⟩
          · simp [shiftIndex, h1, h2]
          · have : ¬ (j + 1 ≤ A.length) := by omega
            simp [shiftIndex, this, h2]
        · rcases hcase with ⟨_, _, _, h4⟩ | ⟨_, h2, _⟩
          · intro x hx
            rcases h4 x hx with h | h
            · exact hA x h
            · rw [h]; exact hlabfixed _ hk
          · rw [h2]; exact hA
        · rcases hcase with ⟨_, _, h3, _⟩ | ⟨_, _, k, hk'⟩
          · rw [h3]
          · have := (insertLabelAt_pcCount _ _ _ _ _ hk').2
            rw [this, hlabpc0 _ hk, Nat.add_zero]
        · rcases hcase with ⟨_, _, h3, _⟩ | ⟨_, _, k, hk'⟩
          · rw [h3]; exact Nat.le_succ _
          · have := (insertLabelAt_pcCount _ _ _ _ _ hk').1
            omega

theorem fixupDst_none {τ : Type} (e : InlineEnv τ) (placeHub : Bool) (c : FixCursor τ)
    (h : c.ir.dst = none) : fixupDst e placeHub c = c := by
  unfold fixupDst
  rw [h]

theorem fixupDst_skip {τ : Type} (e : InlineEnv τ) (placeHub : Bool) (c : FixCursor τ)
    (op : Operand) (h : c.ir.dst = some op)
    (hc : ¬ (¬ IsDummy c.ir = true ∧ op.kind = Operandkind.IMM_PCRELATIVE)) :
    fixupDst e placeHub c = c := by
  unfold fixupDst
  rw [h]
  dsimp only
  rw [if_neg hc]

theorem fixupDst_fix {τ : Type} (e : InlineEnv τ) (placeHub : Bool) (c : FixCursor τ)
    (op : Operand) (h : c.ir.dst = some op)
    (hc : ¬ IsDummy c.ir = true ∧ op.kind = Operandkind.IMM_PCRELATIVE) :
    fixupDst e placeHub c =
      { pre := (FixupHereLabel e placeHub c.pre c.blk c.ir.addr op c.st).pre,
        blk := (FixupHereLabel e placeHub c.pre c.blk c.ir.addr op c.st).blk.set
          (shiftIndex (FixupHereLabel e placeHub c.pre c.blk c.ir.addr op c.st).pos c.i)
          { c.ir with dst := some (FixupHereLabel e placeHub c.pre c.blk c.ir.addr op c.st).op },
        i := shiftIndex (FixupHereLabel e placeHub c.pre c.blk c.ir.addr op c.st).pos c.i,
        ir := { c.ir with
          dst := some (FixupHereLabel e placeHub c.pre c.blk c.ir.addr op c.st).op },
        st := (FixupHereLabel e placeHub c.pre c.blk c.ir.addr op c.st).st } := by
  unfold fixupDst
  rw [h]
  dsimp only
  rw [if_pos hc]

theorem fixupSrc_none {τ : Type} (e : InlineEnv τ) (placeHub : Bool) (c : FixCursor τ)
    (h : c.ir.src = none) : fixupSrc e placeHub c = c := by
  unfold fixupSrc
  rw [h]

theorem fixupSrc_skip {τ : Type} (e : InlineEnv τ) (placeHub : Bool) (c : FixCursor τ)
    (op : Operand) (h : c.ir.src = some op)
    (hc : ¬ (¬ IsDummy c.ir = true ∧ op.kind = Operandkind.IMM_PCRELATIVE)) :
    fixupSrc e placeHub c = c := by
  unfold fixupSrc
  rw [h]
  dsimp only
  rw [if_neg hc]

theorem fixupSrc_fix {τ : Type} (e : InlineEnv τ) (placeHub : Bool) (c : FixCursor τ)
    (op : Operand) (h : c.ir.src = some op)
    (hc : ¬ IsDummy c.ir = true ∧ op.kind = Operandkind.IMM_PCRELATIVE) :
    fixupSrc e placeHub c =
      { pre := (FixupHereLabel e placeHub c.pre c.blk c.ir.addr op c.st).pre,
        blk := (FixupHereLabel e placeHub c.pre c.blk c.ir.addr op c.st).blk.set
          (shiftIndex (FixupHereLabel e placeHub c.pre c.blk c.ir.addr op c.st).pos c.i)
          { c.ir with src := some (FixupHereLabel e placeHub c.pre c.blk c.ir.addr op c.st).op },
        i := shiftIndex (FixupHereLabel e placeHub c.pre c.blk c.ir.addr op c.st).pos c.i,
        ir := { c.ir with
          src := some (FixupHereLabel e placeHub c.pre c.blk c.ir.addr op c.st).op },
        st := (FixupHereLabel e placeHub c.pre c.blk c.ir.addr op c.st).st } := by
  unfold fixupSrc
  rw [h]
  dsimp only
  rw [if_pos hc]

/-- The `dst` statement of the fixup loop on a list split around the current
node: the node stays current, the nodes before it stay fixed, the work left
does not grow, and a node that is not a dummy has no `PcRelative` `dst`
afterwards. -/
theorem fixupDst_zipper {τ : Type} (e : InlineEnv τ) (placeHub : Bool) (c : FixCursor τ)
    (A B : List IR) (hblk : c.blk = A ++ c.ir :: B) (hi : c.i = A.length)
    (hA : ∀ x ∈ A, fixedIR x) :
    ∃ A' B', (fixupDst e placeHub c).blk = A' ++ (fixupDst e placeHub c).ir :: B' ∧
      (fixupDst e placeHub c).i = A'.length ∧ (∀ x ∈ A', fixedIR x) ∧
      B'.length + pcCount B' + pcOps (fixupDst e placeHub c).ir ≤
        B.length + pcCount B + pcOps c.ir ∧
      IsDummy (fixupDst e placeHub c).ir = IsDummy c.ir ∧
      (IsDummy c.ir = false → isPcRel (fixupDst e placeHub c).ir.dst = false) ∧
      (fixupDst e placeHub c).ir.src = c.ir.src := by
  rcases hd : c.ir.dst with _ | op
  · rw [fixupDst_none e placeHub c hd]
    refine ⟨A, B, hblk, hi, hA, le_refl _, rfl, ?_, ?_⟩
    · intro _
      first | rfl | (rw [hd]; rfl)
    · rfl
  · by_cases hc : ¬ IsDummy c.ir = true ∧ op.kind = Operandkind.IMM_PCRELATIVE
    · rw [fixupDst_fix e placeHub c op hd hc]
      obtain ⟨A', B', h1, h2, h3, h4, h5, h6⟩ :=
        FixupHereLabel_zipper e placeHub c.pre A c.ir B c.ir.addr op c.st hA
      rw [hblk, hi]
      refine ⟨A', B', ?_, h2.symm, h3, ?_, rfl, ?_, rfl⟩
      · show ((FixupHereLabel e placeHub c.pre (A ++ c.ir :: B) c.ir.addr op c.st).blk.set
          (shiftIndex (FixupHereLabel e placeHub c.pre (A ++ c.ir :: B) c.ir.addr op c.st).pos
            A.length) _) = _
        rw [h1, ← h2, set_zipper]
      · have hdum : IsDummy c.ir = false := by simpa using hc.1
        have hp1 : pcOps c.ir = 1 + (if isPcRel c.ir.src then 1 else 0) := by
          unfold pcOps
          simp [hdum, hd, isPcRel, hc.2]
        have hp2 : pcOps { c.ir with
            dst := some (FixupHereLabel e placeHub c.pre (A ++ c.ir :: B) c.ir.addr op c.st).op } =
            (if isPcRel c.ir.src then 1 else 0) := by
          unfold pcOps
          have hdum' : IsDummy { c.ir with
            dst := some (FixupHereLabel e placeHub c.pre (A ++ c.ir :: B) c.ir.addr op c.st).op } =
              false := hdum
          simp [hdum', isPcRel, h6]
        rw [hp1, hp2, h4]
        omega
      · intro _
        simp [isPcRel, h6]
    · rw [fixupDst_skip e placeHub c op hd hc]
      refine ⟨A, B, hblk, hi, hA, le_refl _, rfl, ?_, rfl⟩
      intro hdum
      rw [hd]
      have : op.kind ≠ Operandkind.IMM_PCRELATIVE := by
        intro hk
        exact hc ⟨by simp [hdum], hk⟩
      simp [isPcRel, this]

/-- The `src` statement of the fixup loop on a list split around the current
node. -/
theorem fixupSrc_zipper {τ : Type} (e : InlineEnv τ) (placeHub : Bool) (c : FixCursor τ)
    (A B : List IR) (hblk : c.blk = A ++ c.ir :: B) (hi : c.i = A.length)
    (hA : ∀ x ∈ A, fixedIR x) :
    ∃ A' B', (fixupSrc e placeHub c).blk = A' ++ (fixupSrc e placeHub c).ir :: B' ∧
      (fixupSrc e placeHub c).i = A'.length ∧ (∀ x ∈ A', fixedIR x) ∧
      B'.length + pcCount B' + pcOps (fixupSrc e placeHub c).ir ≤
        B.length + pcCount B + pcOps c.ir ∧
      IsDummy (fixupSrc e placeHub c).ir = IsDummy c.ir ∧
      (IsDummy c.ir = false → isPcRel (fixupSrc e placeHub c).ir.src = false) ∧
      (fixupSrc e placeHub c).ir.dst = c.ir.dst := by
  rcases hd : c.ir.src with _ | op
  · rw [fixupSrc_none e placeHub c hd]
    refine ⟨A, B, hblk, hi, hA, le_refl _, rfl, ?_, ?_⟩
    · intro _
      first | rfl | (rw [hd]; rfl)
    · rfl
  · by_cases hc : ¬ IsDummy c.ir = true ∧ op.kind = Operandkind.IMM_PCRELATIVE
    · rw [fixupSrc_fix e placeHub c op hd hc]
      obtain ⟨A', B', h1, h2, h3, h4, h5, h6⟩ :=
        FixupHereLabel_zipper e placeHub c.pre A c.ir B c.ir.addr op c.st hA
      rw [hblk, hi]
      refine ⟨A', B', ?_, h2.symm, h3, ?_, rfl, ?_, rfl⟩
      · show ((FixupHereLabel e placeHub c.pre (A ++ c.ir :: B) c.ir.addr op c.st).blk.set
          (shiftIndex (FixupHereLabel e placeHub c.pre (A ++ c.ir :: B) c.ir.addr op c.st).pos
            A.length) _) = _
        rw [h1, ← h2, set_zipper]
      · have hdum : IsDummy c.ir = false := by simpa using hc.1
        have hp1 : pcOps c.ir = (if isPcRel c.ir.dst then 1 else 0) + 1 := by
          unfold pcOps
          simp [hdum, hd, isPcRel, hc.2]
        have hp2 : pcOps { c.ir with
            src := some (FixupHereLabel e placeHub c.pre (A ++ c.ir :: B) c.ir.addr op c.st).op } =
            (if isPcRel c.ir.dst then 1 else 0) := by
          unfold pcOps
          have hdum' : IsDummy { c.ir with
            src := some (FixupHereLabel e placeHub c.pre (A ++ c.ir :: B) c.ir.addr op c.st).op } =
              false := hdum
          simp [hdum', isPcRel, h6]
        rw [hp1, hp2, h4]
        omega
      · intro _
        simp [isPcRel, h6]
    · rw [fixupSrc_skip e placeHub c op hd hc]
      refine ⟨A, B, hblk, hi, hA, le_refl _, rfl, ?_, rfl⟩
      intro hdum
      rw [hd]
      have : op.kind ≠ Operandkind.IMM_PCRELATIVE := by
        intro hk
        exact hc ⟨by simp [hdum], hk⟩
      simp [isPcRel, this]

/-- The fixup loop ends within the bound `B.length + pcCount B + 1` on the
nodes `B` still to visit, and leaves every node fixed. -/
theorem fixupLoop_fixed {τ : Type} (e : InlineEnv τ) (placeHub : Bool)
    (fcache : Option (Option Operand)) (fuel : Nat) (pre A B : List IR) (st : InlineState τ)
    (hA : ∀ x ∈ A, fixedIR x) (hfuel : B.length + pcCount B < fuel) :
    ∃ res, fixupLoop e placeHub fcache fuel pre (A ++ B) A.length st = some res ∧
      ∀ x ∈ res.2.1, fixedIR x := by
  induction fuel generalizing pre A B st with
  | zero => omega
  | succ fuel ih =>
    cases B with
    | nil =>
      refine ⟨(pre, A ++ [], st), ?_, ?_⟩
      · simp [fixupLoop]
      · simpa using hA
    | cons cur B =>
      have hget : (A ++ cur :: B)[A.length]? = some cur := getElem?_zipper A cur B
      obtain ⟨A1, B1, d1, d2, d3, d4, d5, d6, d7⟩ :=
        fixupDst_zipper e placeHub
          { pre := pre, blk := A ++ cur :: B, i := A.length, ir := cur, st := st } A B rfl rfl hA
      obtain ⟨A2, B2, s1, s2, s3, s4, s5, s6, s7⟩ :=
        fixupSrc_zipper e placeHub
          (fixupDst e placeHub
            { pre := pre, blk := A ++ cur :: B, i := A.length, ir := cur, st := st })
          A1 B1 d1 d2 d3
      simp only at d4 d5 d6 d7
      generalize hc : fixupSrc e placeHub (fixupDst e placeHub
          { pre := pre, blk := A ++ cur :: B, i := A.length, ir := cur, st := st }) = c at *
      generalize hc0 : fixupDst e placeHub
          { pre := pre, blk := A ++ cur :: B, i := A.length, ir := cur, st := st } = c0 at *
      have hfix : ∀ f : Option Operand, fixedIR { c.ir with fcache := f } := by
        intro f
        by_cases hdum : IsDummy cur = true
        · left
          have : IsDummy c.ir = true := by rw [s5, d5]; exact hdum
          exact this
        · right
          have hdum' : IsDummy cur = false := by simpa using hdum
          have hdum0 : IsDummy c0.ir = false := by rw [d5]; exact hdum'
          constructor
          · show isPcRel c.ir.dst = false
            rw [s7]; exact d6 hdum'
          · show isPcRel c.ir.src = false
            exact s6 hdum0
      have hmeasure : B2.length + pcCount B2 < fuel := by
        have hcur : pcCount (cur :: B) = pcOps cur + pcCount B := by
          simp [pcCount]
        simp only [List.length_cons] at hfuel
        omega
      have hA2 : ∀ (y : IR), fixedIR y → ∀ x ∈ A2 ++ [y], fixedIR x := by
        intro y hy x hx
        rcases List.mem_append.mp hx with h | h
        · exact s3 x h
        · rw [List.mem_singleton.mp h]; exact hy
      cases fcache with
      | none =>
        have hstep : fixupLoop e placeHub none (fuel + 1) pre (A ++ cur :: B) A.length st =
            fixupLoop e placeHub none fuel c.pre ((A2 ++ [c.ir]) ++ B2) (A2 ++ [c.ir]).length
              c.st := by
          rw [fixupLoop]
          simp only [hget, hc0, hc, s1, s2]
          simp
        rw [hstep]
        have hcfix : fixedIR c.ir := by
          have := hfix c.ir.fcache
          exact this
        exact ih c.pre (A2 ++ [c.ir]) B2 c.st (hA2 _ hcfix) hmeasure
      | some f =>
        have hstep : fixupLoop e placeHub (some f) (fuel + 1) pre (A ++ cur :: B) A.length st =
            fixupLoop e placeHub (some f) fuel c.pre ((A2 ++ [{ c.ir with fcache := f }]) ++ B2)
              (A2 ++ [{ c.ir with fcache := f }]).length c.st := by
          rw [fixupLoop]
          simp only [hget, hc0, hc, s1, s2, set_zipper]
          simp
        rw [hstep]
        exact ih c.pre (A2 ++ [{ c.ir with fcache := f }]) B2 c.st (hA2 _ (hfix f)) hmeasure

theorem insertLabelAt_some (lab : IR) (t : Int) (l l' : List IR) (j : Nat)
    (h : insertLabelAt lab t l = some (l', j)) :
    ∃ l1 x l2, l = l1 ++ x :: l2 ∧ x.addr = t ∧ (∀ y ∈ l1, y.addr ≠ t) ∧
      l' = l1 ++ lab :: x :: l2 ∧ j = l1.length := by
  induction l generalizing l' j with
  | nil => simp [insertLabelAt] at h
  | cons a l ih =>
    by_cases ha : a.addr = t
    · simp only [insertLabelAt, ha, if_true, Option.some.injEq, Prod.mk.injEq] at h
      obtain ⟨rfl, rfl⟩ := h
      exact ⟨[], a, l, rfl, ha, by simp, rfl, rfl⟩
    · simp only [insertLabelAt, ha, if_false, Option.map_eq_some', Prod.mk.injEq] at h
      obtain ⟨r, hr, rfl, rfl⟩ := h
      obtain ⟨l1, x, l2, h1, h2, h3, h4, h5⟩ := ih r.1 r.2 hr
      refine ⟨a :: l1, x, l2, by rw [h1]; rfl, h2, ?_, by rw [h4]; rfl, by simp [h5]⟩
      intro y hy
      rcases List.mem_cons.mp hy with rfl | hy
      · exact ha
      · exact h3 y hy

/-- The loop of `CompileInlineAsm` over the whole block: it ends, and no
node that is not a dummy keeps a `PcRelative` operand. -/
theorem compileInlineParts_fixed {τ : Type} (e : InlineEnv τ) (curfunc : Option Bool)
    (items : List AsmItem) (wantFcache : Bool) (st : InlineState τ) :
    ∃ res, compileInlineParts e curfunc items wantFcache st = some res ∧
      ∀ x ∈ res.2.1, fixedIR x := by
  unfold compileInlineParts
  cases curfunc with
  | none => exact ⟨_, rfl, by simp⟩
  | some placeHub =>
    simp only
    split
    · exact ⟨_, rfl, by simp⟩
    · rename_i first hfirst
      have key := fun (fc : Option (Option Operand)) (pre blk : List IR) (s : InlineState τ) =>
        fixupLoop_fixed e placeHub fc (3 * blk.length + 1) pre [] blk s (by simp)
          (by
            have : pcCount blk ≤ 2 * blk.length := by
              induction blk with
              | nil => simp [pcCount]
              | cons b bs ih =>
                have hb : pcOps b ≤ 2 := by
                  unfold pcOps
                  split_ifs <;> simp
                simp only [pcCount, List.map_cons, List.sum_cons, List.length_cons] at ih ⊢
                omega
            omega)
      simp only [List.nil_append, List.length_nil] at key
      rw [← List.length_drop]
      exact key _ _ _ _

/-! ### Inline assembly: `mov r0, #$+2` / `jmp r0` -/

/-- Counterexample to C23: for the block of exactly the two instructions
`mov r0, #$+2` and `jmp r0`, `CompileInlineAsm` reports an error and the
resulting list has no LABEL node. -/
theorem here_two_no_label :
    (CompileInlineAsm (exInlineEnv 0) (some true) exHereBlock false exInlineState).map
        (fun s => (s.errors.length, s.irl.map (fun x => x.opc))) =
      some (1, [IROpcode.OPC_MOV, IROpcode.OPC_JUMP]) ∧
    (CompileInlineAsm (exInlineEnv 0) (some false) exHereBlock false exInlineState).map
        (fun s => (s.errors.length, s.irl.map (fun x => x.opc))) =
      some (1, [IROpcode.OPC_MOV, IROpcode.OPC_JUMP]) := by
  decide

/-- C23 (amended): for the block of exactly the two instructions
`mov r0, #$+2` and `jmp r0`, no node has the address 2, and
`CompileInlineAsm` reports the out-of-range error and replaces the `$+2`
operand of the `mov` by the immediate 0; no LABEL is emitted. -/
theorem here_two_out_of_range :
    (CompileInlineAsm (exInlineEnv 0) (some true) exHereBlock false exInlineState).map
        (fun s => (s.irl, s.errors)) =
      some ([{ exMovHere with src := some (NewImmediate 0) }, { exJmpR0 with addr := 1 }],
        ["pc relative address $ + 2 in inline assembly is out of range"]) := by
  decide

/-! ### Inline assembly: the fcache size check -/

/-- Evaluation for C24: a block `nop` / `ret` that is not wrapped for fcache
- fcache not requested, or the function not placed in hub memory - with
gl_fcache_size = 0 reports "Inline assembly too large to fit in fcache";
the block `nop` / `nop` of the same length does not. -/
theorem fcache_error_without_fcache :
    (CompileInlineAsm (exInlineEnv 0) (some true) exRetBlock false exInlineState).map
        (fun s => (s.errors, s.irl.map (fun x => x.opc))) =
      some (["Inline assembly too large to fit in fcache"],
        [IROpcode.OPC_NOP, IROpcode.OPC_JUMP, IROpcode.OPC_LABEL]) ∧
    (CompileInlineAsm (exInlineEnv 0) (some false) exRetBlock true exInlineState).map
        (fun s => (s.errors, s.irl.map (fun x => x.opc))) =
      some (["Inline assembly too large to fit in fcache"],
        [IROpcode.OPC_NOP, IROpcode.OPC_JUMP, IROpcode.OPC_LABEL]) ∧
    (CompileInlineAsm (exInlineEnv 0) (some true) exNopBlock false exInlineState).map
        (fun s => (s.errors, s.irl.map (fun x => x.opc))) =
      some ([], [IROpcode.OPC_NOP, IROpcode.OPC_NOP]) := by
  decide

/-- A block that is wrapped for fcache: the error is reported exactly when
the number of instructions exceeds gl_fcache_size. -/
theorem fcache_error_example :
    (CompileInlineAsm (exInlineEnv 1) (some true) exNopBlock true exInlineState).map
        (fun s => (s.errors, s.irl.map (fun x => x.opc))) =
      some (["Inline assembly too large to fit in fcache"],
        [IROpcode.OPC_FCACHE, IROpcode.OPC_LABEL, IROpcode.OPC_NOP, IROpcode.OPC_NOP,
         IROpcode.OPC_LABEL]) ∧
    (CompileInlineAsm (exInlineEnv 2) (some true) exNopBlock true exInlineState).map
        (fun s => s.errors) = some [] := by
  decide

/-! ### C35: comparisons on an unordered result -/

/-- C35: for each of the six comparison operators, `UnorderedResult(op) op 0`
as a signed integer comparison is false for `<`, `<=`, `>`, `>=`, `==` and
true for `<>`; and a comparison of two float operands (floating point mode,
helper set) is rewritten to `float_cmp(l, r, UnorderedResult(op)) op 0`, so
when the helper returns its third argument the comparison is false for every
operator but `<>`. -/
theorem unordered_compare (e : TypeEnv) (g : Globals) (op : Op) (l r : AST) (nl nr : Int)
    (s : TState) (hop : op ∈ comparisonOps) (hf : e.gl_fixedreal = false)
    (hc : g.float_cmp ≠ AST.null) (hl : l ≠ AST.null) (hr : r ≠ AST.null) :
    evalCompare op (UnorderedResult op) 0 = some (decide (op = Op.K_NE)) ∧
    CompileComparison e g op (AstOperator op l r) (some (Ty.AST_FLOATTYPE nl))
        (some (Ty.AST_FLOATTYPE nr)) s =
      (AstOperator op (call3 g.float_cmp l r (AstInteger (UnorderedResult op))) (AstInteger 0),
        s) := by
  refine ⟨?_, float_compare e g op l r nl nr s hf hc hl hr⟩
  simp only [comparisonOps, List.mem_cons, List.mem_singleton, List.not_mem_nil, or_false] at hop
  rcases hop with rfl | rfl | rfl | rfl | rfl | rfl <;> decide

theorem unordered_compare_witness :
    evalCompare Op.lt (UnorderedResult Op.lt) 0 = some (decide (Op.lt = Op.K_NE)) ∧
    CompileComparison exTypeEnv exGlobals Op.lt (AstOperator Op.lt exVarA exVarB)
        (some (Ty.AST_FLOATTYPE 4)) (some (Ty.AST_FLOATTYPE 4)) {} =
      (AstOperator Op.lt
        (call3 exGlobals.float_cmp exVarA exVarB (AstInteger (UnorderedResult Op.lt)))
        (AstInteger 0), {}) :=
  unordered_compare exTypeEnv exGlobals Op.lt exVarA exVarB 4 4 {} (by decide) rfl (by decide)
    (by decide) (by decide)

/-- The six values: `UnorderedResult(op) op 0` is true for `<>` only. -/
theorem unordered_compare_values :
    comparisonOps.map (fun op => evalCompare op (UnorderedResult op) 0) =
      [some false, some false, some false, some false, some false, some true] := by
  decide

/-! ### C36: the size of `__objmem` -/

/-- The number of longs declared for a module of `varsize` bytes is
`varsize` divided by 4 and rounded up: the clamp to 1 is applied to the byte
count, and is lost in the division. -/
theorem spinVarlen_longs (v : Int) (h : 0 ≤ v) (h32 : v + 3 < 2147483648) :
    Int.tdiv (spinVarlen v) 4 = (v + 3) / 4 := by
  have hw : int32 (v + 3) = v + 3 := by
    unfold int32
    omega
  unfold spinVarlen
  simp only [hw]
  split_ifs with h1
  · have : v = 0 := by omega
    subst this
    decide
  · rw [Int.tdiv_eq_ediv (by omega)]
    · omega
    · omega

/-- From one byte on the array has at least one element. -/
theorem spinVarlen_positive (v : Int) (h : 1 ≤ v) (h32 : v + 3 < 2147483648) :
    1 ≤ Int.tdiv (spinVarlen v) 4 := by
  rw [spinVarlen_longs v (by omega) h32]
  omega

/-- The declaration of `__objmem` in the text of `EmitSpinMethods`. -/
theorem EmitSpinMethods_objmem (p2 : Bool) (P : Module) (st : AsmState) :
    ∃ rest, (EmitSpinMethods { exCogspin with gl_p2 := p2 } (some P) st).fb =
      st.fb ++ spinVarHead ++
        ("  long __objmem[" ++ fmtD (Int.tdiv (spinVarlen P.varsize) 4) ++
          "]          \x27 space for hub data in COG code\n") ++ rest := by
  cases p2 <;>
    simp only [EmitSpinMethods, exCogspin, flexbuf_addstr, String.append_assoc, if_true,
      Bool.false_eq_true, if_false] <;>
    exact ⟨_, rfl⟩

/-- C36: for a module with `varsize = 0` the Spin wrapper declares
`long __objmem[0]`, an array with no element: `varlen` is forced to 1 byte
and then divided by 4. -/
theorem objmem_zero_elements (p2 : Bool) (fns : List Function) (st : AsmState) :
    ∃ rest, (EmitSpinMethods { exCogspin with gl_p2 := p2 }
        (some { varsize := 0, functions := fns }) st).fb =
      st.fb ++ spinVarHead ++
        "  long __objmem[0]          \x27 space for hub data in COG code\n" ++ rest := by
  obtain ⟨rest, h⟩ := EmitSpinMethods_objmem p2 { varsize := 0, functions := fns } st
  exact ⟨rest, by rw [h]; rfl⟩

/-! ### C39: the version check -/

theorem foldl_digits_mono (ds : List Char) (v : Int) (hv : 0 ≤ v)
    (hd : ∀ ch ∈ ds, isdigit ch = true) :
    v ≤ ds.foldl (fun v c => 10 * v + ((c.toNat : Int) - 48)) v := by
  induction ds generalizing v with
  | nil => simp
  | cons c cs ih =>
    have hc : isdigit c = true := hd c (List.mem_cons_self _ _)
    simp only [isdigit, Bool.and_eq_true, decide_eq_true_eq] at hc
    have h1 := ih (10 * v + ((c.toNat : Int) - 48)) (by omega)
      (fun ch h => hd ch (List.mem_cons_of_mem _ h))
    simp only [List.foldl_cons]
    omega

/-- The digit loop reads a run of digits that is followed by the end of the
string or by a character that is not a digit, and gives its value, when the
value fits an `int`. -/
theorem scanDigits_run (ds rest : List Char) (v : Int) (hv : 0 ≤ v)
    (hd : ∀ ch ∈ ds, isdigit ch = true)
    (hrest : ∀ ch ∈ rest.head?, isdigit ch = false)
    (hr : ds.foldl (fun v c => 10 * v + ((c.toNat : Int) - 48)) v < 2147483648) :
    scanDigits (ds ++ rest) v =
      (ds.foldl (fun v c => 10 * v + ((c.toNat : Int) - 48)) v, rest) := by
  induction ds generalizing v with
  | nil =>
    rcases rest with _ | ⟨c, rest⟩
    · rfl
    · have : isdigit c = false := hrest c (by simp)
      simp [scanDigits, this]
  | cons c cs ih =>
    have hc : isdigit c = true := hd c (List.mem_cons_self _ _)
    have hc' := hc
    simp only [isdigit, Bool.and_eq_true, decide_eq_true_eq] at hc'
    have hm := foldl_digits_mono cs (10 * v + ((c.toNat : Int) - 48)) (by omega)
      (fun ch h => hd ch (List.mem_cons_of_mem _ h))
    simp only [List.foldl_cons] at hr
    have e : int32 (10 * v + ((c.toNat : Int) - 48)) = 10 * v + ((c.toNat : Int) - 48) := by
      unfold int32
      omega
    simp only [List.cons_append, scanDigits, hc, if_true, e, List.foldl_cons]
    exact ih _ (by omega) (fun ch h => hd ch (List.mem_cons_of_mem _ h)) hr

theorem scanDigits_decimal (ds rest : List Char)
    (hd : ∀ ch ∈ ds, isdigit ch = true)
    (hrest : ∀ ch ∈ rest.head?, isdigit ch = false)
    (hr : decimal ds < 2147483648) :
    scanDigits (ds ++ rest) 0 = (decimal ds, rest) :=
  scanDigits_run ds rest 0 (le_refl 0) hd hrest hr

/-- The final comparison of `CheckVersion` is the lexicographic order. -/
theorem version_lex (a b c x y z : Int) :
    (a < x ∨ (a = x ∧ b < y) ∨ (a = x ∧ b = y ∧ c ≤ z)) ↔
      toLex (a, toLex (b, c)) ≤ toLex (x, toLex (y, z)) := by
  rw [Prod.Lex.le_iff]
  simp only [ofLex_toLex]
  rw [Prod.Lex.le_iff]
  simp only [ofLex_toLex]
  constructor
  · rintro (h | ⟨h1, h2⟩ | ⟨h1, h2, h3⟩)
    · exact Or.inl h
    · exact Or.inr ⟨h1, Or.inl h2⟩
    · exact Or.inr ⟨h1, Or.inr ⟨h2, h3⟩⟩
  · rintro (h | ⟨h1, h2 | ⟨h2, h3⟩⟩)
    · exact Or.inl h
    · exact Or.inr (Or.inl ⟨h1, h2⟩)
    · exact Or.inr (Or.inr ⟨h1, h2, h3⟩)

/-- What `CheckVersion` does once the three numbers are read. -/
theorem CheckVersion_of_scan (V : VersionInfo) (str : String) (a b c : Int)
    (r1 r2 r3 : List Char)
    (h1 : scanDigits str.data 0 = (a, r1))
    (h2 : scanComponent r1 = (b, r2)) (h3 : scanComponent r2 = (c, r3)) :
    (CheckVersion V str = Except.ok () ↔
      requiredVersion a b c ≤ currentVersion V) ∧
    (¬ requiredVersion a b c ≤ currentVersion V →
      CheckVersion V str = Except.error ("ERROR: required version " ++ fmtD a ++ "." ++
        fmtD b ++ "." ++ fmtD c ++ " but current version is " ++ V.VERSIONSTR ++ "\n")) := by
  unfold requiredVersion currentVersion
  rw [← version_lex]
  unfold CheckVersion
  simp only [h1, h2, h3]
  by_cases c1 : a < V.VERSION_MAJOR
  · simp [c1]
  · by_cases c2 : a = V.VERSION_MAJOR ∧ b < V.VERSION_MINOR
    · simp [c1, c2]
    · by_cases c3 : a = V.VERSION_MAJOR ∧ b = V.VERSION_MINOR ∧ c ≤ V.VERSION_REV
      · simp [c1, c2, c3]
      · simp only [c1, c2, c3, if_false, false_or, not_false_eq_true, true_implies, and_true]
        simp

theorem isdigit_dot_rest (rest : List Char) : ∀ ch ∈ ('.' :: rest).head?, isdigit ch = false := by
  intro ch h
  simp only [List.head?_cons, Option.mem_def, Option.some.injEq] at h
  subst h
  decide

theorem isdigit_nil_rest : ∀ ch ∈ ([] : List Char).head?, isdigit ch = false := by
  intro ch h
  simp at h

/-- C39: for a version string `major`, `major.minor` or `major.minor.rev` in
decimal digits, each number fitting an `int`, `CheckVersion` returns exactly
when the triple (missing components counting as 0) is at most
(VERSION_MAJOR, VERSION_MINOR, VERSION_REV) in lexicographic order;
otherwise it writes the error message and exits. -/
theorem CheckVersion_lexicographic (V : VersionInfo) (a b c : List Char)
    (ha : ∀ ch ∈ a, isdigit ch = true) (hb : ∀ ch ∈ b, isdigit ch = true)
    (hc : ∀ ch ∈ c, isdigit ch = true)
    (hra : decimal a < 2147483648) (hrb : decimal b < 2147483648)
    (hrc : decimal c < 2147483648) :
    (CheckVersion V (String.mk a) = Except.ok () ↔
      requiredVersion (decimal a) 0 0 ≤ currentVersion V) ∧
    (CheckVersion V (String.mk (a ++ '.' :: b)) = Except.ok () ↔
      requiredVersion (decimal a) (decimal b) 0 ≤ currentVersion V) ∧
    (CheckVersion V (String.mk (a ++ '.' :: b ++ '.' :: c)) = Except.ok () ↔
      requiredVersion (decimal a) (decimal b) (decimal c) ≤ currentVersion V) ∧
    (¬ requiredVersion (decimal a) (decimal b) (decimal c) ≤ currentVersion V →
      CheckVersion V (String.mk (a ++ '.' :: b ++ '.' :: c)) =
        Except.error ("ERROR: required version " ++ fmtD (decimal a) ++ "." ++
          fmtD (decimal b) ++ "." ++ fmtD (decimal c) ++ " but current version is " ++
          V.VERSIONSTR ++ "\n")) := by
  have s1 : scanDigits (String.mk a).data 0 = (decimal a, []) := by
    have := scanDigits_decimal a [] ha isdigit_nil_rest hra
    simpa using this
  have s2 : scanDigits (String.mk (a ++ '.' :: b)).data 0 = (decimal a, '.' :: b) :=
    scanDigits_decimal a ('.' :: b) ha (isdigit_dot_rest b) hra
  have s3 : scanDigits (String.mk (a ++ '.' :: b ++ '.' :: c)).data 0 =
      (decimal a, '.' :: b ++ '.' :: c) := by
    have := scanDigits_decimal a ('.' :: b ++ '.' :: c) ha (isdigit_dot_rest _) hra
    simpa using this
  have m1 : scanComponent ([] : List Char) = (0, []) := rfl
  have m2 : scanComponent ('.' :: b) = (decimal b, []) := by
    have := scanDigits_decimal b [] hb isdigit_nil_rest hrb
    simpa [scanComponent] using this
  have m3 : scanComponent ('.' :: b ++ '.' :: c) = (decimal b, '.' :: c) := by
    have := scanDigits_decimal b ('.' :: c) hb (isdigit_dot_rest c) hrb
    simpa [scanComponent] using this
  have m4 : scanComponent ('.' :: c) = (decimal c, []) := by
    have := scanDigits_decimal c [] hc isdigit_nil_rest hrc
    simpa [scanComponent] using this
  exact ⟨(CheckVersion_of_scan V _ _ _ _ _ _ _ s1 m1 m1).1,
    (CheckVersion_of_scan V _ _ _ _ _ _ _ s2 m2 m1).1,
    (CheckVersion_of_scan V _ _ _ _ _ _ _ s3 m3 m4).1,
    (CheckVersion_of_scan V _ _ _ _ _ _ _ s3 m3 m4).2⟩

theorem CheckVersion_lexicographic_witness :
    (CheckVersion exVersion (String.mk ['4']) = Except.ok () ↔
      requiredVersion (decimal ['4']) 0 0 ≤ currentVersion exVersion) ∧
    (CheckVersion exVersion (String.mk (['4'] ++ '.' :: ['1', '0'])) = Except.ok () ↔
      requiredVersion (decimal ['4']) (decimal ['1', '0']) 0 ≤ currentVersion exVersion) ∧
    (CheckVersion exVersion (String.mk (['4'] ++ '.' :: ['1', '0'] ++ '.' :: ['2'])) =
        Except.ok () ↔
      requiredVersion (decimal ['4']) (decimal ['1', '0']) (decimal ['2']) ≤
        currentVersion exVersion) ∧
    (¬ requiredVersion (decimal ['4']) (decimal ['1', '0']) (decimal ['2']) ≤
        currentVersion exVersion →
      CheckVersion exVersion (String.mk (['4'] ++ '.' :: ['1', '0'] ++ '.' :: ['2'])) =
        Except.error ("ERROR: required version " ++ fmtD (decimal ['4']) ++ "." ++
          fmtD (decimal ['1', '0']) ++ "." ++ fmtD (decimal ['2']) ++
          " but current version is " ++ exVersion.VERSIONSTR ++ "\n")) :=
  CheckVersion_lexicographic exVersion ['4'] ['1', '0'] ['2'] (by decide) (by decide)
    (by decide) (by decide) (by decide) (by decide)

/-- Version 4.10.2 is refused by 4.1.9, version 4.1.9 and version 3.99 are
accepted. -/
theorem CheckVersion_example :
    CheckVersion exVersion "4.10.2" =
      Except.error "ERROR: required version 4.10.2 but current version is 4.1.9\n" ∧
    CheckVersion exVersion "4.1.9" = Except.ok () ∧
    CheckVersion exVersion "3.99" = Except.ok () :=
  ⟨rfl, rfl, rfl⟩

/-! ### C34: the EEPROM image -/

/-- The bytes of an image whose byte at offset 5 is zero sum to 0x14 modulo
256 once that byte is replaced by the checksum. -/
theorem checksummed_sum (file : List Nat) (pad : Nat) (hlen : 6 ≤ file.length)
    (hb : ∀ b ∈ file, b < 256) (h5 : file[5]? = some 0) :
    ((file ++ List.replicate pad 0).set 5
      ((0x14 + 256 - byteSum (file ++ List.replicate pad 0)) % 256)).sum % 256 = 0x14 := by
  obtain ⟨a, b, hab, ha⟩ : ∃ a b, file = a ++ 0 :: b ∧ a.length = 5 := by
    refine ⟨file.take 5, file.drop 6, ?_, ?_⟩
    · have h5' : 5 < file.length := by omega
      have hg : file[5] = 0 := by
        have := List.getElem?_eq_getElem h5'
        rw [this] at h5
        exact Option.some.inj h5
      conv_lhs => rw [← List.take_append_drop 5 file]
      rw [List.drop_eq_getElem_cons h5', hg]
    · simp; omega
  have hsum : byteSum (file ++ List.replicate pad 0) = (a.sum + b.sum) % 256 := by
    unfold byteSum
    rw [sum_mod_bytes]
    · rw [hab]; simp
    · intro x hx
      rcases List.mem_append.mp hx with h1 | h1
      · exact hb x h1
      · rw [(List.mem_replicate.mp h1).2]; norm_num
  rw [hsum, hab]
  have hset : (a ++ 0 :: b ++ List.replicate pad 0).set 5
      ((0x14 + 256 - (a.sum + b.sum) % 256) % 256) =
      a ++ ((0x14 + 256 - (a.sum + b.sum) % 256) % 256) :: (b ++ List.replicate pad 0) := by
    rw [List.append_assoc, ← ha]
    simp [List.set_append]
  rw [hset]
  simp only [List.sum_append, List.sum_cons, List.sum_replicate, smul_eq_mul, mul_zero,
    add_zero]
  omega

/-- The file `DoPropellerChecksum` leaves on the older ISA: the padded image
with the checksum at offset 5, and for an EEPROM size that has room for them
the marker bytes and the zero fill. -/
theorem DoPropellerChecksum_p1 (file : List Nat) (eepromSize : Nat) (stack free : Option Int)
    (hlen : 6 ≤ file.length) (h32 : file.length + 11 < 4294967296) :
    (DoPropellerChecksum false file eepromSize stack free).1 =
      if eepromSize ≠ 0 ∧ eepromSize ≥ file.length + (4 - file.length % 4) % 4 + 8 then
        (file ++ List.replicate ((4 - file.length % 4) % 4) 0).set 5
            ((0x14 + 256 - byteSum (file ++ List.replicate ((4 - file.length % 4) % 4) 0)) % 256)
          ++ [0xff, 0xff, 0xf9, 0xff, 0xff, 0xff, 0xf9, 0xff]
          ++ List.replicate (eepromSize - (file.length + (4 - file.length % 4) % 4 + 8)) 0
      else
        (file ++ List.replicate ((4 - file.length % 4) % 4) 0).set 5
          ((0x14 + 256 - byteSum (file ++ List.replicate ((4 - file.length % 4) % 4) 0)) % 256) := by
  have hl : file.length % 4294967296 = file.length := Nat.mod_eq_of_lt (by omega)
  have hpad := padBytes_p1 file.length (by omega)
  have hl2 : (file.length + (4 - file.length % 4) % 4) % 4294967296 =
      file.length + (4 - file.length % 4) % 4 := Nat.mod_eq_of_lt (by omega)
  have hl3 : (file.length + (4 - file.length % 4) % 4 + 8) % 4294967296 =
      file.length + (4 - file.length % 4) % 4 + 8 := Nat.mod_eq_of_lt (by omega)
  have hw : ∀ c, writeAt (file ++ List.replicate ((4 - file.length % 4) % 4) 0) 5 c =
      (file ++ List.replicate ((4 - file.length % 4) % 4) 0).set 5 c := by
    intro c
    unfold writeAt
    rw [if_pos (by rw [List.length_append]; omega)]
  unfold DoPropellerChecksum
  simp only [hl, hpad, hl2, hl3, Bool.false_eq_true, if_false, hw]
  by_cases hc : eepromSize ≠ 0 ∧ eepromSize ≥ file.length + (4 - file.length % 4) % 4 + 8
  · rw [if_pos hc, if_pos hc]
  · rw [if_neg hc, if_neg hc]

/-- C34: on the older ISA, for an image whose byte at offset 5 is zero and an
EEPROM size (below 2^32) of at least the padded length plus 8, the file
`DoPropellerChecksum` leaves is the checksummed image of the call without
EEPROM size, then the marker bytes ff ff f9 ff ff ff f9 ff, then zero bytes;
its length is the EEPROM size and its bytes sum to 0 modulo 256. -/
theorem eeprom_image (file : List Nat) (eepromSize : Nat) (stack free : Option Int)
    (hlen : 6 ≤ file.length) (h32 : file.length + 11 < 4294967296)
    (hb : ∀ b ∈ file, b < 256) (h5 : file[5]? = some 0)
    (he : file.length + (4 - file.length % 4) % 4 + 8 ≤ eepromSize)
    (_he32 : eepromSize < 4294967296) :
    (DoPropellerChecksum false file eepromSize stack free).1 =
      (DoPropellerChecksum false file 0 stack free).1 ++
        [0xff, 0xff, 0xf9, 0xff, 0xff, 0xff, 0xf9, 0xff] ++
        List.replicate (eepromSize - (file.length + (4 - file.length % 4) % 4 + 8)) 0 ∧
    (DoPropellerChecksum false file 0 stack free).1.length =
      file.length + (4 - file.length % 4) % 4 ∧
    (DoPropellerChecksum false file eepromSize stack free).1.length = eepromSize ∧
    (DoPropellerChecksum false file eepromSize stack free).1.sum % 256 = 0 := by
  have h0 := DoPropellerChecksum_p1 file 0 stack free hlen h32
  have h1 := DoPropellerChecksum_p1 file eepromSize stack free hlen h32
  rw [if_neg (by simp)] at h0
  rw [if_pos ⟨by omega, he⟩] at h1
  have hs := checksummed_sum file ((4 - file.length % 4) % 4) hlen hb h5
  rw [h1, h0]
  refine ⟨rfl, ?_, ?_, ?_⟩
  · simp
  · simp only [List.length_append, List.length_set, List.length_replicate, List.length_cons,
      List.length_nil]
    omega
  · simp only [List.sum_append, List.sum_cons, List.sum_nil, List.sum_replicate, smul_eq_mul,
      mul_zero, add_zero]
    omega

theorem eeprom_image_witness :
    (DoPropellerChecksum false exImage 48 none none).1 =
      (DoPropellerChecksum false exImage 0 none none).1 ++
        [0xff, 0xff, 0xf9, 0xff, 0xff, 0xff, 0xf9, 0xff] ++
        List.replicate (48 - (exImage.length + (4 - exImage.length % 4) % 4 + 8)) 0 ∧
    (DoPropellerChecksum false exImage 0 none none).1.length =
      exImage.length + (4 - exImage.length % 4) % 4 ∧
    (DoPropellerChecksum false exImage 48 none none).1.length = 48 ∧
    (DoPropellerChecksum false exImage 48 none none).1.sum % 256 = 0 :=
  eeprom_image exImage 48 none none (by decide) (by decide) (by decide) (by decide) (by decide)
    (by decide)

/-- The witness evaluated: 36 bytes of image, the 8 marker bytes, 4 zero
bytes. -/
theorem eeprom_example :
    DoPropellerChecksum false exImage 48 none none =
      ([0x00, 0xb4, 0xc4, 0x04, 0x6f, 0x5f, 0x10, 0x00, 0xe8, 0x7f, 0xf0, 0x7f, 0x18, 0x00,
        0xf8, 0x7f, 0x08, 0x00, 0x02, 0x00, 0x08, 0x00, 0x00, 0x00, 0x3f, 0x89, 0xc7, 0x10,
        0xa4, 0x06, 0x2c, 0x32, 0x12, 0x34, 0x56, 0x00,
        0xff, 0xff, 0xf9, 0xff, 0xff, 0xff, 0xf9, 0xff, 0, 0, 0, 0], []) := by
  decide

/-! ### The section flags through the printing functions -/

theorem Keeps.refl (a : AsmState) : Keeps a a := ⟨⟨"", by simp⟩, rfl, rfl, rfl, rfl, rfl⟩

theorem Keeps.trans {a b c : AsmState} (h1 : Keeps a b) (h2 : Keeps b c) : Keeps a c := by
  obtain ⟨⟨t1, e1⟩, a1, b1, c1, d1, f1⟩ := h1
  obtain ⟨⟨t2, e2⟩, a2, b2, c2, d2, f2⟩ := h2
  exact ⟨⟨t1 ++ t2, by rw [e2, e1, String.append_assoc]⟩, a2.trans a1, b2.trans b1, c2.trans c1,
    d2.trans d1, f2.trans f1⟩

theorem Keeps_addstr (s : String) (a : AsmState) : Keeps a (flexbuf_addstr s a) :=
  ⟨⟨s, rfl⟩, rfl, rfl, rfl, rfl, rfl⟩

theorem Keeps_ERROR (s : String) (a : AsmState) : Keeps a (ERROR s a) :=
  ⟨⟨"", by simp [ERROR]⟩, rfl, rfl, rfl, rfl, rfl⟩

theorem Keeps_doPrintOperand (o : Options) (reg : Option Operand) (useimm : Bool)
    (effect : OperandEffect) (st : AsmState) : Keeps st (doPrintOperand o reg useimm effect st) := by
  obtain ⟨-, -, h3, h4, h5, h6, h7⟩ := doPrintOperand_statics o reg useimm effect st
  exact ⟨⟨_, doPrintOperand_fb o reg useimm effect st⟩, h4, h5, h6, h3, h7⟩

theorem Keeps_PrintOperand (o : Options) (reg : Option Operand) (st : AsmState) :
    Keeps st (PrintOperand o reg st) := Keeps_doPrintOperand _ _ _ _ _

theorem Keeps_PrintOperandSrc (o : Options) (reg : Option Operand) (e : OperandEffect)
    (st : AsmState) : Keeps st (PrintOperandSrc o reg e st) := Keeps_doPrintOperand _ _ _ _ _

theorem Keeps_PrintOperandAsValue (o : Options) (reg : Operand) (st : AsmState) :
    Keeps st (PrintOperandAsValue o reg st) := by
  refine ⟨⟨_, PrintOperandAsValue_fb o reg st⟩, ?_⟩
  have hp := Keeps_PrintOperand o (some reg) st
  unfold PrintOperandAsValue
  rcases hk : reg.kind <;> dsimp only [flexbuf_addstr] <;>
    first
      | exact hp.2
      | (split_ifs <;> exact ⟨rfl, rfl, rfl, rfl, rfl⟩)
      | exact ⟨rfl, rfl, rfl, rfl, rfl⟩

theorem Keeps_PrintCond (c : IRCond) (st : AsmState) : Keeps st (PrintCond c st) :=
  ⟨⟨_, PrintCond_fb c st⟩, rfl, rfl, rfl, rfl, rfl⟩

theorem Keeps_printFlags (o : Options) (f : IRFlags) (st : AsmState) :
    Keeps st (printFlags o f st) := by
  refine ⟨⟨_, (printFlags_fb o f st).1⟩, ?_⟩
  rcases f with ⟨wc, wz, nr, wr⟩
  unfold printFlags
  rcases o.gl_p2 <;> rcases wc <;> rcases wz <;> rcases nr <;> rcases wr <;>
    simp [flexbuf_addstr]

theorem Keeps_oneOperand (o : Options) (ir : IR) (st : AsmState) :
    Keeps st (PrintOperandSrc o ir.dst OperandEffect.OPEFFECT_NONE (flexbuf_addstr "\t" st)) :=
  Keeps.trans (Keeps_addstr _ _) (Keeps_PrintOperandSrc _ _ _ _)

theorem Keeps_twoOperands (o : Options) (ir : IR) (st : AsmState) :
    Keeps st (PrintOperandSrc o ir.src ir.srceffect (flexbuf_addstr ", " (PrintOperand o ir.dst
      (if ir.opc = IROpcode.OPC_REPEAT then flexbuf_addstr "@" (flexbuf_addstr "\t" st)
       else flexbuf_addstr "\t" st)))) := by
  refine Keeps.trans ?_ (Keeps_PrintOperandSrc _ _ _ _)
  refine Keeps.trans ?_ (Keeps_addstr _ _)
  refine Keeps.trans ?_ (Keeps_PrintOperand _ _ _)
  split_ifs
  · exact Keeps.trans (Keeps_addstr _ _) (Keeps_addstr _ _)
  · exact Keeps_addstr _ _

theorem Keeps_printInstr (o : Options) (ir : IR) (instr : Instruction) (st : AsmState) :
    Keeps st (printInstr o ir instr st) := by
  unfold printInstr
  refine Keeps.trans ?_ (Keeps_addstr _ _)
  refine Keeps.trans ?_ (Keeps_printFlags _ _ _)
  refine Keeps.trans (Keeps_PrintCond ir.cond st) ?_
  refine Keeps.trans (Keeps_addstr instr.name _) ?_
  generalize flexbuf_addstr instr.name (PrintCond ir.cond st) = s
  have h1 := Keeps_oneOperand o ir s
  have h2 := Keeps_twoOperands o ir s
  rcases instr.ops
  case NO_OPERANDS => exact Keeps.refl s
  all_goals first
    | exact h1
    | exact h2

theorem Keeps_OutputBlob (o : Options) (label op : Option Operand) (st st' : AsmState)
    (h : OutputBlob o label op st = some st') : Keeps st st' := by
  unfold OutputBlob at h
  rcases op with _ | op
  · simp at h
  · dsimp only at h
    by_cases hk : op.kind ≠ Operandkind.IMM_BINARY
    · rw [if_pos hk] at h
      cases h
      exact Keeps_ERROR _ _
    · rw [if_neg hk] at h
      have h0 : Keeps st (if o.gl_p2 = true then flexbuf_addstr "\talignl\n" st
          else flexbuf_addstr "\tlong\n" st) := by
        split_ifs <;> exact Keeps_addstr _ _
      generalize (if o.gl_p2 = true then flexbuf_addstr "\talignl\n" st
          else flexbuf_addstr "\tlong\n" st) = s0 at h h0
      rcases label with _ | label
      · simp at h
      · dsimp only at h
        have hk1 : Keeps st (flexbuf_addstr
            (blobText label.name (OutputBlobLines op.data op.relocs).1)
            (flexbuf_addstr "\n" (flexbuf_addstr label.name s0))) :=
          Keeps.trans (Keeps.trans (Keeps.trans h0 (Keeps_addstr _ _)) (Keeps_addstr _ _))
            (Keeps_addstr _ _)
        generalize (flexbuf_addstr
            (blobText label.name (OutputBlobLines op.data op.relocs).1)
            (flexbuf_addstr "\n" (flexbuf_addstr label.name s0))) = s1 at h hk1
        split at h <;> cases h
        all_goals exact hk1

theorem Keeps.addstr {a b : AsmState} (s : String) (h : Keeps a b) :
    Keeps a (flexbuf_addstr s b) := Keeps.trans h (Keeps_addstr _ _)

theorem Keeps.error {a b : AsmState} (s : String) (h : Keeps a b) :
    Keeps a (ERROR s b) := Keeps.trans h (Keeps_ERROR _ _)

theorem Keeps.cond {a b : AsmState} (c : IRCond) (h : Keeps a b) :
    Keeps a (PrintCond c b) := Keeps.trans h (Keeps_PrintCond _ _)

theorem Keeps.operand {a b : AsmState} (o : Options) (reg : Option Operand) (h : Keeps a b) :
    Keeps a (PrintOperand o reg b) := Keeps.trans h (Keeps_PrintOperand _ _ _)

theorem Keeps.value {a b : AsmState} (o : Options) (reg : Operand) (h : Keeps a b) :
    Keeps a (PrintOperandAsValue o reg b) := Keeps.trans h (Keeps_PrintOperandAsValue _ _ _)

theorem Keeps_lmmLongJump (o : Options) (dst : Operand) (st : AsmState) :
    Keeps st (lmmLongJump o dst st) := by
  unfold lmmLongJump
  exact ((((Keeps.refl st).addstr _).addstr _).value _ _).addstr _

theorem Keeps.longJump {a b : AsmState} (o : Options) (dst : Operand) (h : Keeps a b) :
    Keeps a (lmmLongJump o dst b) := Keeps.trans h (Keeps_lmmLongJump _ _ _)

/-- The LMM switch appends text and leaves the flags as they are, whether it
returns or falls through. -/
theorem Keeps_lmmBranch (o : Options) (IsHubDest : Option Operand → Bool) (ir : IR)
    (st : AsmState) (f : Flow) (h : lmmBranch o IsHubDest ir st = some f) :
    ∃ st', (f = Flow.returned st' ∨ f = Flow.falls st') ∧ Keeps st st' := by
  have hr := Keeps.refl st
  unfold lmmBranch at h
  repeat' (first | split_ifs at h | split at h)
  all_goals try simp only [MAX_REL_JUMP_OFFSET, gt_iff_lt] at h
  all_goals try split_ifs at h
  all_goals first
    | (simp only [Option.some.injEq, reduceCtorEq] at h; done)
    | (simp only [Option.some.injEq] at h
       subst h
       refine ⟨_, Or.inl rfl, ?_⟩
       repeat' first
         | (with_reducible exact hr)
         | (with_reducible apply Keeps.addstr)
         | (with_reducible apply Keeps.error)
         | (with_reducible apply Keeps.cond)
         | (with_reducible apply Keeps.operand)
         | (with_reducible apply Keeps.value)
         | (with_reducible apply Keeps.longJump))
    | (simp only [Option.some.injEq] at h
       subst h
       exact ⟨_, Or.inr rfl, hr⟩)

/-- The final switch appends text and leaves the flags as they are, for
every opcode but OPC_HUBMODE. -/
theorem Keeps_pseudoOp (o : Options) (ir : IR) (st st' : AsmState)
    (h : pseudoOp o ir st = some st') (hh : ir.opc ≠ IROpcode.OPC_HUBMODE) : Keeps st st' := by
  have hr := Keeps.refl st
  unfold pseudoOp at h
  split at h
  all_goals first
    | (rename_i hopc; exact absurd hopc hh)
    | exact Keeps_OutputBlob _ _ _ _ _ h
    | (obtain ⟨dst, -, rfl⟩ := Option.map_eq_some'.mp h
       repeat' first
         | (with_reducible exact hr)
         | (with_reducible apply Keeps.addstr)
         | (with_reducible apply Keeps.error)
         | (with_reducible apply Keeps.operand)
         | (with_reducible apply Keeps.value))
    | (simp only [Option.some.injEq] at h
       subst h
       repeat' first
         | (with_reducible exact hr)
         | (with_reducible apply Keeps.addstr)
         | (with_reducible apply Keeps.error)
         | (with_reducible apply Keeps.operand))
    | (split at h
       all_goals first
         | (simp only [reduceCtorEq] at h; done)
         | (simp only [Option.some.injEq] at h
            subst h
            repeat' first
              | (with_reducible exact hr)
              | (with_reducible apply Keeps.addstr)
              | (with_reducible apply Keeps.error)
              | (with_reducible apply Keeps.operand)
              | (with_reducible apply Keeps.value)
              | split))

/-- The final switch on an OPC_HUBMODE sets the LMM flag; it writes the
`orgh` line of the newer ISA or of compressed code, and leaves the section
flags as they are. -/
theorem pseudoOp_hubmode (o : Options) (ir : IR) (st : AsmState)
    (hh : ir.opc = IROpcode.OPC_HUBMODE) :
    ∃ st', pseudoOp o ir st = some st' ∧ st'.lmmMode = true ∧
      Keeps st { st' with lmmMode := st.lmmMode } := by
  simp only [pseudoOp, hh]
  refine ⟨_, rfl, rfl, ?_⟩
  dsimp only
  split_ifs
  · exact ⟨⟨_, rfl⟩, rfl, rfl, rfl, rfl, rfl⟩
  · exact ⟨⟨_, rfl⟩, rfl, rfl, rfl, rfl, rfl⟩
  · exact ⟨⟨"", by simp⟩, rfl, rfl, rfl, rfl, rfl⟩

theorem EmitSpinMethods_fb (o : Options) (P : Option Module) (st : AsmState) :
    (EmitSpinMethods o P st).fb = st.fb ++ (EmitSpinMethods o P { st with fb := "" }).fb := by
  unfold EmitSpinMethods
  cases P with
  | none => simp
  | some P =>
    by_cases h : o.gl_output = OutputKind.OUTPUT_COGSPIN <;> by_cases h2 : o.gl_p2 <;>
      simp [h, h2, flexbuf_addstr, String.append_assoc, -String.reduceAppend]

/-- What the block `if (!inDat)` does when the flag is clear: the Spin
methods once, the `DAT` header, the automatic `org 0` when `didOrg` is
clear; the section flags are set to the DAT section. -/
theorem enterDat_header (o : Options) (P : Option Module) (st : AsmState)
    (h : st.inDat = false) :
    (enterDat o P st).fb = st.fb ++
      ((if ¬ st.didPub ∧ P.isSome then (EmitSpinMethods o P { st with fb := "" }).fb else "") ++
        "DAT\n" ++ (if st.didOrg then "" else "\torg\t0\n")) ∧
    (enterDat o P st).inDat = true ∧ (enterDat o P st).inCon = false ∧
    (enterDat o P st).didOrg = true ∧ (enterDat o P st).lmmMode = st.lmmMode := by
  obtain ⟨-, -, -, hl, -, -, ho⟩ := EmitSpinMethods_statics o P st
  have hfb := EmitSpinMethods_fb o P st
  unfold enterDat
  by_cases h2 : st.didPub = true <;> by_cases h3 : st.didOrg = true <;> rcases P with _ | P <;>
    simp [h, h2, h3, flexbuf_addstr, hl, ho, hfb, String.append_assoc, -String.reduceAppend]

/-- The three ways through `DoAssembleIR`: the opcodes without a section,
the OPC_CONST case after its header, and the rest after the block
`if (!inDat)`. -/
theorem DoAssembleIR_cases (o : Options) (IsHubDest : Option Operand → Bool) (ir : IR)
    (P : Option Module) (st st' : AsmState) (h : DoAssembleIR o IsHubDest ir P st = some st') :
    (noSection ir.opc = true ∧ Keeps st st') ∨
    (noSection ir.opc = false ∧ ir.opc = IROpcode.OPC_CONST ∧
      Keeps (if ¬ st.inCon then { flexbuf_addstr "CON\n" st with inCon := true, inDat := false }
        else st) st') ∨
    (noSection ir.opc = false ∧ ir.opc ≠ IROpcode.OPC_CONST ∧
      ¬ (ir.opc = IROpcode.OPC_HUBMODE ∧ ir.instr = none) ∧ Keeps (enterDat o P st) st') ∨
    (noSection ir.opc = false ∧ ir.opc ≠ IROpcode.OPC_CONST ∧
      ir.opc = IROpcode.OPC_HUBMODE ∧ ir.instr = none ∧ st'.lmmMode = true ∧
      Keeps (enterDat o P st) { st' with lmmMode := (enterDat o P st).lmmMode }) := by
  unfold DoAssembleIR at h
  by_cases c1 : ir.opc = IROpcode.OPC_COMMENT
  · rw [if_pos c1] at h
    refine Or.inl ⟨by simp [noSection, c1], ?_⟩
    split at h
    · simp at h
    · split_ifs at h
      · cases h; exact Keeps_ERROR _ _
      · cases h
        exact (((Keeps.refl st).addstr _).addstr _).addstr _
  rw [if_neg c1] at h
  by_cases c2 : ir.opc = IROpcode.OPC_DUMMY
  · rw [if_pos c2] at h
    cases h
    exact Or.inl ⟨by simp [noSection, c2], Keeps.refl _⟩
  rw [if_neg c2] at h
  by_cases c3 : ir.opc = IROpcode.OPC_REPEAT_END
  · rw [if_pos c3] at h
    cases h
    exact Or.inl ⟨by simp [noSection, c3], Keeps.refl _⟩
  rw [if_neg c3] at h
  have hns : noSection ir.opc = false := by simp [noSection, c1, c2, c3]
  by_cases c4 : ir.opc = IROpcode.OPC_CONST
  · rw [if_pos c4] at h
    refine Or.inr (Or.inl ⟨hns, c4, ?_⟩)
    dsimp only at h
    generalize (if ¬ st.inCon = true then
      { flexbuf_addstr "CON\n" st with inCon := true, inDat := false } else st) = s1 at h ⊢
    split at h
    · simp at h
    · cases h
      exact (((((Keeps.refl s1).addstr _).operand _ _).addstr _).value _ _).addstr _
  rw [if_neg c4] at h
  refine Or.inr (Or.inr ?_)
  dsimp only at h
  generalize enterDat o P st = s1 at h ⊢
  rcases hb : lmmBranch o IsHubDest ir s1 with _ | f
  · rw [hb] at h; simp at h
  · rw [hb] at h
    obtain ⟨s2, hf, hk⟩ := Keeps_lmmBranch o IsHubDest ir s1 f hb
    rcases hf with rfl | rfl
    · dsimp only at h
      cases h
      have hnh : ¬ (ir.opc = IROpcode.OPC_HUBMODE ∧ ir.instr = none) := by
        rintro ⟨hh, -⟩
        simp [lmmBranch, hh] at hb
      exact Or.inl ⟨hns, c4, hnh, hk⟩
    · have e := lmmBranch_falls o IsHubDest ir s1 s2 hb
      subst e
      dsimp only at h
      rcases hi : ir.instr with _ | instr
      · rw [hi] at h
        dsimp only at h
        by_cases hh : ir.opc = IROpcode.OPC_HUBMODE
        · obtain ⟨s3, h3, hl, hk3⟩ := pseudoOp_hubmode o ir s2 hh
          rw [h3] at h
          cases h
          exact Or.inr ⟨hns, c4, hh, rfl, hl, hk3⟩
        · exact Or.inl ⟨hns, c4, fun hc => hh hc.1, Keeps_pseudoOp o ir s2 st' h hh⟩
      · rw [hi] at h
        dsimp only at h
        cases h
        exact Or.inl ⟨hns, c4, fun hc => by simp at hc, Keeps_printInstr o ir instr s2⟩

/-- One call of `DoAssembleIR` that returns: the text it appends starts with
the header it writes, the LMM flag is set by an OPC_HUBMODE without
descriptor and by nothing else, and the section flags after the call. -/
theorem DoAssembleIR_step (o : Options) (IsHubDest : Option Operand → Bool) (ir : IR)
    (P : Option Module) (st st' : AsmState) (h : DoAssembleIR o IsHubDest ir P st = some st') :
    (∃ t, st'.fb = st.fb ++ headerText o P ir st ++ t) ∧
    st'.lmmMode = (st.lmmMode || (decide (ir.opc = IROpcode.OPC_HUBMODE) && ir.instr.isNone)) ∧
    (noSection ir.opc = true →
      st'.inDat = st.inDat ∧ st'.inCon = st.inCon ∧ st'.didOrg = st.didOrg) ∧
    (ir.opc = IROpcode.OPC_CONST →
      st'.inCon = true ∧ st'.inDat = (st.inCon && st.inDat) ∧ st'.didOrg = st.didOrg) ∧
    (noSection ir.opc = false → ir.opc ≠ IROpcode.OPC_CONST →
      st'.inDat = true ∧ st'.inCon = (st.inDat && st.inCon) ∧
      st'.didOrg = (st.didOrg || !st.inDat)) := by
  have hED : (∃ t, (enterDat o P st).fb = st.fb ++
        (if st.inDat then "" else
          (if ¬ st.didPub ∧ P.isSome then (EmitSpinMethods o P { st with fb := "" }).fb else "") ++
          "DAT\n" ++ (if st.didOrg then "" else "\torg\t0\n")) ++ t) ∧
      (enterDat o P st).inDat = true ∧ (enterDat o P st).inCon = (st.inDat && st.inCon) ∧
      (enterDat o P st).didOrg = (st.didOrg || !st.inDat) ∧
      (enterDat o P st).lmmMode = st.lmmMode := by
    by_cases hd : st.inDat = true
    · rw [enterDat_of_inDat o P st hd]
      exact ⟨⟨"", by simp [hd]⟩, hd, by simp [hd], by simp [hd], rfl⟩
    · have hd' : st.inDat = false := by simpa using hd
      obtain ⟨h1, h2, h3, h4, h5⟩ := enterDat_header o P st hd'
      refine ⟨⟨"", ?_⟩, h2, ?_, ?_, h5⟩
      · rw [h1]; simp [hd']
      · rw [h3]; simp [hd']
      · rw [h4]; simp [hd']
  obtain ⟨⟨tE, hE1⟩, hE2, hE3, hE4, hE5⟩ := hED
  rcases DoAssembleIR_cases o IsHubDest ir P st st' h with
    ⟨hns, hk⟩ | ⟨hns, hc, hk⟩ | ⟨hns, hc, hnh, hk⟩ | ⟨hns, hc, hh, hi, hl, hk⟩
  · obtain ⟨⟨t, ht⟩, k1, k2, k3, k4, -⟩ := hk
    have hnc : ir.opc ≠ IROpcode.OPC_CONST := by
      intro hc; simp [noSection, hc] at hns
    have hnh : ir.opc ≠ IROpcode.OPC_HUBMODE := by
      intro hc; simp [noSection, hc] at hns
    refine ⟨⟨t, ?_⟩, ?_, fun _ => ⟨k1, k2, k3⟩, fun hc => absurd hc hnc, fun hf => ?_⟩
    · rw [ht]; simp [headerText, headerWritten, hns]
    · rw [k4]; simp [hnh]
    · rw [hns] at hf; simp at hf
  · have hnh : ir.opc ≠ IROpcode.OPC_HUBMODE := by rw [hc]; decide
    have hnsC : noSection IROpcode.OPC_CONST = false := by decide
    obtain ⟨⟨t, ht⟩, k1, k2, k3, k4, -⟩ := hk
    refine ⟨⟨t, ?_⟩, ?_, fun hf => ?_, fun _ => ?_, fun _ hn => absurd hc hn⟩
    · rw [ht]
      by_cases hi : st.inCon = true <;>
        simp [headerText, headerWritten, hnsC, hc, hi, flexbuf_addstr]
    · rw [k4]
      by_cases hi : st.inCon = true <;> simp [hnh, hi, flexbuf_addstr]
    · rw [hns] at hf; simp at hf
    · rw [k1, k2, k3]
      by_cases hi : st.inCon = true <;> simp [hi, flexbuf_addstr]
  · obtain ⟨⟨t, ht⟩, k1, k2, k3, k4, -⟩ := hk
    refine ⟨⟨tE ++ t, ?_⟩, ?_, fun hf => ?_, fun hc' => absurd hc' hc, fun _ _ => ?_⟩
    · rw [ht, hE1]
      by_cases hd : st.inDat = true <;>
        simp [headerText, headerWritten, hns, hc, hd, String.append_assoc,
          -String.reduceAppend]
    · rw [k4, hE5]
      by_cases hh : ir.opc = IROpcode.OPC_HUBMODE
      · have : ir.instr ≠ none := fun hi => hnh ⟨hh, hi⟩
        rcases hi : ir.instr with _ | i
        · exact absurd hi this
        · simp
      · simp [hh]
    · rw [hns] at hf; simp at hf
    · rw [k1, k2, k3]
      exact ⟨hE2, hE3, hE4⟩
  · obtain ⟨⟨t, ht⟩, k1, k2, k3, -, -⟩ := hk
    dsimp only at ht k1 k2 k3
    refine ⟨⟨tE ++ t, ?_⟩, ?_, fun hf => ?_, fun hc' => absurd hc' hc, fun _ _ => ?_⟩
    · rw [ht, hE1]
      by_cases hd : st.inDat = true <;>
        simp [headerText, headerWritten, hns, hc, hd, String.append_assoc,
          -String.reduceAppend]
    · rw [hl]; simp [hh, hi]
    · rw [hns] at hf; simp at hf
    · rw [k1, k2, k3]
      exact ⟨hE2, hE3, hE4⟩

/-! ### The loop of `IRAssemble` -/

/-- One round of the loop: `DoAssembleIR`, then the fixup marker, which
leaves the flags as they are. -/
theorem IRAssembleLoop_cons (o : Options) (IsHubDest : Option Operand → Bool)
    (P : Option Module) (ir : IR) (rest : List IR) (st st' : AsmState)
    (h : IRAssembleLoop o IsHubDest P (ir :: rest) st = some st') :
    ∃ s1 s2, DoAssembleIR o IsHubDest ir P st = some s1 ∧ Keeps s1 s2 ∧
      IRAssembleLoop o IsHubDest P [ir] st = some s2 ∧
      IRAssembleLoop o IsHubDest P rest s2 = some st' := by
  unfold IRAssembleLoop at h
  rcases hd : DoAssembleIR o IsHubDest ir P st with _ | s1
  · rw [hd] at h; simp at h
  · rw [hd] at h
    dsimp only at h
    refine ⟨s1, _, rfl, ?_, ?_, h⟩
    · split_ifs
      · exact ⟨⟨_, rfl⟩, rfl, rfl, rfl, rfl, rfl⟩
      · exact Keeps.refl _
      · exact Keeps.refl _
    · simp only [IRAssembleLoop, hd]

theorem IRAssembleLoop_append (o : Options) (IsHubDest : Option Operand → Bool)
    (P : Option Module) (a b : List IR) (st : AsmState) :
    IRAssembleLoop o IsHubDest P (a ++ b) st =
      (IRAssembleLoop o IsHubDest P a st).bind (IRAssembleLoop o IsHubDest P b) := by
  induction a generalizing st with
  | nil => rfl
  | cons ir rest ih =>
    simp only [List.cons_append, IRAssembleLoop]
    rcases DoAssembleIR o IsHubDest ir P st with _ | s1
    · rfl
    · exact ih _

theorem headersWritten_append (o : Options) (IsHubDest : Option Operand → Bool)
    (P : Option Module) (a b : List IR) (st st' : AsmState)
    (h : IRAssembleLoop o IsHubDest P a st = some st') :
    headersWritten o IsHubDest P (a ++ b) st =
      headersWritten o IsHubDest P a st ++ headersWritten o IsHubDest P b st' := by
  induction a generalizing st with
  | nil =>
    simp only [IRAssembleLoop, Option.some.injEq] at h
    subst h
    simp [headersWritten]
  | cons ir rest ih =>
    obtain ⟨s1, s2, -, -, h2, h3⟩ := IRAssembleLoop_cons o IsHubDest P ir rest st st' h
    rw [List.cons_append]
    simp only [headersWritten, h2]
    rw [ih s2 h3, List.append_assoc]

/-- The LMM flag after the loop has run over a list: set when it was set at
the start or an instruction of the list switched it on. -/
theorem IRAssembleLoop_lmmMode (o : Options) (IsHubDest : Option Operand → Bool)
    (P : Option Module) (l : List IR) (st st' : AsmState)
    (h : IRAssembleLoop o IsHubDest P l st = some st') :
    st'.lmmMode = (st.lmmMode || l.any setsLmm) := by
  induction l generalizing st with
  | nil =>
    simp only [IRAssembleLoop, Option.some.injEq] at h
    subst h
    simp
  | cons ir rest ih =>
    obtain ⟨s1, s2, h1, hk, -, h3⟩ := IRAssembleLoop_cons o IsHubDest P ir rest st st' h
    rw [ih s2 h3, hk.2.2.2.2.1, (DoAssembleIR_step o IsHubDest ir P st s1 h1).2.1]
    simp [setsLmm, Bool.or_assoc]

/-- The section invariant is kept by every round of the loop. -/
theorem SectionInv_loop (o : Options) (IsHubDest : Option Operand → Bool)
    (P : Option Module) (l : List IR) (st st' : AsmState) (hs : List SectionHeader)
    (hinv : SectionInv st hs) (h : IRAssembleLoop o IsHubDest P l st = some st') :
    SectionInv st' (hs ++ headersWritten o IsHubDest P l st) := by
  induction l generalizing st hs with
  | nil =>
    simp only [IRAssembleLoop, Option.some.injEq] at h
    subst h
    simpa [headersWritten] using hinv
  | cons ir rest ih =>
    obtain ⟨s1, s2, h1, hk, h2, h3⟩ := IRAssembleLoop_cons o IsHubDest P ir rest st st' h
    obtain ⟨-, -, hA, hB, hC⟩ := DoAssembleIR_step o IsHubDest ir P st s1 h1
    obtain ⟨-, kD, kC, kO, -, -⟩ := hk
    obtain ⟨i1, i2, i3⟩ := hinv
    have hstep : SectionInv s2 (hs ++ (headerWritten ir st).toList) := by
      unfold SectionInv
      rw [kD, kC, kO]
      by_cases hns : noSection ir.opc = true
      · obtain ⟨a1, a2, a3⟩ := hA hns
        rw [a1, a2, a3]
        simp only [headerWritten, hns, if_true, Option.toList_none, List.append_nil]
        exact ⟨i1, i2, i3⟩
      · have hns' : noSection ir.opc = false := by simpa using hns
        have hnsC : noSection IROpcode.OPC_CONST = false := by decide
        by_cases hc : ir.opc = IROpcode.OPC_CONST
        · obtain ⟨a1, a2, a3⟩ := hB hc
          rw [a1, a2, a3]
          by_cases hi : st.inCon = true
          · have hd : st.inDat = false := by
              rcases hdd : st.inDat with _ | _
              · rfl
              · exact absurd ⟨hi, hdd⟩ i2
            simp only [headerWritten, hnsC, hc, hi, hd, if_true, Option.toList_none,
              List.append_nil, Bool.false_eq_true, if_false, Bool.and_false, and_false,
              not_false_eq_true, true_and]
            rw [hi] at i1
            simp only [if_true] at i1
            exact ⟨i1, i3⟩
          · have hi' : st.inCon = false := by simpa using hi
            simp [headerWritten, hnsC, hc, hi', i3]
        · obtain ⟨a1, a2, a3⟩ := hC hns' hc
          rw [a1, a2, a3]
          by_cases hd : st.inDat = true
          · have hi : st.inCon = false := by
              rcases hii : st.inCon with _ | _
              · rfl
              · exact absurd ⟨hii, hd⟩ i2
            rw [hi, hd] at i1
            simp only [Bool.false_eq_true, if_false, if_true] at i1
            simp [headerWritten, hns', hc, hd, hi, i1, i3]
          · have hd' : st.inDat = false := by simpa using hd
            simp [headerWritten, hns', hc, hd']
    have := ih s2 (hs ++ (headerWritten ir st).toList) hstep h3
    simpa only [headersWritten, h2, List.append_assoc] using this

theorem SectionInv_init (o : Options) (g : AsmState) : SectionInv (IRAssembleInit o g) [] := by
  by_cases h : o.gl_p2 = true ∧ o.gl_output ≠ OutputKind.OUTPUT_COGSPIN <;>
    simp [SectionInv, IRAssembleInit, h]

theorem IRAssembleInit_lmmMode (o : Options) (g : AsmState) :
    (IRAssembleInit o g).lmmMode = false := by
  unfold IRAssembleInit
  split_ifs <;> rfl

/-- The loop of `IRAssemble` starts from `IRAssembleInit`. -/
theorem IRAssemble_loop (o : Options) (IsHubDest : Option Operand → Bool) (list : List IR)
    (P : Option Module) (g : AsmState) :
    IRAssemble o IsHubDest list P g =
      match IRAssembleLoop o IsHubDest P list (IRAssembleInit o g) with
      | none => none
      | some st =>
        if o.gl_output = OutputKind.OUTPUT_COGSPIN then
          let st := flexbuf_addstr "__fixup_ptr\n\tlong\t" st
          if st.fixup_number > 0 then
            some (flexbuf_addstr ("@__fixup_" ++ fmtD st.fixup_number ++ " - 4\n") st)
          else some (flexbuf_addstr "0\n" st)
        else some st := rfl

/-! ### C31: the section state -/

theorem headersWritten_single (o : Options) (IsHubDest : Option Operand → Bool)
    (P : Option Module) (ir : IR) (st : AsmState) :
    headersWritten o IsHubDest P [ir] st = (headerWritten ir st).toList := by
  simp only [headersWritten]
  rcases IRAssembleLoop o IsHubDest P [ir] st with _ | s <;> simp

/-- C31: in one run of `IRAssemble`, in the state `st` in which an
instruction `ir` is assembled (after any part `pre` of the list): `inCon` and
`inDat` are not both set; when `ir` is an OPC_CONST the most recent header
written, the one of `ir` included, is `CON`, and for every other opcode with
a section (all but COMMENT, DUMMY, REPEAT_END) it is `DAT`; the text of `ir`
starts with the header it writes; and a `DAT` header is followed by the
automatic `org 0` (`didOrg` clear) exactly when no `DAT` header was written
before, hence at most once and directly after the first `DAT`. -/
theorem section_state (o : Options) (IsHubDest : Option Operand → Bool) (P : Option Module)
    (g : AsmState) (pre : List IR) (ir : IR) (st : AsmState)
    (h : IRAssembleLoop o IsHubDest P pre (IRAssembleInit o g) = some st) :
    ¬ (st.inCon = true ∧ st.inDat = true) ∧
    (ir.opc = IROpcode.OPC_CONST →
      (headersWritten o IsHubDest P (pre ++ [ir]) (IRAssembleInit o g)).getLast? =
        some SectionHeader.CON) ∧
    (noSection ir.opc = false → ir.opc ≠ IROpcode.OPC_CONST →
      (headersWritten o IsHubDest P (pre ++ [ir]) (IRAssembleInit o g)).getLast? =
        some SectionHeader.DAT) ∧
    (∀ st', DoAssembleIR o IsHubDest ir P st = some st' →
      ∃ t, st'.fb = st.fb ++ headerText o P ir st ++ t) ∧
    (st.didOrg = false ↔
      SectionHeader.DAT ∉ headersWritten o IsHubDest P pre (IRAssembleInit o g)) := by
  have hinv := SectionInv_loop o IsHubDest P pre _ st [] (SectionInv_init o g) h
  rw [List.nil_append] at hinv
  obtain ⟨i1, i2, i3⟩ := hinv
  rw [headersWritten_append o IsHubDest P pre [ir] _ st h, headersWritten_single]
  have hnsC : noSection IROpcode.OPC_CONST = false := by decide
  refine ⟨i2, fun hc => ?_, fun hns hc => ?_,
    fun st' h' => (DoAssembleIR_step o IsHubDest ir P st st' h').1, ?_⟩
  · by_cases hi : st.inCon = true
    · rw [hi] at i1
      simp only [if_true] at i1
      simp [headerWritten, hnsC, hc, hi, i1]
    · have hi' : st.inCon = false := by simpa using hi
      simp [headerWritten, hnsC, hc, hi']
  · by_cases hd : st.inDat = true
    · have hi : st.inCon = false := by
        rcases hii : st.inCon with _ | _
        · rfl
        · exact absurd ⟨hii, hd⟩ i2
      rw [hi, hd] at i1
      simp only [Bool.false_eq_true, if_false, if_true] at i1
      simp [headerWritten, hns, hc, hd, i1]
    · have hd' : st.inDat = false := by simpa using hd
      simp [headerWritten, hns, hc, hd']
  · rw [← i3]
    simp

/-- Witness of C31: the instruction `mov x, #1 wz` after the constant
declaration `x = 1`. -/
theorem section_state_witness :
    ¬ (({ fb := "CON\n\tx = 1\n", inCon := true } : AsmState).inCon = true ∧
        ({ fb := "CON\n\tx = 1\n", inCon := true } : AsmState).inDat = true) ∧
    (exMovWz.opc = IROpcode.OPC_CONST →
      (headersWritten {} exIsHubDest none ([exConst] ++ [exMovWz]) (IRAssembleInit {} {})).getLast? =
        some SectionHeader.CON) ∧
    (noSection exMovWz.opc = false → exMovWz.opc ≠ IROpcode.OPC_CONST →
      (headersWritten {} exIsHubDest none ([exConst] ++ [exMovWz]) (IRAssembleInit {} {})).getLast? =
        some SectionHeader.DAT) ∧
    (∀ st', DoAssembleIR {} exIsHubDest exMovWz none { fb := "CON\n\tx = 1\n", inCon := true } =
        some st' →
      ∃ t, st'.fb = ({ fb := "CON\n\tx = 1\n", inCon := true } : AsmState).fb ++
        headerText {} none exMovWz { fb := "CON\n\tx = 1\n", inCon := true } ++ t) ∧
    (({ fb := "CON\n\tx = 1\n", inCon := true } : AsmState).didOrg = false ↔
      SectionHeader.DAT ∉ headersWritten {} exIsHubDest none [exConst] (IRAssembleInit {} {})) :=
  section_state {} exIsHubDest none {} [exConst] exMovWz { fb := "CON\n\tx = 1\n", inCon := true }
    (by decide)

/-- A run that goes from constants to code and back twice: the headers
alternate, and `org 0` stands once, after the first `DAT`. -/
theorem section_example :
    headersWritten {} exIsHubDest none [exConst, exMovWz, exConst, exRet] (IRAssembleInit {} {}) =
      [SectionHeader.CON, SectionHeader.DAT, SectionHeader.CON, SectionHeader.DAT] ∧
    (IRAssemble {} exIsHubDest [exConst, exMovWz, exConst, exRet] none {}).map (fun s => s.fb) =
      some "CON\n\tx = 1\nDAT\n\torg\t0\n\tmov\tx, #1 wz\nCON\n\tx = 1\nDAT\n\tret\n" := by
  decide

/-! ### C37: LMM mode -/

/-- The `jmp #LMM_RET` line of an OPC_RET in LMM mode, on the older ISA
without compressed code and outside fcache. -/
theorem ret_in_lmm (o : Options) (IsHubDest : Option Operand → Bool) (ir : IR)
    (P : Option Module) (st : AsmState)
    (hp2 : o.gl_p2 = false) (hc : o.gl_compressed = false)
    (hopc : ir.opc = IROpcode.OPC_RET) (hf : ir.fcache = none) (hl : st.lmmMode = true) :
    DoAssembleIR o IsHubDest ir P st =
      some (flexbuf_addstr "jmp\t#LMM_RET\n" (PrintCond ir.cond (enterDat o P st))) := by
  have hl' : (enterDat o P st).lmmMode = true := by
    rw [(enterDat_statics o P st).2.2.2.1, hl]
  simp [DoAssembleIR, hopc, lmmBranch, hc, hp2, hf, hl']

/-- Counterexample to C37: with compressed code on the older ISA, the
OPC_RET that follows the OPC_HUBMODE is written as the placeholder
`long $FFFF`, not as `jmp #LMM_RET`, although LMM mode is on. -/
theorem compressed_ret_placeholder :
    exCompressed.gl_p2 = false ∧ exRet.fcache = none ∧
    IRAssemble exCompressed exIsHubDest [exHubmode, exRet] none {} =
      some { fb := "DAT\n\torg\t0\n\torgh\n\tlong\t$FFFF\n", inDat := true, didOrg := true,
             lmmMode := true } := by
  decide

/-- C37 (amended): in one run of `IRAssemble`, in the state in which an
instruction is assembled after the part `pre` of the list, LMM mode is on
exactly when `pre` holds an OPC_HUBMODE (an IR without descriptor): off
before the first one, on after it whatever follows; and then, on the older
ISA without compressed code, an OPC_RET outside fcache is written as
`jmp #LMM_RET` under its predicate. -/
theorem lmm_mode_latched (o : Options) (IsHubDest : Option Operand → Bool) (P : Option Module)
    (g : AsmState) (pre : List IR) (ir : IR) (st : AsmState)
    (h : IRAssembleLoop o IsHubDest P pre (IRAssembleInit o g) = some st) :
    st.lmmMode = pre.any setsLmm ∧
    (o.gl_p2 = false → o.gl_compressed = false → pre.any setsLmm = true →
      ir.opc = IROpcode.OPC_RET → ir.fcache = none →
      ∃ st', DoAssembleIR o IsHubDest ir P st = some st' ∧
        st'.fb = (enterDat o P st).fb ++ (condText ir.cond ++ "jmp\t#LMM_RET\n") ∧
        st'.lmmMode = true) := by
  have hl := IRAssembleLoop_lmmMode o IsHubDest P pre _ st h
  rw [IRAssembleInit_lmmMode, Bool.false_or] at hl
  refine ⟨hl, fun hp2 hc hany hopc hf => ?_⟩
  have hl' : st.lmmMode = true := by rw [hl, hany]
  refine ⟨_, ret_in_lmm o IsHubDest ir P st hp2 hc hopc hf hl', ?_, ?_⟩
  · simp only [flexbuf_addstr, PrintCond_fb, String.append_assoc]
  · simp only [flexbuf_addstr, PrintCond]
    rw [(enterDat_statics o P st).2.2.2.1, hl']

/-- Witness of C37 (amended): a `ret` after a constant and an OPC_HUBMODE. -/
theorem lmm_mode_latched_witness :
    ({ fb := "CON\n\tx = 1\nDAT\n\torg\t0\n", inDat := true, didOrg := true, lmmMode := true } :
        AsmState).lmmMode = [exConst, exHubmode].any setsLmm ∧
    (({} : Options).gl_p2 = false → ({} : Options).gl_compressed = false →
      [exConst, exHubmode].any setsLmm = true →
      exRet.opc = IROpcode.OPC_RET → exRet.fcache = none →
      ∃ st', DoAssembleIR {} exIsHubDest exRet none
          { fb := "CON\n\tx = 1\nDAT\n\torg\t0\n", inDat := true, didOrg := true,
            lmmMode := true } = some st' ∧
        st'.fb = (enterDat {} none
          { fb := "CON\n\tx = 1\nDAT\n\torg\t0\n", inDat := true, didOrg := true,
            lmmMode := true }).fb ++ (condText exRet.cond ++ "jmp\t#LMM_RET\n") ∧
        st'.lmmMode = true) :=
  lmm_mode_latched {} exIsHubDest none {} [exConst, exHubmode] exRet
    { fb := "CON\n\tx = 1\nDAT\n\torg\t0\n", inDat := true, didOrg := true, lmmMode := true }
    (by decide)

/-- An OPC_ORG after the OPC_HUBMODE does not switch LMM mode off: the
return that follows is still `jmp #LMM_RET`. -/
theorem lmm_after_org_example :
    (IRAssemble {} exIsHubDest
        [exHubmode, { opc := IROpcode.OPC_ORG, dst := some exSmallImm }, exRet] none {}).map
      (fun s => (s.fb, s.lmmMode)) =
      some ("DAT\n\torg\t0\n\torg\t496\n\tjmp\t#LMM_RET\n", true) := by
  decide

/-! ### C33: pruning the methods of a module -/

theorem IsChain_congr (next next' : Nat → Option Nat) (h : Option Nat) (l : List Nat)
    (hc : ∀ x ∈ l, next' x = next x) : IsChain next h l → IsChain next' h l := by
  induction l generalizing h with
  | nil => exact id
  | cons p ps ih =>
    rintro ⟨h1, h2⟩
    refine ⟨h1, ?_⟩
    rw [hc p (List.mem_cons_self _ _)]
    exact ih _ (fun x hx => hc x (List.mem_cons_of_mem _ hx)) h2

theorem IsChain_unique (next : Nat → Option Nat) (h : Option Nat) (l1 l2 : List Nat)
    (h1 : IsChain next h l1) (h2 : IsChain next h l2) : l1 = l2 := by
  induction l1 generalizing h l2 with
  | nil =>
    rcases l2 with _ | ⟨q, qs⟩
    · rfl
    · simp only [IsChain] at h1 h2
      rw [h1] at h2
      exact absurd h2.1 (by simp)
  | cons p ps ih =>
    rcases l2 with _ | ⟨q, qs⟩
    · simp only [IsChain] at h1 h2
      rw [h2] at h1
      exact absurd h1.1 (by simp)
    · obtain ⟨a1, a2⟩ := h1
      obtain ⟨b1, b2⟩ := h2
      rw [a1] at b1
      obtain rfl : p = q := Option.some.inj b1
      rw [ih _ _ a2 b2]

theorem IsChain_suffix (next : Nat → Option Nat) (h : Option Nat) (a : List Nat) (p : Nat)
    (b : List Nat) (hc : IsChain next h (a ++ p :: b)) : IsChain next (next p) b := by
  induction a generalizing h with
  | nil => exact hc.2
  | cons x xs ih => exact ih _ hc.2

/-- A list in memory that ends visits no node twice. -/
theorem IsChain_nodup (next : Nat → Option Nat) (h : Option Nat) (l : List Nat)
    (hc : IsChain next h l) : l.Nodup := by
  induction l generalizing h with
  | nil => exact List.nodup_nil
  | cons p ps ih =>
    refine List.nodup_cons.mpr ⟨fun hp => ?_, ih _ hc.2⟩
    obtain ⟨a, b, hab⟩ := List.append_of_mem hp
    have h1 : IsChain next (next p) b := by
      have := hc.2
      rw [hab] at this
      exact IsChain_suffix next _ a p b this
    have h2 := IsChain_unique next _ _ _ hc.2 h1
    have : ps.length = b.length := by rw [h2]
    rw [hab] at this
    simp at this
    omega

theorem chain_of_IsChain (next : Nat → Option Nat) (h : Option Nat) (l : List Nat) (fuel : Nat)
    (hc : IsChain next h l) (hf : l.length ≤ fuel) : chain next fuel h = some l := by
  induction l generalizing h fuel with
  | nil =>
    simp only [IsChain] at hc
    subst hc
    cases fuel <;> rfl
  | cons p ps ih =>
    obtain ⟨h1, h2⟩ := hc
    subst h1
    rcases fuel with _ | fuel
    · simp at hf
    · simp only [chain, ih _ fuel h2 (by simpa using hf), Option.map_some']

/-- The loop of `doPruneMethods` from any cell `oldptr`, with the functions
`l` still to visit: it ends within the bound, the list from the cell is `l`
filtered, and only the cell and the `next` fields of `l` are written. -/
theorem pruneLoop_spec (callSites : Nat → Int) (l : List Nat) :
    ∀ (fuel : Nat) (head : Option Nat) (fnext : Nat → Option Nat) (slot : FuncSlot),
      IsChain fnext (match slot with
        | FuncSlot.functions => head
        | FuncSlot.next q => fnext q) l →
      l.length < fuel → (∀ q, slot = FuncSlot.next q → q ∉ l) →
      ∃ head' fnext', pruneLoop callSites fuel head fnext slot = some (head', fnext') ∧
        IsChain fnext' (match slot with
          | FuncSlot.functions => head'
          | FuncSlot.next q => fnext' q) (l.filter (fun f => decide (callSites f ≠ 0))) ∧
        (slot ≠ FuncSlot.functions → head' = head) ∧
        (∀ x, x ∉ l → (∀ q, slot = FuncSlot.next q → x ≠ q) → fnext' x = fnext x) := by
  induction l with
  | nil =>
    intro fuel head fnext slot hc hf hq
    rcases fuel with _ | fuel
    · simp at hf
    · simp only [IsChain] at hc
      refine ⟨head, fnext, ?_, ?_, fun _ => rfl, fun _ _ _ => rfl⟩
      · simp only [pruneLoop, hc]
      · simpa [IsChain] using hc
  | cons p ps ih =>
    intro fuel head fnext slot hc hf hq
    have hnd := IsChain_nodup _ _ _ hc
    obtain ⟨hp, hnd'⟩ := List.nodup_cons.mp hnd
    rcases fuel with _ | fuel
    · simp at hf
    · have hf' : ps.length < fuel := by simpa using hf
      obtain ⟨h1, h2⟩ := hc
      by_cases hcs : callSites p = 0
      · -- remove this function
        rcases slot with _ | q
        · dsimp only at h1
          obtain ⟨head', fnext', e1, e2, -, e4⟩ :=
            ih fuel (fnext p) fnext FuncSlot.functions h2 hf' (fun q hq' => by cases hq')
          refine ⟨head', fnext', ?_, ?_, fun hn => absurd rfl hn, fun x hx _ => ?_⟩
          · simp only [pruneLoop, h1, hcs, if_true, e1]
          · simpa [List.filter, hcs] using e2
          · exact e4 x (fun hx' => hx (List.mem_cons_of_mem _ hx')) (fun q hq' => by cases hq')
        · dsimp only at h1
          have hqn : q ∉ p :: ps := hq q rfl
          have hqps : q ∉ ps := fun h => hqn (List.mem_cons_of_mem _ h)
          have hc' : IsChain (Function.update fnext q (fnext p))
              (Function.update fnext q (fnext p) q) ps := by
            rw [Function.update_same]
            refine IsChain_congr fnext _ _ _ (fun x hx => ?_) h2
            rw [Function.update_noteq]
            rintro rfl
            exact hqps hx
          obtain ⟨head', fnext', e1, e2, e3, e4⟩ :=
            ih fuel head (Function.update fnext q (fnext p)) (FuncSlot.next q) hc' hf'
              (fun q' hq' => by cases hq'; exact hqps)
          refine ⟨head', fnext', ?_, ?_, fun _ => e3 (by simp), fun x hx hxq => ?_⟩
          · simp only [pruneLoop, h1, hcs, if_true, e1]
          · simpa [List.filter, hcs] using e2
          · rw [e4 x (fun hx' => hx (List.mem_cons_of_mem _ hx')) hxq,
              Function.update_noteq (hxq q rfl)]
      · obtain ⟨head', fnext', e1, e2, e3, e4⟩ :=
          ih fuel head fnext (FuncSlot.next p) h2 hf' (fun q' hq' => by cases hq'; exact hp)
        have hhead : head' = head := e3 (by simp)
        refine ⟨head', fnext', ?_, ?_, fun _ => hhead, fun x hx hxq => ?_⟩
        · rcases slot with _ | q
          · dsimp only at h1
            simp only [pruneLoop, h1, hcs, if_false]
            rw [← h1, e1]
          · dsimp only at h1
            simp only [pruneLoop, h1, hcs, if_false, e1]
        · have hk : List.filter (fun f => decide (callSites f ≠ 0)) (p :: ps) =
              p :: List.filter (fun f => decide (callSites f ≠ 0)) ps := by
            simp [List.filter, hcs]
          rw [hk]
          refine ⟨?_, e2⟩
          rcases slot with _ | q
          · dsimp only at h1 ⊢
            rw [hhead, h1]
          · dsimp only at h1 ⊢
            have hqn : q ∉ p :: ps := hq q rfl
            rw [e4 q (fun h => hqn (List.mem_cons_of_mem _ h))
              (fun q' hq' => by
                cases hq'
                rintro rfl
                exact hqn (List.mem_cons_self _ _)), h1]
        · exact e4 x (fun hx' => hx (List.mem_cons_of_mem _ hx'))
            (fun q' hq' => by
              cases hq'
              rintro rfl
              exact hx (List.mem_cons_self _ _))

/-- C33: for a module `P` whose functions are the list `fs` in memory,
`doPruneMethods` (with a bound above the length of the list) returns, and
leaves as the list of `P->functions` the functions of `fs` whose `callSites`
is not zero, in the same order; the call counts, the functions outside the
list and the other modules are untouched. -/
theorem prune_is_filter (fuel : Nat) (S : Program) (P : Nat) (fs : List Nat)
    (h : IsChain S.fnext (S.functions P) fs) (hf : fs.length < fuel) :
    ∃ S', doPruneMethods fuel S P = some S' ∧
      IsChain S'.fnext (S'.functions P) (fs.filter (fun f => decide (S.callSites f ≠ 0))) ∧
      S'.callSites = S.callSites ∧
      (∀ x, x ∉ fs → S'.fnext x = S.fnext x) ∧
      (∀ Q, Q ≠ P → S'.functions Q = S.functions Q) ∧
      S'.allparse = S.allparse ∧ S'.mnext = S.mnext := by
  obtain ⟨head', fnext', e1, e2, -, e4⟩ :=
    pruneLoop_spec S.callSites fs fuel (S.functions P) S.fnext FuncSlot.functions h hf
      (fun q hq => by cases hq)
  refine ⟨{ S with functions := Function.update S.functions P head', fnext := fnext' },
    by simp only [doPruneMethods, e1, Option.map_some'], ?_, rfl, ?_, ?_, rfl, rfl⟩
  · dsimp only at e2 ⊢
    rw [Function.update_same]
    exact e2
  · intro x hx
    exact e4 x hx (fun q hq => by cases hq)
  · intro Q hQ
    dsimp only
    rw [Function.update_noteq hQ]

theorem exPruneProgram_chain :
    IsChain exPruneProgram.fnext (exPruneProgram.functions 0) [10, 11, 12] := by
  simp [IsChain, exPruneProgram]

theorem prune_is_filter_witness :
    ∃ S', doPruneMethods 4 exPruneProgram 0 = some S' ∧
      IsChain S'.fnext (S'.functions 0)
        ([10, 11, 12].filter (fun f => decide (exPruneProgram.callSites f ≠ 0))) ∧
      S'.callSites = exPruneProgram.callSites ∧
      (∀ x, x ∉ [10, 11, 12] → S'.fnext x = exPruneProgram.fnext x) ∧
      (∀ Q, Q ≠ 0 → S'.functions Q = exPruneProgram.functions Q) ∧
      S'.allparse = exPruneProgram.allparse ∧ S'.mnext = exPruneProgram.mnext :=
  prune_is_filter 4 exPruneProgram 0 [10, 11, 12] exPruneProgram_chain (by decide)

/-- The witness evaluated: the functions 10 and 12 remain. -/
theorem prune_example :
    (doPruneMethods 4 exPruneProgram 0).bind (fun S => chain S.fnext 4 (S.functions 0)) =
      some [10, 12] := by
  decide

/-! ### C32: empty modules -/

/-- C32: with the module list 0, 1, 2 in which module 0 has a DAT block and
the adjacent modules 1 and 2 are empty, `RemoveUnusedMethods` leaves the list
0, 2: module 1 is unlinked, module 2 stays in the list although it is empty,
because `LastP` is then module 1, which is no longer in the list. -/
theorem adjacent_empty_module_kept :
    isEmptyModule exEmptyModules 1 = true ∧ isEmptyModule exEmptyModules 2 = true ∧
    (RemoveUnusedMethods exMarkUsed 4 false exEmptyModules).map
      (fun S => (chain S.mnext 4 S.allparse, isEmptyModule S 2)) = some (some [0, 2], true) ∧
    (RemoveUnusedMethods exMarkUsed 4 true exEmptyModules).map
      (fun S => (chain S.mnext 4 S.allparse, isEmptyModule S 2)) = some (some [0, 2], true) := by
  decide

/-- The last loop of `RemoveUnusedMethods` from a module `cur` with the
modules `rest` still to visit, when `c` is the cell that links the list kept
so far to `cur`: it ends within the bound and the list from `c` is
`keptModules` of `rest`. -/
theorem removeEmptyLoop_spec (rest : List Nat) :
    ∀ (fuel : Nat) (S : Program) (LastP : Option Nat) (c : ModSlot) (prevOut : Bool),
      IsChain S.mnext (c.read S) rest → rest.length < fuel →
      (∀ q, c = ModSlot.next q → q ∉ rest) →
      (prevOut = false → c = match LastP with
        | some L => ModSlot.next L
        | none => ModSlot.allparse) →
      (prevOut = true → ∃ D, LastP = some D ∧ D ∉ rest ∧ c ≠ ModSlot.next D) →
      ∃ S', removeEmptyLoop fuel S LastP (c.read S) = some S' ∧
        IsChain S'.mnext (c.read S') (keptModules (isEmptyModule S) prevOut rest) ∧
        (∀ x, x ∉ rest → c ≠ ModSlot.next x → LastP ≠ some x → S'.mnext x = S.mnext x) ∧
        (c ≠ ModSlot.allparse → S'.allparse = S.allparse) ∧
        isEmptyModule S' = isEmptyModule S := by
  induction rest with
  | nil =>
    intro fuel S LastP c prevOut hc hf hq h0 h1
    rcases fuel with _ | fuel
    · simp at hf
    · simp only [IsChain] at hc
      refine ⟨S, ?_, ?_, fun _ _ _ _ => rfl, fun _ => rfl, rfl⟩
      · rw [hc]; rfl
      · simpa [keptModules, IsChain] using hc
  | cons m ms ih =>
    intro fuel S LastP c prevOut hc hf hq h0 h1
    have hnd := IsChain_nodup _ _ _ hc
    obtain ⟨hm, -⟩ := List.nodup_cons.mp hnd
    rcases fuel with _ | fuel
    · simp at hf
    · have hf' : ms.length < fuel := by simpa using hf
      obtain ⟨hcur, htail⟩ := hc
      have hcm : c ≠ ModSlot.next m := fun h => hq m h (List.mem_cons_self _ _)
      have hcms : ∀ q, c = ModSlot.next q → q ∉ ms :=
        fun q h hh => hq q h (List.mem_cons_of_mem _ hh)
      rw [hcur]
      by_cases he : isEmptyModule S m = true
      · rcases prevOut with _ | _
        · -- the module is unlinked through the cell `c`
          have hc0 := h0 rfl
          rcases c with _ | L
          · -- `allparse = P->next`
            have hL : LastP = none := by
              rcases LastP with _ | L'
              · rfl
              · simp at hc0
            subst hL
            obtain ⟨S', e1, e2, e3, -, e5⟩ :=
              ih fuel { S with allparse := S.mnext m } (some m) ModSlot.allparse true htail hf'
                (fun q h => by cases h) (fun h => by cases h)
                (fun _ => ⟨m, rfl, hm, by simp⟩)
            dsimp only at e3
            refine ⟨S', ?_, ?_, fun x hx _ _ => ?_, fun h => absurd rfl h, ?_⟩
            · simp only [removeEmptyLoop, he, if_true]
              exact e1
            · have : isEmptyModule { S with allparse := S.mnext m } = isEmptyModule S := rfl
              rw [this] at e2
              simpa [keptModules, he] using e2
            · have := e3 x (fun h => hx (List.mem_cons_of_mem _ h)) (by simp)
                (fun h => hx (by cases h; exact List.mem_cons_self _ _))
              exact this
            · exact e5
          · have hL : LastP = some L := by
              rcases LastP with _ | L'
              · simp at hc0
              · simp only [ModSlot.next.injEq] at hc0
                rw [hc0]
            subst hL
            have hLm : L ≠ m := fun h => hcm (by rw [h])
            have hLms : L ∉ ms := hcms L rfl
            have hnext : Function.update S.mnext L (S.mnext m) m = S.mnext m :=
              Function.update_noteq (Ne.symm hLm) _ _
            have htail' : IsChain (Function.update S.mnext L (S.mnext m))
                ((ModSlot.next L).read { S with mnext := Function.update S.mnext L (S.mnext m) })
                ms := by
              simp only [ModSlot.read, Function.update_same]
              refine IsChain_congr S.mnext _ _ _ (fun x hx => ?_) htail
              rw [Function.update_noteq]
              rintro rfl
              exact hLms hx
            obtain ⟨S', e1, e2, e3, e4, e5⟩ :=
              ih fuel { S with mnext := Function.update S.mnext L (S.mnext m) } (some m)
                (ModSlot.next L) true htail' hf' hcms (fun h => by cases h)
                (fun _ => ⟨m, rfl, hm, by simpa using hLm⟩)
            dsimp only at e3 e4
            refine ⟨S', ?_, ?_, fun x hx hcx _ => ?_, fun _ => ?_, ?_⟩
            · simp only [removeEmptyLoop, he, if_true, hnext]
              simp only [ModSlot.read, Function.update_same] at e1
              exact e1
            · have : isEmptyModule { S with mnext := Function.update S.mnext L (S.mnext m) } =
                  isEmptyModule S := rfl
              rw [this] at e2
              simpa [keptModules, he] using e2
            · have := e3 x (fun h => hx (List.mem_cons_of_mem _ h)) hcx
                (fun h => hx (by cases h; exact List.mem_cons_self _ _))
              rw [this]
              exact Function.update_noteq (fun h => hcx (by rw [h])) _ _
            · exact e4 (by simp)
            · exact e5
        · -- `LastP` is a module that was taken out: the list is not changed
          obtain ⟨D, hD, hDr, hcD⟩ := h1 rfl
          subst hD
          have hDm : D ≠ m := fun h => hDr (by rw [h]; exact List.mem_cons_self _ _)
          have hDms : D ∉ ms := fun h => hDr (List.mem_cons_of_mem _ h)
          have hnext : Function.update S.mnext D (S.mnext m) m = S.mnext m :=
            Function.update_noteq (Ne.symm hDm) _ _
          have htail' : IsChain (Function.update S.mnext D (S.mnext m))
              ((ModSlot.next m).read { S with mnext := Function.update S.mnext D (S.mnext m) })
              ms := by
            simp only [ModSlot.read, hnext]
            refine IsChain_congr S.mnext _ _ _ (fun x hx => ?_) htail
            rw [Function.update_noteq]
            rintro rfl
            exact hDms hx
          obtain ⟨S', e1, e2, e3, e4, e5⟩ :=
            ih fuel { S with mnext := Function.update S.mnext D (S.mnext m) } (some m)
              (ModSlot.next m) false htail' hf' (fun q h => by cases h; exact hm)
              (fun _ => rfl) (fun h => by cases h)
          dsimp only at e3 e4
          have hread : c.read S' = some m := by
            rcases c with _ | q
            · simp only [ModSlot.read] at hcur ⊢
              rw [e4 (by simp)]
              exact hcur
            · simp only [ModSlot.read] at hcur ⊢
              have hqm : q ≠ m := fun h => hcm (by rw [h])
              rw [e3 q (hcms q rfl) (by simpa using Ne.symm hqm) (by simpa using Ne.symm hqm),
                Function.update_noteq (fun h => hcD (by rw [h]))]
              exact hcur
          refine ⟨S', ?_, ?_, fun x hx hcx hLx => ?_, fun hca => ?_, e5⟩
          · simp only [removeEmptyLoop, he, if_true, hnext]
            simp only [ModSlot.read, hnext] at e1
            exact e1
          · have : isEmptyModule { S with mnext := Function.update S.mnext D (S.mnext m) } =
                isEmptyModule S := rfl
            rw [this] at e2
            have hk : keptModules (isEmptyModule S) true (m :: ms) =
                m :: keptModules (isEmptyModule S) false ms := by
              simp [keptModules]
            rw [hk]
            exact ⟨hread, e2⟩
          · have hxm : x ≠ m := fun h => hx (by rw [h]; exact List.mem_cons_self _ _)
            rw [e3 x (fun h => hx (List.mem_cons_of_mem _ h)) (by simpa using Ne.symm hxm)
              (by simpa using Ne.symm hxm)]
            exact Function.update_noteq (fun h => hLx (by rw [h])) _ _
          · exact e4 (by simp)
      · -- the module is not empty
        have he' : isEmptyModule S m = false := by simpa using he
        obtain ⟨S', e1, e2, e3, e4, e5⟩ :=
          ih fuel S (some m) (ModSlot.next m) false htail hf' (fun q h => by cases h; exact hm)
            (fun _ => rfl) (fun h => by cases h)
        have hread : c.read S' = some m := by
          rcases c with _ | q
          · simp only [ModSlot.read] at hcur ⊢
            rw [e4 (by simp)]
            exact hcur
          · simp only [ModSlot.read] at hcur ⊢
            have hqm : q ≠ m := fun h => hcm (by rw [h])
            rw [e3 q (hcms q rfl) (by simpa using Ne.symm hqm) (by simpa using Ne.symm hqm)]
            exact hcur
        refine ⟨S', ?_, ?_, fun x hx _ _ => ?_, fun _ => e4 (by simp), e5⟩
        · simp only [removeEmptyLoop, he', Bool.false_eq_true, if_false]
          exact e1
        · have hk : keptModules (isEmptyModule S) prevOut (m :: ms) =
              m :: keptModules (isEmptyModule S) false ms := by
            simp [keptModules, he']
          rw [hk]
          exact ⟨hread, e2⟩
        · have hxm : x ≠ m := fun h => hx (by rw [h]; exact List.mem_cons_self _ _)
          exact e3 x (fun h => hx (List.mem_cons_of_mem _ h)) (by simpa using Ne.symm hxm)
            (by simpa using Ne.symm hxm)

/-- The last loop of `RemoveUnusedMethods` on the module list `ms`: it takes
out an empty module only when the module before it stayed in the list, so of
every run of adjacent empty modules each second one stays. -/
theorem removeEmptyLoop_kept (fuel : Nat) (S : Program) (ms : List Nat)
    (h : IsChain S.mnext S.allparse ms) (hf : ms.length < fuel) :
    ∃ S', removeEmptyLoop fuel S none S.allparse = some S' ∧
      IsChain S'.mnext S'.allparse (keptModules (isEmptyModule S) false ms) ∧
      isEmptyModule S' = isEmptyModule S := by
  obtain ⟨S', e1, e2, -, -, e5⟩ :=
    removeEmptyLoop_spec ms fuel S none ModSlot.allparse false h hf (fun q hq => by cases hq)
      (fun _ => rfl) (fun h => by cases h)
  exact ⟨S', e1, e2, e5⟩

/-- Two adjacent empty modules after a module that stayed in the list (or at
the head of the list): the first is taken out and the second one is kept,
empty or not. -/
theorem keptModules_adjacent (empty : Nat → Bool) (a b : Nat) (rest : List Nat)
    (ha : empty a = true) :
    keptModules empty false (a :: b :: rest) = b :: keptModules empty false rest := by
  simp [keptModules, ha]

/-! ### C38: the DAT instruction word -/

/-- The alignment loop ends within three rounds and pads to a multiple of
4. -/
theorem alignLong_pad (st : DatState) :
    alignLong 4 st =
      { st with out := st.out ++ List.replicate (padCount st.datacount) 0,
                datacount := st.datacount + padCount st.datacount } ∧
    (st.datacount + padCount st.datacount) % 4 = 0 := by
  rcases st with ⟨out, dc, errs⟩
  have h4 : dc % 4 < 4 := Nat.mod_lt _ (by norm_num)
  refine ⟨?_, by unfold padCount; dsimp only; omega⟩
  rcases hr : dc % 4 with _ | _ | _ | _ | n
  · simp [alignLong, padCount, hr]
  · have e1 : (dc + 1) % 4 = 2 := by omega
    have e2 : (dc + 1 + 1) % 4 = 3 := by omega
    have e3 : (dc + 1 + 1 + 1) % 4 = 0 := by omega
    simp [alignLong, outputByte, padCount, hr, e1, e2, e3, List.replicate, Nat.add_assoc]
  · have e1 : (dc + 1) % 4 = 3 := by omega
    have e2 : (dc + 1 + 1) % 4 = 0 := by omega
    simp [alignLong, outputByte, padCount, hr, e1, e2, List.replicate, Nat.add_assoc]
  · have e1 : (dc + 1) % 4 = 0 := by omega
    simp [alignLong, outputByte, padCount, hr, e1, List.replicate]
  · omega

theorem outputLong_bytes (st : DatState) (w : Nat) :
    outputLong st w =
      { st with out := st.out ++ littleEndian w, datacount := st.datacount + 4 } := by
  have hff : ∀ x : Nat, x &&& 0xff = x % 256 := fun x => Nat.and_pow_two_sub_one_eq_mod x 8
  have e1 : w >>> 8 = w / 256 := Nat.shiftRight_eq_div_pow w 8
  have e2 : (w / 256) >>> 8 = w / 65536 := by
    rw [Nat.shiftRight_eq_div_pow, Nat.div_div_eq_div_mul]
  have e3 : (w / 65536) >>> 8 = w / 16777216 := by
    rw [Nat.shiftRight_eq_div_pow, Nat.div_div_eq_div_mul]
  simp only [outputLong, outputByte, hff, e1, e2, e3, littleEndian, List.append_assoc,
    List.singleton_append, Nat.add_assoc]
  rfl

/-- The loop over the operands and modifiers writes no byte; when it runs to
its end the operands are those of the line in order, and when the function
returns from inside it an error was reported. -/
theorem scanParts_spec (IMM : Nat) (instr : DatInstruction) (parts : List InstrItem) :
    ∀ (val : Nat) (acc : List DatOperand) (st : DatState),
      (scanParts IMM instr parts val acc st).1.out = st.out ∧
      (scanParts IMM instr parts val acc st).1.datacount = st.datacount ∧
      ∃ es, (scanParts IMM instr parts val acc st).1.errors = st.errors ++ es ∧
        match (scanParts IMM instr parts val acc st).2 with
        | none => es ≠ []
        | some r => r.2 = acc ++ exprOperands parts := by
  induction parts with
  | nil =>
    intro val acc st
    exact ⟨rfl, rfl, [], by simp [scanParts], by simp [scanParts, exprOperands]⟩
  | cons it rest ih =>
    intro val acc st
    rcases it with op | mod | kind
    · simp only [scanParts]
      split_ifs with h
      · exact ⟨rfl, rfl, _, rfl, by simp⟩
      · obtain ⟨h1, h2, es, h3, h4⟩ := ih val (acc ++ [op]) st
        refine ⟨h1, h2, es, h3, ?_⟩
        simpa [exprOperands] using h4
    · simp only [scanParts]
      have hm : ∀ n, (ImmMask IMM instr n st).2.out = st.out ∧
          (ImmMask IMM instr n st).2.datacount = st.datacount ∧
          ∃ es, (ImmMask IMM instr n st).2.errors = st.errors ++ es := by
        intro n
        unfold ImmMask
        split
        · exact ⟨rfl, rfl, [], by simp⟩
        · exact ⟨rfl, rfl, [], by simp⟩
        · split_ifs
          · exact ⟨rfl, rfl, _, rfl⟩
          · exact ⟨rfl, rfl, [], by simp⟩
        · split_ifs
          · exact ⟨rfl, rfl, _, rfl⟩
          · exact ⟨rfl, rfl, [], by simp⟩
        · exact ⟨rfl, rfl, _, rfl⟩
      by_cases hi : isImmediate mod = true
      · simp only [hi, if_true]
        obtain ⟨m1, m2, es1, m3⟩ := hm acc.length
        obtain ⟨h1, h2, es, h3, h4⟩ := ih
          (if (ImmMask IMM instr acc.length st).1 &&& 0x80000000 ≠ 0 then
            val &&& (ImmMask IMM instr acc.length st).1
           else val ||| (ImmMask IMM instr acc.length st).1) acc (ImmMask IMM instr acc.length st).2
        refine ⟨h1.trans m1, h2.trans m2, es1 ++ es, by rw [h3, m3, List.append_assoc], ?_⟩
        revert h4
        split
        · intro h4
          simp [h4]
        · intro h4
          simpa [exprOperands] using h4
      · simp only [hi, Bool.false_eq_true, if_false]
        obtain ⟨h1, h2, es, h3, h4⟩ := ih
          (if mod.modifier % 4294967296 &&& 0x80000000 ≠ 0 then
            val &&& mod.modifier % 4294967296
           else val ||| mod.modifier % 4294967296) acc st
        refine ⟨h1, h2, es, h3, ?_⟩
        simpa [exprOperands] using h4
    · simp only [scanParts]
      exact ⟨rfl, rfl, _, rfl, by simp⟩

/-- On a line of operands and modifiers with at most two operands the loop
runs to its end. -/
theorem scanParts_plain (IMM : Nat) (instr : DatInstruction) (parts : List InstrItem) :
    ∀ (val : Nat) (acc : List DatOperand) (st : DatState), plainItems parts = true →
      acc.length + (exprOperands parts).length ≤ 2 →
      ∃ r, (scanParts IMM instr parts val acc st).2 = some r := by
  induction parts with
  | nil => intro val acc st _ _; exact ⟨_, rfl⟩
  | cons it rest ih =>
    intro val acc st hp hl
    rcases it with op | mod | kind
    · simp only [exprOperands, List.length_cons] at hl
      simp only [scanParts, MAX_OPERANDS]
      rw [if_neg (by omega)]
      exact ih val (acc ++ [op]) st (by simpa [plainItems] using hp)
        (by simp only [List.length_append, List.length_singleton]; omega)
    · simp only [scanParts]
      exact ih _ acc _ (by simpa [plainItems] using hp) (by simpa [exprOperands] using hl)
    · simp [plainItems] at hp

theorem expectops_le (ops : InstrOps) : expectops ops ≤ 2 := by
  unfold expectops
  split <;> omega

/-- The switch that places the operands returns `src` and `dst` exactly for
the six classes it has a case for, a call needing an identifier; it writes no
byte. -/
theorem placeOperands_spec (instr : DatInstruction) (operand : List DatOperand) (st : DatState) :
    (placeOperands instr operand st).1.out = st.out ∧
    (placeOperands instr operand st).1.datacount = st.datacount ∧
    ((placeOperands instr operand st).2 = none →
      ∃ msg, (placeOperands instr operand st).1.errors = st.errors ++ [msg]) ∧
    ((instr.ops ∈ datClasses ∧
        (instr.ops = InstrOps.CALL_OPERAND → (operand.getD 0 {}).isIdentifier = true)) →
      ∃ r, placeOperands instr operand st = (st, some r)) := by
  unfold placeOperands
  rcases h : instr.ops <;> simp only [datClasses, List.mem_cons, List.mem_singleton,
    List.not_mem_nil, reduceCtorEq, or_false, false_or, or_true, true_or, true_and,
    false_and, forall_const, false_implies, true_implies, and_true]
  all_goals first
    | exact ⟨_, rfl⟩
    | exact ⟨rfl, rfl, _, rfl⟩
    | (generalize operand.getD 0 {} = op0
       rcases hid : op0.isIdentifier <;> simp [DatState.error])

/-- On the six classes, without the errors, the switch gives these `src` and
`dst`. -/
theorem placeOperands_values (instr : DatInstruction) (operand : List DatOperand)
    (st : DatState) (r : Nat × Nat) (h : (placeOperands instr operand st).2 = some r) :
    r.1 < 4294967296 ∧ r.2 < 4294967296 ∧ placeOperands instr operand st = (st, some r) := by
  have hu : ∀ v : Int, toU32 v < 4294967296 := by
    intro v
    unfold toU32
    omega
  unfold placeOperands at h ⊢
  generalize operand.getD 0 {} = op0 at h ⊢
  generalize operand.getD 1 {} = op1 at h ⊢
  rcases hops : instr.ops <;> rw [hops] at h <;> dsimp only at h ⊢
  all_goals first
    | (simp only [Option.some.injEq] at h
       subst h
       exact ⟨by first | exact hu _ | norm_num, by first | exact hu _ | norm_num, rfl⟩)
    | (rcases hid : op0.isIdentifier
       · simp [hid] at h
       · simp only [hid, not_true_eq_false, if_false, Option.some.injEq] at h ⊢
         subst h
         exact ⟨hu _, hu _, rfl⟩)
    | simp at h


/-- With the low 18 bits of the word clear, `src` is in bits 0 to 8 and `dst`
in bits 9 to 17. -/
theorem word_fields (val src dst : Nat) (hv : val % 262144 = 0) (hs : src ≤ 511)
    (hd : dst ≤ 511) :
    val ||| dst <<< 9 ||| src = val + dst * 512 + src ∧
    (val ||| dst <<< 9 ||| src) % 512 = src ∧ (val ||| dst <<< 9 ||| src) / 512 % 512 = dst := by
  obtain ⟨k, hk⟩ : ∃ k, val = 2 ^ 18 * k := ⟨val / 262144, by norm_num; omega⟩
  have e1 : dst <<< 9 = dst * 512 := by rw [Nat.shiftLeft_eq]
  have e2 : val ||| dst * 512 = val + dst * 512 := by
    rw [hk]
    exact (Nat.mul_add_lt_is_or (by norm_num; omega) k).symm
  have e3 : val + dst * 512 = 2 ^ 9 * (512 * k + dst) := by rw [hk]; norm_num; ring
  have e4 : val + dst * 512 ||| src = val + dst * 512 + src := by
    rw [e3]
    exact (Nat.mul_add_lt_is_or (by norm_num; omega) _).symm
  rw [e1, e2, e4]
  refine ⟨rfl, ?_, ?_⟩ <;> omega

theorem bit31_test (mask : Nat) : (mask &&& 0x80000000 ≠ 0) ↔ mask / 2147483648 % 2 = 1 := by
  have h := Nat.and_two_pow mask 31
  have h2 : (2 : Nat) ^ 31 = 0x80000000 := by norm_num
  rw [h2] at h
  rw [h, Nat.testBit_to_div_mod]
  have h3 : (2 : Nat) ^ 31 = 2147483648 := by norm_num
  rw [h3]
  by_cases hb : mask / 2147483648 % 2 = 1
  · simp [hb]
  · simp [hb]

theorem ImmMask_spec (IMM : Nat) (instr : DatInstruction) (seen : Nat) (st : DatState) :
    ImmMask IMM instr seen st =
      ((if immediateAccepted instr.ops seen then IMM % 4294967296 else 0),
       { st with errors := st.errors ++
          (if immediateAccepted instr.ops seen = false then [immediateMessage instr] else []) }) := by
  unfold ImmMask immediateAccepted immediateMessage
  rcases hops : instr.ops <;> simp [DatState.error] <;>
    by_cases h2 : 2 ≤ seen <;> simp [h2, Nat.not_lt.mpr, Nat.lt_of_not_le]

/-- On a line of operands and modifiers with at most two operands the loop
over the line leaves the word with the modifiers applied, the operands in
order, and the errors of the immediate markers. -/
theorem scanParts_word (IMM : Nat) (instr : DatInstruction) (parts : List InstrItem) :
    ∀ (val : Nat) (acc : List DatOperand) (st : DatState), plainItems parts = true →
      acc.length + (exprOperands parts).length ≤ 2 →
      scanParts IMM instr parts val acc st =
        ({ st with errors := st.errors ++ immediateErrors instr parts acc.length },
         some (modifiedWord IMM instr.ops parts acc.length val, acc ++ exprOperands parts)) := by
  induction parts with
  | nil =>
    intro val acc st _ _
    simp [scanParts, immediateErrors, modifiedWord, exprOperands]
  | cons it rest ih =>
    intro val acc st hp hl
    rcases it with op | mod | kind
    · simp only [exprOperands, List.length_cons] at hl
      simp only [scanParts, MAX_OPERANDS]
      rw [if_neg (by omega)]
      rw [ih val (acc ++ [op]) st (by simpa [plainItems] using hp)
        (by simp only [List.length_append, List.length_singleton]; omega)]
      simp [immediateErrors, modifiedWord, exprOperands]
    · simp only [scanParts]
      have hp2 : plainItems rest = true := by simpa [plainItems] using hp
      have hl2 : acc.length + (exprOperands rest).length ≤ 2 := by simpa [exprOperands] using hl
      by_cases hi : isImmediate mod = true
      · have hi2 : mod.name.data.head? = some '#' := by simpa [isImmediate] using hi
        simp only [hi, if_true, ImmMask_spec]
        rw [ih _ acc _ hp2 hl2]
        simp only [immediateErrors, modifiedWord, exprOperands, modifierMask, hi2, if_true,
          true_and, applyModifier, bit31_test, List.append_assoc]
      · have hi2 : ¬ mod.name.data.head? = some '#' := by simpa [isImmediate] using hi
        simp only [hi, Bool.false_eq_true, if_false]
        rw [ih _ acc _ hp2 hl2]
        simp only [immediateErrors, modifiedWord, exprOperands, modifierMask, hi2, if_false,
          false_and, applyModifier, bit31_test, List.append_nil, List.nil_append]
    · simp [plainItems] at hp

/-- The switch that places the operands gives the fields of the line when
these are defined. -/
theorem placeOperands_fields (instr : DatInstruction) (operand : List DatOperand)
    (st : DatState) (r : Nat × Nat) (h : operandFields instr.ops operand = some r) :
    placeOperands instr operand st = (st, some r) := by
  unfold placeOperands
  rcases hops : instr.ops <;> rw [hops] at h <;>
    rcases operand with _ | ⟨a, _ | ⟨b, _ | ⟨c, l⟩⟩⟩ <;>
    simp only [operandFields, reduceCtorEq] at h
  all_goals first
    | (simp only [Option.some.injEq] at h
       subst h
       rfl)
    | (split_ifs at h with hid
       simp only [Option.some.injEq] at h
       subst h
       simp [hid])

/-- The fields of a line are defined when its operand count is the one of
its class, the class is one of the six, and the operand of a call is an
identifier. -/
theorem operandFields_defined (ops : InstrOps) (operand : List DatOperand)
    (hcount : operand.length = expectops ops) (hclass : ops ∈ datClasses)
    (hcall : ops = InstrOps.CALL_OPERAND → (operand.getD 0 {}).isIdentifier = true) :
    ∃ r, operandFields ops operand = some r := by
  rcases ops <;> simp only [datClasses, List.mem_cons, List.mem_singleton, List.not_mem_nil,
      reduceCtorEq, or_false, false_or, or_true, true_or] at hclass <;>
    rcases operand with _ | ⟨a, _ | ⟨b, _ | ⟨c, l⟩⟩⟩ <;>
    simp [expectops] at hcount <;>
    simp [operandFields]
  simpa using hcall

/-- Counterexample to C38: a one-operand instruction of a class of the newer
ISA has the operand count of its class (one) and `src = dst = 0`, and a
`call` with an operand that is not an identifier has its one operand as
well; both report an error and no byte is appended. -/
theorem unsupported_class_no_word :
    (exprOperands [InstrItem.AST_EXPRLIST { value := 0 }]).length = expectops exP2Jump.ops ∧
    assembleInstruction 0x00400000 exP2Jump [InstrItem.AST_EXPRLIST { value := 0 }]
        { out := [1], datacount := 1 } =
      { out := [1], datacount := 1, errors := ["Unsupported instruction \x60jmp\x27"] } ∧
    (exprOperands [InstrItem.AST_EXPRLIST { value := 7 }]).length = expectops exCallInstr.ops ∧
    assembleInstruction 0x00400000 exCallInstr [InstrItem.AST_EXPRLIST { value := 7 }]
        { out := [1], datacount := 1 } =
      { out := [1], datacount := 1, errors := ["call operand must be an identifier"] } := by
  decide

/-- C38 (amended): for an instruction line of operands and modifiers whose
operand count is the one of its class, of one of the six classes the switch
handles (the operand of a call being an identifier), the fields `src` and
`dst` are those of `operandFields` (destination first, source second for two
operands).  When both are at most 511, `assembleInstruction` first appends
the zero bytes that bring `datacount` to a multiple of 4 and then the 4
little-endian bytes of the word `modifiedWord` (`binary` with the condition
bits set for every opcode but NOP, the modifiers applied in order) or-ed with
`dst << 9` and `src`, and reports nothing but the errors of the immediate
markers; where the low 18 bits of the modified word are clear, bits 0 to 8 of
the word written are `src` and bits 9 to 17 are `dst`.  When `src` or `dst`
is above 511 it reports that error and appends no byte.  When the operand
count is not the one of the class, when the class is none of the six, and
when the operand of a call is not an identifier, it reports an error and
appends no byte. -/
theorem assemble_word (IMM : Nat) (instr : DatInstruction) (parts : List InstrItem)
    (st : DatState) :
    (plainItems parts = true → (exprOperands parts).length = expectops instr.ops →
      instr.ops ∈ datClasses →
      (instr.ops = InstrOps.CALL_OPERAND →
        ((exprOperands parts).getD 0 {}).isIdentifier = true) →
      ∃ src dst,
        operandFields instr.ops (exprOperands parts) = some (src, dst) ∧
        (src ≤ 511 → dst ≤ 511 →
          assembleInstruction IMM instr parts st =
            { out := st.out ++ List.replicate (padCount st.datacount) 0 ++
                littleEndian
                  ((modifiedWord IMM instr.ops parts 0 (condWord instr) ||| dst <<< 9 ||| src) %
                    4294967296),
              datacount := st.datacount + padCount st.datacount + 4,
              errors := st.errors ++ immediateErrors instr parts 0 } ∧
          (st.datacount + padCount st.datacount) % 4 = 0 ∧
          (modifiedWord IMM instr.ops parts 0 (condWord instr) % 262144 = 0 →
            (modifiedWord IMM instr.ops parts 0 (condWord instr) ||| dst <<< 9 ||| src) %
              4294967296 % 512 = src ∧
            (modifiedWord IMM instr.ops parts 0 (condWord instr) ||| dst <<< 9 ||| src) %
              4294967296 / 512 % 512 = dst)) ∧
        (src > 511 →
          assembleInstruction IMM instr parts st =
            { out := st.out, datacount := st.datacount,
              errors := st.errors ++ immediateErrors instr parts 0 ++
                ["Source operand too big for " ++ instr.name] }) ∧
        (src ≤ 511 → dst > 511 →
          assembleInstruction IMM instr parts st =
            { out := st.out, datacount := st.datacount,
              errors := st.errors ++ immediateErrors instr parts 0 ++
                ["Destination operand too big for " ++ instr.name] })) ∧
    ((exprOperands parts).length ≠ expectops instr.ops →
      (assembleInstruction IMM instr parts st).out = st.out ∧
      (assembleInstruction IMM instr parts st).datacount = st.datacount ∧
      ∃ es, es ≠ [] ∧ (assembleInstruction IMM instr parts st).errors = st.errors ++ es) ∧
    (plainItems parts = true → (exprOperands parts).length = expectops instr.ops →
      instr.ops ∉ datClasses →
      assembleInstruction IMM instr parts st =
        { out := st.out, datacount := st.datacount,
          errors := st.errors ++ immediateErrors instr parts 0 ++
            ["Unsupported instruction \x60" ++ instr.name ++ "\x27"] }) ∧
    (plainItems parts = true → (exprOperands parts).length = expectops instr.ops →
      instr.ops = InstrOps.CALL_OPERAND →
      ((exprOperands parts).getD 0 {}).isIdentifier = false →
      assembleInstruction IMM instr parts st =
        { out := st.out, datacount := st.datacount,
          errors := st.errors ++ immediateErrors instr parts 0 ++
            ["call operand must be an identifier"] }) := by
  have hcw : (if instr.opc ≠ IROpcode.OPC_NOP then instr.binary % 4294967296 ||| 0xf <<< 18
      else instr.binary % 4294967296) = condWord instr := by
    unfold condWord
    rfl
  have hword : plainItems parts = true → (exprOperands parts).length = expectops instr.ops →
      scanParts IMM instr parts (condWord instr) [] st =
        ({ st with errors := st.errors ++ immediateErrors instr parts 0 },
         some (modifiedWord IMM instr.ops parts 0 (condWord instr), exprOperands parts)) := by
    intro hp hcount
    have h := scanParts_word IMM instr parts (condWord instr) [] st hp
      (by rw [hcount]; simpa using expectops_le instr.ops)
    simpa using h
  refine ⟨?_, ?_, ?_, ?_⟩
  · intro hp hcount hclass hcall
    obtain ⟨r, hr⟩ := operandFields_defined instr.ops (exprOperands parts) hcount hclass hcall
    have hscan := hword hp hcount
    have hplace := placeOperands_fields instr (exprOperands parts)
      { st with errors := st.errors ++ immediateErrors instr parts 0 } r hr
    have hal := alignLong_pad { st with errors := st.errors ++ immediateErrors instr parts 0 }
    refine ⟨r.1, r.2, hr, fun hs hd => ⟨?_, ?_, ?_⟩, fun hs => ?_, fun hs hd => ?_⟩
    · simp only [assembleInstruction, hcw, hscan, hcount, ne_eq, not_true_eq_false, if_false,
        hplace, if_neg (not_lt.mpr hs), if_neg (not_lt.mpr hd), hal.1,
        outputLong_bytes, List.append_assoc]
    · exact hal.2
    · intro hv
      have hf := word_fields _ r.1 r.2 hv hs hd
      constructor
      · have := hf.2.1
        omega
      · have := hf.2.2
        omega
    · simp only [assembleInstruction, hcw, hscan, hcount, ne_eq, not_true_eq_false, if_false,
        hplace, if_pos hs, DatState.error]
    · simp only [assembleInstruction, hcw, hscan, hcount, ne_eq, not_true_eq_false, if_false,
        hplace, if_neg (not_lt.mpr hs), if_pos hd, DatState.error]
  · intro hcount
    obtain ⟨s1, s2, es, s3, s4⟩ := scanParts_spec IMM instr parts (condWord instr) [] st
    rcases hr : (scanParts IMM instr parts (condWord instr) [] st).2 with _ | r
    · rw [hr] at s4
      have hscan : scanParts IMM instr parts (condWord instr) [] st =
          ((scanParts IMM instr parts (condWord instr) [] st).1, none) := Prod.ext rfl hr
      generalize (scanParts IMM instr parts (condWord instr) [] st).1 = st1 at hscan s1 s2 s3
      simp only [assembleInstruction, hcw, hscan]
      exact ⟨s1, s2, es, s4, s3⟩
    · rw [hr] at s4
      simp only [List.nil_append] at s4
      have hscan : scanParts IMM instr parts (condWord instr) [] st =
          ((scanParts IMM instr parts (condWord instr) [] st).1, some (r.1, exprOperands parts)) := by
        rw [← s4]
        exact Prod.ext rfl hr
      generalize (scanParts IMM instr parts (condWord instr) [] st).1 = st1 at hscan s1 s2 s3
      simp only [assembleInstruction, hcw, hscan, ne_eq, Ne.symm hcount, not_false_eq_true,
        if_true, DatState.error]
      exact ⟨s1, s2, es ++ ["Expected " ++ toString (expectops instr.ops) ++ " operands for " ++
        instr.name ++ ", found " ++ toString (exprOperands parts).length], by simp,
        by rw [s3, List.append_assoc]⟩
  · intro hp hcount hclass
    have hscan := hword hp hcount
    have hplace : placeOperands instr (exprOperands parts)
        { st with errors := st.errors ++ immediateErrors instr parts 0 } =
        (({ st with errors := st.errors ++ immediateErrors instr parts 0 } : DatState).error
          ("Unsupported instruction \x60" ++ instr.name ++ "\x27"), none) := by
      unfold placeOperands
      rcases hops : instr.ops <;> rw [hops] at hclass <;>
        simp only [datClasses, List.mem_cons, List.mem_singleton, List.not_mem_nil,
          reduceCtorEq, or_false, false_or, or_true, true_or, not_true_eq_false] at hclass <;> rfl
    simp only [assembleInstruction, hcw, hscan, hcount, ne_eq, not_true_eq_false, if_false,
      hplace, DatState.error]
  · intro hp hcount hclass hid
    have hscan := hword hp hcount
    have hplace : placeOperands instr (exprOperands parts)
        { st with errors := st.errors ++ immediateErrors instr parts 0 } =
        (({ st with errors := st.errors ++ immediateErrors instr parts 0 } : DatState).error
          "call operand must be an identifier", none) := by
      unfold placeOperands
      rw [hclass]
      dsimp only
      rw [hid]
      rfl
    simp only [assembleInstruction, hcw, hscan, hcount, ne_eq, not_true_eq_false, if_false,
      hplace, DatState.error]

/-- Witness of C38 (amended): the line `mov 5, #3 wz` after one byte of data
(fields 3 and 5, word `a2fc0a03`), the same line cut after its first
operand, a one-operand instruction of a class of the newer ISA, and a call
on an operand that is not an identifier. -/
theorem assemble_word_witness :
    (∃ src dst,
        operandFields exMovInstr.ops (exprOperands exMovParts) = some (src, dst) ∧
        (src ≤ 511 → dst ≤ 511 →
          assembleInstruction 0x00400000 exMovInstr exMovParts { out := [1], datacount := 1 } =
            { out := [1] ++ List.replicate (padCount 1) 0 ++
                littleEndian
                  ((modifiedWord 0x00400000 exMovInstr.ops exMovParts 0 (condWord exMovInstr) |||
                    dst <<< 9 ||| src) % 4294967296),
              datacount := 1 + padCount 1 + 4,
              errors := [] ++ immediateErrors exMovInstr exMovParts 0 } ∧
          (1 + padCount 1) % 4 = 0 ∧
          (modifiedWord 0x00400000 exMovInstr.ops exMovParts 0 (condWord exMovInstr) % 262144 = 0 →
            (modifiedWord 0x00400000 exMovInstr.ops exMovParts 0 (condWord exMovInstr) |||
              dst <<< 9 ||| src) % 4294967296 % 512 = src ∧
            (modifiedWord 0x00400000 exMovInstr.ops exMovParts 0 (condWord exMovInstr) |||
              dst <<< 9 ||| src) % 4294967296 / 512 % 512 = dst)) ∧
        (src > 511 →
          assembleInstruction 0x00400000 exMovInstr exMovParts { out := [1], datacount := 1 } =
            { out := [1], datacount := 1,
              errors := [] ++ immediateErrors exMovInstr exMovParts 0 ++
                ["Source operand too big for " ++ exMovInstr.name] }) ∧
        (src ≤ 511 → dst > 511 →
          assembleInstruction 0x00400000 exMovInstr exMovParts { out := [1], datacount := 1 } =
            { out := [1], datacount := 1,
              errors := [] ++ immediateErrors exMovInstr exMovParts 0 ++
                ["Destination operand too big for " ++ exMovInstr.name] })) ∧
    ((assembleInstruction 0x00400000 exMovInstr (exMovParts.take 1)
        { out := [1], datacount := 1 }).out = [1] ∧
      (assembleInstruction 0x00400000 exMovInstr (exMovParts.take 1)
        { out := [1], datacount := 1 }).datacount = 1 ∧
      ∃ es, es ≠ [] ∧ (assembleInstruction 0x00400000 exMovInstr (exMovParts.take 1)
        { out := [1], datacount := 1 }).errors = [] ++ es) ∧
    assembleInstruction 0x00400000 exP2Jump [InstrItem.AST_EXPRLIST { value := 0 }]
        { out := [1], datacount := 1 } =
      { out := [1], datacount := 1,
        errors := [] ++ immediateErrors exP2Jump [InstrItem.AST_EXPRLIST { value := 0 }] 0 ++
          ["Unsupported instruction \x60" ++ exP2Jump.name ++ "\x27"] } ∧
    assembleInstruction 0x00400000 exCallInstr [InstrItem.AST_EXPRLIST { value := 7 }]
        { out := [1], datacount := 1 } =
      { out := [1], datacount := 1,
        errors := [] ++ immediateErrors exCallInstr [InstrItem.AST_EXPRLIST { value := 7 }] 0 ++
          ["call operand must be an identifier"] } :=
  ⟨(assemble_word 0x00400000 exMovInstr exMovParts { out := [1], datacount := 1 }).1
      (by decide) (by decide) (by decide) (by decide),
    (assemble_word 0x00400000 exMovInstr (exMovParts.take 1) { out := [1], datacount := 1 }).2.1
      (by decide),
    (assemble_word 0x00400000 exP2Jump [InstrItem.AST_EXPRLIST { value := 0 }]
      { out := [1], datacount := 1 }).2.2.1 (by decide) (by decide) (by decide),
    (assemble_word 0x00400000 exCallInstr [InstrItem.AST_EXPRLIST { value := 7 }]
      { out := [1], datacount := 1 }).2.2.2 (by decide) (by decide) (by decide) (by decide)⟩

/-- The witness evaluated: the fields of `mov 5, #3 wz` are `src = 3` and
`dst = 5`, the modified word is `a2fc0000`, and the bytes are three zero
bytes, then `03 0a fc a2`; a `#` before the second operand is reported and
the word is written without the immediate bit; an operand above 511 and a
missing operand give an error and no byte. -/
theorem assemble_word_example :
    operandFields exMovInstr.ops (exprOperands exMovParts) = some (3, 5) ∧
    modifiedWord 0x00400000 exMovInstr.ops exMovParts 0 (condWord exMovInstr) = 0xa2fc0000 ∧
    assembleInstruction 0x00400000 exMovInstr exMovParts { out := [1], datacount := 1 } =
      { out := [1, 0, 0, 0, 0x03, 0x0a, 0xfc, 0xa2], datacount := 8 } ∧
    assembleInstruction 0x00400000 exMovInstr
        [InstrItem.AST_EXPRLIST { value := 5 }, InstrItem.AST_INSTRMODIFIER exImmediate,
         InstrItem.AST_EXPRLIST { value := 3 }]
        { out := [], datacount := 0 } =
      { out := [0x03, 0x0a, 0xbc, 0xa0], datacount := 4,
        errors := ["bad immediate operand to mov"] } ∧
    assembleInstruction 0x00400000 exMovInstr
        [InstrItem.AST_EXPRLIST { value := 5 }, InstrItem.AST_EXPRLIST { value := 512 }]
        { out := [1], datacount := 1 } =
      { out := [1], datacount := 1, errors := ["Source operand too big for mov"] } ∧
    assembleInstruction 0x00400000 exMovInstr [InstrItem.AST_EXPRLIST { value := 5 }]
        { out := [1], datacount := 1 } =
      { out := [1], datacount := 1, errors := ["Expected 2 operands for mov, found 1"] } := by
  decide

/-! ### C40: returns in inline assembly -/

/-- `CompileInlineAsm` is the fixup loop run on what `inlineBeforeFixup`
gives. -/
theorem compileInlineParts_split {τ : Type} (e : InlineEnv τ) (placeHub : Bool)
    (items : List AsmItem) (wantFcache : Bool) (st : InlineState τ) :
    compileInlineParts e (some placeHub) items wantFcache st =
      match (inlineBeforeFixup e placeHub items wantFcache st).1.first with
      | none =>
        some ((inlineBeforeFixup e placeHub items wantFcache st).2.irl, [],
          (inlineBeforeFixup e placeHub items wantFcache st).2)
      | some first =>
        fixupLoop e placeHub
          ((inlineStart e placeHub items wantFcache st).fcache.map (fun f => f.src))
          (3 * ((inlineBeforeFixup e placeHub items wantFcache st).2.irl.length - first) + 1)
          ((inlineBeforeFixup e placeHub items wantFcache st).2.irl.take first)
          ((inlineBeforeFixup e placeHub items wantFcache st).2.irl.drop first) 0
          (inlineBeforeFixup e placeHub items wantFcache st).2 := by
  rfl

theorem SameNode_same (x : IR) : SameNode x x :=
  ⟨rfl, rfl, rfl, rfl, rfl, rfl, rfl, fun _ => rfl, fun _ => rfl⟩

theorem SameNode_then {x y z : IR} (h1 : SameNode x y) (h2 : SameNode y z) : SameNode x z := by
  obtain ⟨a1, a2, a3, a4, a5, a6, a7, a8, a9⟩ := h1
  obtain ⟨b1, b2, b3, b4, b5, b6, b7, b8, b9⟩ := h2
  refine ⟨b1.trans a1, b2.trans a2, b3.trans a3, b4.trans a4, b5.trans a5, b6.trans a6,
    b7.trans a7, fun h => ?_, fun h => ?_⟩
  · have := a8 h
    rw [b8 (by rw [this]; exact h), this]
  · have := a9 h
    rw [b9 (by rw [this]; exact h), this]

theorem Relabelled_same (l : List IR) : Relabelled l l := by
  induction l with
  | nil => exact Relabelled.nil
  | cons x xs ih => exact Relabelled.node (SameNode_same x) ih

/-- A label put anywhere into the list on the right. -/
theorem Relabelled.insert {L : List IR} (X Y : List IR) (lab : IR)
    (hl : lab.opc = IROpcode.OPC_LABEL) (h : Relabelled L (X ++ Y)) :
    Relabelled L (X ++ lab :: Y) := by
  induction X generalizing L with
  | nil => exact Relabelled.label hl h
  | cons z X ih =>
    cases h with
    | node hs hr => exact Relabelled.node hs (ih hr)
    | label hz hr => exact Relabelled.label hz (ih hr)

/-- A node of the list on the right replaced by a node that is the same but
for the fields the fixup loop writes. -/
theorem Relabelled.set {L M : List IR} (h : Relabelled L M) :
    ∀ (i : Nat) (y y' : IR), M[i]? = some y → SameNode y y' → Relabelled L (M.set i y') := by
  induction h with
  | nil => intro i y y' hi; simp at hi
  | node hs hr ih =>
    intro i y y' hi hy
    rcases i with _ | i
    · simp only [List.getElem?_cons_zero, Option.some.injEq] at hi
      subst hi
      exact Relabelled.node (SameNode_then hs hy) hr
    · simp only [List.getElem?_cons_succ] at hi
      exact Relabelled.node hs (ih i y y' hi hy)
  | label hl hr ih =>
    intro i y y' hi hy
    rcases i with _ | i
    · simp only [List.getElem?_cons_zero, Option.some.injEq] at hi
      subst hi
      exact Relabelled.label (hy.1.trans hl) hr
    · simp only [List.getElem?_cons_succ] at hi
      exact Relabelled.label hl (ih i y y' hi hy)

theorem Relabelled.append {a b c d : List IR} (h1 : Relabelled a b) (h2 : Relabelled c d) :
    Relabelled (a ++ c) (b ++ d) := by
  induction h1 with
  | nil => exact h2
  | node hs _ ih => exact Relabelled.node hs ih
  | label hl _ ih => exact Relabelled.label hl ih

/-- No OPC_RET comes into a list by the fixup loop. -/
theorem Relabelled.no_ret {L M : List IR} (h : Relabelled L M)
    (hL : ∀ x ∈ L, x.opc ≠ IROpcode.OPC_RET) : ∀ y ∈ M, y.opc ≠ IROpcode.OPC_RET := by
  induction h with
  | nil => intro y hy; simp at hy
  | node hs hr ih =>
    intro y hy
    rcases List.mem_cons.mp hy with rfl | hy
    · rw [hs.1]
      exact hL _ (List.mem_cons_self _ _)
    · exact ih (fun x hx => hL x (List.mem_cons_of_mem _ hx)) y hy
  | label hl hr ih =>
    intro y hy
    rcases List.mem_cons.mp hy with rfl | hy
    · rw [hl]; decide
    · exact ih hL y hy

/-- The nodes of the list on the left are found, in their order, in the list
on the right. -/
theorem Relabelled.sublist {L M : List IR} (h : Relabelled L M) :
    ∃ N, N.Sublist M ∧ List.Forall₂ SameNode L N := by
  induction h with
  | nil => exact ⟨[], List.Sublist.slnil, List.Forall₂.nil⟩
  | node hs _ ih =>
    obtain ⟨N, h1, h2⟩ := ih
    exact ⟨_ :: N, h1.cons₂ _, List.Forall₂.cons hs h2⟩
  | label _ _ ih =>
    obtain ⟨N, h1, h2⟩ := ih
    exact ⟨N, h1.cons _, h2⟩

/-- A sublist on the left of a pairing has its partner sublist on the
right. -/
theorem forall₂_sublist {R : IR → IR → Prop} {J L N : List IR} (hs : J.Sublist L)
    (h : List.Forall₂ R L N) : ∃ N', N'.Sublist N ∧ List.Forall₂ R J N' := by
  induction hs generalizing N with
  | slnil =>
    cases h
    exact ⟨[], List.Sublist.slnil, List.Forall₂.nil⟩
  | cons a _ ih =>
    cases h with
    | cons hr ht =>
      obtain ⟨N', h1, h2⟩ := ih ht
      exact ⟨N', h1.cons _, h2⟩
  | cons₂ a _ ih =>
    cases h with
    | cons hr ht =>
      obtain ⟨N', h1, h2⟩ := ih ht
      exact ⟨_ :: N', h1.cons₂ _, List.Forall₂.cons hr h2⟩

/-- The `AST_INSTRHOLDER` case: the IR and the extra IR are appended, each
OPC_RET as the jump to `enddst`; the end label is made when one was an
OPC_RET; `firstir` is set. -/
theorem emitInstr_spec {τ : Type} (e : InlineEnv τ) (enddst : Operand) (ir : IR)
    (extrair : Option IR) (v : InlineLocals τ) :
    (emitInstr e enddst ir extrair v).st.irl =
      v.st.irl ++ (rawNodes (ir, extrair, v)).map (jumpForRet e enddst) ∧
    (emitInstr e enddst ir extrair v).endlabel =
      (if isRetCall (ir, extrair, v) = true then
        some (v.endlabel.getD { opc := IROpcode.OPC_LABEL, dst := some enddst })
       else v.endlabel) ∧
    (emitInstr e enddst ir extrair v).first = some (v.first.getD v.st.irl.length) := by
  unfold emitInstr jumpForRet isRetCall rawNodes
  rcases extrair with _ | x
  · by_cases h : ir.opc = IROpcode.OPC_RET
    · rcases hl : v.endlabel with _ | l <;> rcases hf : v.first with _ | f <;>
        simp [h, AppendIR, hl, hf]
    · rcases hl : v.endlabel with _ | l <;> rcases hf : v.first with _ | f <;>
        simp [h, AppendIR, hl, hf]
  · by_cases h : ir.opc = IROpcode.OPC_RET <;> by_cases hx : x.opc = IROpcode.OPC_RET
    all_goals
      rcases hl : v.endlabel with _ | l <;> rcases hf : v.first with _ | f <;>
        simp [h, hx, AppendIR, hl, hf]

theorem jumpForRet_opc {τ : Type} (e : InlineEnv τ) (enddst : Operand) (x : IR) :
    (jumpForRet e enddst x).opc ≠ IROpcode.OPC_RET := by
  unfold jumpForRet
  by_cases h : x.opc = IROpcode.OPC_RET
  · rw [if_pos h]
    simp [retToJump]
  · rw [if_neg h]
    exact h

theorem jumpForRet_addr {τ : Type} (e : InlineEnv τ) (enddst : Operand) (x : IR) :
    (jumpForRet e enddst x).addr = x.addr := by
  unfold jumpForRet
  by_cases h : x.opc = IROpcode.OPC_RET
  · rw [if_pos h]
    rfl
  · rw [if_neg h]

theorem emitLongs_irl {τ : Type} (items : List LongItem) (st : InlineState τ) :
    ∃ L, (emitLongs items st).irl = st.irl ++ L ∧ ∀ x ∈ L, x.opc = IROpcode.OPC_LONG := by
  induction items generalizing st with
  | nil => exact ⟨[], by simp [emitLongs], by simp⟩
  | cons it rest ih =>
    cases it with
    | notExprList => exact ⟨[], by simp [emitLongs], by simp⟩
    | item val =>
      have key : ∀ (s : InlineState τ) (n : IR), s.irl = st.irl → n.opc = IROpcode.OPC_LONG →
          ∃ L, (emitLongs rest (AppendIR s n)).irl = st.irl ++ L ∧
            ∀ x ∈ L, x.opc = IROpcode.OPC_LONG := by
        intro s n hs hn
        obtain ⟨L, h1, h2⟩ := ih (AppendIR s n)
        refine ⟨n :: L, ?_, ?_⟩
        · rw [h1]
          simp [AppendIR, hs]
        · intro y hy
          rcases List.mem_cons.mp hy with rfl | hy
          · exact hn
          · exact h2 y hy
      simp only [emitLongs]
      rcases val with _ | x
      · exact key _ _ rfl rfl
      · exact key _ _ rfl rfl

/-- The second loop only appends; no node it appends is an OPC_RET; and the
nodes of the `AST_INSTRHOLDER` cases it comes to are among them, in their
order, each OPC_RET as the jump to `enddst`. -/
theorem emitItems_nodes {τ : Type} (e : InlineEnv τ) (placeHub isInFcache : Bool)
    (enddst : Operand) (items : List AsmItem) (v : InlineLocals τ) :
    ∃ L, (emitItems e placeHub isInFcache enddst items v).st.irl = v.st.irl ++ L ∧
      (∀ x ∈ L, x.opc ≠ IROpcode.OPC_RET) ∧
      ((emittedInstrs e placeHub isInFcache enddst items v).flatMap
        (fun c => (rawNodes c).map (jumpForRet e enddst))).Sublist L := by
  induction items generalizing v with
  | nil => exact ⟨[], by simp [emitItems], by simp, by simp [emittedInstrs]⟩
  | cons item rest ih =>
    cases item with
    | AST_LINEBREAK =>
      simp only [emitItems, emittedInstrs]
      exact ih v
    | AST_COMMENT =>
      simp only [emitItems, emittedInstrs]
      exact ih v
    | AST_INSTRHOLDER c =>
      rcases c with _ | ⟨ir, extrair⟩
      · exact ⟨[], by simp [emitItems], by simp, by simp [emittedInstrs]⟩
      · simp only [emitItems, emittedInstrs, List.flatMap_cons]
        obtain ⟨L, h1, h2, h3⟩ := ih (emitInstr e enddst ir extrair v)
        refine ⟨(rawNodes (ir, extrair, v)).map (jumpForRet e enddst) ++ L, ?_, ?_, ?_⟩
        · rw [h1, (emitInstr_spec e enddst ir extrair v).1, List.append_assoc]
        · intro x hx
          rcases List.mem_append.mp hx with hx | hx
          · obtain ⟨y, _, rfl⟩ := List.mem_map.mp hx
            exact jumpForRet_opc e enddst y
          · exact h2 x hx
        · exact List.Sublist.append (List.Sublist.refl _) h3
    | AST_IDENTIFIER name =>
      rcases hfs : e.FindSymbol v.st.localsyms name with _ | ⟨b, val⟩
      · simp only [emitItems, emittedInstrs, hfs]
        exact ⟨[], by simp, by simp, by simp⟩
      · cases b
        · simp only [emitItems, emittedInstrs, hfs]
          exact ⟨[], by simp, by simp, by simp⟩
        · have hirl : (GetLabelOperand e placeHub isInFcache v.st).2.irl = v.st.irl := by
            unfold GetLabelOperand
            cases isInFcache <;> cases placeHub <;> rfl
          have key : ∀ (s : InlineState τ) (n : IR) (fst : Option Nat), s.irl = v.st.irl →
              n.opc = IROpcode.OPC_LABEL →
              ∃ L, (emitItems e placeHub isInFcache enddst rest
                  { v with st := AppendIR s n, first := fst }).st.irl = v.st.irl ++ L ∧
                (∀ x ∈ L, x.opc ≠ IROpcode.OPC_RET) ∧
                ((emittedInstrs e placeHub isInFcache enddst rest
                  { v with st := AppendIR s n, first := fst }).flatMap
                  (fun c => (rawNodes c).map (jumpForRet e enddst))).Sublist L := by
            intro s n fst hs hn
            obtain ⟨L, h1, h2, h3⟩ := ih { v with st := AppendIR s n, first := fst }
            refine ⟨n :: L, ?_, ?_, ?_⟩
            · rw [h1]
              simp only [AppendIR, hs, List.append_assoc, List.singleton_append]
            · intro x hx
              rcases List.mem_cons.mp hx with rfl | hx
              · rw [hn]; decide
              · exact h2 x hx
            · exact List.Sublist.cons _ h3
          simp only [emitItems, emittedInstrs, hfs]
          rcases val with _ | op
          · exact key _ _ _ hirl rfl
          · exact key _ _ _ rfl rfl
    | AST_LONGLIST longs =>
      simp only [emitItems, emittedInstrs]
      obtain ⟨L, h1, h2, h3⟩ := ih { v with st := emitLongs longs v.st }
      obtain ⟨L0, g1, g2⟩ := emitLongs_irl longs v.st
      refine ⟨L0 ++ L, ?_, ?_, ?_⟩
      · rw [h1]
        show (emitLongs longs v.st).irl ++ L = _
        rw [g1, List.append_assoc]
      · intro x hx
        rcases List.mem_append.mp hx with hx | hx
        · rw [g2 x hx]; decide
        · exact h2 x hx
      · exact List.Sublist.trans h3 (List.sublist_append_right _ _)
    | AST_WORDLIST => exact ⟨[], by simp [emitItems], by simp, by simp [emittedInstrs]⟩
    | AST_OTHER => exact ⟨[], by simp [emitItems], by simp, by simp [emittedInstrs]⟩

/-- The end label after the second loop: it is made when the loop comes to
an OPC_RET, and kept when there was one before. -/
theorem emitItems_endlabel {τ : Type} (e : InlineEnv τ) (placeHub isInFcache : Bool)
    (enddst : Operand) (items : List AsmItem) (v : InlineLocals τ) :
    (emitItems e placeHub isInFcache enddst items v).endlabel =
      (if (emittedInstrs e placeHub isInFcache enddst items v).any isRetCall = true then
        some (v.endlabel.getD { opc := IROpcode.OPC_LABEL, dst := some enddst })
       else v.endlabel) := by
  induction items generalizing v with
  | nil => simp [emitItems, emittedInstrs]
  | cons item rest ih =>
    cases item with
    | AST_LINEBREAK =>
      simp only [emitItems, emittedInstrs]
      exact ih v
    | AST_COMMENT =>
      simp only [emitItems, emittedInstrs]
      exact ih v
    | AST_INSTRHOLDER c =>
      rcases c with _ | ⟨ir, extrair⟩
      · simp [emitItems, emittedInstrs]
      · simp only [emitItems, emittedInstrs, List.any_cons]
        rw [ih (emitInstr e enddst ir extrair v), (emitInstr_spec e enddst ir extrair v).2.1]
        by_cases h1 : isRetCall (ir, extrair, v) = true <;>
          by_cases h2 : (emittedInstrs e placeHub isInFcache enddst rest
            (emitInstr e enddst ir extrair v)).any isRetCall = true <;>
          simp [h1, h2]
    | AST_IDENTIFIER name =>
      rcases hfs : e.FindSymbol v.st.localsyms name with _ | ⟨b, val⟩
      · simp [emitItems, emittedInstrs, hfs]
      · cases b
        · simp [emitItems, emittedInstrs, hfs]
        · simp only [emitItems, emittedInstrs, hfs]
          rcases val with _ | op
          · exact ih _
          · exact ih _
    | AST_LONGLIST longs =>
      simp only [emitItems, emittedInstrs]
      exact ih _
    | AST_WORDLIST => simp [emitItems, emittedInstrs]
    | AST_OTHER => simp [emitItems, emittedInstrs]

theorem FirstInv_append {τ : Type} (base : Nat) (v : InlineLocals τ) (s : InlineState τ)
    (L : List IR) (hs : s.irl = v.st.irl ++ L) (hf : ∃ f, v.first = some f)
    (h : FirstInv base v) : FirstInv base { v with st := s } := by
  obtain ⟨f0, hf0⟩ := hf
  obtain ⟨h1, h2, h3⟩ := h
  refine ⟨?_, ?_, ?_⟩
  · show base ≤ s.irl.length
    rw [hs, List.length_append]
    omega
  · intro hn
    have : v.first = none := hn
    rw [hf0] at this
    cases this
  · intro f hf
    obtain ⟨g1, x, g2, g3⟩ := h3 f hf
    refine ⟨g1, x, ?_, g3⟩
    show s.irl[f]? = some x
    rw [hs]
    have hlt : f < v.st.irl.length := by
      by_contra hc
      rw [List.getElem?_eq_none (by omega)] at g2
      cases g2
    rw [List.getElem?_append_left hlt]
    exact g2

/-- A node with address `relpc` appended by the second loop, which sets
`firstir` when it was null. -/
theorem FirstInv_first {τ : Type} (base : Nat) (v : InlineLocals τ) (s : InlineState τ)
    (n : IR) (L : List IR) (relpc : Nat) (ends : Option IR) (ps : Bool)
    (hs : s.irl = v.st.irl ++ n :: L) (hn : n.addr = v.relpc)
    (h : FirstInv base v) :
    FirstInv base { st := s, relpc := relpc, first := some (v.first.getD v.st.irl.length),
                    endlabel := ends, ptraSaved := ps } := by
  obtain ⟨h1, h2, h3⟩ := h
  refine ⟨?_, ?_, ?_⟩
  · show base ≤ s.irl.length
    rw [hs, List.length_append]
    omega
  · intro hc
    cases hc
  · intro f hf
    have hf : some (v.first.getD v.st.irl.length) = some f := hf
    show base ≤ f ∧ ∃ x, s.irl[f]? = some x ∧ x.addr = 0
    rw [hs]
    rcases hv : v.first with _ | f0
    · rw [hv] at hf
      simp only [Option.getD_none, Option.some.injEq] at hf
      subst hf
      refine ⟨h1, n, getElem?_zipper _ _ _, ?_⟩
      rw [hn, h2 hv]
      rfl
    · rw [hv] at hf
      simp only [Option.getD_some, Option.some.injEq] at hf
      subst hf
      obtain ⟨g1, x, g2, g3⟩ := h3 f0 hv
      refine ⟨g1, x, ?_, g3⟩
      have hlt : f0 < v.st.irl.length := by
        by_contra hc
        rw [List.getElem?_eq_none (by omega)] at g2
        cases g2
      rw [List.getElem?_append_left hlt]
      exact g2

theorem FirstInv_errors {τ : Type} (base : Nat) (v : InlineLocals τ) (errs : List String)
    (h : FirstInv base v) : FirstInv base { v with st := { v.st with errors := errs } } := h

/-- The second loop keeps `FirstInv`. -/
theorem emitItems_first {τ : Type} (e : InlineEnv τ) (placeHub isInFcache : Bool)
    (enddst : Operand) (base : Nat) (items : List AsmItem) (v : InlineLocals τ)
    (h : FirstInv base v) : FirstInv base (emitItems e placeHub isInFcache enddst items v) := by
  induction items generalizing v with
  | nil => exact h
  | cons item rest ih =>
    cases item with
    | AST_LINEBREAK =>
      simp only [emitItems]
      exact ih v h
    | AST_COMMENT =>
      simp only [emitItems]
      exact ih v h
    | AST_INSTRHOLDER c =>
      rcases c with _ | ⟨ir, extrair⟩
      · exact h
      · simp only [emitItems]
        apply ih
        obtain ⟨g1, g2, g3⟩ := emitInstr_spec e enddst ir extrair v
        have := FirstInv_first base v (emitInstr e enddst ir extrair v).st
          (jumpForRet e enddst { ir with addr := v.relpc })
          ((extrair.map (jumpForRet e enddst)).toList)
          (emitInstr e enddst ir extrair v).relpc (emitInstr e enddst ir extrair v).endlabel
          (emitInstr e enddst ir extrair v).ptraSaved
          (by rw [g1]; cases extrair <;> simp [rawNodes])
          (by rw [jumpForRet_addr]) h
        rw [← g3] at this
        exact this
    | AST_IDENTIFIER name =>
      rcases hfs : e.FindSymbol v.st.localsyms name with _ | ⟨b, val⟩
      · simp only [emitItems, hfs]
        exact h
      · cases b
        · simp only [emitItems, hfs]
          exact h
        · have hirl : (GetLabelOperand e placeHub isInFcache v.st).2.irl = v.st.irl := by
            unfold GetLabelOperand
            cases isInFcache <;> cases placeHub <;> rfl
          have key : ∀ (s : InlineState τ) (op : Operand), s.irl = v.st.irl →
              FirstInv base { v with
                st := AppendIR s { opc := IROpcode.OPC_LABEL, dst := some op, addr := v.relpc },
                first := match v.first with
                  | none => some s.irl.length
                  | some f => some f } := by
            intro s op hs
            have := FirstInv_first base v
              (AppendIR s { opc := IROpcode.OPC_LABEL, dst := some op, addr := v.relpc })
              { opc := IROpcode.OPC_LABEL, dst := some op, addr := v.relpc } [] v.relpc
              v.endlabel v.ptraSaved (by simp [AppendIR, hs]) rfl h
            rw [hs]
            rcases hv : v.first with _ | f0
            · rw [hv] at this
              exact this
            · rw [hv] at this
              exact this
          simp only [emitItems, hfs]
          rcases val with _ | op
          · exact ih _ (key _ _ hirl)
          · exact ih _ (key _ _ rfl)
    | AST_LONGLIST longs =>
      simp only [emitItems]
      apply ih
      obtain ⟨L0, g1, _⟩ := emitLongs_irl longs v.st
      rcases Option.eq_none_or_eq_some v.first with hv | ⟨f0, hv⟩
      · obtain ⟨h1, h2, h3⟩ := h
        refine ⟨?_, h2, ?_⟩
        · show base ≤ (emitLongs longs v.st).irl.length
          rw [g1, List.length_append]
          omega
        · intro f hf
          have : v.first = some f := hf
          rw [hv] at this
          cases this
      · exact FirstInv_append base v _ L0 g1 ⟨f0, hv⟩ h
    | AST_WORDLIST => exact h
    | AST_OTHER => exact h

theorem forall₂_set {R : IR → IR → Prop} {T T' : List IR} (h : List.Forall₂ R T T') :
    ∀ (k : Nat) (y y' : IR), T'[k]? = some y → (∀ x, R x y → R x y') →
      List.Forall₂ R T (T'.set k y') := by
  induction h with
  | nil => intro k y y' hk; simp at hk
  | cons hr _ ih =>
    intro k y y' hk hy
    rcases k with _ | k
    · simp only [List.getElem?_cons_zero, Option.some.injEq] at hk
      subst hk
      exact List.Forall₂.cons (hy _ hr) (by assumption)
    · simp only [List.getElem?_cons_succ] at hk
      exact List.Forall₂.cons hr (ih k y y' hk hy)

/-- The fixup loop writes a node: `FixupInv` stays. -/
theorem FixupInv_set (base M0 T pre blk : List IR) (i : Nat) (y y' : IR)
    (h : FixupInv base M0 T pre blk) (hi : blk[i]? = some y) (hy : SameNode y y') :
    FixupInv base M0 T pre (blk.set i y') := by
  obtain ⟨P, M, T', h1, h2, h3, ⟨hd, h4, h5⟩, h6, h7⟩ := h
  subst h2
  by_cases hlt : i < M.length
  · rw [List.getElem?_append_left hlt] at hi
    refine ⟨P, M.set i y', T', h1, List.set_append_left _ _ hlt, ?_, ?_, h6, h7⟩
    · have : P ++ M.set i y' = (P ++ M).set (P.length + i) y' := by
        rw [List.set_append_right _ _ (by omega)]
        simp
      rw [this]
      refine h3.set (P.length + i) y y' ?_ hy
      rw [List.getElem?_append_right (by omega)]
      simpa using hi
    · rcases M with _ | ⟨m, Mr⟩
      · simp at hlt
      · simp only [List.head?_cons, Option.some.injEq] at h4
        subst h4
        rcases i with _ | i
        · simp only [List.getElem?_cons_zero, Option.some.injEq] at hi
          subst hi
          exact ⟨y', rfl, by rw [hy.2.2.2.2.2.2.1]; exact h5⟩
        · exact ⟨m, rfl, h5⟩
  · have hge : M.length ≤ i := by omega
    rw [List.getElem?_append_right hge] at hi
    refine ⟨P, M, T'.set (i - M.length) y', h1, List.set_append_right _ _ hge, h3,
      ⟨hd, h4, h5⟩, ?_, ?_⟩
    · intro z hz
      rcases List.mem_or_eq_of_mem_set hz with hz | rfl
      · exact h6 z hz
      · rw [hy.2.2.2.2.2.2.1]
        exact h6 y (List.getElem?_mem hi)
    · exact forall₂_set h7 _ y y' hi (fun x hx => SameNode_then hx hy)

theorem getElem?_insert (l1 l2 : List IR) (lab : IR) (i : Nat) :
    (l1 ++ lab :: l2)[if l1.length ≤ i then i + 1 else i]? = (l1 ++ l2)[i]? := by
  by_cases h : l1.length ≤ i
  · rw [if_pos h, List.getElem?_append_right (by omega), List.getElem?_append_right h]
    have : i + 1 - l1.length = (i - l1.length) + 1 := by omega
    rw [this, List.getElem?_cons_succ]
  · rw [if_neg h, List.getElem?_append_left (by omega), List.getElem?_append_left (by omega)]

/-- A label put before a node of the list from `firstir` that is not the
first: `FixupInv` stays, and the node the loop is at is found at the index
`shiftIndex` gives. -/
theorem FixupInv_insert (base M0 T pre blk : List IR) (lab : IR)
    (hl : lab.opc = IROpcode.OPC_LABEL) (t : Int) (l' : List IR) (j : Nat) (i : Nat) (ir : IR)
    (h : FixupInv base M0 T pre blk) (hins : insertLabelAt lab t blk = some (l', j + 1))
    (hi : blk[i]? = some ir) :
    FixupInv base M0 T pre l' ∧ l'[shiftIndex (some (j + 1)) i]? = some ir := by
  obtain ⟨P, M, T', h1, h2, h3, ⟨hd, h4, h5⟩, h6, h7⟩ := h
  obtain ⟨l1, x, l2, g1, g2, g3, g4, g5⟩ := insertLabelAt_some _ _ _ _ _ hins
  have hl1 : l1 ≠ [] := by
    intro hc
    rw [hc] at g5
    simp at g5
  -- the first node has address 0, so the target address is not 0
  have hhd : hd ∈ l1 := by
    rcases M with _ | ⟨m, Mr⟩
    · simp at h4
    · simp only [List.head?_cons, Option.some.injEq] at h4
      subst h4
      rcases l1 with _ | ⟨b, l1r⟩
      · exact absurd rfl hl1
      · rw [h2] at g1
        simp only [List.cons_append, List.cons.injEq] at g1
        rw [g1.1]
        exact List.mem_cons_self _ _
  have ha : t ≠ 0 := by
    intro hc
    exact g3 hd hhd (by rw [h5, hc])
  have hx : x ∉ T' := by
    intro hc
    exact ha (by rw [← g2, h6 x hc])
  rw [h2] at g1
  rcases List.append_eq_append_iff.mp g1 with ⟨a', e1, e2⟩ | ⟨c', e1, e2⟩
  · exact absurd (by rw [e2]; simp) hx
  · rcases c' with _ | ⟨c0, c''⟩
    · simp only [List.nil_append] at e2
      exact absurd (by rw [← e2]; simp) hx
    · simp only [List.cons_append, List.cons.injEq] at e2
      obtain ⟨rfl, rfl⟩ := e2
      constructor
      · refine ⟨P, l1 ++ lab :: x :: c'', T', h1, ?_, ?_, ⟨hd, ?_, h5⟩, h6, h7⟩
        · rw [g4]
          simp
        · rw [← List.append_assoc]
          apply Relabelled.insert (P ++ l1) (x :: c'') lab hl
          rw [List.append_assoc, ← e1]
          exact h3
        · rw [e1] at h4
          rcases l1 with _ | ⟨b, l1r⟩
          · exact absurd rfl hl1
          · exact h4
      · rw [g4]
        have := getElem?_insert l1 (x :: (c'' ++ T')) lab i
        rw [h2, e1] at hi
        simp only [List.append_assoc, List.cons_append] at hi
        rw [hi] at this
        rw [← this]
        simp only [shiftIndex, g5]

/-- One call of `FixupHereLabel` in the fixup loop: `FixupInv` stays, and the
node the loop is at is found at the index `shiftIndex` gives. -/
theorem FixupHereLabel_inv {τ : Type} (e : InlineEnv τ) (placeHub : Bool)
    (base M0 T pre blk : List IR) (i : Nat) (ir : IR) (a : Int) (dst : Operand)
    (st : InlineState τ) (h : FixupInv base M0 T pre blk) (hi : blk[i]? = some ir) :
    FixupInv base M0 T (FixupHereLabel e placeHub pre blk a dst st).pre
      (FixupHereLabel e placeHub pre blk a dst st).blk ∧
    (FixupHereLabel e placeHub pre blk a dst st).blk[
      shiftIndex (FixupHereLabel e placeHub pre blk a dst st).pos i]? = some ir := by
  unfold FixupHereLabel
  by_cases hneg : int32 (a + dst.val) < 0
  · simp only [hneg, if_true]
    exact ⟨h, hi⟩
  · simp only [hneg, if_false]
    rcases hins : insertLabelAt
        { opc := IROpcode.OPC_LABEL, dst := some (GetLabelOperand e placeHub false st).1 }
        (int32 (a + dst.val)) blk with _ | ⟨l', j⟩
    · simp only
      exact ⟨h, hi⟩
    · cases j with
      | zero =>
        simp only
        obtain ⟨P, M, T', h1, h2, h3, h4, h6, h7⟩ := h
        refine ⟨⟨P ++ [_], M, T', by rw [h1, List.append_assoc], h2, ?_, h4, h6, h7⟩, hi⟩
        rw [List.append_assoc]
        exact Relabelled.insert P M _ rfl h3
      | succ j =>
        simp only
        exact FixupInv_insert base M0 T pre blk _ rfl _ l' j i ir h hins hi

theorem SameNode_dst (x : IR) (op : Operand) (h : isPcRel x.dst = true) :
    SameNode x { x with dst := some op } :=
  ⟨rfl, rfl, rfl, rfl, rfl, rfl, rfl, fun hc => (by rw [h] at hc; cases hc), fun _ => rfl⟩

theorem SameNode_src (x : IR) (op : Operand) (h : isPcRel x.src = true) :
    SameNode x { x with src := some op } :=
  ⟨rfl, rfl, rfl, rfl, rfl, rfl, rfl, fun _ => rfl, fun hc => (by rw [h] at hc; cases hc)⟩

theorem SameNode_fcache (x : IR) (f : Option Operand) : SameNode x { x with fcache := f } :=
  ⟨rfl, rfl, rfl, rfl, rfl, rfl, rfl, fun _ => rfl, fun _ => rfl⟩

theorem getElem?_set_same (l : List IR) (i : Nat) (y y' : IR) (h : l[i]? = some y) :
    (l.set i y')[i]? = some y' := by
  have hlt : i < l.length := by
    by_contra hc
    rw [List.getElem?_eq_none (by omega)] at h
    cases h
  simp [List.getElem?_set, hlt]

/-- The `dst` statement of the fixup loop keeps `FixupInv`, and the node of
the cursor at its index. -/
theorem fixupDst_inv {τ : Type} (e : InlineEnv τ) (placeHub : Bool) (base M0 T : List IR)
    (c : FixCursor τ) (h : FixupInv base M0 T c.pre c.blk) (hi : c.blk[c.i]? = some c.ir) :
    FixupInv base M0 T (fixupDst e placeHub c).pre (fixupDst e placeHub c).blk ∧
      (fixupDst e placeHub c).blk[(fixupDst e placeHub c).i]? = some (fixupDst e placeHub c).ir := by
  rcases hd : c.ir.dst with _ | op
  · rw [fixupDst_none e placeHub c hd]
    exact ⟨h, hi⟩
  · by_cases hc : ¬ IsDummy c.ir = true ∧ op.kind = Operandkind.IMM_PCRELATIVE
    · rw [fixupDst_fix e placeHub c op hd hc]
      obtain ⟨g1, g2⟩ := FixupHereLabel_inv e placeHub base M0 T c.pre c.blk c.i c.ir c.ir.addr op
        c.st h hi
      have hpc : isPcRel c.ir.dst = true := by
        rw [hd]
        simp [isPcRel, hc.2]
      exact ⟨FixupInv_set base M0 T _ _ _ c.ir _ g1 g2 (SameNode_dst c.ir _ hpc),
        getElem?_set_same _ _ c.ir _ g2⟩
    · rw [fixupDst_skip e placeHub c op hd hc]
      exact ⟨h, hi⟩

/-- The `src` statement of the fixup loop keeps `FixupInv`, and the node of
the cursor at its index. -/
theorem fixupSrc_inv {τ : Type} (e : InlineEnv τ) (placeHub : Bool) (base M0 T : List IR)
    (c : FixCursor τ) (h : FixupInv base M0 T c.pre c.blk) (hi : c.blk[c.i]? = some c.ir) :
    FixupInv base M0 T (fixupSrc e placeHub c).pre (fixupSrc e placeHub c).blk ∧
      (fixupSrc e placeHub c).blk[(fixupSrc e placeHub c).i]? = some (fixupSrc e placeHub c).ir := by
  rcases hd : c.ir.src with _ | op
  · rw [fixupSrc_none e placeHub c hd]
    exact ⟨h, hi⟩
  · by_cases hc : ¬ IsDummy c.ir = true ∧ op.kind = Operandkind.IMM_PCRELATIVE
    · rw [fixupSrc_fix e placeHub c op hd hc]
      obtain ⟨g1, g2⟩ := FixupHereLabel_inv e placeHub base M0 T c.pre c.blk c.i c.ir c.ir.addr op
        c.st h hi
      have hpc : isPcRel c.ir.src = true := by
        rw [hd]
        simp [isPcRel, hc.2]
      exact ⟨FixupInv_set base M0 T _ _ _ c.ir _ g1 g2 (SameNode_src c.ir _ hpc),
        getElem?_set_same _ _ c.ir _ g2⟩
    · rw [fixupSrc_skip e placeHub c op hd hc]
      exact ⟨h, hi⟩

/-- The fixup loop keeps `FixupInv`. -/
theorem fixupLoop_inv {τ : Type} (e : InlineEnv τ) (placeHub : Bool)
    (fcache : Option (Option Operand)) (base M0 T : List IR) (fuel : Nat) (pre blk : List IR)
    (i : Nat) (st : InlineState τ) (res : List IR × List IR × InlineState τ)
    (h : FixupInv base M0 T pre blk)
    (hres : fixupLoop e placeHub fcache fuel pre blk i st = some res) :
    FixupInv base M0 T res.1 res.2.1 := by
  induction fuel generalizing pre blk i st with
  | zero => simp [fixupLoop] at hres
  | succ fuel ih =>
    rw [fixupLoop] at hres
    rcases hget : blk[i]? with _ | ir
    · rw [hget] at hres
      simp only [Option.some.injEq] at hres
      rw [← hres]
      exact h
    · rw [hget] at hres
      simp only at hres
      obtain ⟨d1, d2⟩ := fixupDst_inv e placeHub base M0 T
        { pre := pre, blk := blk, i := i, ir := ir, st := st } h hget
      obtain ⟨s1, s2⟩ := fixupSrc_inv e placeHub base M0 T _ d1 d2
      generalize fixupSrc e placeHub (fixupDst e placeHub
          { pre := pre, blk := blk, i := i, ir := ir, st := st }) = c at hres s1 s2
      cases fcache with
      | none => exact ih c.pre c.blk (c.i + 1) c.st s1 hres
      | some f =>
        exact ih c.pre _ (c.i + 1) c.st
          (FixupInv_set base M0 T _ _ _ c.ir _ s1 s2 (SameNode_fcache c.ir f)) hres

theorem defineLabels_irl {τ : Type} (e : InlineEnv τ) (placeHub isInFcache : Bool)
    (items : List AsmItem) (st : InlineState τ) :
    (defineLabels e placeHub isInFcache items st).irl = st.irl := by
  induction items generalizing st with
  | nil => rfl
  | cons item rest ih =>
    cases item <;> simp only [defineLabels] <;> rw [ih]
    unfold GetLabelOperand
    cases isInFcache <;> cases placeHub <;> rfl

/-- What `CompileInlineAsm` has set up before its second loop: the IR list
has gained `fcache`, `startlabel` and `org0` at most, the end label exists
for a cached block only, and `firstir` is null with `relpc` 0. -/
theorem inlineStart_spec {τ : Type} (e : InlineEnv τ) (placeHub : Bool)
    (items : List AsmItem) (wantFcache : Bool) (st : InlineState τ) :
    (inlineStart e placeHub items wantFcache st).enddst = (NewHubLabel e st).1 ∧
    (∃ pfx, (inlineStart e placeHub items wantFcache st).v.st.irl = st.irl ++ pfx ∧
      ∀ x ∈ pfx, x.opc ≠ IROpcode.OPC_RET) ∧
    (inlineStart e placeHub items wantFcache st).v.endlabel =
      (if (inlineStart e placeHub items wantFcache st).isInFcache = true then
        some { opc := IROpcode.OPC_LABEL, dst := some (NewHubLabel e st).1 } else none) ∧
    (inlineStart e placeHub items wantFcache st).fcache.isSome =
      (inlineStart e placeHub items wantFcache st).isInFcache ∧
    (inlineStart e placeHub items wantFcache st).v.first = none ∧
    (inlineStart e placeHub items wantFcache st).v.relpc = 0 := by
  refine ⟨rfl, ?_, rfl, ?_, rfl, rfl⟩
  · unfold inlineStart
    simp only
    generalize ((if ¬ placeHub = true then false else wantFcache) &&
      decide (e.gl_fcache_size > 0)) = useFcache
    have key2 : ∀ (s : InlineState τ) (a b : IR), s.irl = st.irl →
        a.opc ≠ IROpcode.OPC_RET → b.opc ≠ IROpcode.OPC_RET →
        ∃ pfx, (AppendIR (AppendIR s a) b).irl = st.irl ++ pfx ∧
          ∀ x ∈ pfx, x.opc ≠ IROpcode.OPC_RET := by
      intro s a b hs ha hb
      refine ⟨[a, b], by simp [AppendIR, hs], ?_⟩
      intro x hx
      simp only [List.mem_cons, List.mem_singleton, List.not_mem_nil, or_false] at hx
      rcases hx with rfl | rfl
      · exact ha
      · exact hb
    have key3 : ∀ (s : InlineState τ) (a b c : IR), s.irl = st.irl →
        a.opc ≠ IROpcode.OPC_RET → b.opc ≠ IROpcode.OPC_RET → c.opc ≠ IROpcode.OPC_RET →
        ∃ pfx, (AppendIR (AppendIR (AppendIR s a) b) c).irl = st.irl ++ pfx ∧
          ∀ x ∈ pfx, x.opc ≠ IROpcode.OPC_RET := by
      intro s a b c hs ha hb hc
      refine ⟨[a, b, c], by simp [AppendIR, hs], ?_⟩
      intro x hx
      simp only [List.mem_cons, List.mem_singleton, List.not_mem_nil, or_false] at hx
      rcases hx with rfl | rfl | rfl
      · exact ha
      · exact hb
      · exact hc
    cases useFcache
    · simp only [Bool.false_eq_true, if_false]
      refine ⟨[], ?_, by simp⟩
      rw [defineLabels_irl]
      split_ifs <;> simp [NewHubLabel]
    · simp only [if_true]
      by_cases hp : e.gl_p2 = true
      · simp only [hp, if_true]
        refine key3 _ _ _ _ ?_ ?_ ?_ ?_
        · rw [defineLabels_irl]
          split_ifs <;> simp [NewHubLabel]
        all_goals simp
      · simp only [hp, if_false]
        refine key2 _ _ _ ?_ ?_ ?_
        · rw [defineLabels_irl]
          split_ifs <;> simp [NewHubLabel]
        all_goals simp
  · unfold inlineStart
    simp only
    generalize ((if ¬ placeHub = true then false else wantFcache) &&
      decide (e.gl_fcache_size > 0)) = useFcache
    cases useFcache <;> rfl

/-- The nodes appended after the second loop: the end label when the block
is cached or the loop came to an OPC_RET, and after it the `orgh` of a
cached block on the newer ISA. -/
theorem inlineBeforeFixup_tail {τ : Type} (e : InlineEnv τ) (placeHub : Bool)
    (items : List AsmItem) (wantFcache : Bool) (st : InlineState τ) :
    ∃ T, (inlineBeforeFixup e placeHub items wantFcache st).2.irl =
        (inlineBeforeFixup e placeHub items wantFcache st).1.st.irl ++ T ∧
      (∀ z ∈ T, z.addr = 0) ∧
      T.map (fun x => x.opc) =
        (if (inlineStart e placeHub items wantFcache st).isInFcache = true ∨
            (emittedInstrs e placeHub (inlineStart e placeHub items wantFcache st).isInFcache
              (NewHubLabel e st).1 items
              (inlineStart e placeHub items wantFcache st).v).any isRetCall = true then
          IROpcode.OPC_LABEL ::
            (if (inlineStart e placeHub items wantFcache st).isInFcache = true ∧ e.gl_p2 = true
             then [IROpcode.OPC_HUBMODE] else [])
         else []) ∧
      (∀ l ∈ T.head?, l.dst = some (NewHubLabel e st).1) := by
  obtain ⟨s1, _, s3, s4, _, _⟩ := inlineStart_spec e placeHub items wantFcache st
  have hend := emitItems_endlabel e placeHub
    (inlineStart e placeHub items wantFcache st).isInFcache
    (inlineStart e placeHub items wantFcache st).enddst items
    (inlineStart e placeHub items wantFcache st).v
  rw [s3, s1] at hend
  unfold inlineBeforeFixup
  simp only
  rw [s4, s1]
  generalize emitItems e placeHub (inlineStart e placeHub items wantFcache st).isInFcache
    (NewHubLabel e st).1 items (inlineStart e placeHub items wantFcache st).v = v at hend ⊢
  generalize (emittedInstrs e placeHub (inlineStart e placeHub items wantFcache st).isInFcache
    (NewHubLabel e st).1 items (inlineStart e placeHub items wantFcache st).v).any isRetCall = b
    at hend ⊢
  generalize (inlineStart e placeHub items wantFcache st).isInFcache = c at hend ⊢
  have hv : v.endlabel = if c = true ∨ b = true then
      some { opc := IROpcode.OPC_LABEL, dst := some (NewHubLabel e st).1 } else none := by
    rw [hend]
    cases c <;> cases b <;> simp
  rw [hv]
  by_cases hcb : c = true ∨ b = true
  · simp only [hcb, if_true]
    by_cases hp : c = true ∧ e.gl_p2 = true
    · simp only [hp, and_self, if_true]
      refine ⟨[{ opc := IROpcode.OPC_LABEL, dst := some (NewHubLabel e st).1 },
        { opc := IROpcode.OPC_HUBMODE }], ?_, ?_, ?_, ?_⟩
      · simp only [AppendIR, List.append_assoc, List.singleton_append]
        split_ifs <;> rfl
      · simp
      · simp
      · simp
    · simp only [hp, if_false]
      refine ⟨[{ opc := IROpcode.OPC_LABEL, dst := some (NewHubLabel e st).1 }], ?_, ?_, ?_, ?_⟩
      · simp only [AppendIR]
        split_ifs <;> rfl
      · simp
      · simp
      · simp
  · simp only [hcb, if_false]
    exact ⟨[], by simp, by simp, by simp, by simp⟩

/-- A node the fixup loop may have written, of an IR the second loop
appended: an OPC_RET of `CompileInlineInstr_only` stands as the jump to
`enddst`. -/
theorem RetReplaced_of_SameNode {τ : Type} (e : InlineEnv τ) (enddst : Operand)
    (hk : enddst.kind ≠ Operandkind.IMM_PCRELATIVE) (x y : IR)
    (h : SameNode (jumpForRet e enddst x) y) : RetReplaced e enddst x y := by
  unfold RetReplaced
  unfold jumpForRet at h
  by_cases hx : x.opc = IROpcode.OPC_RET
  · rw [if_pos hx] at h ⊢
    obtain ⟨a1, a2, a3, _, _, _, a7, a8, _⟩ := h
    exact ⟨a1, a8 (by simp [retToJump, isPcRel, hk]), a3, a2, a7⟩
  · rw [if_neg hx] at h ⊢
    exact h

/-- The IR list after `CompileInlineAsm`, in parts: the list before the
call, the nodes put in front of the block, the nodes of the second loop
relabelled, and the nodes appended after the block as the fixup loop left
them. -/
theorem CompileInlineAsm_parts {τ : Type} (e : InlineEnv τ) (placeHub : Bool)
    (items : List AsmItem) (wantFcache : Bool) (st : InlineState τ) (L T : List IR)
    (hL : (inlineBeforeFixup e placeHub items wantFcache st).1.st.irl =
      (inlineStart e placeHub items wantFcache st).v.st.irl ++ L)
    (hT : (inlineBeforeFixup e placeHub items wantFcache st).2.irl =
      (inlineBeforeFixup e placeHub items wantFcache st).1.st.irl ++ T)
    (hT0 : ∀ z ∈ T, z.addr = 0)
    (hfirst : FirstInv (inlineStart e placeHub items wantFcache st).v.st.irl.length
      (inlineBeforeFixup e placeHub items wantFcache st).1) :
    ∃ res body tail, CompileInlineAsm e (some placeHub) items wantFcache st = some res ∧
      res.irl = (inlineStart e placeHub items wantFcache st).v.st.irl ++ body ++ tail ∧
      Relabelled L body ∧ List.Forall₂ SameNode T tail := by
  obtain ⟨res, hres, _⟩ := compileInlineParts_fixed e (some placeHub) items wantFcache st
  have hsplit := compileInlineParts_split e placeHub items wantFcache st
  rw [hres] at hsplit
  have hrefl : List.Forall₂ SameNode T T := by
    clear hT hT0
    induction T with
    | nil => exact List.Forall₂.nil
    | cons t T ih => exact List.Forall₂.cons (SameNode_same t) ih
  unfold CompileInlineAsm
  rw [hres]
  generalize inlineBeforeFixup e placeHub items wantFcache st = B at hL hT hfirst hsplit
  generalize (inlineStart e placeHub items wantFcache st).v.st.irl = base at hL hfirst
  rcases hf : B.1.first with _ | f
  · rw [hf] at hsplit
    simp only [Option.some.injEq] at hsplit
    refine ⟨_, L, T, rfl, ?_, Relabelled_same L, hrefl⟩
    rw [hsplit]
    simp only [List.append_nil]
    rw [hT, hL]
  · rw [hf] at hsplit
    simp only at hsplit
    obtain ⟨h1, _, h3⟩ := hfirst
    obtain ⟨hbf, x, hx, hx0⟩ := h3 f hf
    have hlt : f < B.1.st.irl.length := by
      by_contra hc
      rw [List.getElem?_eq_none (by omega)] at hx
      cases hx
    have htake : B.2.irl.take f = base ++ L.take (f - base.length) := by
      rw [hT, List.take_append_of_le_length (by omega), hL, List.take_append_eq_append_take,
        List.take_of_length_le hbf]
    have hdrop : B.2.irl.drop f = L.drop (f - base.length) ++ T := by
      rw [hT, List.drop_append_of_le_length (by omega), hL, List.drop_append_eq_append_drop,
        List.drop_of_length_le hbf, List.nil_append]
    rw [htake, hdrop] at hsplit
    have hxL : (L.drop (f - base.length)).head? = some x := by
      rw [hL, List.getElem?_append_right hbf] at hx
      rw [← hx, List.head?_drop]
    have inv0 : FixupInv (base ++ L.take (f - base.length)) (L.drop (f - base.length)) T
        (base ++ L.take (f - base.length)) (L.drop (f - base.length) ++ T) :=
      ⟨[], L.drop (f - base.length), T, by simp, rfl, by simpa using Relabelled_same _,
        ⟨x, hxL, hx0⟩, hT0, hrefl⟩
    obtain ⟨P, M, T', g1, g2, g3, _, _, g6⟩ :=
      fixupLoop_inv e placeHub _ _ _ _ _ _ _ _ _ res inv0 hsplit.symm
    refine ⟨_, L.take (f - base.length) ++ (P ++ M), T', rfl, ?_, ?_, g6⟩
    · show res.1 ++ res.2.1 = _
      rw [g1, g2]
      simp only [List.append_assoc]
    · have := Relabelled.append (Relabelled_same (L.take (f - base.length))) g3
      rw [List.take_append_drop] at this
      exact this

theorem forall₂_SameNode_tail {T tail : List IR} (h : List.Forall₂ SameNode T tail) :
    tail.map (fun x => x.opc) = T.map (fun x => x.opc) ∧
      (∀ z ∈ tail, ∃ t ∈ T, z.opc = t.opc) ∧
      ∀ l ∈ tail.head?, ∃ t ∈ T.head?, SameNode t l := by
  induction h with
  | nil => simp
  | cons hr _ ih =>
    obtain ⟨i1, i2, _⟩ := ih
    refine ⟨by simp [hr.1, i1], ?_, ?_⟩
    · intro z hz
      rcases List.mem_cons.mp hz with rfl | hz
      · exact ⟨_, List.mem_cons_self _ _, hr.1⟩
      · obtain ⟨t, ht, hzt⟩ := i2 z hz
        exact ⟨t, List.mem_cons_of_mem _ ht, hzt⟩
    · intro l hl
      simp only [List.head?_cons, Option.mem_def, Option.some.injEq] at hl
      subst hl
      exact ⟨_, by simp, hr⟩

/-- C40: `CompileInlineAsm` in a function always returns, and the IR list it
leaves is the list before the call, then the nodes `pfx` put in front of a
cached block, then `body`, then `tail`, where: `body` is the list `L` of the
nodes the second loop appended, with LABEL nodes of the fixup loop put in
between; no node of `pfx`, `body` or `tail` has opcode OPC_RET; the nodes
that `CompileInlineInstr_only` returned for the instructions the loop came
to (the instruction, and the return made for predicate 0) are found in
`body` in their order, each OPC_RET as an OPC_JUMP with the descriptor of
`jmp` whose destination is the operand `enddst` that `NewHubLabel` gave at
the start; and `tail` is empty when the block is not cached and the loop
came to no OPC_RET, and otherwise is one LABEL node with destination
`enddst`, followed only by the OPC_HUBMODE node of a cached block on the
newer ISA. -/
theorem ret_replaced {τ : Type} (e : InlineEnv τ) (placeHub : Bool)
    (items : List AsmItem) (wantFcache : Bool) (st : InlineState τ) :
    ∃ res pfx L body tail,
      CompileInlineAsm e (some placeHub) items wantFcache st = some res ∧
      (inlineStart e placeHub items wantFcache st).v.st.irl = st.irl ++ pfx ∧
      (inlineBeforeFixup e placeHub items wantFcache st).1.st.irl = st.irl ++ pfx ++ L ∧
      res.irl = st.irl ++ pfx ++ body ++ tail ∧
      Relabelled L body ∧
      (∀ x ∈ pfx ++ body ++ tail, x.opc ≠ IROpcode.OPC_RET) ∧
      (∃ nodes, nodes.Sublist body ∧
        List.Forall₂ (RetReplaced e (NewHubLabel e st).1)
          ((emittedInstrs e placeHub (inlineStart e placeHub items wantFcache st).isInFcache
            (NewHubLabel e st).1 items
            (inlineStart e placeHub items wantFcache st).v).flatMap rawNodes) nodes) ∧
      tail.map (fun x => x.opc) =
        (if (inlineStart e placeHub items wantFcache st).isInFcache = true ∨
            (emittedInstrs e placeHub (inlineStart e placeHub items wantFcache st).isInFcache
              (NewHubLabel e st).1 items
              (inlineStart e placeHub items wantFcache st).v).any isRetCall = true then
          IROpcode.OPC_LABEL ::
            (if (inlineStart e placeHub items wantFcache st).isInFcache = true ∧ e.gl_p2 = true
             then [IROpcode.OPC_HUBMODE] else [])
         else []) ∧
      (∀ l ∈ tail.head?, l.dst = some (NewHubLabel e st).1) := by
  obtain ⟨s1, ⟨pfx, p1, p2⟩, _, _, s5, s6⟩ := inlineStart_spec e placeHub items wantFcache st
  obtain ⟨T, t1, t2, t3, t4⟩ := inlineBeforeFixup_tail e placeHub items wantFcache st
  obtain ⟨L, l1, l2, l3⟩ := emitItems_nodes e placeHub
    (inlineStart e placeHub items wantFcache st).isInFcache
    (inlineStart e placeHub items wantFcache st).enddst items
    (inlineStart e placeHub items wantFcache st).v
  have hfirst := emitItems_first e placeHub
    (inlineStart e placeHub items wantFcache st).isInFcache
    (inlineStart e placeHub items wantFcache st).enddst
    (inlineStart e placeHub items wantFcache st).v.st.irl.length items
    (inlineStart e placeHub items wantFcache st).v
    ⟨le_refl _, fun _ => s6, fun f hf => by rw [s5] at hf; cases hf⟩
  rw [s1] at l3
  obtain ⟨res, body, tail, r1, r2, r3, r4⟩ :=
    CompileInlineAsm_parts e placeHub items wantFcache st L T l1 t1 t2 hfirst
  obtain ⟨q1, q2, q3⟩ := forall₂_SameNode_tail r4
  have hk : (NewHubLabel e st).1.kind ≠ Operandkind.IMM_PCRELATIVE := by
    simp [NewHubLabel]
  refine ⟨res, pfx, L, body, tail, r1, p1, ?_, ?_, r3, ?_, ?_, ?_, ?_⟩
  · show (emitItems e placeHub _ _ items _).st.irl = _
    rw [l1, p1]
  · rw [r2, p1]
  · intro x hx
    rcases List.mem_append.mp hx with hx | hx
    · rcases List.mem_append.mp hx with hx | hx
      · exact p2 x hx
      · exact r3.no_ret l2 x hx
    · obtain ⟨t, ht, hxt⟩ := q2 x hx
      have hmem : t.opc ∈ T.map (fun x => x.opc) := List.mem_map.mpr ⟨t, ht, rfl⟩
      rw [t3] at hmem
      rw [hxt]
      intro hc
      rw [hc] at hmem
      split_ifs at hmem <;> simp at hmem
  · obtain ⟨N, n1, n2⟩ := r3.sublist
    obtain ⟨N', m1, m2⟩ := forall₂_sublist l3 n2
    refine ⟨N', m1.trans n1, ?_⟩
    have hmap : ∀ cs : List (IR × Option IR × InlineLocals τ),
        cs.flatMap (fun c => (rawNodes c).map (jumpForRet e (NewHubLabel e st).1)) =
          (cs.flatMap rawNodes).map (jumpForRet e (NewHubLabel e st).1) := by
      intro cs
      induction cs with
      | nil => rfl
      | cons c cs ih => simp only [List.flatMap_cons, List.map_append, ih]
    rw [hmap, List.forall₂_map_left_iff] at m2
    exact m2.imp (fun x y h => RetReplaced_of_SameNode e _ hk x y h)
  · rw [q1, t3]
  · intro l hl
    obtain ⟨t, ht, hs⟩ := q3 l hl
    have := t4 t ht
    rw [hs.2.2.2.2.2.2.2.1 (by rw [this]; simp [isPcRel, hk]), this]

/-- The block `ret` / `nop` / `ret` in a hub function gives two jumps to
`LR__0`, and the label `LR__0` once, after them; `nop` with predicate 0 on
the newer ISA gives the `nop`, the jump and the label, and in a cached block
the `orgh` after the label. -/
theorem ret_replaced_example :
    (CompileInlineAsm (exInlineEnv 100) (some true) exTwoRets false exInlineState).map
        (fun s => s.irl.map (fun x => (x.opc, x.dst.map (fun d => d.name), x.addr))) =
      some [(IROpcode.OPC_JUMP, some "LR__0", 0), (IROpcode.OPC_NOP, none, 1),
        (IROpcode.OPC_JUMP, some "LR__0", 2), (IROpcode.OPC_LABEL, some "LR__0", 0)] ∧
    (CompileInlineAsm { exInlineEnv 100 with gl_p2 := true } (some true) exRetPredicate false
        exInlineState).map
        (fun s => s.irl.map (fun x => (x.opc, x.dst.map (fun d => d.name), x.addr))) =
      some [(IROpcode.OPC_NOP, none, 0), (IROpcode.OPC_JUMP, some "LR__0", 0),
        (IROpcode.OPC_LABEL, some "LR__0", 0)] ∧
    (CompileInlineAsm { exInlineEnv 100 with gl_p2 := true } (some true) exRetPredicate true
        exInlineState).map
        (fun s => s.irl.map (fun x => x.opc)) =
      some [IROpcode.OPC_FCACHE, IROpcode.OPC_LABEL, IROpcode.OPC_ORG, IROpcode.OPC_NOP,
        IROpcode.OPC_JUMP, IROpcode.OPC_LABEL, IROpcode.OPC_HUBMODE] := by
  decide

/-! ### C22: the fixup of `$+k` operands over the whole block -/

/-- The three-instruction block evaluated: the `$+2` of the `mov` becomes the
label `LR__1`, whose LABEL node stands immediately before the `nop` at
address 2, and no error is reported. -/
theorem here_label_example :
    (CompileInlineAsm (exInlineEnv 0) (some true) exHereBlock3 false exInlineState).map
        (fun s => (s.irl, s.errors)) =
      some ([{ exMovHere with
                src := some { kind := Operandkind.IMM_HUB_LABEL, name := "LR__1" } },
             { exJmpR0 with addr := 1 },
             { opc := IROpcode.OPC_LABEL,
               dst := some { kind := Operandkind.IMM_HUB_LABEL, name := "LR__1" } },
             { exNop with addr := 2 }], []) := by
  decide

/-- The block `exHereTwice` evaluated: the operands `$+2` at address 0 and
`$+1` at address 1 become the labels `LR__1` and `LR__2`, whose LABEL nodes
stand in this order before the `nop` at address 2; the operand `$-3` at
address 3 becomes `LR__3`, whose LABEL node is put in front of the first
node; the operand `$-9` at address 4 becomes the immediate 0 with one
error; the counter ends at 4. -/
theorem here_labels_example :
    (CompileInlineAsm (exInlineEnv 0) (some true) exHereTwice false exInlineState).map
        (fun s => (s.irl, s.errors, s.nextlabel)) =
      some ([{ opc := IROpcode.OPC_LABEL,
               dst := some { kind := Operandkind.IMM_HUB_LABEL, name := "LR__3" } },
             { exMovHere with
                src := some { kind := Operandkind.IMM_HUB_LABEL, name := "LR__1" } },
             { exMovHere with
                src := some { kind := Operandkind.IMM_HUB_LABEL, name := "LR__2" }, addr := 1 },
             { opc := IROpcode.OPC_LABEL,
               dst := some { kind := Operandkind.IMM_HUB_LABEL, name := "LR__1" } },
             { opc := IROpcode.OPC_LABEL,
               dst := some { kind := Operandkind.IMM_HUB_LABEL, name := "LR__2" } },
             { exNop with addr := 2 },
             { exMovHere with
                src := some { kind := Operandkind.IMM_HUB_LABEL, name := "LR__3" }, addr := 3 },
             { exMovHere with src := some (NewImmediate 0), addr := 4 }],
        ["pc relative address $ - 9 in inline assembly is out of range"], 4) := by
  decide

end Spin2cpp
